import Mathlib

/-!
# Itinerary prettifier: a shallow embedding

The development embeds the two program variants of the repository,
`taskWObon/main.go` and `itineraryWithBonuses.go`, together with the parts of
the Go standard library they call (`regexp`, `strings`, `time`), and proves
properties of the token substitution they perform.

Go strings are modelled as lists of characters (`Str`).  The program only ever
compares against ASCII characters, and a multi-byte UTF-8 sequence contains no
ASCII byte, so for well-formed UTF-8 text the character view and Go's byte view
agree.  Where a length in bytes matters, in the buffer of `bufio.Scanner`, it
is the length of the UTF-8 encoding (`byteLen`).
-/

namespace Itinerary

/-- A Go `string`, as the list of its characters. -/
abbrev Str := List Char

/-! ## Package `strings` -/

/-- Go `strings.HasPrefix(s, prefix)`. -/
def hasPrefix (s pre : Str) : Bool := pre.isPrefixOf s

/-- Go `strings.HasSuffix(s, suffix)`. -/
def hasSuffix (s suf : Str) : Bool := suf.isSuffixOf s

/-- Go `strings.Split(s, sep)` for a separator of one character, the only kind
the program uses (`"T"` and `","`).  The result is never empty:
`Split("", sep)` is the list holding one empty string. -/
def split (sep : Char) : Str → List Str
  | [] => [[]]
  | c :: t =>
    if c = sep then [] :: split sep t
    else
      match split sep t with
      | [] => [[c]]
      | h :: r => (c :: h) :: r

/-- One pass of Go `strings.ReplaceAll(s, old, "")` for a non-empty `old`:
scanning from the left, every non-overlapping occurrence of `old` is dropped.
The first argument counts the characters of an occurrence still to be
dropped. -/
def removeAllAux (old : Str) : Nat → Str → Str
  | _, [] => []
  | k + 1, _ :: t => removeAllAux old k t
  | 0, c :: t =>
    if old.isPrefixOf (c :: t) then removeAllAux old (old.length - 1) t
    else c :: removeAllAux old 0 t

/-- Go `strings.ReplaceAll(s, old, "")`, for non-empty `old`. -/
def removeAll (old s : Str) : Str := removeAllAux old 0 s

/-- One pass of Go `strings.ReplaceAll(s, old, new)` for a non-empty `old`:
scanning from the left, every non-overlapping occurrence of `old` is replaced
by `new`.  The first argument counts the characters of an occurrence still to
be passed over. -/
def replaceAllAux (old new : Str) : Nat → Str → Str
  | _, [] => []
  | k + 1, _ :: t => replaceAllAux old new k t
  | 0, c :: t =>
    if old.isPrefixOf (c :: t) then new ++ replaceAllAux old new (old.length - 1) t
    else c :: replaceAllAux old new 0 t

/-- Go `strings.ReplaceAll(s, old, new)`, for non-empty `old`. -/
def replaceAll (s old new : Str) : Str := replaceAllAux old new 0 s

/-! ## Package `regexp`

The patterns of `processLine` use literals, character classes, bounded
repetition of a class, `+` on a class, concatenation and alternation.  Go's
`regexp` promises the match a backtracking matcher finds first (leftmost, and
among the matches at that position the one preferred by the order of the
alternatives and the greediness of the repetitions), which is what `Regex.run`
enumerates. -/

/-- Regular expressions, the fragment used by the program. -/
inductive Regex where
  | eps : Regex
  | lit : Char → Regex
  | cls : (Char → Bool) → Regex
  | plus : (Char → Bool) → Regex
  | seq : Regex → Regex → Regex
  | alt : Regex → Regex → Regex

/-- The remainders left by a greedy `[class]+`, the longest match first. -/
def plusRun (p : Char → Bool) : Str → List Str
  | [] => []
  | c :: t => if p c then plusRun p t ++ [t] else []

/-- Every way the expression matches a prefix of the input, given as the
remaining input after the match, in the order a backtracking matcher tries
them. -/
def Regex.run : Regex → Str → List Str
  | .eps, s => [s]
  | .lit c, s =>
    match s with
    | [] => []
    | x :: t => if x = c then [t] else []
  | .cls p, s =>
    match s with
    | [] => []
    | x :: t => if p x then [t] else []
  | .plus p, s => plusRun p s
  | .seq a b, s => (a.run s).flatMap b.run
  | .alt a b, s => a.run s ++ b.run s

/-- A literal string. -/
def Regex.str : Str → Regex
  | [] => .eps
  | c :: t => .seq (.lit c) (Regex.str t)

/-- The bounded repetition `r{n}`. -/
def Regex.rep (r : Regex) : Nat → Regex
  | 0 => .eps
  | n + 1 => .seq r (Regex.rep r n)

/-- The alternation of a list of expressions, in order. -/
def Regex.alts : List Regex → Regex
  | [] => .cls fun _ => false
  | [r] => r
  | r :: rs => .alt r (Regex.alts rs)

/-- The length of the match of `re` that starts at the head of `s`, if there
is one. -/
def matchLen (re : Regex) (s : Str) : Option Nat :=
  (re.run s).head?.map fun rest => s.length - rest.length

/-- The scan of Go `Regexp.ReplaceAllStringFunc`.  The first argument counts
the characters of the current match still to be passed over; at `0` a match is
looked for at the current position, the callback is applied to the matched
text, and the scan resumes after the match; where nothing matches the
character is copied.  The callback may fail (a run-time panic, `none`), and
then so does the scan.  The patterns of the program match no empty string
(`matchLen_ne_zero`), so the case of an empty match, which Go treats apart, is
not modelled: such a match is passed over like no match. -/
def replaceAux (re : Regex) (repl : Str → Option Str) : Nat → Str → Option Str
  | _, [] => some []
  | k + 1, _ :: t => replaceAux re repl k t
  | 0, c :: t =>
    match matchLen re (c :: t) with
    | some (n + 1) =>
      match repl ((c :: t).take (n + 1)), replaceAux re repl n t with
      | some r, some rest => some (r ++ rest)
      | _, _ => none
    | _ =>
      match replaceAux re repl 0 t with
      | some rest => some (c :: rest)
      | none => none

/-- Go `re.ReplaceAllStringFunc(src, repl)`. -/
def replaceAllStringFunc (re : Regex) (src : Str) (repl : Str → Option Str) : Option Str :=
  replaceAux re repl 0 src

/-- The class `[A-Z]`. -/
def upper (c : Char) : Bool := decide ('A' ≤ c ∧ c ≤ 'Z')

/-- The class `[^)]`. -/
def notParen (c : Char) : Bool := decide (c ≠ ')')

/-- The alternative `#([A-Z]{3})`. -/
def reIata : Regex := .seq (Regex.str "#".toList) (Regex.rep (.cls upper) 3)

/-- The alternative `##([A-Z]{4})`. -/
def reIcao : Regex := .seq (Regex.str "##".toList) (Regex.rep (.cls upper) 4)

/-- The alternative `\*\#([A-Z]{3})`. -/
def reCityIata : Regex := .seq (Regex.str "*#".toList) (Regex.rep (.cls upper) 3)

/-- The alternative `\*\##([A-Z]{4})`. -/
def reCityIcao : Regex := .seq (Regex.str "*##".toList) (Regex.rep (.cls upper) 4)

/-- The alternative `D\(([^)]+)\)`. -/
def reDate : Regex := .seq (Regex.str "D(".toList) (.seq (.plus notParen) (.lit ')'))

/-- The alternative `T12\(([^)]+)\)`. -/
def reT12 : Regex := .seq (Regex.str "T12(".toList) (.seq (.plus notParen) (.lit ')'))

/-- The alternative `T24\(([^)]+)\)`. -/
def reT24 : Regex := .seq (Regex.str "T24(".toList) (.seq (.plus notParen) (.lit ')'))

/-- The pattern
`\*\#([A-Z]{3})|\*\##([A-Z]{4})|#([A-Z]{3})|##([A-Z]{4})|D\(([^)]+)\)|T12\(([^)]+)\)|T24\(([^)]+)\)`
of `taskWObon/main.go`, and of `itineraryWithBonuses.go` in bonus mode. -/
def reWithCities : Regex :=
  Regex.alts [reCityIata, reCityIcao, reIata, reIcao, reDate, reT12, reT24]

/-- The pattern
`#([A-Z]{3})|##([A-Z]{4})|D\(([^)]+)\)|T12\(([^)]+)\)|T24\(([^)]+)\)`
of `itineraryWithBonuses.go` in standard mode. -/
def reStandard : Regex :=
  Regex.alts [reIata, reIcao, reDate, reT12, reT24]

/-- The scan of Go `Regexp.ReplaceAllString` for a replacement text without
`$`: as `replaceAux`, with the replacement text in the place of each match. -/
def replaceTextAux (re : Regex) (repl : Str) : Nat → Str → Str
  | _, [] => []
  | k + 1, _ :: t => replaceTextAux re repl k t
  | 0, c :: t =>
    match matchLen re (c :: t) with
    | some (n + 1) => repl ++ replaceTextAux re repl n t
    | _ => c :: replaceTextAux re repl 0 t

/-- Go `re.ReplaceAllString(src, repl)`, for a replacement text without `$`. -/
def replaceAllString (re : Regex) (src repl : Str) : Str := replaceTextAux re repl 0 src

/-- The class `\n` of one character. -/
def newline (c : Char) : Bool := c == '\n'

/-- The class `\s` of Go `regexp`: tab, line feed, form feed, carriage return
and space. -/
def whitespace (c : Char) : Bool :=
  c == '\t' || c == '\n' || c == '\x0c' || c == '\r' || c == ' '

/-- The pattern `\n\n+` of `trimLines`. -/
def reBlankLines : Regex := .seq (.lit '\n') (.plus newline)

/-- The pattern ` \s+` of `trimLines` in `itineraryWithBonuses.go`. -/
def reSpaces : Regex := .seq (.lit ' ') (.plus whitespace)

/-! ## The lookup table -/

/-- The Go `map[string]string` held by `LOOKUPTABLE`: an association list in
which the first entry for a key is the current one. -/
abbrev Table := List (Str × Str)

/-- The map read `LOOKUPTABLE[key]` with its `exists` flag. -/
def Table.get (t : Table) (key : Str) : Option Str := List.lookup key t

/-- The map write `lookupTable[key] = value`. -/
def Table.set (t : Table) (key value : Str) : Table := (key, value) :: t

/-! ## Package `time`

`time.Parse` and `Time.Format` after the Go standard library (the calendar
code of Go 1.22: `Date`, `daysSinceEpoch`, `absDate`, `absClock`).  Values of
Go type `uint64` and `int64` are integers reduced by `toUint64` and `toInt64`
after every operation that can leave the type's range. -/

/-- The conversion to Go `uint64`: the value modulo `2^64`. -/
def toUint64 (x : Int) : Int := x % 18446744073709551616

/-- The conversion to Go `int64`: the representative modulo `2^64` in
`[-2^63, 2^63)`. -/
def toInt64 (x : Int) : Int :=
  (x + 9223372036854775808) % 18446744073709551616 - 9223372036854775808

/-- The layout elements that `nextStdChunk` tells apart (the `std...` constants
of package `time`). -/
inductive Std where
  | stdLongMonth | stdMonth | stdNumMonth | stdZeroMonth
  | stdDay | stdZeroDay | stdZeroYearDay
  | stdHour | stdHour12 | stdZeroHour12
  | stdMinute | stdZeroMinute | stdSecond | stdZeroSecond
  | stdLongYear | stdYear | stdPM
  | stdISO8601TZ | stdISO8601SecondsTZ | stdISO8601ShortTZ
  | stdISO8601ColonTZ | stdISO8601ColonSecondsTZ
  | stdNumTZ | stdNumSecondsTz | stdNumShortTZ
  | stdNumColonTZ | stdNumColonSecondsTZ
  deriving DecidableEq, Repr

/-- Go `startsWithLowerCase`. -/
def startsWithLowerCase : Str → Bool
  | [] => false
  | c :: _ => decide ('a' ≤ c ∧ c ≤ 'z')

/-- The layout element that starts at the head of the layout, with the layout
after it: the body of the loop of Go `nextStdChunk`.  The cases for `M`, `_`,
`p`, `.` and `,` are left out: no layout of the program contains one of these
characters outside `PM`. -/
def stdAt : Str → Option (Std × Str)
  | 'J' :: 'a' :: 'n' :: 'u' :: 'a' :: 'r' :: 'y' :: r => some (.stdLongMonth, r)
  | 'J' :: 'a' :: 'n' :: r => if startsWithLowerCase r then none else some (.stdMonth, r)
  | '0' :: '1' :: r => some (.stdZeroMonth, r)
  | '0' :: '2' :: r => some (.stdZeroDay, r)
  | '0' :: '3' :: r => some (.stdZeroHour12, r)
  | '0' :: '4' :: r => some (.stdZeroMinute, r)
  | '0' :: '5' :: r => some (.stdZeroSecond, r)
  | '0' :: '6' :: r => some (.stdYear, r)
  | '0' :: '0' :: '2' :: r => some (.stdZeroYearDay, r)
  | '1' :: '5' :: r => some (.stdHour, r)
  | '1' :: r => some (.stdNumMonth, r)
  | '2' :: '0' :: '0' :: '6' :: r => some (.stdLongYear, r)
  | '2' :: r => some (.stdDay, r)
  | '3' :: r => some (.stdHour12, r)
  | '4' :: r => some (.stdMinute, r)
  | '5' :: r => some (.stdSecond, r)
  | 'P' :: 'M' :: r => some (.stdPM, r)
  | '-' :: '0' :: '7' :: '0' :: '0' :: '0' :: '0' :: r => some (.stdNumSecondsTz, r)
  | '-' :: '0' :: '7' :: ':' :: '0' :: '0' :: ':' :: '0' :: '0' :: r =>
    some (.stdNumColonSecondsTZ, r)
  | '-' :: '0' :: '7' :: '0' :: '0' :: r => some (.stdNumTZ, r)
  | '-' :: '0' :: '7' :: ':' :: '0' :: '0' :: r => some (.stdNumColonTZ, r)
  | '-' :: '0' :: '7' :: r => some (.stdNumShortTZ, r)
  | 'Z' :: '0' :: '7' :: '0' :: '0' :: '0' :: '0' :: r => some (.stdISO8601SecondsTZ, r)
  | 'Z' :: '0' :: '7' :: ':' :: '0' :: '0' :: ':' :: '0' :: '0' :: r =>
    some (.stdISO8601ColonSecondsTZ, r)
  | 'Z' :: '0' :: '7' :: '0' :: '0' :: r => some (.stdISO8601TZ, r)
  | 'Z' :: '0' :: '7' :: ':' :: '0' :: '0' :: r => some (.stdISO8601ColonTZ, r)
  | 'Z' :: '0' :: '7' :: r => some (.stdISO8601ShortTZ, r)
  | _ => none

/-- Go `nextStdChunk(layout)`: the text before the first layout element, the
element (`none` for Go's `0` when there is no element left), and the layout
after it. -/
def nextStdChunk : Str → Str × Option Std × Str
  | [] => ([], none, [])
  | c :: t =>
    match stdAt (c :: t) with
    | some (std, suffix) => ([], some std, suffix)
    | none =>
      match nextStdChunk t with
      | (pre, std, suffix) => (c :: pre, std, suffix)

/-- Go `isDigit(s, 0)`. -/
def isDigit : Str → Bool
  | [] => false
  | c :: _ => decide ('0' ≤ c ∧ c ≤ '9')

/-- The value `c - '0'` of a digit character. -/
def digitVal (c : Char) : Int := (c.toNat : Int) - 48

/-- Go `cutspace`. -/
def cutspace : Str → Str
  | ' ' :: t => cutspace t
  | s => s

/-- The loop of Go `skip`.  The flag tells that the spaces of the prefix that
are being read follow a space already handled: Go removes a whole run of
spaces from the prefix at once (`cutspace(prefix)`). -/
def skipAux : Bool → Str → Str → Option Str
  | _, value, [] => some value
  | inSpaces, value, p :: pre =>
    if p = ' ' then
      if inSpaces then skipAux true value pre
      else
        match value with
        | v :: _ => if v ≠ ' ' then none else skipAux true (cutspace value) pre
        | [] => skipAux true [] pre
    else
      match value with
      | [] => none
      | v :: vs => if v ≠ p then none else skipAux false vs pre

/-- Go `skip(value, prefix)`: the value after the literal text `prefix` (a run
of spaces in the prefix stands for any number of spaces), `none` for
`errBad`. -/
def skip (value pre : Str) : Option Str := skipAux false value pre

/-- Go `getnum(s, fixed)`: a number of one or two digits (of two when `fixed`)
and the text after it, `none` for `errBad`. -/
def getnum (s : Str) (fixed : Bool) : Option (Int × Str) :=
  if !isDigit s then none
  else if !isDigit (s.drop 1) then
    if fixed then none
    else some (digitVal (s.headD '0'), s.drop 1)
  else some (digitVal (s.headD '0') * 10 + digitVal ((s.drop 1).headD '0'), s.drop 2)

/-- The loop of Go `leadingInt`: the digits are accumulated while the value
stays within `1<<63`; the result is the number and the text after it. -/
def leadingIntAux : Int → Str → Option (Int × Str)
  | x, [] => some (x, [])
  | x, c :: t =>
    if c < '0' ∨ c > '9' then some (x, c :: t)
    else if x > 9223372036854775808 / 10 then none
    else
      let x1 := x * 10 + digitVal c
      if x1 > 9223372036854775808 then none else leadingIntAux x1 t

/-- Go `leadingInt(s)`. -/
def leadingInt (s : Str) : Option (Int × Str) := leadingIntAux 0 s

/-- Go `atoi(s)`: an optional sign and then digits only, `none` for
`errAtoi`. -/
def atoi (s : Str) : Option Int :=
  let neg := s.head? = some '-'
  let s1 := if s.head? = some '-' ∨ s.head? = some '+' then s.drop 1 else s
  match leadingInt s1 with
  | some (q, []) => some (if neg then -q else q)
  | _ => none

/-- Go `isLeap(year)`.  The year is tested with `== 0` only, for which Go's
truncated remainder and the remainder used here agree. -/
def isLeap (year : Int) : Bool :=
  year % 4 == 0 && (year % 100 != 0 || year % 400 == 0)

/-- Go `daysBefore[m]`: the days of a non-leap year before month `m + 1`. -/
def daysBefore : Nat → Int
  | 0 => 0
  | 1 => 31
  | 2 => 59
  | 3 => 90
  | 4 => 120
  | 5 => 151
  | 6 => 181
  | 7 => 212
  | 8 => 243
  | 9 => 273
  | 10 => 304
  | 11 => 334
  | _ => 365

/-- Go `daysIn(m, year)`. -/
def daysIn (m : Int) (year : Int) : Int :=
  if m = 2 ∧ isLeap year then 29
  else daysBefore m.toNat - daysBefore (m.toNat - 1)

/-- Go `norm(hi, lo, base)`. -/
def norm (hi lo base : Int) : Int × Int :=
  let (hi, lo) :=
    if lo < 0 then
      let n := Int.tdiv (-lo - 1) base + 1
      (hi - n, lo + n * base)
    else (hi, lo)
  if lo ≥ base then
    let n := Int.tdiv lo base
    (hi + n, lo - n * base)
  else (hi, lo)

/-- Go `absoluteZeroYear`. -/
def absoluteZeroYear : Int := -292277022399

/-- Go `absoluteToInternal = (absoluteZeroYear - internalYear) * 365.2425 * secondsPerDay`. -/
def absoluteToInternal : Int := -9223371966579724800

/-- Go `unixToInternal = (1969*365 + 1969/4 - 1969/100 + 1969/400) * secondsPerDay`. -/
def unixToInternal : Int := 62135596800

/-- Go `daysSinceEpoch(year)`, in `uint64` arithmetic. -/
def daysSinceEpoch (year : Int) : Int :=
  let y := toUint64 (toInt64 year - absoluteZeroYear)
  -- Add in days from 400-year cycles.
  let n := y / 400
  let y := y - 400 * n
  let d := toUint64 (146097 * n)
  -- Add in 100-year cycles.
  let n := y / 100
  let y := y - 100 * n
  let d := toUint64 (d + 36524 * n)
  -- Add in 4-year cycles.
  let n := y / 4
  let y := y - 4 * n
  let d := toUint64 (d + 1461 * n)
  -- Add in non-leap years.
  toUint64 (d + 365 * y)

/-- A Go `time.Time` as far as `Format` observes it: the instant in seconds
since the Unix epoch (`unixSec`) and the offset east of UTC, in seconds, that
the value's location has at that instant. -/
structure Time where
  unix : Int
  offset : Int
  deriving DecidableEq, Repr

/-- Go `Date(year, month, day, hour, min, 0, 0, UTC)`: the fields are
normalised and counted up to the seconds since the absolute epoch, from which
the Unix time follows.  The location UTC has offset `0`. -/
def date (year month day hour min : Int) : Time :=
  -- Normalize month, overflowing into year.
  let (year, m) := norm year (month - 1) 12
  let month := m + 1
  -- Normalize sec, min, hour, overflowing into day.
  let (min, _sec) := norm min 0 60
  let (hour, min) := norm hour min 60
  let (day, hour) := norm day hour 24
  -- Compute days since the absolute epoch.
  let d := daysSinceEpoch year
  -- Add in days before this month.
  let d := toUint64 (d + daysBefore (month - 1).toNat)
  let d := if isLeap year ∧ month ≥ 3 then toUint64 (d + 1) else d
  -- Add in days before today.
  let d := toUint64 (d + toUint64 (day - 1))
  -- Add in time elapsed today.
  let abs := toUint64 (d * 86400)
  let abs := toUint64 (abs + toUint64 (hour * 3600 + min * 60))
  let unix := toInt64 (toInt64 abs + (absoluteToInternal + -unixToInternal))
  { unix := unix, offset := 0 }

/-- Go `Time.addSec(d)` on a value without monotonic clock reading: the
seconds are added to the internal count `ext = unix + unixToInternal`, and the
sum saturates where it leaves `int64`. -/
def addSec (t : Time) (d : Int) : Time :=
  let ext := toInt64 (t.unix + unixToInternal)
  let sum := toInt64 (ext + d)
  let ext :=
    if decide (sum > ext) = decide (d > 0) then sum
    else if d > 0 then 9223372036854775807
    else -9223372036854775807
  { t with unix := toInt64 (ext + -unixToInternal) }

/-- Go `Time.locabs`: the seconds since the absolute epoch of the wall clock
in the value's location. -/
def Time.abs (t : Time) : Int :=
  toUint64 (toInt64 (toInt64 (t.unix + t.offset) + (unixToInternal + -absoluteToInternal)))

/-- Go `absDate(abs, true)`: year, month and day of the month.  No operation
leaves `uint64`: every intermediate value is at most `abs`. -/
def absDate (abs : Int) : Int × Int × Int :=
  -- Split into time and day.
  let d := abs / 86400
  -- Account for 400 year cycles.
  let n := d / 146097
  let y := 400 * n
  let d := d - 146097 * n
  -- Cut off 100-year cycles; the last cycle has one extra leap year.
  let n := d / 36524
  let n := n - n / 4
  let y := y + 100 * n
  let d := d - 36524 * n
  -- Cut off 4-year cycles.
  let n := d / 1461
  let y := y + 4 * n
  let d := d - 1461 * n
  -- Cut off years within a 4-year cycle; the last year is a leap year.
  let n := d / 365
  let n := n - n / 4
  let y := y + n
  let d := d - 365 * n
  let year := toInt64 (toInt64 y + absoluteZeroYear)
  let day := d
  if isLeap year ∧ day = 31 + 29 - 1 then (year, 2, 29)
  else
    -- After leap day; pretend it wasn't there.
    let day := if isLeap year ∧ day > 31 + 29 - 1 then day - 1 else day
    -- Estimate month on assumption that every month has 31 days.
    let month := day / 31
    let end1 := daysBefore (month + 1).toNat
    if day ≥ end1 then (year, month + 1 + 1, day - end1 + 1)
    else (year, month + 1, day - daysBefore month.toNat + 1)

/-- Go `absClock(abs)`: hour and minute of the day. -/
def absClock (abs : Int) : Int × Int :=
  let sec := abs % 86400
  let hour := sec / 3600
  let sec := sec - hour * 3600
  (hour, sec / 60)

/-- Go `longMonthNames[m - 1]`, the result of `Month.String` for a month in
range. -/
def longMonthNames : Int → Str
  | 1 => "January".toList
  | 2 => "February".toList
  | 3 => "March".toList
  | 4 => "April".toList
  | 5 => "May".toList
  | 6 => "June".toList
  | 7 => "July".toList
  | 8 => "August".toList
  | 9 => "September".toList
  | 10 => "October".toList
  | 11 => "November".toList
  | 12 => "December".toList
  | _ => "%!Month".toList

/-- Go `appendInt(b, x, width)`: the decimal form of `x`, padded with zeros to
the width. -/
def appendInt (x : Int) (width : Nat) : Str :=
  let sign : Str := if x < 0 then ['-'] else []
  let u := x.natAbs
  if width = 2 ∧ u < 100 then
    sign ++ [Nat.digitChar (u / 10), Nat.digitChar (u % 10)]
  else if width = 4 ∧ u < 10000 then
    sign ++ [Nat.digitChar (u / 100 / 10), Nat.digitChar (u / 100 % 10),
      Nat.digitChar (u % 100 / 10), Nat.digitChar (u % 100 % 10)]
  else
    let digits := Nat.toDigits 10 u
    sign ++ List.replicate (width - digits.length) '0' ++ digits

/-- The state of Go `parse`: the fields of the time being constructed, with
their initial values. -/
structure ParseState where
  year : Int := 0
  month : Int := -1
  day : Int := -1
  hour : Int := 0
  min : Int := 0
  zoneOffset : Int := -1
  deriving DecidableEq, Repr

/-- One layout element of Go `parse`: the value after the element and the
updated fields, `none` where Go sets `err` or `rangeErrString`.  The elements
covered are those of the layouts the program parses with, `2006`, `01`, `02`,
`15`, `04` and `-07:00`; the model gives `none` for the others. -/
def parseStd (std : Std) (value : Str) (st : ParseState) : Option (Str × ParseState) :=
  match std with
  | .stdLongYear =>
    if value.length < 4 ∨ !isDigit value then none
    else
      match atoi (value.take 4) with
      | some y => some (value.drop 4, { st with year := y })
      | none => none
  | .stdZeroMonth =>
    match getnum value true with
    | some (month, value) =>
      if month ≤ 0 ∨ 12 < month then none else some (value, { st with month := month })
    | none => none
  | .stdZeroDay =>
    -- Any two-digit day is allowed here; the date is validated after parsing.
    match getnum value true with
    | some (day, value) => some (value, { st with day := day })
    | none => none
  | .stdHour =>
    match getnum value false with
    | some (hour, value) =>
      if hour < 0 ∨ 24 ≤ hour then none else some (value, { st with hour := hour })
    | none => none
  | .stdZeroMinute =>
    match getnum value true with
    | some (min, value) =>
      if min < 0 ∨ 60 ≤ min then none else some (value, { st with min := min })
    | none => none
  | .stdNumColonTZ =>
    if value.length < 6 then none
    else if (value.drop 3).head? ≠ some ':' then none
    else
      let sign := value.head?
      let hour := (value.drop 1).take 2
      let min := (value.drop 4).take 2
      match getnum hour true, getnum min true with
      | some (hr, _), some (mm, _) =>
        -- The range test uses > rather than >=: offsets of 24 hours or 60
        -- minutes are accepted.
        if hr > 24 ∨ mm > 60 then none
        else
          let zoneOffset := (hr * 60 + mm) * 60
          if sign = some '+' then some (value.drop 6, { st with zoneOffset := zoneOffset })
          else if sign = some '-' then some (value.drop 6, { st with zoneOffset := -zoneOffset })
          else none
      | _, _ => none
  | _ => none

/-- The loop of Go `parse`: one layout element per iteration.  The fuel bounds
the number of iterations; each one shortens the layout, so its length plus one
is enough. -/
def parseLoop : Nat → Str → Str → ParseState → Option ParseState
  | 0, _, _, _ => none
  | fuel + 1, layout, value, st =>
    match nextStdChunk layout with
    | (pre, std, suffix) =>
      match skip value pre with
      | none => none
      | some value =>
        match std with
        | none => if value.length ≠ 0 then none else some st
        | some std =>
          match parseStd std value st with
          | none => none
          | some (value, st) => parseLoop fuel suffix value st

/-- Go `time.Parse(layout, value)`, `none` for an error.  A value parsed with
an offset is the instant `Date(..., UTC)` moved by the offset, in the location
`Local` when `Local` has that offset at the instant and else in a fixed zone
of that offset: the location's offset is the parsed one either way.  Without
an offset in the layout the value is taken in UTC. -/
def parse (layout value : Str) : Option Time :=
  match parseLoop (layout.length + 1) layout value {} with
  | none => none
  | some st =>
    let month := if st.month < 0 then 1 else st.month
    let day := if st.day < 0 then 1 else st.day
    -- Validate the day of the month.
    if day < 1 ∨ day > daysIn month st.year then none
    else if st.zoneOffset ≠ -1 then
      let t := date st.year month day st.hour st.min
      let t := addSec t (-st.zoneOffset)
      some { t with offset := st.zoneOffset }
    else some (date st.year month day st.hour st.min)

/-- One layout element of Go `Time.appendFormat`, from the date, the time of
day and the offset of the value.  The elements covered are those of the
layouts the program formats with, `02`, `Jan`, `2006`, `15`, `03`, `04`, `PM`
and `-07:00`; the model writes nothing for the others. -/
def formatField (year month day hour min offset : Int) (std : Std) : Str :=
  match std with
  | .stdLongYear => appendInt year 4
  | .stdMonth => (longMonthNames month).take 3
  | .stdZeroDay => appendInt day 2
  | .stdHour => appendInt hour 2
  | .stdZeroHour12 =>
    -- Noon is 12PM, midnight is 12AM.
    let hr := hour % 12
    appendInt (if hr = 0 then 12 else hr) 2
  | .stdZeroMinute => appendInt min 2
  | .stdPM => if hour ≥ 12 then "PM".toList else "AM".toList
  | .stdNumColonTZ =>
    let zone := Int.tdiv offset 60 -- convert to minutes
    let sign := if zone < 0 then '-' else '+'
    let zone := if zone < 0 then -zone else zone
    sign :: (appendInt (zone / 60) 2 ++ ':' :: appendInt (zone % 60) 2)
  | _ => []

/-- One layout element of Go `Time.appendFormat`: the date and the time of day
are those of the wall clock in the value's location (`locabs`, `absDate`,
`absClock`). -/
def formatStd (t : Time) (std : Std) : Str :=
  match absDate t.abs, absClock t.abs with
  | (year, month, day), (hour, min) => formatField year month day hour min t.offset std

/-- The loop of Go `Time.appendFormat`. -/
def formatLoop (t : Time) : Nat → Str → Str
  | 0, _ => []
  | fuel + 1, layout =>
    match nextStdChunk layout with
    | (pre, none, _) => pre
    | (pre, some std, suffix) => pre ++ formatStd t std ++ formatLoop t fuel suffix

/-- Go `t.Format(layout)`. -/
def Time.format (t : Time) (layout : Str) : Str :=
  formatLoop t (layout.length + 1) layout

/-- The Go slice expression `s[lo:hi]` on a string: `none` is the run-time
panic for bounds that are out of range. -/
def slice (s : Str) (lo hi : Int) : Option Str :=
  if 0 ≤ lo ∧ lo ≤ hi ∧ hi ≤ s.length then some ((s.take hi.toNat).drop lo.toNat)
  else none

/-- Go `fmt.Sprintf("%s %s", a, b)`. -/
def sprintf2 (a b : Str) : Str := a ++ ' ' :: b

/-! ## Package `bufio` and the results of a Go function -/

/-- The result of a Go function that returns a value and an `error`: the value
with a `nil` error, a non-`nil` error with its message (the value returned with
it is `nil`), or a run-time panic that ends the program. -/
inductive Outcome (α : Type) where
  | ok : α → Outcome α
  | error : Str → Outcome α
  | panic : Outcome α
  deriving DecidableEq, Repr

/-- Go `dropCR`: one carriage return at the end of the text is dropped. -/
def dropCR (data : Str) : Str :=
  if data.getLast? = some '\r' then data.dropLast else data

/-- Go `bufio.MaxScanTokenSize`, the size to which the buffer of a `Scanner`
grows. -/
def maxScanTokenSize : Nat := 64 * 1024

/-- The number of bytes of the UTF-8 form of a character. -/
def utf8Len (c : Char) : Nat :=
  if c.toNat ≤ 0x7F then 1 else if c.toNat ≤ 0x7FF then 2 else if c.toNat ≤ 0xFFFF then 3 else 4

/-- Go `len(s)`: the number of bytes of a text. -/
def byteLen : Str → Nat
  | [] => 0
  | c :: t => utf8Len c + byteLen t

/-- The parts into which the line feeds cut a text, each with the carriage
return it may end in; the empty text after the last line feed is no part. -/
def segments (text : Str) : List Str :=
  let segs := split '\n' text
  if segs.getLast? = some [] then segs.dropLast else segs

/-- A part of the text fits the buffer of the scanner: with its line feed it
has at most `maxScanTokenSize` bytes, and a last part without line feed leaves
the buffer not full, so that the end of the file is read. -/
def fits (seg : Str) : Bool := decide (byteLen seg < maxScanTokenSize)

/-- The tokens that a `bufio.Scanner` with the split function `ScanLines`
yields for a text: the text is cut at every line feed, one carriage return at
the end of a line is dropped, and nothing is yielded for the empty text after
the last line feed.  At the first line that does not fit the buffer the
scanner stops: that line and the lines after it are not yielded. -/
def scanLines (text : Str) : List Str :=
  ((segments text).takeWhile fits).map dropCR

/-- The result of `scanner.Err()` after the loop `for scanner.Scan()`: `none`
is `nil`, and the error is `ErrTooLong` when a line did not fit the buffer. -/
def scanErr (text : Str) : Option Str :=
  if (segments text).all fits then none else some "bufio.Scanner: token too long".toList

/-- The Go index expression `parts[i]`: `none` is the run-time panic for an
index out of range. -/
def index (parts : List Str) (i : Int) : Option Str :=
  if 0 ≤ i ∧ i < parts.length then parts.get? i.toNat else none

/-- The loop `for i := 0; i < 5; i++ { if parts[i] == "" { return nil, err } }`
of `loadAirportLookup`, from the index `i` with `n` iterations left: `ok` when
the loop runs to its end, the error with the message `msg` at an empty field,
a panic at an index out of range. -/
def firstFields (msg : Str) (parts : List Str) : Nat → Int → Outcome Unit
  | 0, _ => .ok ()
  | n + 1, i =>
    match index parts i with
    | none => .panic
    | some p => if p = [] then .error msg else firstFields msg parts n (i + 1)

/-! ## The files -/

/-- The files of the run: the content at each path that can be opened (the
first entry of a path counts), and the paths at which `os.Create` fails. -/
structure FS where
  files : List (Str × Str)
  denied : List Str
  deriving DecidableEq, Repr

/-- The content of the file at a path, `none` when `os.Open` fails. -/
def FS.read (fs : FS) (path : Str) : Option Str := fs.files.lookup path

/-- The files after the content at a path is set. -/
def FS.write (fs : FS) (path content : Str) : FS :=
  { fs with files := (path, content) :: fs.files }

/-! ## The ways a run ends -/

/-- The ways in which a run of `main` ends: after the usage text, after the
message `Error loading airport lookup:` with the error of the loader, after
the message `Error processing itinerary:` with the error of
`processItinerary`, after the message of success, or in a run-time panic. -/
inductive Run where
  | usage : Run
  | loadError : Str → Run
  | processError : Str → Run
  | success : Run
  | panic : Run
  deriving DecidableEq, Repr

/-! ## `taskWObon/main.go` -/

namespace TaskWObon

/-- The four map writes that `loadAirportLookup` of `taskWObon/main.go` makes
for one row, from `name := parts[0]`, `municipality := parts[2]`,
`iata := parts[4]` and `icao := parts[3]`. -/
def insertRow (lookupTable : Table) (name municipality iata icao : Str) : Table :=
  let lookupTable :=
    if iata ≠ [] then lookupTable.set ("*#".toList ++ iata) municipality else lookupTable
  let lookupTable :=
    if icao ≠ [] then lookupTable.set ("*##".toList ++ icao) municipality else lookupTable
  let lookupTable :=
    if iata ≠ [] then lookupTable.set ("#".toList ++ iata) name else lookupTable
  let lookupTable :=
    if icao ≠ [] then lookupTable.set ("##".toList ++ icao) name else lookupTable
  lookupTable

/-- The body of the loop `for scanner.Scan()` of `loadAirportLookup` in
`taskWObon/main.go`, for one line of the lookup. -/
def loadRow (lookupTable : Table) (line : Str) : Outcome Table :=
  let parts := split ',' line
  match firstFields "Malformed airport lookup data".toList parts 5 0 with
  | .panic => .panic
  | .error e => .error e
  | .ok _ =>
    if parts.length < 5 then .error "Malformed airport lookup data5".toList
    else
      match index parts 0, index parts 2, index parts 4, index parts 3 with
      | some name, some municipality, some iata, some icao =>
        .ok (insertRow lookupTable name municipality iata icao)
      | _, _, _, _ => .panic

/-- The loop `for scanner.Scan()` of `loadAirportLookup` in
`taskWObon/main.go` over the lines that are left. -/
def loadRows (lookupTable : Table) : List Str → Outcome Table
  | [] => .ok lookupTable
  | line :: rest =>
    match loadRow lookupTable line with
    | .ok lookupTable => loadRows lookupTable rest
    | .error e => .error e
    | .panic => .panic

/-- The function `loadAirportLookup` of `taskWObon/main.go`.  The argument is
what `os.Open(lookupPath)` gives: the text of the file, `none` when the file
cannot be opened.  After the loop the error of the scanner is returned, if
there is one. -/
def loadAirportLookup (loo : Option Str) : Outcome Table :=
  match loo with
  | none => .error "Lookup not found".toList
  | some text =>
    match loadRows [] (scanLines text) with
    | .panic => .panic
    | .error e => .error e
    | .ok lookupTable =>
      match scanErr text with
      | some err => .error err
      | none => .ok lookupTable

/-- The function `formatISODate` of `taskWObon/main.go`. -/
def formatISODate (isoDate : Str) : Str :=
  match parse "D(2006-01-02T15:04Z)".toList isoDate with
  | some parsedTime => parsedTime.format "02 Jan 2006".toList
  | none =>
    match parse "D(2006-01-02T15:04-07:00)".toList isoDate with
    | none => isoDate
    | some parsedTimeWithOffset => parsedTimeWithOffset.format "02 Jan 2006".toList

/-- The function `formatISOTime` of `taskWObon/main.go`. -/
def formatISOTime (isoTime : Str) (is12HourFormat : Bool) : Str :=
  let parts := split 'T' isoTime
  if parts.length ≠ 2 then isoTime
  else
    let parsed :=
      if hasSuffix (parts.getD 1 []) "Z".toList then parse "2006-01-02T15:04Z".toList isoTime
      else parse "2006-01-02T15:04-07:00".toList isoTime
    match parsed with
    | none => isoTime
    | some t =>
      let offset :=
        if hasSuffix (parts.getD 1 []) "Z".toList then "(+00:00)".toList
        else t.format "(-07:00)".toList
      let formattedTime :=
        if is12HourFormat then t.format "03:04PM".toList else t.format "15:04".toList
      sprintf2 formattedTime offset

/-- The callback that `processLine` of `taskWObon/main.go` hands to
`ReplaceAllStringFunc`: the `switch` on the prefix of the match.  A `case`
whose lookup finds nothing falls out of the `switch` to `return match`. -/
def replacer (LOOKUPTABLE : Table) (m : Str) : Option Str :=
  if hasPrefix m "#".toList || hasPrefix m "##".toList then
    match LOOKUPTABLE.get m with
    | some name => some name
    | none => some m
  else if hasPrefix m "*#".toList || hasPrefix m "*##".toList then
    match LOOKUPTABLE.get m with
    | some municipality => some municipality
    | none => some m
  else if hasPrefix m "D(".toList then some (formatISODate m)
  else if hasPrefix m "T12(".toList then
    (slice m 4 ((m.length : Int) - 1)).map fun isoTime => formatISOTime isoTime true
  else if hasPrefix m "T24(".toList then
    (slice m 4 ((m.length : Int) - 1)).map fun isoTime => formatISOTime isoTime false
  else some m

/-- The function `processLine` of `taskWObon/main.go`, with the global
`LOOKUPTABLE` as a parameter; `none` is a run-time panic. -/
def processLine (LOOKUPTABLE : Table) (line : Str) : Option Str :=
  replaceAllStringFunc reWithCities line (replacer LOOKUPTABLE)

/-- The function `trimLines` of `taskWObon/main.go`. -/
def trimLines (text : Str) : Str :=
  let text := replaceAll text "\x0b".toList "\n".toList
  let text := replaceAll text "\x0c".toList "\n".toList
  let text := replaceAll text "\r".toList "\n".toList
  -- compiling blank lines to 1 blank line
  replaceAllString reBlankLines text "\n\n".toList

/-- The loop `for scanner.Scan()` of `processItinerary` in `taskWObon/main.go`
over the lines that are left: the text added to `outputTemp`; `none` is a
run-time panic of `processLine`. -/
def outputLoop (LOOKUPTABLE : Table) : List Str → Option Str
  | [] => some []
  | line :: rest =>
    match processLine LOOKUPTABLE line, outputLoop LOOKUPTABLE rest with
    | some processedLine, some outputTemp => some (processedLine ++ "\n".toList ++ outputTemp)
    | _, _ => none

/-- The function `processItinerary` of `taskWObon/main.go`, with the global
`LOOKUPTABLE` and the files as parameters: the files after the call, and the
error returned.  The input is read after `os.Create` has made or emptied the
output file, so an input at the path of the output is read as empty.
The error of the scanner is not read after the loop (`scanner.Err()` is
called before it only, where it is `nil`): a line that does not fit the
buffer ends the loop like the end of the input.  The write is taken to be
complete. -/
def processItinerary (LOOKUPTABLE : Table) (fs : FS) (inputPath outputPath : Str) :
    FS × Outcome Unit :=
  match fs.read inputPath with
  | none => (fs, .error "Input not found".toList)
  | some _ =>
    if outputPath ∈ fs.denied then (fs, .error "Error creating output file".toList)
    else
      let fs := fs.write outputPath []
      match outputLoop LOOKUPTABLE (scanLines ((fs.read inputPath).getD [])) with
      | none => (fs, .panic)
      | some outputTemp =>
        let result := trimLines outputTemp
        (fs.write outputPath (result ++ "\n".toList), .ok ())

/-- The function `main` of `taskWObon/main.go`, with `os.Args` and the files as
parameters: the files after the run, and the way the run ends.  What is
printed is not part of the model. -/
def main (osArgs : List Str) (fs : FS) : FS × Run :=
  if osArgs.length ≠ 4 || osArgs.getD 1 [] == "-h".toList || osArgs.getD 2 [] == "-h".toList
      || osArgs.getD 3 [] == "-h".toList then
    (fs, .usage)
  else
    let inputPath := osArgs.getD 1 []
    let outputPath := osArgs.getD 2 []
    let lookupPath := osArgs.getD 3 []
    match loadAirportLookup (fs.read lookupPath) with
    | .error err => (fs, .loadError err)
    | .panic => (fs, .panic)
    | .ok LOOKUPTABLE =>
      match processItinerary LOOKUPTABLE fs inputPath outputPath with
      | (fs, .error err) => (fs, .processError err)
      | (fs, .panic) => (fs, .panic)
      | (fs, .ok _) => (fs, .success)

end TaskWObon

/-! ## `itineraryWithBonuses.go` -/

namespace WithBonuses

/-- The escape character `\033`. -/
def esc : Char := '\x1b'

/-- The function `trimColor` of `itineraryWithBonuses.go`. -/
def trimColor (text : Str) : Str :=
  -- text color
  let text := removeAll "\x1b[0m".toList text
  let text := removeAll "\x1b[30m".toList text
  let text := removeAll "\x1b[34m".toList text
  let text := removeAll "\x1b[35m".toList text
  let text := removeAll "\x1b[36m".toList text
  let text := removeAll "\x1b[37m".toList text
  let text := removeAll "\x1b[31m".toList text
  let text := removeAll "\x1b[32m".toList text
  let text := removeAll "\x1b[33m".toList text
  -- fon color
  let text := removeAll "\x1b[40m".toList text
  let text := removeAll "\x1b[41m".toList text
  let text := removeAll "\x1b[42m".toList text
  let text := removeAll "\x1b[43m".toList text
  let text := removeAll "\x1b[44m".toList text
  let text := removeAll "\x1b[45m".toList text
  let text := removeAll "\x1b[46m".toList text
  let text := removeAll "\x1b[47m".toList text
  -- bold
  let text := removeAll "\x1b[1m".toList text
  let text := removeAll "\x1b[22m".toList text
  text

/-- The four map writes that `loadAirportLookup` of `itineraryWithBonuses.go`
makes for one row, from the columns chosen for `name`, `municipality`, `iata`
and `icao`: the values are wrapped in colour codes. -/
def insertRow (lookupTable : Table) (name municipality iata icao : Str) : Table :=
  let lookupTable :=
    if iata ≠ [] then
      lookupTable.set ("*#".toList ++ iata) ("\x1b[34m".toList ++ municipality ++ "\x1b[0m".toList)
    else lookupTable
  let lookupTable :=
    if icao ≠ [] then
      lookupTable.set ("*##".toList ++ icao) ("\x1b[34m".toList ++ municipality ++ "\x1b[0m".toList)
    else lookupTable
  let lookupTable :=
    if iata ≠ [] then
      lookupTable.set ("#".toList ++ iata) ("\x1b[36m".toList ++ name ++ "\x1b[0m".toList)
    else lookupTable
  let lookupTable :=
    if icao ≠ [] then
      lookupTable.set ("##".toList ++ icao) ("\x1b[36m".toList ++ name ++ "\x1b[0m".toList)
    else lookupTable
  lookupTable

/-- The column numbers `chuits`, `chuits1`, `chuits2`, `chuits3` of
`loadAirportLookup` in `itineraryWithBonuses.go`, for the name, the city, the
IATA code and the ICAO code. -/
structure Columns where
  chuits : Int := 0
  chuits1 : Int := 2
  chuits2 : Int := 4
  chuits3 : Int := 3
  deriving DecidableEq, Repr

/-- The body of the loop `for scanner.Scan()` of `loadAirportLookup` in
`itineraryWithBonuses.go`, for one line of the lookup. -/
def loadRow (cols : Columns) (lookupTable : Table) (line : Str) : Outcome Table :=
  let parts := split ',' line
  match firstFields "\x1b[31mMalformed airport lookup data\x1b[0m".toList parts 5 0 with
  | .panic => .panic
  | .error e => .error e
  | .ok _ =>
    if parts.length ≤ 5 then .error "\x1b[31mMalformed airport lookup! data\x1b[0m".toList
    else
      match index parts cols.chuits, index parts cols.chuits1, index parts cols.chuits2,
        index parts cols.chuits3 with
      | some name, some municipality, some iata, some icao =>
        .ok (insertRow lookupTable name municipality iata icao)
      | _, _, _, _ => .panic

/-- The loop `for scanner.Scan()` of `loadAirportLookup` in
`itineraryWithBonuses.go` over the lines that are left. -/
def loadRows (cols : Columns) (lookupTable : Table) : List Str → Outcome Table
  | [] => .ok lookupTable
  | line :: rest =>
    match loadRow cols lookupTable line with
    | .ok lookupTable => loadRows cols lookupTable rest
    | .error e => .error e
    | .panic => .panic

/-- The function `loadAirportLookup` of `itineraryWithBonuses.go`, with the
global `bonusFlag` as a parameter.  The argument `loo` is what
`os.Open(lookupPath)` gives: the text of the file, `none` when the file cannot
be opened.  The argument `entered` holds the column numbers after the four
`fmt.Scanln` calls of the bonus mode (a call that reads no number leaves the
default); without the bonus mode the defaults 0, 2, 4, 3 are used.  After the
loop the error of the scanner is returned, if there is one. -/
def loadAirportLookup (bonusFlag : Bool) (entered : Columns) (loo : Option Str) :
    Outcome Table :=
  match loo with
  | none => .error "\x1b[31mLookup not found\x1b[0m".toList
  | some text =>
    let cols : Columns := if bonusFlag then entered else {}
    match loadRows cols [] (scanLines text) with
    | .panic => .panic
    | .error e => .error e
    | .ok lookupTable =>
      match scanErr text with
      | some err => .error err
      | none => .ok lookupTable

/-- The function `formatISODate` of `itineraryWithBonuses.go`. -/
def formatISODate (isoDate : Str) : Str :=
  match parse "D(2006-01-02T15:04Z)".toList isoDate with
  | some parsedTime =>
    "\x1b[42m\x1b[1m\x1b[37m".toList ++ parsedTime.format "02 Jan 2006".toList
      ++ "\x1b[0m\x1b[22m".toList
  | none =>
    match parse "D(2006-01-02T15:04-07:00)".toList isoDate with
    | none => isoDate
    | some parsedTimeWithOffset =>
      "\x1b[42m\x1b[1m\x1b[37m".toList ++ parsedTimeWithOffset.format "02 Jan 2006".toList
        ++ "\x1b[0m\x1b[22m".toList

/-- The function `formatISOTime` of `itineraryWithBonuses.go`. -/
def formatISOTime (isoTime : Str) (is12HourFormat : Bool) : Str :=
  let parts := split 'T' isoTime
  if parts.length ≠ 2 then isoTime
  else
    let parsed :=
      if hasSuffix (parts.getD 1 []) "Z".toList then parse "2006-01-02T15:04Z".toList isoTime
      else parse "2006-01-02T15:04-07:00".toList isoTime
    match parsed with
    | none => isoTime
    | some t =>
      let offset :=
        if hasSuffix (parts.getD 1 []) "Z".toList then "(+00:00)".toList
        else t.format "(-07:00)".toList
      let formattedTime :=
        if is12HourFormat then t.format "03:04PM".toList else t.format "15:04".toList
      "\x1b[40m\x1b[32m".toList ++ sprintf2 formattedTime offset ++ "\x1b[0m".toList

/-- The callback that `processLine` of `itineraryWithBonuses.go` hands to
`ReplaceAllStringFunc`. -/
def replacer (LOOKUPTABLE : Table) (m : Str) : Option Str :=
  if hasPrefix m "#".toList || hasPrefix m "##".toList then
    match LOOKUPTABLE.get m with
    | some name => some name
    | none => some m
  else if hasPrefix m "*#".toList || hasPrefix m "*##".toList then
    match LOOKUPTABLE.get m with
    | some municipality => some municipality
    | none => some m
  else if hasPrefix m "D(".toList then some (formatISODate m)
  else if hasPrefix m "T12(".toList then
    (slice m 4 ((m.length : Int) - 1)).map fun isoTime => formatISOTime isoTime true
  else if hasPrefix m "T24(".toList then
    (slice m 4 ((m.length : Int) - 1)).map fun isoTime => formatISOTime isoTime false
  else some m

/-- The function `processLine` of `itineraryWithBonuses.go`, with the globals
`bonusFlag` and `LOOKUPTABLE` as parameters; `none` is a run-time panic. -/
def processLine (bonusFlag : Bool) (LOOKUPTABLE : Table) (line : Str) : Option Str :=
  let re := if bonusFlag then reWithCities else reStandard
  replaceAllStringFunc re line (replacer LOOKUPTABLE)

/-- The function `trimLines` of `itineraryWithBonuses.go`. -/
def trimLines (text : Str) : Str :=
  let text := replaceAll text "\x0b".toList "\n".toList
  let text := replaceAll text "\x0c".toList "\n".toList
  let text := replaceAll text "\r".toList "\n".toList
  let text := replaceAll text " \n".toList "\n".toList
  let text := replaceAllString reSpaces text " ".toList
  -- compiling blank lines to 1 blank line
  replaceAllString reBlankLines text "\n\n".toList

/-- The loop `for scanner.Scan()` of `processItinerary` in
`itineraryWithBonuses.go` over the lines that are left. -/
def outputLoop (bonusFlag : Bool) (LOOKUPTABLE : Table) : List Str → Option Str
  | [] => some []
  | line :: rest =>
    match processLine bonusFlag LOOKUPTABLE line, outputLoop bonusFlag LOOKUPTABLE rest with
    | some processedLine, some outputTemp => some (processedLine ++ "\n".toList ++ outputTemp)
    | _, _ => none

/-- The function `processItinerary` of `itineraryWithBonuses.go`, with the
globals `bonusFlag` and `LOOKUPTABLE` and the files as parameters: the files
after the call, and the error returned.  What the bonus mode prints to the
standard output is not part of the model.  The error of the scanner is not
read after the loop: a line that does not fit the buffer ends the loop like
the end of the input.  The slice `result[:len(result)-1]` panics for an empty
`result`. -/
def processItinerary (bonusFlag : Bool) (LOOKUPTABLE : Table) (fs : FS)
    (inputPath outputPath : Str) : FS × Outcome Unit :=
  match fs.read inputPath with
  | none => (fs, .error "\x1b[31mInput not found\x1b[0m".toList)
  | some _ =>
    if outputPath ∈ fs.denied then
      (fs, .error "\x1b[31mError creating output file\x1b[0m".toList)
    else
      let fs := fs.write outputPath []
      match outputLoop bonusFlag LOOKUPTABLE (scanLines ((fs.read inputPath).getD [])) with
      | none => (fs, .panic)
      | some outputTemp =>
        let result := trimLines outputTemp
        let result := trimColor result
        match slice result 0 ((result.length : Int) - 1) with
        | none => (fs, .panic)
        | some text => (fs.write outputPath (text ++ "\n".toList), .ok ())

/-- The function `main` of `itineraryWithBonuses.go`, with the files as a
parameter: the files after the run, and the way the run ends.  The argument
`nArgs` is `len(os.Args)`; `helpFlag`, `bonusFlag` and `args` are what
`flag.Parse()` leaves in the two flags and in `flag.Args()`; `entered` holds
the column numbers read by `loadAirportLookup`.  What is printed is not part
of the model. -/
def main (nArgs : Nat) (helpFlag bonusFlag : Bool) (args : List Str) (entered : Columns)
    (fs : FS) : FS × Run :=
  if nArgs = 1 then (fs, .usage)
  else if helpFlag && !bonusFlag then (fs, .usage)
  else if helpFlag && bonusFlag then (fs, .usage)
  else if nArgs < 4 || nArgs > 5 then (fs, .usage)
  else
    match index args 0, index args 1, index args 2 with
    | some inputPath, some outputPath, some lookupPath =>
      match loadAirportLookup bonusFlag entered (fs.read lookupPath) with
      | .error err => (fs, .loadError err)
      | .panic => (fs, .panic)
      | .ok LOOKUPTABLE =>
        match processItinerary bonusFlag LOOKUPTABLE fs inputPath outputPath with
        | (fs, .error err) => (fs, .processError err)
        | (fs, .panic) => (fs, .panic)
        | (fs, .ok _) => (fs, .success)
    | _, _, _ => (fs, .panic)

end WithBonuses

/-! ## Notation of the statements -/

/-- The two-digit decimal form of a number below 100. -/
def dec2 (n : Nat) : Str := [Nat.digitChar (n / 10), Nat.digitChar (n % 10)]

/-- The four-digit decimal form of a number below 10000. -/
def dec4 (n : Nat) : Str := dec2 (n / 100) ++ dec2 (n % 100)

/-- The text begins with `tag` followed by `n` characters of `[A-Z]`. -/
def codeTok (tag : Str) (n : Nat) (s : Str) : Bool :=
  tag.isPrefixOf s && (decide (n ≤ (s.drop tag.length).length)
    && ((s.drop tag.length).take n).all upper)

/-- The text begins with `tag` followed by one or more characters other than
`)` and then `)`. -/
def parenTok (tag : Str) (s : Str) : Bool :=
  tag.isPrefixOf s && (!((s.drop tag.length).takeWhile notParen).isEmpty
    && ((s.drop tag.length).dropWhile notParen).head? == some ')')

/-- The text begins like a token: with `#`, `*`, `D(`, `T12(` or `T24(`. -/
def startsToken (s : Str) : Bool :=
  hasPrefix s "#".toList || hasPrefix s "*".toList || hasPrefix s "D(".toList
    || hasPrefix s "T12(".toList || hasPrefix s "T24(".toList

/-- The text contains no `#`, no `*` and none of `D(`, `T12(`, `T24(`. -/
def TokenFree (p : Str) : Prop :=
  '#' ∉ p ∧ '*' ∉ p ∧ ¬ "D(".toList <:+: p ∧ ¬ "T12(".toList <:+: p ∧ ¬ "T24(".toList <:+: p

instance (p : Str) : Decidable (TokenFree p) := by
  unfold TokenFree; infer_instance

/-- The text is a code of exactly `n` uppercase letters. -/
def IsCode (n : Nat) (c : Str) : Prop := c.length = n ∧ ∀ x ∈ c, upper x = true

instance (n : Nat) (c : Str) : Decidable (IsCode n c) := by
  unfold IsCode; infer_instance

/-- A letter or a digit. -/
def letterOrDigit (c : Char) : Bool :=
  decide (('a' ≤ c ∧ c ≤ 'z') ∨ ('A' ≤ c ∧ c ≤ 'Z') ∨ ('0' ≤ c ∧ c ≤ '9'))

/-- The text before a token ends with a letter or digit, or the text after it
begins with one. -/
def touches (p s : Str) : Bool :=
  (match p.getLast? with
    | some c => letterOrDigit c
    | none => false) ||
  (match s.head? with
    | some c => letterOrDigit c
    | none => false)

/-- The table that `taskWObon/main.go` builds from the first two airports of
the lookup of the test suite. -/
def basicTable : Table :=
  TaskWObon.insertRow
    (TaskWObon.insertRow [] "Honiara International Airport".toList "Honiara".toList
      "HIR".toList "AGGH".toList)
    "Hongyuan Airport".toList "Aba".toList "AHJ".toList "ZUHY".toList

/-- The table that `itineraryWithBonuses.go` builds from the first two
airports of the lookup of the test suite. -/
def basicTableColour : Table :=
  WithBonuses.insertRow
    (WithBonuses.insertRow [] "Honiara International Airport".toList "Honiara".toList
      "HIR".toList "AGGH".toList)
    "Hongyuan Airport".toList "Aba".toList "AHJ".toList "ZUHY".toList

/-- The last step of `absDate`: month and day of the month from the day of the
year (counted from 0), in a leap year or not. -/
def monthOfDay (leap : Bool) (day : Int) : Int × Int :=
  if leap ∧ day = 31 + 29 - 1 then (2, 29)
  else
    let day := if leap ∧ day > 31 + 29 - 1 then day - 1 else day
    let month := day / 31
    let end1 := daysBefore (month + 1).toNat
    if day ≥ end1 then (month + 1 + 1, day - end1 + 1)
    else (month + 1, day - daysBefore month.toNat + 1)

/-- The day of the year (counted from 0) of a date. -/
def yearDay (Y m d : Int) : Int :=
  daysBefore (m - 1).toNat + (if isLeap Y ∧ m ≥ 3 then 1 else 0) + (d - 1)

/-- The seconds since the absolute epoch that `Date` counts for a date and a
time of day in range. -/
def absOf (Y m d h mi : Int) : Int :=
  (daysSinceEpoch Y + yearDay Y m d) * 86400 + (h * 3600 + mi * 60)

/-- The sign character of an offset. -/
def signChar (neg : Bool) : Char := if neg then '-' else '+'

/-- The timestamp `YYYY-MM-DDTHH:MM` followed by the text `tail`. -/
def stamp (Y m d h mi : Nat) (tail : Str) : Str :=
  dec4 Y ++ ('-' :: (dec2 m ++ ('-' :: (dec2 d ++ ('T' :: (dec2 h ++ (':' :: (dec2 mi ++ tail))))))))

/-- The numeric offset `+HH:MM` or `-HH:MM`. -/
def offsetText (neg : Bool) (oh om : Nat) : Str :=
  signChar neg :: (dec2 oh ++ (':' :: dec2 om))

/-- The seconds east of UTC that a sign, hours and minutes stand for. -/
def offsetSeconds (neg : Bool) (oh om : Nat) : Int :=
  if neg then -(((oh : Int) * 60 + om) * 60) else ((oh : Int) * 60 + om) * 60

/-- The Gregorian leap-year rule. -/
def leapYear (Y : Nat) : Bool := Y % 4 == 0 && (Y % 100 != 0 || Y % 400 == 0)

/-- The number of days of a month of the calendar. -/
def daysInMonth (Y m : Nat) : Nat :=
  match m with
  | 2 => if leapYear Y then 29 else 28
  | 4 | 6 | 9 | 11 => 30
  | _ => 31

/-- A valid calendar date with a year of four digits. -/
def ValidDate (Y m d : Nat) : Prop := Y ≤ 9999 ∧ 1 ≤ m ∧ m ≤ 12 ∧ 1 ≤ d ∧ d ≤ daysInMonth Y m

instance (Y m d : Nat) : Decidable (ValidDate Y m d) := by
  unfold ValidDate; infer_instance

/-- A valid time of day. -/
def ValidTime (h mi : Nat) : Prop := h < 24 ∧ mi < 60

instance (h mi : Nat) : Decidable (ValidTime h mi) := by
  unfold ValidTime; infer_instance

/-- A valid numeric offset: hours below 24 and minutes below 60. -/
def ValidOffset (oh om : Nat) : Prop := oh < 24 ∧ om < 60

instance (oh om : Nat) : Decidable (ValidOffset oh om) := by
  unfold ValidOffset; infer_instance

/-- The three-letter English abbreviation of a month. -/
def monthAbbr : Nat → Str
  | 1 => "Jan".toList
  | 2 => "Feb".toList
  | 3 => "Mar".toList
  | 4 => "Apr".toList
  | 5 => "May".toList
  | 6 => "Jun".toList
  | 7 => "Jul".toList
  | 8 => "Aug".toList
  | 9 => "Sep".toList
  | 10 => "Oct".toList
  | 11 => "Nov".toList
  | 12 => "Dec".toList
  | _ => []

/-- The hour of the 12-hour clock: the hour modulo 12, with 0 shown as 12. -/
def hour12 (h : Nat) : Nat := if h % 12 = 0 then 12 else h % 12

/-- The date as `D(...)` shows it: two-digit day, month abbreviation and
four-digit year, separated by spaces. -/
def dateText (Y m d : Nat) : Str := dec2 d ++ (' ' :: (monthAbbr m ++ (' ' :: dec4 Y)))

/-- The time of day on the 24-hour clock: `HH:MM`. -/
def clock24 (h mi : Nat) : Str := dec2 h ++ (':' :: dec2 mi)

/-- The time of day on the 12-hour clock: `HH:MM` and `AM` or `PM`. -/
def clock12 (h mi : Nat) : Str :=
  dec2 (hour12 h) ++ (':' :: (dec2 mi ++ (if h < 12 then "AM".toList else "PM".toList)))

/-- A decimal digit. -/
def digit (c : Char) : Bool := decide ('0' ≤ c ∧ c ≤ '9')

/-- The value of a decimal digit. -/
def val (c : Char) : Nat := c.toNat - 48

/-- The end of a timestamp that the program takes: `Z`, or a sign, two digits,
`:` and two digits, the hours at most 24 and the minutes at most 60. -/
def acceptedZone : Str → Bool
  | [z] => z == 'Z'
  | [s, a, b, c, e, f] =>
    (s == '+' || s == '-') && digit a && digit b && c == ':' && digit e && digit f
      && decide (val a * 10 + val b ≤ 24) && decide (val e * 10 + val f ≤ 60)
  | _ => false

/-- The minutes of a timestamp that the program takes, with what follows
them: two digits below 60 and an accepted end. -/
def acceptedMinute : Str → Bool
  | n1 :: n2 :: zone => digit n1 && digit n2 && decide (val n1 * 10 + val n2 < 60)
      && acceptedZone zone
  | _ => false

/-- The time of day of a timestamp that the program takes, with what follows
it: an hour below 24 written with one or with two digits, `:` and the
minutes. -/
def acceptedClock : Str → Bool
  | h1 :: c :: rest =>
    if c == ':' then digit h1 && acceptedMinute rest
    else
      match rest with
      | c2 :: rest2 =>
        digit h1 && digit c && c2 == ':' && decide (val h1 * 10 + val c < 24)
          && acceptedMinute rest2
      | [] => false
  | _ => false

/-- The timestamps that the program takes: four digits, `-`, two digits of a
month from 1 to 12, `-`, two digits of a day of that month, `T` and the time of
day. -/
def acceptedStamp : Str → Bool
  | y1 :: y2 :: y3 :: y4 :: s1 :: m1 :: m2 :: s2 :: d1 :: d2 :: t :: clock =>
    digit y1 && digit y2 && digit y3 && digit y4 && s1 == '-' && digit m1 && digit m2
      && s2 == '-' && digit d1 && digit d2 && t == 'T'
      && decide (ValidDate (val y1 * 1000 + val y2 * 100 + val y3 * 10 + val y4)
          (val m1 * 10 + val m2) (val d1 * 10 + val d2))
      && acceptedClock clock
  | _ => false

/-- The shape that the specification gives to a timestamp: four digits, `-`,
two digits, `-`, two digits, `T`, two digits, `:`, two digits and then `Z` or
a sign, two digits, `:` and two digits.  With `oneDigitHour` the hour has one
digit instead of two. -/
def stampShape (oneDigitHour : Bool) (x : Str) : Bool :=
  let date := x.take 11
  let hour := (x.drop 11).take (if oneDigitHour then 1 else 2)
  let rest := (x.drop 11).drop (if oneDigitHour then 1 else 2)
  let minute := rest.take 3
  let zone := rest.drop 3
  date.length == 11
    && (date.take 4).all digit && date.getD 4 ' ' == '-'
    && ((date.drop 5).take 2).all digit && date.getD 7 ' ' == '-'
    && ((date.drop 8).take 2).all digit && date.getD 10 ' ' == 'T'
    && hour.length == (if oneDigitHour then 1 else 2) && hour.all digit
    && minute.length == 3 && minute.getD 0 ' ' == ':' && (minute.drop 1).all digit
    && (zone == ['Z']
      || (zone.length == 6 && (zone.getD 0 ' ' == '+' || zone.getD 0 ' ' == '-')
          && ((zone.drop 1).take 2).all digit && zone.getD 3 ' ' == ':'
          && (zone.drop 4).all digit))

/-- The form that the specification gives to a rendered time: two digits, `:`
and two digits, for the 12-hour clock then `AM` or `PM`, and after a space the
offset in parentheses, `(+HH:MM)` or `(-HH:MM)`. -/
def clockShape (twelve : Bool) (out : Str) : Bool :=
  let clock := out.take 5
  let half := (out.drop 5).take (if twelve then 2 else 0)
  let zone := (out.drop 5).drop (if twelve then 2 else 0)
  clock.length == 5
    && (clock.take 2).all digit && clock.getD 2 ' ' == ':' && (clock.drop 3).all digit
    && (if twelve then half == ['A', 'M'] || half == ['P', 'M'] else true)
    && zone.length == 9 && zone.take 2 == [' ', '(']
    && (zone.getD 2 ' ' == '+' || zone.getD 2 ' ' == '-')
    && ((zone.drop 3).take 2).all digit && zone.getD 5 ' ' == ':'
    && ((zone.drop 6).take 2).all digit && zone.getD 8 ' ' == ')'

/-- Field `k` of a lookup row, counted from 0; the empty text when the row has
no such field. -/
def field (line : Str) (k : Nat) : Str := (split ',' line).getD k []

/-- The row splits on `,` into at least `n` fields, and the first five fields
it has are not empty. -/
def validRow (n : Nat) (line : Str) : Bool :=
  decide (n ≤ (split ',' line).length) && ((split ',' line).take 5).all fun p => !p.isEmpty

/-- The column numbers are those of a row of six fields. -/
def WithBonuses.Columns.inRange (cols : WithBonuses.Columns) : Prop :=
  (0 ≤ cols.chuits ∧ cols.chuits < 6) ∧ (0 ≤ cols.chuits1 ∧ cols.chuits1 < 6)
    ∧ (0 ≤ cols.chuits2 ∧ cols.chuits2 < 6) ∧ (0 ≤ cols.chuits3 ∧ cols.chuits3 < 6)

instance (cols : WithBonuses.Columns) : Decidable cols.inRange := by
  unfold WithBonuses.Columns.inRange; infer_instance

/-- The table after the four writes of `taskWObon/main.go` for a row: the
fields 0, 2, 4 and 3 are the name, the municipality, the IATA code and the
ICAO code. -/
def addRow (lookupTable : Table) (line : Str) : Table :=
  TaskWObon.insertRow lookupTable (field line 0) (field line 2) (field line 4) (field line 3)

/-- The table of a load that returned one. -/
def Outcome.table? : Outcome Table → Option Table
  | .ok t => some t
  | _ => none

/-- The headers of the test `TestOutputIsNotCreatedOnError/MalformedLookup`:
the six canonical column names with one of them left out. -/
def shortHeaders : List Str :=
  ["name,iso_country,municipality,icao_code,iata_code".toList,
   "name,iso_country,municipality,icao_code,coordinates".toList,
   "name,iso_country,municipality,iata_code,coordinates".toList,
   "name,iso_country,icao_code,iata_code,coordinates".toList,
   "name,municipality,icao_code,iata_code,coordinates".toList,
   "iso_country,municipality,icao_code,iata_code,coordinates".toList]

/-- The first rule of the normalisation on one character: vertical tab, form
feed and carriage return become a line feed. -/
def toNewline (c : Char) : Char :=
  if c = '\x0b' ∨ c = '\x0c' ∨ c = '\r' then '\n' else c

/-- The second rule of the normalisation: of every run of line feeds the
first two are kept.  The first argument counts the line feeds of the current
run that are already kept. -/
def collapseAux : Nat → Str → Str
  | _, [] => []
  | n, c :: t =>
    if c = '\n' then
      if n < 2 then '\n' :: collapseAux (n + 1) t else collapseAux n t
    else c :: collapseAux 0 t

/-- The reference normalisation of the specification: every vertical tab, form
feed and carriage return is replaced by a line feed, then every maximal run of
two or more line feeds by exactly two. -/
def normalizeRef (text : Str) : Str := collapseAux 0 (text.map toNewline)

/-- The space rule of `itineraryWithBonuses.go` read from left to right: after
a space, the whitespace that follows it is dropped.  The flag tells that the
character before was a space that is kept. -/
def squeeze : Bool → Str → Str
  | _, [] => []
  | b, c :: t => if b && whitespace c then squeeze true t else c :: squeeze (c == ' ') t

/-! ## Notation of the later statements -/

/-- A space, tab, line feed, vertical tab, form feed or carriage return. -/
def blank (c : Char) : Bool :=
  c == ' ' || c == '\t' || c == '\n' || c == '\x0b' || c == '\x0c' || c == '\r'

/-- The text without its spaces, tabs, line feeds, vertical tabs, form feeds
and carriage returns. -/
def deleteWhitespace (s : Str) : Str := s.filter fun c => !blank c

/-- The document made of the lines, each followed by the terminator. -/
def document (terminator : Str) (lines : List Str) : Str :=
  lines.flatMap fun line => line ++ terminator

/-- A text that can stand as a line of a document: it holds no line feed and
does not end in a carriage return. -/
def IsLine (line : Str) : Prop := '\n' ∉ line ∧ line.getLast? ≠ some '\r'

instance (line : Str) : Decidable (IsLine line) := by
  unfold IsLine; infer_instance

/-- The escape sequences that `trimColor` strips, in the order of its passes. -/
def colourCodes : List Str :=
  ["\x1b[0m".toList, "\x1b[30m".toList, "\x1b[34m".toList, "\x1b[35m".toList,
   "\x1b[36m".toList, "\x1b[37m".toList, "\x1b[31m".toList, "\x1b[32m".toList,
   "\x1b[33m".toList, "\x1b[40m".toList, "\x1b[41m".toList, "\x1b[42m".toList,
   "\x1b[43m".toList, "\x1b[44m".toList, "\x1b[45m".toList, "\x1b[46m".toList,
   "\x1b[47m".toList, "\x1b[1m".toList, "\x1b[22m".toList]

/-- A piece of a coloured text: plain text, or an escape sequence. -/
inductive Piece where
  | text : Str → Piece
  | code : Str → Piece
  deriving DecidableEq, Repr

/-- The characters of a piece. -/
def Piece.str : Piece → Str
  | .text s => s
  | .code c => c

/-- The plain text of a piece: nothing for an escape sequence. -/
def Piece.plain : Piece → Str
  | .text s => s
  | .code _ => []

/-- A piece is well formed: plain text holds no escape character, an escape
sequence is one of those that `trimColor` strips. -/
def Piece.ok : Piece → Prop
  | .text s => WithBonuses.esc ∉ s
  | .code c => c ∈ colourCodes

instance (p : Piece) : Decidable p.ok := by
  cases p <;> unfold Piece.ok <;> infer_instance

/-- The coloured text made of the pieces. -/
def render (ps : List Piece) : Str := ps.flatMap Piece.str

/-- The plain text of the pieces. -/
def plainText (ps : List Piece) : Str := ps.flatMap Piece.plain

/-- The value that `loadAirportLookup` of `itineraryWithBonuses.go` stores
under a key for the value that `taskWObon/main.go` stores: a municipality,
under a key that begins with `*`, is wrapped in `ESC[34m` and `ESC[0m`, a name
in `ESC[36m` and `ESC[0m`. -/
def tint (key value : Str) : Str :=
  (if key.head? = some '*' then "\x1b[34m".toList else "\x1b[36m".toList) ++ value
    ++ "\x1b[0m".toList

/-- The table after the four writes of `itineraryWithBonuses.go` for a row,
with the default column numbers 0, 2, 4 and 3. -/
def addRowColour (lookupTable : Table) (line : Str) : Table :=
  WithBonuses.insertRow lookupTable (field line 0) (field line 2) (field line 4) (field line 3)

/-! ## The matcher -/

theorem run_str (l s : Str) :
    (Regex.str l).run s = if l.isPrefixOf s then [s.drop l.length] else [] := by
  induction l generalizing s with
  | nil => simp [Regex.str, Regex.run]
  | cons a l ih =>
    cases s with
    | nil => simp [Regex.str, Regex.run]
    | cons b s =>
      by_cases h : b = a
      · subst h; simp [Regex.str, Regex.run, ih]
      · have h2 : ¬ a = b := fun e => h e.symm
        simp [Regex.str, Regex.run, h, h2]

theorem run_seq_str (l : Str) (r : Regex) (s : Str) :
    (Regex.seq (Regex.str l) r).run s = if l.isPrefixOf s then r.run (s.drop l.length) else [] := by
  rw [Regex.run, run_str]
  split <;> simp

theorem run_rep_cls (p : Char → Bool) (n : Nat) (s : Str) :
    (Regex.rep (.cls p) n).run s =
      if n ≤ s.length ∧ (s.take n).all p then [s.drop n] else [] := by
  induction n generalizing s with
  | zero => simp [Regex.rep, Regex.run]
  | succ n ih =>
    cases s with
    | nil => simp [Regex.rep, Regex.run]
    | cons a s =>
      by_cases h : p a
      · simp [Regex.rep, Regex.run, ih, h]
      · simp [Regex.rep, Regex.run, h]

theorem run_plus_lit (p : Char → Bool) (c : Char) (hc : p c = false) (s : Str) :
    (plusRun p s).flatMap (Regex.lit c).run =
      if s.takeWhile p ≠ [] ∧ (s.dropWhile p).head? = some c then [(s.dropWhile p).drop 1]
      else [] := by
  induction s with
  | nil => simp [plusRun]
  | cons a s ih =>
    by_cases h : p a
    · simp only [plusRun, h, if_true, List.flatMap_append, ih, List.takeWhile_cons,
        List.dropWhile_cons]
      cases s with
      | nil => simp [Regex.run]
      | cons b s =>
        by_cases hb : p b
        · simp [Regex.run, hb]
          intro hbc; subst hbc; simp [hc] at hb
        · by_cases hbc : b = c
          · subst hbc; simp [Regex.run, hb]
          · simp [Regex.run, hb, hbc]
    · simp [plusRun, h]

theorem run_code (tag : Str) (n : Nat) (s : Str) :
    (Regex.seq (Regex.str tag) (Regex.rep (.cls upper) n)).run s =
      if codeTok tag n s then [s.drop (tag.length + n)] else [] := by
  rw [run_seq_str, run_rep_cls]
  by_cases h1 : tag.isPrefixOf s = true
  · by_cases h2 : n ≤ (s.drop tag.length).length ∧ ((s.drop tag.length).take n).all upper = true
    · have h3 : codeTok tag n s = true := by
        simp only [codeTok, h1, Bool.true_and, Bool.and_eq_true, decide_eq_true_eq]
        exact h2
      rw [if_pos h1, if_pos h2, if_pos h3, List.drop_drop, Nat.add_comm]
    · have h3 : ¬ codeTok tag n s = true := by
        intro h; apply h2
        simpa only [codeTok, h1, Bool.true_and, Bool.and_eq_true, decide_eq_true_eq] using h
      rw [if_pos h1, if_neg h2, if_neg h3]
  · have h3 : ¬ codeTok tag n s = true := by
      intro h; apply h1; simp [codeTok] at h; simpa using h.1
    rw [if_neg h1, if_neg h3]

theorem run_paren (tag : Str) (s : Str) :
    (Regex.seq (Regex.str tag) (.seq (.plus notParen) (.lit ')'))).run s =
      if parenTok tag s then [((s.drop tag.length).dropWhile notParen).drop 1] else [] := by
  rw [run_seq_str]
  have hp : notParen ')' = false := by decide
  have e : (Regex.seq (.plus notParen) (.lit ')')).run (s.drop tag.length) =
      (plusRun notParen (s.drop tag.length)).flatMap (Regex.lit ')').run := rfl
  rw [e, run_plus_lit notParen ')' hp]
  by_cases h1 : tag.isPrefixOf s = true
  · by_cases h2 : (s.drop tag.length).takeWhile notParen ≠ [] ∧
        ((s.drop tag.length).dropWhile notParen).head? = some ')'
    · have h3 : parenTok tag s = true := by
        simp only [parenTok, h1, Bool.true_and, Bool.and_eq_true, Bool.not_eq_true',
          List.isEmpty_eq_false, beq_iff_eq]
        exact h2
      rw [if_pos h1, if_pos h2, if_pos h3]
    · have h3 : ¬ parenTok tag s = true := by
        intro h; apply h2
        simpa only [parenTok, h1, Bool.true_and, Bool.and_eq_true, Bool.not_eq_true',
          List.isEmpty_eq_false, beq_iff_eq] using h
      rw [if_pos h1, if_neg h2, if_neg h3]
  · have h3 : ¬ parenTok tag s = true := by
      intro h; apply h1; simp [parenTok] at h; simpa using h.1
    rw [if_neg h1, if_neg h3]

theorem run_alt (a b : Regex) (s : Str) : (Regex.alt a b).run s = a.run s ++ b.run s := rfl

theorem run_reWithCities (s : Str) :
    reWithCities.run s =
      (if codeTok "*#".toList 3 s then [s.drop 5] else [])
      ++ ((if codeTok "*##".toList 4 s then [s.drop 7] else [])
      ++ ((if codeTok "#".toList 3 s then [s.drop 4] else [])
      ++ ((if codeTok "##".toList 4 s then [s.drop 6] else [])
      ++ ((if parenTok "D(".toList s then [((s.drop 2).dropWhile notParen).drop 1] else [])
      ++ ((if parenTok "T12(".toList s then [((s.drop 4).dropWhile notParen).drop 1] else [])
      ++ (if parenTok "T24(".toList s then [((s.drop 4).dropWhile notParen).drop 1]
          else [])))))) := by
  simp only [reWithCities, Regex.alts, run_alt, reCityIata, reCityIcao, reIata, reIcao,
    reDate, reT12, reT24, run_code, run_paren]
  rfl

theorem run_reStandard (s : Str) :
    reStandard.run s =
      (if codeTok "#".toList 3 s then [s.drop 4] else [])
      ++ ((if codeTok "##".toList 4 s then [s.drop 6] else [])
      ++ ((if parenTok "D(".toList s then [((s.drop 2).dropWhile notParen).drop 1] else [])
      ++ ((if parenTok "T12(".toList s then [((s.drop 4).dropWhile notParen).drop 1] else [])
      ++ (if parenTok "T24(".toList s then [((s.drop 4).dropWhile notParen).drop 1]
          else [])))) := by
  simp only [reStandard, Regex.alts, run_alt, reIata, reIcao,
    reDate, reT12, reT24, run_code, run_paren]
  rfl

theorem codeTok_tag {tag : Str} {n : Nat} {s : Str} (h : codeTok tag n s = true) :
    tag.isPrefixOf s = true := by
  simp only [codeTok, Bool.and_eq_true] at h
  exact h.1

theorem parenTok_tag {tag : Str} {s : Str} (h : parenTok tag s = true) :
    tag.isPrefixOf s = true := by
  simp only [parenTok, Bool.and_eq_true] at h
  exact h.1

theorem isPrefixOf_left {a b s : Str} (h : (a ++ b).isPrefixOf s = true) :
    a.isPrefixOf s = true := by
  rw [List.isPrefixOf_iff_prefix] at h ⊢
  exact (List.prefix_append a b).trans h

theorem codeTok_false (tag : Str) (n : Nat) (s : Str) (a b : Str) (e : tag = a ++ b)
    (h : a.isPrefixOf s = false) : codeTok tag n s = false := by
  cases hc : codeTok tag n s
  · rfl
  · have := codeTok_tag hc
    rw [e] at this
    rw [isPrefixOf_left this] at h
    exact absurd h (by decide)

theorem parenTok_false (tag : Str) (s : Str) (a b : Str) (e : tag = a ++ b)
    (h : a.isPrefixOf s = false) : parenTok tag s = false := by
  cases hc : parenTok tag s
  · rfl
  · have := parenTok_tag hc
    rw [e] at this
    rw [isPrefixOf_left this] at h
    exact absurd h (by decide)

theorem run_withCities_nil (s : Str) (h : startsToken s = false) :
    reWithCities.run s = [] := by
  simp only [startsToken, hasPrefix, Bool.or_eq_false_iff] at h
  obtain ⟨⟨⟨⟨h1, h2⟩, h3⟩, h4⟩, h5⟩ := h
  rw [run_reWithCities, codeTok_false "*#".toList 3 s "*".toList "#".toList rfl h2,
    codeTok_false "*##".toList 4 s "*".toList "##".toList rfl h2,
    codeTok_false "#".toList 3 s "#".toList [] rfl h1,
    codeTok_false "##".toList 4 s "#".toList "#".toList rfl h1,
    parenTok_false "D(".toList s "D(".toList [] rfl h3,
    parenTok_false "T12(".toList s "T12(".toList [] rfl h4,
    parenTok_false "T24(".toList s "T24(".toList [] rfl h5]
  rfl

theorem run_standard_nil (s : Str) (h : startsToken s = false) :
    reStandard.run s = [] := by
  simp only [startsToken, hasPrefix, Bool.or_eq_false_iff] at h
  obtain ⟨⟨⟨⟨h1, _⟩, h3⟩, h4⟩, h5⟩ := h
  rw [run_reStandard, codeTok_false "#".toList 3 s "#".toList [] rfl h1,
    codeTok_false "##".toList 4 s "#".toList "#".toList rfl h1,
    parenTok_false "D(".toList s "D(".toList [] rfl h3,
    parenTok_false "T12(".toList s "T12(".toList [] rfl h4,
    parenTok_false "T24(".toList s "T24(".toList [] rfl h5]
  rfl

/-! ## The scan -/

theorem replaceAux_nil (re : Regex) (repl : Str → Option Str) (k : Nat) :
    replaceAux re repl k [] = some [] := by
  cases k <;> rfl

theorem replaceAux_pass (re : Regex) (repl : Str → Option Str) (m rest : Str) :
    replaceAux re repl m.length (m ++ rest) = replaceAux re repl 0 rest := by
  induction m with
  | nil => rfl
  | cons a m ih => simpa [replaceAux] using ih

theorem replaceAux_copy (re : Regex) (repl : Str → Option Str) (c : Char) (t : Str)
    (h : re.run (c :: t) = []) :
    replaceAux re repl 0 (c :: t) = (replaceAux re repl 0 t).map (c :: ·) := by
  have hm : matchLen re (c :: t) = none := by simp [matchLen, h]
  rw [replaceAux, hm]
  cases replaceAux re repl 0 t <;> rfl

theorem replaceAux_match (re : Regex) (repl : Str → Option Str) (c : Char) (m rest : Str)
    (h : (re.run (c :: m ++ rest)).head? = some rest) :
    replaceAux re repl 0 (c :: m ++ rest) =
      (repl (c :: m)).bind fun r => (replaceAux re repl 0 rest).map (r ++ ·) := by
  have hm : matchLen re (c :: (m ++ rest)) = some (m.length + 1) := by
    simp only [matchLen, List.cons_append] at h ⊢
    rw [h]
    simp only [Option.map_some', List.length_cons, List.length_append]
    congr 1; omega
  have ht : List.take (m.length + 1) (c :: (m ++ rest)) = c :: m := by simp
  rw [List.cons_append, replaceAux, hm]
  simp only [ht, replaceAux_pass]
  cases repl (c :: m) <;> cases replaceAux re repl 0 rest <;> rfl

theorem replaceAux_prefix (re : Regex) (repl : Str → Option Str) (p rest : Str)
    (h : ∀ q, q ≠ [] → q <:+ p → re.run (q ++ rest) = []) :
    replaceAux re repl 0 (p ++ rest) = (replaceAux re repl 0 rest).map (p ++ ·) := by
  induction p with
  | nil => simp
  | cons a p ih =>
    have h1 := h (a :: p) (by simp) (List.suffix_refl _)
    have h2 := ih fun q hq hs => h q hq (hs.trans (List.suffix_cons a p))
    rw [List.cons_append, replaceAux_copy re repl a (p ++ rest) h1, h2]
    cases replaceAux re repl 0 rest <;> rfl

theorem prefix_append_split (l q rest : Str) (h : l <+: q ++ rest) :
    l <+: q ∨ ∃ x, x ∈ l ∧ rest.head? = some x := by
  by_cases hle : l.length ≤ q.length
  · exact Or.inl (List.prefix_of_prefix_length_le h (List.prefix_append q rest) hle)
  · right
    have hq : q <+: l :=
      List.prefix_of_prefix_length_le (List.prefix_append q rest) h (by omega)
    obtain ⟨l', rfl⟩ := hq
    have h2 : l' <+: rest := (List.prefix_append_right_inj q).1 h
    rcases l' with _ | ⟨x, l'⟩
    · simp at hle
    · obtain ⟨r, rfl⟩ := h2
      exact ⟨x, by simp, by simp⟩

/-- After token-free text that is followed by nothing, by `#` or by `*`, no
suffix of the text begins like a token. -/
theorem tokenFree_suffix (p rest q : Str) (hp : TokenFree p)
    (hr : rest = [] ∨ rest.head? = some '#' ∨ rest.head? = some '*')
    (hq : q ≠ []) (hs : q <:+ p) : startsToken (q ++ rest) = false := by
  obtain ⟨h1, h2, h3, h4, h5⟩ := hp
  have hmem : ∀ x, x ∈ q → x ∈ p := fun x hx => hs.subset hx
  have key : ∀ l : Str, ¬ l <:+: p → '#' ∉ l → '*' ∉ l → l.isPrefixOf (q ++ rest) = false := by
    intro l hl hl1 hl2
    cases hc : l.isPrefixOf (q ++ rest)
    · rfl
    · exfalso
      rw [List.isPrefixOf_iff_prefix] at hc
      rcases prefix_append_split l q rest hc with h | ⟨x, hx, hx2⟩
      · exact hl (h.isInfix.trans hs.isInfix)
      · rcases hr with hr | hr | hr
        · rw [hr] at hx2; simp at hx2
        · rw [hr] at hx2; simp at hx2; exact hl1 (hx2 ▸ hx)
        · rw [hr] at hx2; simp at hx2; exact hl2 (hx2 ▸ hx)
  have hh : ∀ c : Char, c ∉ p → [c].isPrefixOf (q ++ rest) = false := by
    intro c hc
    rcases q with _ | ⟨a, q⟩
    · exact absurd rfl hq
    · have : a ≠ c := fun e => hc (e ▸ hmem a (by simp))
      have this2 : ¬ c = a := fun e => this e.symm
      simp [List.isPrefixOf, this2]
  simp only [startsToken, hasPrefix, Bool.or_eq_false_iff]
  exact ⟨⟨⟨⟨hh '#' h1, hh '*' h2⟩, key _ h3 (by decide) (by decide)⟩,
    key _ h4 (by decide) (by decide)⟩, key _ h5 (by decide) (by decide)⟩

/-- Token-free text is copied by the scan. -/
theorem replaceAux_tokenFree (re : Regex) (hre : ∀ s, startsToken s = false → re.run s = [])
    (repl : Str → Option Str) (p rest : Str) (hp : TokenFree p)
    (hr : rest = [] ∨ rest.head? = some '#' ∨ rest.head? = some '*') :
    replaceAux re repl 0 (p ++ rest) = (replaceAux re repl 0 rest).map (p ++ ·) :=
  replaceAux_prefix re repl p rest fun q hq hs => hre _ (tokenFree_suffix p rest q hp hr hq hs)

theorem replaceAux_tokenFree_end (re : Regex)
    (hre : ∀ s, startsToken s = false → re.run s = [])
    (repl : Str → Option Str) (s : Str) (hs : TokenFree s) :
    replaceAux re repl 0 s = some s := by
  have := replaceAux_tokenFree re hre repl s [] hs (Or.inl rfl)
  simpa [replaceAux_nil] using this

theorem isCode3 {c : Str} (h : IsCode 3 c) :
    ∃ x y z, c = [x, y, z] ∧ upper x = true ∧ upper y = true ∧ upper z = true := by
  obtain ⟨hl, hu⟩ := h
  obtain ⟨x, y, z, rfl⟩ := List.length_eq_three.1 hl
  exact ⟨x, y, z, rfl, hu x (by simp), hu y (by simp), hu z (by simp)⟩

theorem isCode4 {c : Str} (h : IsCode 4 c) :
    ∃ x y z w, c = [x, y, z, w] ∧ upper x = true ∧ upper y = true ∧ upper z = true
      ∧ upper w = true := by
  obtain ⟨hl, hu⟩ := h
  rcases c with _ | ⟨x, _ | ⟨y, _ | ⟨z, _ | ⟨w, _ | ⟨v, c⟩⟩⟩⟩⟩ <;> simp at hl
  exact ⟨x, y, z, w, rfl, hu x (by simp), hu y (by simp), hu z (by simp), hu w (by simp)⟩

theorem upper_hash : upper '#' = false := by decide

theorem head_iata (c rest : Str) (h : IsCode 3 c) :
    (reWithCities.run ('#' :: c ++ rest)).head? = some rest := by
  obtain ⟨x, y, z, rfl, hx, hy, hz⟩ := isCode3 h
  simp [run_reWithCities, codeTok, List.isPrefixOf, hx, hy, hz]

theorem head_icao (c rest : Str) (h : IsCode 4 c) :
    (reWithCities.run ('#' :: '#' :: c ++ rest)).head? = some rest := by
  obtain ⟨x, y, z, w, rfl, hx, hy, hz, hw⟩ := isCode4 h
  simp [run_reWithCities, codeTok, List.isPrefixOf, hx, hy, hz, hw, upper_hash]

theorem head_cityIata (c rest : Str) (h : IsCode 3 c) :
    (reWithCities.run ('*' :: '#' :: c ++ rest)).head? = some rest := by
  obtain ⟨x, y, z, rfl, hx, hy, hz⟩ := isCode3 h
  simp [run_reWithCities, codeTok, List.isPrefixOf, hx, hy, hz]

theorem head_cityIcao (c rest : Str) (h : IsCode 4 c) :
    (reWithCities.run ('*' :: '#' :: '#' :: c ++ rest)).head? = some rest := by
  obtain ⟨x, y, z, w, rfl, hx, hy, hz, hw⟩ := isCode4 h
  simp [run_reWithCities, codeTok, List.isPrefixOf, hx, hy, hz, hw, upper_hash]

theorem head_iata_std (c rest : Str) (h : IsCode 3 c) :
    (reStandard.run ('#' :: c ++ rest)).head? = some rest := by
  obtain ⟨x, y, z, rfl, hx, hy, hz⟩ := isCode3 h
  simp [run_reStandard, codeTok, List.isPrefixOf, hx, hy, hz]

theorem head_icao_std (c rest : Str) (h : IsCode 4 c) :
    (reStandard.run ('#' :: '#' :: c ++ rest)).head? = some rest := by
  obtain ⟨x, y, z, w, rfl, hx, hy, hz, hw⟩ := isCode4 h
  simp [run_reStandard, codeTok, List.isPrefixOf, hx, hy, hz, hw, upper_hash]

/-- The callback on a name token: the table entry, or the token itself. -/
theorem replacer_name (T : Table) (m : Str) :
    TaskWObon.replacer T ('#' :: m) = some ((T.get ('#' :: m)).getD ('#' :: m)) := by
  simp only [TaskWObon.replacer, hasPrefix]
  have : ("#".toList).isPrefixOf ('#' :: m) = true := by simp [List.isPrefixOf]
  rw [this]
  cases T.get ('#' :: m) <;> rfl

/-- The callback on a city token: the table entry, or the token itself. -/
theorem replacer_city (T : Table) (m : Str) :
    TaskWObon.replacer T ('*' :: '#' :: m) =
      some ((T.get ('*' :: '#' :: m)).getD ('*' :: '#' :: m)) := by
  simp only [TaskWObon.replacer, hasPrefix]
  have h1 : ("#".toList).isPrefixOf ('*' :: '#' :: m) = false := by simp [List.isPrefixOf]
  have h2 : ("##".toList).isPrefixOf ('*' :: '#' :: m) = false := by simp [List.isPrefixOf]
  have h3 : ("*#".toList).isPrefixOf ('*' :: '#' :: m) = true := by simp [List.isPrefixOf]
  rw [h1, h2, h3]
  cases T.get ('*' :: '#' :: m) <;> rfl

/-- In `taskWObon/main.go`, a token found between token-free texts is replaced
by what the callback returns for it. -/
theorem processLine_token (T : Table) (p s m : Str) (c : Char) (r : Str)
    (hc : c = '#' ∨ c = '*') (hp : TokenFree p) (hs : TokenFree s)
    (hm : (reWithCities.run (c :: m ++ s)).head? = some s)
    (hr : TaskWObon.replacer T (c :: m) = some r) :
    TaskWObon.processLine T (p ++ (c :: m ++ s)) = some (p ++ r ++ s) := by
  unfold TaskWObon.processLine replaceAllStringFunc
  rw [replaceAux_tokenFree reWithCities run_withCities_nil _ p _ hp
      (by rcases hc with rfl | rfl <;> simp),
    replaceAux_match reWithCities _ c m s hm, hr,
    replaceAux_tokenFree_end reWithCities run_withCities_nil _ s hs]
  simp

/-! ## Airport names -/

/-- C1: in `taskWObon/main.go`, for every table, every code `c` of exactly 3
uppercase letters with an entry `name` for `#c` (resp. of exactly 4 uppercase
letters with an entry for `##c`) and every prefix `p` and suffix `s` that
contain no `#`, no `*` and none of `D(`, `T12(`, `T24(`,
`processLine(p + "#" + c + s) = p + name + s` (resp. with `##`), whatever the
entry contains.  The side condition of the claim, that `p` does not end and
`s` does not begin with a letter or digit, is not needed. -/
theorem C1_known_code_is_replaced_by_its_name (T : Table) (c name p s : Str)
    (hp : TokenFree p) (hs : TokenFree s) :
    (IsCode 3 c → T.get ("#".toList ++ c) = some name →
      TaskWObon.processLine T (p ++ ("#".toList ++ c ++ s)) = some (p ++ name ++ s)) ∧
    (IsCode 4 c → T.get ("##".toList ++ c) = some name →
      TaskWObon.processLine T (p ++ ("##".toList ++ c ++ s)) = some (p ++ name ++ s)) := by
  constructor
  · intro hc hn
    refine processLine_token T p s c '#' name (Or.inl rfl) hp hs (head_iata c s hc) ?_
    rw [replacer_name]
    change some ((T.get ("#".toList ++ c)).getD _) = _
    rw [hn]; rfl
  · intro hc hn
    refine processLine_token T p s ('#' :: c) '#' name (Or.inl rfl) hp hs (head_icao c s hc) ?_
    rw [replacer_name]
    change some ((T.get ("##".toList ++ c)).getD _) = _
    rw [hn]; rfl

/-- C1, at the table of the test suite: `a #HIR, b` and `(##AGGH)`. -/
theorem C1_known_code_is_replaced_by_its_name_witness :
    TaskWObon.processLine basicTable "a #HIR, b".toList
        = some "a Honiara International Airport, b".toList ∧
      TaskWObon.processLine basicTable "(##AGGH)".toList
        = some "(Honiara International Airport)".toList :=
  ⟨(C1_known_code_is_replaced_by_its_name basicTable "HIR".toList
      "Honiara International Airport".toList "a ".toList ", b".toList
      (by decide) (by decide)).1 (by decide) (by decide),
   (C1_known_code_is_replaced_by_its_name basicTable "AGGH".toList
      "Honiara International Airport".toList "(".toList ")".toList
      (by decide) (by decide)).2 (by decide) (by decide)⟩

/-- C2: the code does not do what the claim says.  A name token that directly
follows a letter or digit is substituted all the same: `word#AHJ` becomes
`wordHongyuan Airport` and `123##ZUHY` becomes `123Hongyuan Airport`, in
`taskWObon/main.go` and, after `trimColor`, in `itineraryWithBonuses.go`. -/
theorem C2_code_after_alphanumeric_is_substituted :
    TaskWObon.processLine basicTable "word#AHJ".toList = some "wordHongyuan Airport".toList ∧
    TaskWObon.processLine basicTable "123##ZUHY".toList = some "123Hongyuan Airport".toList ∧
    (WithBonuses.processLine false basicTableColour "word#AHJ".toList).map WithBonuses.trimColor
      = some "wordHongyuan Airport".toList := by
  decide

/-- C3: the code does not do what the claim says.  A name token that is
directly followed by a letter or digit is substituted all the same: `#AHJword`
becomes `Hongyuan Airportword`, `#AHJ123` becomes `Hongyuan Airport123`, and
`#AHJX`, a hash with four uppercase letters, becomes `Hongyuan AirportX`. -/
theorem C3_code_before_alphanumeric_is_substituted :
    TaskWObon.processLine basicTable "#AHJword".toList = some "Hongyuan Airportword".toList ∧
    TaskWObon.processLine basicTable "#AHJ123".toList = some "Hongyuan Airport123".toList ∧
    TaskWObon.processLine basicTable "#AHJX".toList = some "Hongyuan AirportX".toList := by
  decide

/-- C4: in `taskWObon/main.go`, for every table and every code `c` of exactly
3 uppercase letters with no entry `#c` (resp. of exactly 4 uppercase letters
with no entry `##c`), `processLine("#" + c) = "#" + c` (resp.
`processLine("##" + c) = "##" + c`). -/
theorem C4_unknown_code_is_left_unchanged (T : Table) (c : Str) :
    (IsCode 3 c → T.get ("#".toList ++ c) = none →
      TaskWObon.processLine T ("#".toList ++ c) = some ("#".toList ++ c)) ∧
    (IsCode 4 c → T.get ("##".toList ++ c) = none →
      TaskWObon.processLine T ("##".toList ++ c) = some ("##".toList ++ c)) := by
  have e : TokenFree [] := by decide
  constructor
  · intro hc hn
    have h := processLine_token T [] [] c '#' ("#".toList ++ c) (Or.inl rfl) e e
      (by simpa using head_iata c [] hc)
      (by rw [replacer_name]
          change some ((T.get ("#".toList ++ c)).getD _) = _
          rw [hn]; rfl)
    simpa using h
  · intro hc hn
    have h := processLine_token T [] [] ('#' :: c) '#' ("##".toList ++ c) (Or.inl rfl) e e
      (by simpa using head_icao c [] hc)
      (by rw [replacer_name]
          change some ((T.get ("##".toList ++ c)).getD _) = _
          rw [hn]; rfl)
    simpa using h

/-- C4, at the table of the test suite: `#XYZ` and `##WXYZ` are unknown. -/
theorem C4_unknown_code_is_left_unchanged_witness :
    TaskWObon.processLine basicTable "#XYZ".toList = some "#XYZ".toList ∧
      TaskWObon.processLine basicTable "##WXYZ".toList = some "##WXYZ".toList :=
  ⟨(C4_unknown_code_is_left_unchanged basicTable "XYZ".toList).1 (by decide) (by decide),
   (C4_unknown_code_is_left_unchanged basicTable "WXYZ".toList).2 (by decide) (by decide)⟩

/-- C5: the code does not do what the claim says.  With an entry for `#AHJ`,
the four-character code `AHJ1`, which contains a digit, is substituted in part:
`##AHJ1` becomes `#Hongyuan Airport1` and `*##AHJb` becomes
`*#Hongyuan Airportb`. -/
theorem C5_code_with_digit_is_substituted_in_part :
    TaskWObon.processLine basicTable "##AHJ1".toList = some "#Hongyuan Airport1".toList ∧
    TaskWObon.processLine basicTable "*##AHJb".toList = some "*#Hongyuan Airportb".toList := by
  decide

theorem length_drop_lt (k : Nat) (s : Str) (hk : 0 < k) (hs : s ≠ []) :
    (s.drop k).length < s.length := by
  have : 0 < s.length := List.length_pos.2 hs
  rw [List.length_drop]; omega

theorem ne_nil_of_isPrefixOf (tag s : Str) (ht : tag ≠ []) (h : tag.isPrefixOf s = true) :
    s ≠ [] := by
  rintro rfl
  rcases tag with _ | ⟨a, tag⟩
  · exact ht rfl
  · simp [List.isPrefixOf] at h

theorem length_paren_rest (s : Str) (k : Nat) (hk : 0 < k) (hs : s ≠ []) :
    (((s.drop k).dropWhile notParen).drop 1).length < s.length := by
  have h1 := length_drop_lt k s hk hs
  have h2 : ((s.drop k).dropWhile notParen).length ≤ (s.drop k).length :=
    (List.dropWhile_suffix notParen).length_le
  rw [List.length_drop]; omega

/-- Every match of the pattern with the city forms takes at least one
character: the scan never meets an empty match. -/
theorem run_withCities_consumes (s r : Str) (h : r ∈ reWithCities.run s) :
    r.length < s.length := by
  rw [run_reWithCities] at h
  simp only [List.mem_append] at h
  rcases h with h | h | h | h | h | h | h <;> split at h <;>
    simp only [List.mem_singleton, List.not_mem_nil] at h
  all_goals rename_i hc; subst h
  · exact length_drop_lt 5 s (by decide) (ne_nil_of_isPrefixOf _ s (by decide) (codeTok_tag hc))
  · exact length_drop_lt 7 s (by decide) (ne_nil_of_isPrefixOf _ s (by decide) (codeTok_tag hc))
  · exact length_drop_lt 4 s (by decide) (ne_nil_of_isPrefixOf _ s (by decide) (codeTok_tag hc))
  · exact length_drop_lt 6 s (by decide) (ne_nil_of_isPrefixOf _ s (by decide) (codeTok_tag hc))
  · exact length_paren_rest s 2 (by decide)
      (ne_nil_of_isPrefixOf _ s (by decide) (parenTok_tag hc))
  · exact length_paren_rest s 4 (by decide)
      (ne_nil_of_isPrefixOf _ s (by decide) (parenTok_tag hc))
  · exact length_paren_rest s 4 (by decide)
      (ne_nil_of_isPrefixOf _ s (by decide) (parenTok_tag hc))

/-- Every match of the standard pattern takes at least one character. -/
theorem run_standard_consumes (s r : Str) (h : r ∈ reStandard.run s) :
    r.length < s.length := by
  rw [run_reStandard] at h
  simp only [List.mem_append] at h
  rcases h with h | h | h | h | h <;> split at h <;>
    simp only [List.mem_singleton, List.not_mem_nil] at h
  all_goals rename_i hc; subst h
  · exact length_drop_lt 4 s (by decide) (ne_nil_of_isPrefixOf _ s (by decide) (codeTok_tag hc))
  · exact length_drop_lt 6 s (by decide) (ne_nil_of_isPrefixOf _ s (by decide) (codeTok_tag hc))
  · exact length_paren_rest s 2 (by decide)
      (ne_nil_of_isPrefixOf _ s (by decide) (parenTok_tag hc))
  · exact length_paren_rest s 4 (by decide)
      (ne_nil_of_isPrefixOf _ s (by decide) (parenTok_tag hc))
  · exact length_paren_rest s 4 (by decide)
      (ne_nil_of_isPrefixOf _ s (by decide) (parenTok_tag hc))

/-- The patterns of the program match no empty string. -/
theorem matchLen_ne_zero (s : Str) :
    matchLen reWithCities s ≠ some 0 ∧ matchLen reStandard s ≠ some 0 := by
  constructor
  · intro h
    unfold matchLen at h
    cases hr : (reWithCities.run s).head? with
    | none => rw [hr] at h; simp at h
    | some r =>
      rw [hr] at h
      have := run_withCities_consumes s r (List.mem_of_mem_head? hr)
      simp at h; omega
  · intro h
    unfold matchLen at h
    cases hr : (reStandard.run s).head? with
    | none => rw [hr] at h; simp at h
    | some r =>
      rw [hr] at h
      have := run_standard_consumes s r (List.mem_of_mem_head? hr)
      simp at h; omega

/-! ## City tokens and the two modes -/

theorem bonus_replacer_name (T : Table) (m : Str) :
    WithBonuses.replacer T ('#' :: m) = some ((T.get ('#' :: m)).getD ('#' :: m)) := by
  simp only [WithBonuses.replacer, hasPrefix]
  have : ("#".toList).isPrefixOf ('#' :: m) = true := by simp [List.isPrefixOf]
  rw [this]
  cases T.get ('#' :: m) <;> rfl

theorem bonus_replacer_city (T : Table) (m : Str) :
    WithBonuses.replacer T ('*' :: '#' :: m) =
      some ((T.get ('*' :: '#' :: m)).getD ('*' :: '#' :: m)) := by
  simp only [WithBonuses.replacer, hasPrefix]
  have h1 : ("#".toList).isPrefixOf ('*' :: '#' :: m) = false := by simp [List.isPrefixOf]
  have h2 : ("##".toList).isPrefixOf ('*' :: '#' :: m) = false := by simp [List.isPrefixOf]
  have h3 : ("*#".toList).isPrefixOf ('*' :: '#' :: m) = true := by simp [List.isPrefixOf]
  rw [h1, h2, h3]
  cases T.get ('*' :: '#' :: m) <;> rfl

/-- In bonus mode of `itineraryWithBonuses.go`, a token found between
token-free texts is replaced by what the callback returns for it. -/
theorem bonus_processLine_token (T : Table) (p s m : Str) (c : Char) (r : Str)
    (hc : c = '#' ∨ c = '*') (hp : TokenFree p) (hs : TokenFree s)
    (hm : (reWithCities.run (c :: m ++ s)).head? = some s)
    (hr : WithBonuses.replacer T (c :: m) = some r) :
    WithBonuses.processLine true T (p ++ (c :: m ++ s)) = some (p ++ r ++ s) := by
  unfold WithBonuses.processLine replaceAllStringFunc
  simp only [if_true]
  rw [replaceAux_tokenFree reWithCities run_withCities_nil _ p _ hp
      (by rcases hc with rfl | rfl <;> simp),
    replaceAux_match reWithCities _ c m s hm, hr,
    replaceAux_tokenFree_end reWithCities run_withCities_nil _ s hs]
  simp

theorem run_standard_star (s : Str) : reStandard.run ('*' :: s) = [] := by
  simp [run_reStandard, codeTok, parenTok, List.isPrefixOf]

/-- In standard mode a `*` is copied and the scan goes on behind it. -/
theorem standard_star (T : Table) (m r : Str)
    (hm : (reStandard.run ('#' :: m)).head? = some [])
    (hr : WithBonuses.replacer T ('#' :: m) = some r) :
    WithBonuses.processLine false T ('*' :: '#' :: m) = some ('*' :: r) := by
  unfold WithBonuses.processLine replaceAllStringFunc
  simp only [Bool.false_eq_true, if_false]
  rw [replaceAux_copy reStandard _ '*' _ (run_standard_star _)]
  have h := replaceAux_match reStandard (WithBonuses.replacer T) '#' m [] (by simpa using hm)
  simp only [List.append_nil] at h
  rw [h, hr]
  simp [replaceAux_nil]

/-- C6, as the code has it: in standard mode (`bonusFlag` false) of
`itineraryWithBonuses.go`, for every table and every code `c` of 3 uppercase
letters, `processLine("*#" + c)` is `*` followed by the entry for `#c`, and is
`"*#" + c` unchanged when there is no such entry; for every code `d` of 4
uppercase letters, `processLine("*##" + d)` is `*` followed by the entry for
`##d`, and is `"*##" + d` unchanged when there is none.  The city entries
`*#c` and `*##d` are never read. -/
theorem C6_standard_mode_reads_the_name_token_behind_the_star (T : Table) (c d : Str)
    (hc : IsCode 3 c) (hd : IsCode 4 d) :
    WithBonuses.processLine false T ("*#".toList ++ c)
        = some ("*".toList ++ (T.get ("#".toList ++ c)).getD ("#".toList ++ c)) ∧
      WithBonuses.processLine false T ("*##".toList ++ d)
        = some ("*".toList ++ (T.get ("##".toList ++ d)).getD ("##".toList ++ d)) := by
  constructor
  · exact standard_star T c _ (by simpa using head_iata_std c [] hc) (bonus_replacer_name T c)
  · exact standard_star T ('#' :: d) _ (by simpa using head_icao_std d [] hd)
      (bonus_replacer_name T ('#' :: d))

/-- C6, at the table of the test suite: `*#HIR` and `*##AGGH`. -/
theorem C6_standard_mode_reads_the_name_token_behind_the_star_witness :
    WithBonuses.processLine false basicTableColour "*#HIR".toList
        = some "*\x1b[36mHoniara International Airport\x1b[0m".toList ∧
      WithBonuses.processLine false basicTableColour "*##AGGH".toList
        = some "*\x1b[36mHoniara International Airport\x1b[0m".toList :=
  C6_standard_mode_reads_the_name_token_behind_the_star basicTableColour "HIR".toList
    "AGGH".toList (by decide) (by decide)

/-- C6 as stated fails: in standard mode, with the table of the test suite,
`processLine("*#HIR")` is not `*#HIR`. -/
theorem C6_counterexample :
    WithBonuses.processLine false basicTableColour "*#HIR".toList ≠ some "*#HIR".toList := by
  decide

/-! ## Colour codes -/

theorem removeAllAux_nil (old : Str) (k : Nat) : removeAllAux old k [] = [] := by
  cases k <;> rfl

theorem removeAllAux_pass (old m rest : Str) :
    removeAllAux old m.length (m ++ rest) = removeAllAux old 0 rest := by
  induction m with
  | nil => rfl
  | cons a m ih => simpa [removeAllAux] using ih

/-- Text without the first character of `old` is copied. -/
theorem removeAll_copy (e : Char) (old a b : Str) (ha : e ∉ a) :
    removeAllAux (e :: old) 0 (a ++ b) = a ++ removeAllAux (e :: old) 0 b := by
  induction a with
  | nil => rfl
  | cons x a ih =>
    have hx : ¬ e = x := fun h => ha (by simp [h])
    have ha2 : e ∉ a := fun h => ha (by simp [h])
    simp [removeAllAux, List.isPrefixOf, hx, ih ha2]

/-- An occurrence of `old` is dropped. -/
theorem removeAll_drop (e : Char) (old b : Str) :
    removeAllAux (e :: old) 0 (e :: old ++ b) = removeAllAux (e :: old) 0 b := by
  have h : (e :: old).isPrefixOf (e :: (old ++ b)) = true := by
    rw [List.isPrefixOf_iff_prefix]
    exact List.prefix_append (e :: old) b
  rw [List.cons_append, removeAllAux, if_pos h]
  exact removeAllAux_pass (e :: old) old b

/-- A sequence that begins like `old` but is another one is copied. -/
theorem removeAll_other (e : Char) (old seq b : Str) (hs : e ∉ seq)
    (hne : (e :: old).isPrefixOf (e :: seq ++ b) = false) :
    removeAllAux (e :: old) 0 (e :: seq ++ b) = e :: seq ++ removeAllAux (e :: old) 0 b := by
  rw [List.cons_append] at hne ⊢
  rw [removeAllAux, hne]
  simp only [Bool.false_eq_true, if_false, List.cons_append]
  rw [removeAll_copy e old seq b hs]

theorem removeAll_free (e : Char) (old a : Str) (ha : e ∉ a) :
    removeAll (e :: old) a = a := by
  have := removeAll_copy e old a [] ha
  simpa [removeAll, removeAllAux_nil] using this

/-- Text without escape character is left as it is by `trimColor`. -/
theorem trimColor_free (a : Str) (ha : WithBonuses.esc ∉ a) : WithBonuses.trimColor a = a := by
  have h : ∀ old : Str, removeAll ('\x1b' :: old) a = a := fun old =>
    removeAll_free _ old a ha
  simp only [WithBonuses.trimColor]
  simp only [show "\x1b[0m".toList = '\x1b' :: "[0m".toList from rfl,
    show "\x1b[30m".toList = '\x1b' :: "[30m".toList from rfl,
    show "\x1b[31m".toList = '\x1b' :: "[31m".toList from rfl,
    show "\x1b[32m".toList = '\x1b' :: "[32m".toList from rfl,
    show "\x1b[33m".toList = '\x1b' :: "[33m".toList from rfl,
    show "\x1b[34m".toList = '\x1b' :: "[34m".toList from rfl,
    show "\x1b[35m".toList = '\x1b' :: "[35m".toList from rfl,
    show "\x1b[36m".toList = '\x1b' :: "[36m".toList from rfl,
    show "\x1b[37m".toList = '\x1b' :: "[37m".toList from rfl,
    show "\x1b[40m".toList = '\x1b' :: "[40m".toList from rfl,
    show "\x1b[41m".toList = '\x1b' :: "[41m".toList from rfl,
    show "\x1b[42m".toList = '\x1b' :: "[42m".toList from rfl,
    show "\x1b[43m".toList = '\x1b' :: "[43m".toList from rfl,
    show "\x1b[44m".toList = '\x1b' :: "[44m".toList from rfl,
    show "\x1b[45m".toList = '\x1b' :: "[45m".toList from rfl,
    show "\x1b[46m".toList = '\x1b' :: "[46m".toList from rfl,
    show "\x1b[47m".toList = '\x1b' :: "[47m".toList from rfl,
    show "\x1b[1m".toList = '\x1b' :: "[1m".toList from rfl,
    show "\x1b[22m".toList = '\x1b' :: "[22m".toList from rfl, h]

/-- The colour codes around a city are stripped by `trimColor`. -/
theorem trimColor_city (p m s : Str) (hp : WithBonuses.esc ∉ p) (hm : WithBonuses.esc ∉ m)
    (hs : WithBonuses.esc ∉ s) :
    WithBonuses.trimColor (p ++ ("\x1b[34m".toList ++ m ++ "\x1b[0m".toList) ++ s)
      = p ++ m ++ s := by
  have hp : '\x1b' ∉ p := hp
  have hm : '\x1b' ∉ m := hm
  have hs : '\x1b' ∉ s := hs
  have hms : '\x1b' ∉ m ++ s := by simp [hm, hs]
  have hpms : '\x1b' ∉ p ++ m ++ s := by simp [hp, hm, hs]
  have hseq : '\x1b' ∉ "[34m".toList := by decide
  -- the pass for `ESC[0m`
  have e1 : removeAll "\x1b[0m".toList
      (p ++ ("\x1b[34m".toList ++ m ++ "\x1b[0m".toList) ++ s)
      = p ++ ('\x1b' :: "[34m".toList ++ (m ++ s)) := by
    have e : p ++ ("\x1b[34m".toList ++ m ++ "\x1b[0m".toList) ++ s
        = p ++ ('\x1b' :: "[34m".toList ++ (m ++ ('\x1b' :: "[0m".toList ++ s))) := by
      simp
    rw [e]
    show removeAllAux ('\x1b' :: "[0m".toList) 0 _ = _
    rw [removeAll_copy _ _ p _ hp, removeAll_other _ _ "[34m".toList _ hseq (by simp [List.isPrefixOf]),
      removeAll_copy _ _ m _ hm, removeAll_drop, ← List.append_nil s,
      removeAll_copy _ _ s [] hs, removeAllAux_nil]
  -- the pass for `ESC[30m`
  have e2 : removeAll "\x1b[30m".toList (p ++ ('\x1b' :: "[34m".toList ++ (m ++ s)))
      = p ++ ('\x1b' :: "[34m".toList ++ (m ++ s)) := by
    show removeAllAux ('\x1b' :: "[30m".toList) 0 _ = _
    rw [removeAll_copy _ _ p _ hp, removeAll_other _ _ "[34m".toList _ hseq (by simp [List.isPrefixOf]),
      ← List.append_nil (m ++ s), removeAll_copy _ _ (m ++ s) [] hms, removeAllAux_nil]
  -- the pass for `ESC[34m`
  have e3 : removeAll "\x1b[34m".toList (p ++ ('\x1b' :: "[34m".toList ++ (m ++ s)))
      = p ++ m ++ s := by
    show removeAllAux ('\x1b' :: "[34m".toList) 0 _ = _
    rw [removeAll_copy _ _ p _ hp, removeAll_drop, ← List.append_nil (m ++ s),
      removeAll_copy _ _ (m ++ s) [] hms, removeAllAux_nil]
    simp
  have h : ∀ old : Str, removeAll ('\x1b' :: old) (p ++ m ++ s) = p ++ m ++ s := fun old =>
    removeAll_free _ old _ hpms
  simp only [WithBonuses.trimColor, e1, e2, e3]
  simp only [
    show "\x1b[31m".toList = '\x1b' :: "[31m".toList from rfl,
    show "\x1b[32m".toList = '\x1b' :: "[32m".toList from rfl,
    show "\x1b[33m".toList = '\x1b' :: "[33m".toList from rfl,
    show "\x1b[35m".toList = '\x1b' :: "[35m".toList from rfl,
    show "\x1b[36m".toList = '\x1b' :: "[36m".toList from rfl,
    show "\x1b[37m".toList = '\x1b' :: "[37m".toList from rfl,
    show "\x1b[40m".toList = '\x1b' :: "[40m".toList from rfl,
    show "\x1b[41m".toList = '\x1b' :: "[41m".toList from rfl,
    show "\x1b[42m".toList = '\x1b' :: "[42m".toList from rfl,
    show "\x1b[43m".toList = '\x1b' :: "[43m".toList from rfl,
    show "\x1b[44m".toList = '\x1b' :: "[44m".toList from rfl,
    show "\x1b[45m".toList = '\x1b' :: "[45m".toList from rfl,
    show "\x1b[46m".toList = '\x1b' :: "[46m".toList from rfl,
    show "\x1b[47m".toList = '\x1b' :: "[47m".toList from rfl,
    show "\x1b[1m".toList = '\x1b' :: "[1m".toList from rfl,
    show "\x1b[22m".toList = '\x1b' :: "[22m".toList from rfl, h]

theorem get_city (T0 : Table) (name m c d : Str) (hc : IsCode 3 c) (hd : IsCode 4 d) :
    (TaskWObon.insertRow T0 name m c d).get ("*#".toList ++ c) = some m ∧
    (TaskWObon.insertRow T0 name m c d).get ("*##".toList ++ d) = some m := by
  obtain ⟨x, y, z, rfl, hx, hy, hz⟩ := isCode3 hc
  obtain ⟨x', y', z', w', rfl, hx', hy', hz', hw'⟩ := isCode4 hd
  constructor <;>
    simp [TaskWObon.insertRow, Table.get, Table.set, List.lookup]

theorem bonus_get_city (T0 : Table) (name m c d : Str) (hc : IsCode 3 c) (hd : IsCode 4 d) :
    (WithBonuses.insertRow T0 name m c d).get ("*#".toList ++ c)
      = some ("\x1b[34m".toList ++ m ++ "\x1b[0m".toList) ∧
    (WithBonuses.insertRow T0 name m c d).get ("*##".toList ++ d)
      = some ("\x1b[34m".toList ++ m ++ "\x1b[0m".toList) := by
  obtain ⟨x, y, z, rfl, hx, hy, hz⟩ := isCode3 hc
  obtain ⟨x', y', z', w', rfl, hx', hy', hz', hw'⟩ := isCode4 hd
  constructor <;>
    simp [WithBonuses.insertRow, Table.get, Table.set, List.lookup]

/-- C7, amended: with the city forms enabled, for every table to which a row
with municipality `m`, IATA code `c` (3 uppercase letters) and ICAO code `d`
(4 uppercase letters) has been added last, and every prefix `p` and suffix `s`
that contain no `#`, no `*` and none of `D(`, `T12(`, `T24(` and do not touch
the token with a letter or digit: in `taskWObon/main.go`,
`processLine(p + "*#" + c + s)` and `processLine(p + "*##" + d + s)` are
`p + m + s`; in `itineraryWithBonuses.go` with `bonusFlag` true, `trimColor` of
the two results is `p + m + s` when `p`, `m` and `s` contain no escape
character. -/
theorem C7_city_token_is_replaced_by_the_municipality (T0 : Table) (name m c d p s : Str)
    (hc : IsCode 3 c) (hd : IsCode 4 d) (hp : TokenFree p) (hs : TokenFree s)
    (_ht : touches p s = false) :
    (TaskWObon.processLine (TaskWObon.insertRow T0 name m c d) (p ++ ("*#".toList ++ c ++ s))
        = some (p ++ m ++ s) ∧
      TaskWObon.processLine (TaskWObon.insertRow T0 name m c d) (p ++ ("*##".toList ++ d ++ s))
        = some (p ++ m ++ s)) ∧
    (WithBonuses.esc ∉ p → WithBonuses.esc ∉ m → WithBonuses.esc ∉ s →
      (WithBonuses.processLine true (WithBonuses.insertRow T0 name m c d)
          (p ++ ("*#".toList ++ c ++ s))).map WithBonuses.trimColor = some (p ++ m ++ s) ∧
      (WithBonuses.processLine true (WithBonuses.insertRow T0 name m c d)
          (p ++ ("*##".toList ++ d ++ s))).map WithBonuses.trimColor = some (p ++ m ++ s)) := by
  obtain ⟨g1, g2⟩ := get_city T0 name m c d hc hd
  obtain ⟨b1, b2⟩ := bonus_get_city T0 name m c d hc hd
  refine ⟨⟨?_, ?_⟩, fun ep em es => ⟨?_, ?_⟩⟩
  · refine processLine_token _ p s ('#' :: c) '*' m (Or.inr rfl) hp hs (head_cityIata c s hc) ?_
    rw [replacer_city]
    change some ((Table.get _ ("*#".toList ++ c)).getD _) = _
    rw [g1]; rfl
  · refine processLine_token _ p s ('#' :: '#' :: d) '*' m (Or.inr rfl) hp hs
      (head_cityIcao d s hd) ?_
    rw [replacer_city]
    change some ((Table.get _ ("*##".toList ++ d)).getD _) = _
    rw [g2]; rfl
  · have h := bonus_processLine_token (WithBonuses.insertRow T0 name m c d) p s ('#' :: c) '*'
      ("\x1b[34m".toList ++ m ++ "\x1b[0m".toList) (Or.inr rfl) hp hs (head_cityIata c s hc)
      (by rw [bonus_replacer_city]
          change some ((Table.get _ ("*#".toList ++ c)).getD _) = _
          rw [b1]; rfl)
    change (WithBonuses.processLine true _ (p ++ ('*' :: ('#' :: c) ++ s))).map _ = _
    rw [h, Option.map_some', trimColor_city p m s ep em es]
  · have h := bonus_processLine_token (WithBonuses.insertRow T0 name m c d) p s
      ('#' :: '#' :: d) '*'
      ("\x1b[34m".toList ++ m ++ "\x1b[0m".toList) (Or.inr rfl) hp hs (head_cityIcao d s hd)
      (by rw [bonus_replacer_city]
          change some ((Table.get _ ("*##".toList ++ d)).getD _) = _
          rw [b2]; rfl)
    change (WithBonuses.processLine true _ (p ++ ('*' :: ('#' :: '#' :: d) ++ s))).map _ = _
    rw [h, Option.map_some', trimColor_city p m s ep em es]

/-- C7, amended, at the row of Honiara: `(*#HIR) a` and `(*##AGGH) a`. -/
theorem C7_city_token_is_replaced_by_the_municipality_witness :
    (TaskWObon.processLine
        (TaskWObon.insertRow [] "Honiara International Airport".toList "Honiara".toList
          "HIR".toList "AGGH".toList) "(*#HIR) a".toList = some "(Honiara) a".toList ∧
      TaskWObon.processLine
        (TaskWObon.insertRow [] "Honiara International Airport".toList "Honiara".toList
          "HIR".toList "AGGH".toList) "(*##AGGH) a".toList = some "(Honiara) a".toList) ∧
    ((WithBonuses.processLine true
        (WithBonuses.insertRow [] "Honiara International Airport".toList "Honiara".toList
          "HIR".toList "AGGH".toList) "(*#HIR) a".toList).map WithBonuses.trimColor
        = some "(Honiara) a".toList ∧
      (WithBonuses.processLine true
        (WithBonuses.insertRow [] "Honiara International Airport".toList "Honiara".toList
          "HIR".toList "AGGH".toList) "(*##AGGH) a".toList).map WithBonuses.trimColor
        = some "(Honiara) a".toList) :=
  have h := C7_city_token_is_replaced_by_the_municipality []
    "Honiara International Airport".toList "Honiara".toList "HIR".toList "AGGH".toList
    "(".toList ") a".toList (by decide) (by decide) (by decide) (by decide) (by decide)
  ⟨h.1, h.2 (by decide) (by decide) (by decide)⟩

/-- C7 as stated fails for `itineraryWithBonuses.go`: a prefix that holds a
colour code is not kept by `trimColor`; with the row of Honiara,
`ESC[1m *#HIR` gives ` Honiara`, without the prefix `ESC[1m`. -/
theorem C7_counterexample :
    (WithBonuses.processLine true
        (WithBonuses.insertRow [] "Honiara International Airport".toList "Honiara".toList
          "HIR".toList "AGGH".toList) ("\x1b[1m ".toList ++ ("*#".toList ++ "HIR".toList ++ []))).map
        WithBonuses.trimColor
      ≠ some ("\x1b[1m ".toList ++ "Honiara".toList ++ []) := by
  decide

/-! ## The calendar -/

theorem toUint64_id (x : Int) (h0 : 0 ≤ x) (h1 : x < 18446744073709551616) : toUint64 x = x := by
  unfold toUint64; omega

theorem toInt64_id (x : Int) (h0 : -9223372036854775808 ≤ x) (h1 : x < 9223372036854775808) :
    toInt64 x = x := by
  unfold toInt64; omega

/-- The days before a year, for the years of four digits. -/
theorem daysSinceEpoch_eq (year : Int) (h0 : 0 ≤ year) (h1 : year ≤ 9999) :
    daysSinceEpoch year =
      106751990353932 + 365 * (year - 1) + (year - 1) / 4 - (year - 1) / 100
        + (year - 1) / 400 := by
  have hy : toUint64 (toInt64 year - absoluteZeroYear) = year + 292277022399 := by
    rw [toInt64_id year (by omega) (by omega), toUint64_id _ (by unfold absoluteZeroYear; omega)
      (by unfold absoluteZeroYear; omega)]
    unfold absoluteZeroYear; omega
  simp only [daysSinceEpoch, hy]
  generalize hn : (year + 292277022399) / 400 = n
  have hnb : 730692555 ≤ n ∧ n ≤ 730692581 := by omega
  rw [toUint64_id (146097 * n) (by omega) (by omega)]
  generalize hm : (year + 292277022399 - 400 * n) / 100 = m
  have hmb : 0 ≤ m ∧ m ≤ 3 := by omega
  rw [toUint64_id (146097 * n + 36524 * m) (by omega) (by omega)]
  generalize hk : (year + 292277022399 - 400 * n - 100 * m) / 4 = k
  have hkb : 0 ≤ k ∧ k ≤ 24 := by omega
  rw [toUint64_id (146097 * n + 36524 * m + 1461 * k) (by omega) (by omega)]
  rw [toUint64_id _ (by omega) (by omega)]
  omega

theorem cyc4 (r3 yd : Int) (h0 : 0 ≤ r3) (h1 : r3 ≤ 3) (hy : 0 ≤ yd)
    (hl : yd ≤ 364 ∨ (yd = 365 ∧ r3 = 3)) :
    (365 * r3 + yd) / 365 - (365 * r3 + yd) / 365 / 4 = r3 := by
  omega

theorem cyc1461 (c e : Int) (h0 : 0 ≤ e) (h1 : e ≤ 1460) : (1461 * c + e) / 1461 = c := by
  omega

theorem cyc100 (b M : Int) (h0 : 0 ≤ b) (h1 : b ≤ 3) (hM : 0 ≤ M)
    (hl : M ≤ 36523 ∨ (M = 36524 ∧ b = 3)) :
    (36524 * b + M) / 36524 - (36524 * b + M) / 36524 / 4 = b := by
  omega

theorem cyc400 (n N : Int) (h0 : 0 ≤ N) (h1 : N ≤ 146096) : (146097 * n + N) / 146097 = n := by
  omega

/-- The year split into its place in the cycles of 400, 100 and 4 years. -/
theorem year_split (Y : Int) (h0 : 0 ≤ Y) (h1 : Y ≤ 9999) :
    ∃ a b c r3 : Int, Y - 1 = 400 * a + 100 * b + 4 * c + r3 ∧ -1 ≤ a ∧ a ≤ 24 ∧ 0 ≤ b ∧ b ≤ 3
      ∧ 0 ≤ c ∧ c ≤ 24 ∧ 0 ≤ r3 ∧ r3 ≤ 3 ∧
      (Y - 1) / 4 = 100 * a + 25 * b + c ∧ (Y - 1) / 100 = 4 * a + b ∧ (Y - 1) / 400 = a ∧
      (Y % 4 = 0 ↔ r3 = 3) ∧ (Y % 100 = 0 ↔ (r3 = 3 ∧ c = 24)) ∧
      (Y % 400 = 0 ↔ (r3 = 3 ∧ c = 24 ∧ b = 3)) := by
  refine ⟨(Y - 1) / 400, (Y - 1) % 400 / 100, (Y - 1) % 100 / 4, (Y - 1) % 4, ?_⟩
  omega

theorem isLeap_iff (Y : Int) :
    isLeap Y = true ↔ (Y % 4 = 0 ∧ (Y % 100 ≠ 0 ∨ Y % 400 = 0)) := by
  simp [isLeap]

/-- `absDate` finds the year and the day of the year that `Date` counted. -/
theorem absDate_eq (Y yd secs : Int) (h0 : 0 ≤ Y) (h1 : Y ≤ 9999) (hyd : 0 ≤ yd)
    (hleap : yd ≤ 364 ∨ (yd = 365 ∧ isLeap Y = true)) (hs0 : 0 ≤ secs) (hs1 : secs < 86400) :
    absDate ((daysSinceEpoch Y + yd) * 86400 + secs)
      = (Y, (monthOfDay (isLeap Y) yd).1, (monthOfDay (isLeap Y) yd).2) := by
  obtain ⟨a, b, c, r3, hY, ha0, ha1, hb0, hb1, hc0, hc1, hr0, hr1, e4, e100, e400, l4, l100, l400⟩ :=
    year_split Y h0 h1
  have hleap2 : yd ≤ 364 ∨ (yd = 365 ∧ r3 = 3 ∧ (¬ (r3 = 3 ∧ c = 24) ∨ (r3 = 3 ∧ c = 24 ∧ b = 3))) := by
    rcases hleap with h | ⟨h, hl⟩
    · exact Or.inl h
    · rw [isLeap_iff] at hl
      refine Or.inr ⟨h, l4.1 hl.1, ?_⟩
      rcases hl.2 with h100 | h400
      · exact Or.inl fun hh => h100 (l100.2 hh)
      · exact Or.inr (l400.1 h400)
  have hD : (daysSinceEpoch Y + yd) * 86400 + secs
      = (146097 * (730692556 + a) + (36524 * b + (1461 * c + (365 * r3 + yd)))) * 86400 + secs := by
    rw [daysSinceEpoch_eq Y h0 h1, e4, e100, e400]
    omega
  have hd : ((daysSinceEpoch Y + yd) * 86400 + secs) / 86400
      = 146097 * (730692556 + a) + (36524 * b + (1461 * c + (365 * r3 + yd))) := by
    rw [hD]; omega
  have k1 := cyc400 (730692556 + a) (36524 * b + (1461 * c + (365 * r3 + yd))) (by omega)
    (by omega)
  have k2 := cyc100 b (1461 * c + (365 * r3 + yd)) hb0 hb1 (by omega) (by omega)
  have k3 := cyc1461 c (365 * r3 + yd) (by omega) (by omega)
  have k4 := cyc4 r3 yd hr0 hr1 hyd (by omega)
  unfold absDate
  simp only []
  rw [hd, k1]
  have s1 : 146097 * (730692556 + a) + (36524 * b + (1461 * c + (365 * r3 + yd)))
      - 146097 * (730692556 + a) = 36524 * b + (1461 * c + (365 * r3 + yd)) := by omega
  rw [s1, k2]
  have s2 : 36524 * b + (1461 * c + (365 * r3 + yd)) - 36524 * b = 1461 * c + (365 * r3 + yd) := by
    omega
  rw [s2, k3]
  have s3 : 1461 * c + (365 * r3 + yd) - 1461 * c = 365 * r3 + yd := by omega
  rw [s3, k4]
  have s4 : 365 * r3 + yd - 365 * r3 = yd := by omega
  have s5 : toInt64 (toInt64 (400 * (730692556 + a) + 100 * b + 4 * c + r3) + absoluteZeroYear) = Y := by
    unfold absoluteZeroYear
    rw [toInt64_id (400 * (730692556 + a) + 100 * b + 4 * c + r3) (by omega) (by omega),
      toInt64_id _ (by omega) (by omega)]
    omega
  rw [s4, s5]
  simp only [monthOfDay]
  split_ifs <;> rfl

theorem norm_id (hi lo base : Int) (h0 : 0 ≤ lo) (h1 : lo < base) : norm hi lo base = (hi, lo) := by
  unfold norm
  simp only [not_lt.2 h0, if_false, ge_iff_le, not_le.2 h1]

theorem daysBefore_bounds (n : Nat) : 0 ≤ daysBefore n ∧ daysBefore n ≤ 365 := by
  unfold daysBefore
  split <;> omega

theorem daysSinceEpoch_bounds (Y : Int) (h0 : 0 ≤ Y) (h1 : Y ≤ 9999) :
    106751990353566 ≤ daysSinceEpoch Y ∧ daysSinceEpoch Y ≤ 106751994005627 := by
  rw [daysSinceEpoch_eq Y h0 h1]
  omega

theorem date_unix (Y m d h mi : Int) (h0 : 0 ≤ Y) (h1 : Y ≤ 9999) (hm0 : 1 ≤ m) (hm1 : m ≤ 12)
    (hd0 : 1 ≤ d) (hd1 : d ≤ 31) (hh0 : 0 ≤ h) (hh1 : h < 24) (hi0 : 0 ≤ mi) (hi1 : mi < 60) :
    date Y m d h mi =
      { unix := toInt64 (toInt64 (absOf Y m d h mi) + (absoluteToInternal + -unixToInternal)),
        offset := 0 } := by
  have hb := daysBefore_bounds (m - 1).toNat
  have hs := daysSinceEpoch_bounds Y h0 h1
  unfold date
  rw [norm_id Y (m - 1) 12 (by omega) (by omega)]
  simp only []
  rw [norm_id mi 0 60 (by omega) (by omega)]
  simp only []
  rw [norm_id h mi 60 hi0 hi1]
  simp only []
  rw [norm_id d h 24 hh0 hh1]
  simp only []
  have e1 : m - 1 + 1 = m := by omega
  rw [e1]
  rw [toUint64_id (daysSinceEpoch Y + daysBefore (m - 1).toNat) (by omega) (by omega)]
  congr 2
  congr 1
  unfold absOf yearDay
  by_cases hl : isLeap Y = true ∧ m ≥ 3
  · rw [if_pos hl, if_pos hl]
    rw [toUint64_id (daysSinceEpoch Y + daysBefore (m - 1).toNat + 1) (by omega) (by omega),
      toUint64_id (d - 1) (by omega) (by omega),
      toUint64_id (daysSinceEpoch Y + daysBefore (m - 1).toNat + 1 + (d - 1)) (by omega) (by omega),
      toUint64_id (h * 3600 + mi * 60) (by omega) (by omega),
      toUint64_id ((daysSinceEpoch Y + daysBefore (m - 1).toNat + 1 + (d - 1)) * 86400)
        (by omega) (by omega),
      toUint64_id _ (by omega) (by omega)]
    congr 1; omega
  · rw [if_neg hl, if_neg hl]
    rw [toUint64_id (d - 1) (by omega) (by omega),
      toUint64_id (daysSinceEpoch Y + daysBefore (m - 1).toNat + (d - 1)) (by omega) (by omega),
      toUint64_id (h * 3600 + mi * 60) (by omega) (by omega),
      toUint64_id ((daysSinceEpoch Y + daysBefore (m - 1).toNat + (d - 1)) * 86400)
        (by omega) (by omega),
      toUint64_id _ (by omega) (by omega)]
    congr 1; omega

set_option maxRecDepth 100000 in
theorem monthOfDay_fin : ∀ leap : Bool, ∀ m : Fin 13, ∀ d : Fin 32, 1 ≤ m.val → 1 ≤ d.val →
    (d.val : Int) ≤ (if (m.val : Int) = 2 ∧ leap = true then 29
      else daysBefore (m.val : Int).toNat - daysBefore ((m.val : Int).toNat - 1)) →
    monthOfDay leap (daysBefore ((m.val : Int) - 1).toNat
      + (if leap = true ∧ (m.val : Int) ≥ 3 then 1 else 0) + ((d.val : Int) - 1))
      = ((m.val : Int), (d.val : Int)) := by
  decide

theorem monthOfDay_yearDay (Y m d : Int) (hm0 : 1 ≤ m) (hm1 : m ≤ 12) (hd0 : 1 ≤ d)
    (hd1 : d ≤ daysIn m Y) : monthOfDay (isLeap Y) (yearDay Y m d) = (m, d) := by
  have hd31 : d ≤ 31 := by
    have h1 := daysBefore_bounds m.toNat
    have h2 := daysBefore_bounds (m.toNat - 1)
    unfold daysIn at hd1
    split at hd1
    · omega
    · interval_cases m <;> simp [daysBefore] at hd1 <;> omega
  obtain ⟨mn, rfl⟩ := Int.eq_ofNat_of_zero_le (by omega : 0 ≤ m)
  obtain ⟨dn, rfl⟩ := Int.eq_ofNat_of_zero_le (by omega : 0 ≤ d)
  have := monthOfDay_fin (isLeap Y) ⟨mn, by omega⟩ ⟨dn, by omega⟩ (by simp; omega) (by simp; omega)
    (by simpa [daysIn] using hd1)
  simpa [yearDay] using this

theorem yearDay_bounds (Y m d : Int) (hd0 : 1 ≤ d) (hd1 : d ≤ 31) :
    0 ≤ yearDay Y m d ∧ yearDay Y m d ≤ 396 := by
  have hb := daysBefore_bounds (m - 1).toNat
  unfold yearDay
  split <;> omega

theorem absOf_bounds (Y m d h mi : Int) (h0 : 0 ≤ Y) (h1 : Y ≤ 9999)
    (hd0 : 1 ≤ d) (hd1 : d ≤ 31) (hh0 : 0 ≤ h) (hh1 : h < 24) (hi0 : 0 ≤ mi) (hi1 : mi < 60) :
    9223371966548102400 ≤ absOf Y m d h mi ∧ absOf Y m d h mi ≤ 9223372282120473599 := by
  have hs := daysSinceEpoch_bounds Y h0 h1
  have hy := yearDay_bounds Y m d hd0 hd1
  unfold absOf
  omega

/-- The unix time that `Date` gives for a count of absolute seconds. -/
theorem unix_of_abs (A : Int) (hA0 : 9223371966548102400 ≤ A) (hA1 : A ≤ 9223372282120473599) :
    toInt64 (toInt64 A + (absoluteToInternal + -unixToInternal)) = A - 9223372028715321600 := by
  unfold toInt64 absoluteToInternal unixToInternal
  omega

/-- Moving the instant back by the offset and reading the clock in a zone of
that offset gives the seconds that were counted. -/
theorem abs_addSec (A zo : Int) (hA0 : 9223371966548102400 ≤ A) (hA1 : A ≤ 9223372282120473599)
    (hz0 : -90000 ≤ zo) (hz1 : zo ≤ 90000) :
    Time.abs { addSec { unix := A - 9223372028715321600, offset := 0 } (-zo) with offset := zo }
      = A := by
  have e1 : toInt64 (A - 9223372028715321600 + unixToInternal) = A - 9223371966579724800 := by
    unfold toInt64 unixToInternal; omega
  have e2 : toInt64 (A - 9223371966579724800 + -zo) = A - 9223371966579724800 - zo := by
    unfold toInt64; omega
  have e3 : (decide (A - 9223371966579724800 - zo > A - 9223371966579724800) = decide (-zo > 0))
      = True := by
    simp only [eq_iff_iff, iff_true, decide_eq_decide]; omega
  have e4 : toInt64 (A - 9223371966579724800 - zo + -unixToInternal)
      = A - 9223372028715321600 - zo := by
    unfold toInt64 unixToInternal; omega
  have e5 : toInt64 (A - 9223372028715321600 - zo + zo) = A - 9223372028715321600 := by
    unfold toInt64; omega
  have e6 : toUint64 (toInt64 (A - 9223372028715321600 + (unixToInternal + -absoluteToInternal)))
      = A := by
    unfold toInt64 toUint64 unixToInternal absoluteToInternal; omega
  simp only [Time.abs, addSec, e1, e2, e3, if_true, e4, e5, e6]

theorem abs_utc (A : Int) (hA0 : 9223371966548102400 ≤ A) (hA1 : A ≤ 9223372282120473599) :
    Time.abs { unix := A - 9223372028715321600, offset := 0 } = A := by
  have e5 : toInt64 (A - 9223372028715321600 + 0) = A - 9223372028715321600 := by
    unfold toInt64; omega
  have e6 : toUint64 (toInt64 (A - 9223372028715321600 + (unixToInternal + -absoluteToInternal)))
      = A := by
    unfold toInt64 toUint64 unixToInternal absoluteToInternal; omega
  simp only [Time.abs, e5, e6]

theorem absClock_absOf (Y m d h mi : Int) (hh0 : 0 ≤ h) (hh1 : h < 24) (hi0 : 0 ≤ mi)
    (hi1 : mi < 60) : absClock (absOf Y m d h mi) = (h, mi) := by
  unfold absClock absOf
  simp only []
  generalize daysSinceEpoch Y + yearDay Y m d = D
  have e1 : (D * 86400 + (h * 3600 + mi * 60)) % 86400 = h * 3600 + mi * 60 := by omega
  have e2 : (h * 3600 + mi * 60) / 3600 = h := by omega
  have e3 : (h * 3600 + mi * 60 - h * 3600) / 60 = mi := by omega
  rw [e1, e2, e3]

theorem absDate_absOf (Y m d h mi : Int) (h0 : 0 ≤ Y) (h1 : Y ≤ 9999) (hm0 : 1 ≤ m)
    (hm1 : m ≤ 12) (hd0 : 1 ≤ d) (hd1 : d ≤ daysIn m Y) (hh0 : 0 ≤ h) (hh1 : h < 24)
    (hi0 : 0 ≤ mi) (hi1 : mi < 60) : absDate (absOf Y m d h mi) = (Y, m, d) := by
  have hmd := monthOfDay_yearDay Y m d hm0 hm1 hd0 hd1
  have hyd : 0 ≤ yearDay Y m d ∧ (yearDay Y m d ≤ 364 ∨ (yearDay Y m d = 365 ∧ isLeap Y = true)) := by
    cases hl : isLeap Y <;> interval_cases m <;>
      simp [daysIn, hl, daysBefore] at hd1 <;>
      simp [yearDay, hl, daysBefore] <;> omega
  unfold absOf
  rw [absDate_eq Y (yearDay Y m d) (h * 3600 + mi * 60) h0 h1 hyd.1 hyd.2 (by omega) (by omega),
    hmd]

/-! ## Parsing a timestamp -/

theorem isDigit_dc (k : Nat) (hk : k < 10) (t : Str) : isDigit (Nat.digitChar k :: t) = true := by
  interval_cases k <;> rfl

theorem digitVal_dc (k : Nat) (hk : k < 10) : digitVal (Nat.digitChar k) = k := by
  interval_cases k <;> rfl

theorem dc_range (k : Nat) (hk : k < 10) : ¬ (Nat.digitChar k < '0' ∨ Nat.digitChar k > '9') := by
  interval_cases k <;> decide

theorem dc_ne (k : Nat) (hk : k < 10) (c : Char) (hc : c < '0' ∨ '9' < c) :
    Nat.digitChar k ≠ c := by
  intro h
  exact dc_range k hk (h ▸ hc)

theorem getnum_dec2 (n : Nat) (hn : n < 100) (rest : Str) (fixed : Bool) :
    getnum (dec2 n ++ rest) fixed = some ((n : Int), rest) := by
  have h1 : n / 10 < 10 := by omega
  have h2 : n % 10 < 10 := by omega
  simp only [getnum, dec2, List.cons_append, List.nil_append, isDigit_dc _ h1, List.drop_succ_cons,
    List.drop_zero, isDigit_dc _ h2, Bool.not_true, Bool.false_eq_true, if_false, List.headD_cons,
    digitVal_dc _ h1, digitVal_dc _ h2]
  congr 2
  omega

theorem leadingIntAux_dc (x : Int) (k : Nat) (hk : k < 10) (t : Str) (hx0 : 0 ≤ x)
    (hx1 : x ≤ 999) :
    leadingIntAux x (Nat.digitChar k :: t) = leadingIntAux (x * 10 + k) t := by
  have h1 : ¬ x > 9223372036854775808 / 10 := by omega
  have h2 : ¬ x * 10 + (k : Int) > 9223372036854775808 := by omega
  simp only [leadingIntAux, dc_range k hk, if_false, h1, digitVal_dc k hk, h2]

theorem atoi_dec4 (n : Nat) (hn : n < 10000) : atoi (dec4 n) = some (n : Int) := by
  have h1 : n / 100 / 10 < 10 := by omega
  have h2 : n / 100 % 10 < 10 := by omega
  have h3 : n % 100 / 10 < 10 := by omega
  have h4 : n % 100 % 10 < 10 := by omega
  have hm : (dec4 n).head? ≠ some '-' := by
    simp only [dec4, dec2, List.cons_append, List.head?_cons, ne_eq, Option.some.injEq]
    exact dc_ne _ h1 '-' (by decide)
  have hp : (dec4 n).head? ≠ some '+' := by
    simp only [dec4, dec2, List.cons_append, List.head?_cons, ne_eq, Option.some.injEq]
    exact dc_ne _ h1 '+' (by decide)
  have hl : leadingInt (dec4 n) = some ((n : Int), []) := by
    simp only [leadingInt, dec4, dec2, List.cons_append, List.nil_append]
    rw [leadingIntAux_dc 0 _ h1 _ (by omega) (by omega),
      leadingIntAux_dc _ _ h2 _ (by omega) (by omega),
      leadingIntAux_dc _ _ h3 _ (by omega) (by omega),
      leadingIntAux_dc _ _ h4 _ (by omega) (by omega), leadingIntAux]
    congr 2
    omega
  simp only [atoi, hm, hp, or_self, if_false, hl, decide_False, Bool.false_eq_true]

theorem dec2_length (n : Nat) : (dec2 n).length = 2 := rfl

theorem dec4_length (n : Nat) : (dec4 n).length = 4 := rfl

theorem parseStd_longYear (Y : Nat) (hY : Y < 10000) (rest : Str) (st : ParseState) :
    parseStd .stdLongYear (dec4 Y ++ rest) st = some (rest, { st with year := Y }) := by
  have h1 : Y / 100 / 10 < 10 := by omega
  have hd : isDigit (dec4 Y ++ rest) = true := isDigit_dc _ h1 _
  have ht : (dec4 Y ++ rest).take 4 = dec4 Y := by
    rw [List.take_append_of_le_length (by simp [dec4_length])]
    exact List.take_of_length_le (by simp [dec4_length])
  have hr : (dec4 Y ++ rest).drop 4 = rest := List.drop_left' (dec4_length Y)
  have hl : ¬ (dec4 Y ++ rest).length < 4 := by simp [dec4_length]
  simp only [parseStd, hl, hd, Bool.not_true, Bool.false_eq_true, or_self, if_false, ht,
    atoi_dec4 Y hY, hr]

theorem parseStd_zeroMonth (m : Nat) (h0 : 1 ≤ m) (h1 : m ≤ 12) (rest : Str) (st : ParseState) :
    parseStd .stdZeroMonth (dec2 m ++ rest) st = some (rest, { st with month := m }) := by
  have hr : ¬ ((m : Int) ≤ 0 ∨ 12 < (m : Int)) := by omega
  simp only [parseStd, getnum_dec2 m (by omega), hr, if_false]

theorem parseStd_zeroDay (d : Nat) (h1 : d < 100) (rest : Str) (st : ParseState) :
    parseStd .stdZeroDay (dec2 d ++ rest) st = some (rest, { st with day := d }) := by
  simp only [parseStd, getnum_dec2 d h1]

theorem parseStd_hour (h : Nat) (h1 : h < 24) (rest : Str) (st : ParseState) :
    parseStd .stdHour (dec2 h ++ rest) st = some (rest, { st with hour := h }) := by
  have hr : ¬ ((h : Int) < 0 ∨ 24 ≤ (h : Int)) := by omega
  simp only [parseStd, getnum_dec2 h (by omega), hr, if_false]

theorem parseStd_zeroMinute (mi : Nat) (h1 : mi < 60) (rest : Str) (st : ParseState) :
    parseStd .stdZeroMinute (dec2 mi ++ rest) st = some (rest, { st with min := mi }) := by
  have hr : ¬ ((mi : Int) < 0 ∨ 60 ≤ (mi : Int)) := by omega
  simp only [parseStd, getnum_dec2 mi (by omega), hr, if_false]

/-- The signed offset in seconds that the sign and the two fields stand for. -/
theorem parseStd_numColonTZ (neg : Bool) (oh om : Nat) (h1 : oh ≤ 24) (h2 : om ≤ 60) (rest : Str)
    (st : ParseState) :
    parseStd .stdNumColonTZ ((if neg then '-' else '+') :: dec2 oh ++ ':' :: dec2 om ++ rest) st
      = some (rest, { st with
          zoneOffset := if neg then -(((oh : Int) * 60 + om) * 60) else ((oh : Int) * 60 + om) * 60 }) := by
  have g1 : getnum (List.take 2 (List.drop 1
      ((if neg then '-' else '+') :: dec2 oh ++ ':' :: dec2 om ++ rest))) true
      = some ((oh : Int), []) := by
    have := getnum_dec2 oh (by omega) [] true
    simpa [dec2] using this
  have g2 : getnum (List.take 2 (List.drop 4
      ((if neg then '-' else '+') :: dec2 oh ++ ':' :: dec2 om ++ rest))) true
      = some ((om : Int), []) := by
    have := getnum_dec2 om (by omega) [] true
    simpa [dec2] using this
  have hr : ¬ ((oh : Int) > 24 ∨ (om : Int) > 60) := by omega
  have hl : ¬ ((if neg then '-' else '+') :: dec2 oh ++ ':' :: dec2 om ++ rest).length < 6 := by
    simp [dec2]
  have hc : ¬ (List.drop 3 ((if neg then '-' else '+') :: dec2 oh ++ ':' :: dec2 om ++ rest)).head?
      ≠ some ':' := by simp [dec2]
  have hd : List.drop 6 ((if neg then '-' else '+') :: dec2 oh ++ ':' :: dec2 om ++ rest) = rest := by
    simp [dec2]
  simp only [parseStd, hl, hc, if_false, g1, g2, hr, hd]
  cases neg <;> simp

theorem parseStd_offset (neg : Bool) (oh om : Nat) (h1 : oh ≤ 24) (h2 : om ≤ 60) (rest : Str)
    (st : ParseState) :
    parseStd .stdNumColonTZ (offsetText neg oh om ++ rest) st
      = some (rest, { st with zoneOffset := offsetSeconds neg oh om }) := by
  have := parseStd_numColonTZ neg oh om h1 h2 rest st
  simpa [offsetText, signChar, offsetSeconds] using this

theorem parseLoop_step (fuel : Nat) (layout value : Str) (st : ParseState) (pre : Str) (std : Std)
    (suffix v1 v2 : Str) (st2 : ParseState) (hc : nextStdChunk layout = (pre, some std, suffix))
    (hs : skip value pre = some v1) (hp : parseStd std v1 st = some (v2, st2)) :
    parseLoop (fuel + 1) layout value st = parseLoop fuel suffix v2 st2 := by
  simp only [parseLoop, hc, hs, hp]

theorem parseLoop_last (fuel : Nat) (layout value : Str) (st : ParseState) (pre suffix : Str)
    (hc : nextStdChunk layout = (pre, none, suffix)) (hs : skip value pre = some []) :
    parseLoop (fuel + 1) layout value st = some st := by
  simp [parseLoop, hc, hs]

theorem parseLoop_bad (fuel : Nat) (layout value : Str) (st : ParseState) (pre : Str)
    (std : Option Std) (suffix : Str) (hc : nextStdChunk layout = (pre, std, suffix))
    (hs : skip value pre = none) :
    parseLoop (fuel + 1) layout value st = none := by
  simp only [parseLoop, hc, hs]

theorem skipAux_literal (pre v : Str) (hp : ' ' ∉ pre) (b : Bool) :
    skipAux b (pre ++ v) pre = some v := by
  induction pre generalizing b with
  | nil => cases b <;> rfl
  | cons a pre ih =>
    have ha : ¬ a = ' ' := fun h => hp (by simp [h])
    have hp2 : ' ' ∉ pre := fun h => hp (by simp [h])
    simp [skipAux, ha, ih hp2]

theorem skip_literal (pre v : Str) (hp : ' ' ∉ pre) : skip (pre ++ v) pre = some v :=
  skipAux_literal pre v hp false

theorem skip_mismatch (c p : Char) (v pre : Str) (hp : p ≠ ' ') (hc : c ≠ p) :
    skip (c :: v) (p :: pre) = none := by
  simp [skip, skipAux, hp, hc]

/-- The fields read from a timestamp by the layout `2006-01-02T15:04` between
a literal prefix and the rest of the layout. -/
theorem parseLoop_stamp (fuel : Nat) (lp ls l1 l2 l3 l4 l5 : Str) (Y m d h mi : Nat) (tail : Str)
    (hlp : ' ' ∉ lp)
    (c1 : nextStdChunk l1 = (lp, some .stdLongYear, l2))
    (c2 : nextStdChunk l2 = ("-".toList, some .stdZeroMonth, l3))
    (c3 : nextStdChunk l3 = ("-".toList, some .stdZeroDay, l4))
    (c4 : nextStdChunk l4 = ("T".toList, some .stdHour, l5))
    (c5 : nextStdChunk l5 = (":".toList, some .stdZeroMinute, ls))
    (hY : Y < 10000) (hm0 : 1 ≤ m) (hm1 : m ≤ 12) (hd : d < 100) (hh : h < 24) (hmi : mi < 60) :
    parseLoop (fuel + 5) l1 (lp ++ stamp Y m d h mi tail) {}
      = parseLoop fuel ls tail
          { year := Y, month := m, day := d, hour := h, min := mi, zoneOffset := -1 } := by
  unfold stamp
  exact (parseLoop_step (fuel + 4) l1 _ _ lp .stdLongYear l2 _ _ _ c1 (skip_literal lp _ hlp)
      (parseStd_longYear Y hY _ _)).trans
    ((parseLoop_step (fuel + 3) l2 _ _ _ .stdZeroMonth l3 _ _ _ c2
      (skip_literal "-".toList _ (by decide)) (parseStd_zeroMonth m hm0 hm1 _ _)).trans
    ((parseLoop_step (fuel + 2) l3 _ _ _ .stdZeroDay l4 _ _ _ c3
      (skip_literal "-".toList _ (by decide)) (parseStd_zeroDay d hd _ _)).trans
    ((parseLoop_step (fuel + 1) l4 _ _ _ .stdHour l5 _ _ _ c4
      (skip_literal "T".toList _ (by decide)) (parseStd_hour h hh _ _)).trans
    (parseLoop_step fuel l5 _ _ _ .stdZeroMinute ls _ _ _ c5
      (skip_literal ":".toList _ (by decide)) (parseStd_zeroMinute mi hmi _ _)))))

theorem isLeap_cast (Y : Nat) : isLeap (Y : Int) = leapYear Y := by
  unfold isLeap leapYear
  have e4 : ((Y : Int) % 4 == 0) = (Y % 4 == 0) := by
    rw [Bool.eq_iff_iff]; simp only [beq_iff_eq]; omega
  have e100 : ((Y : Int) % 100 != 0) = (Y % 100 != 0) := by
    rw [Bool.eq_iff_iff]; simp only [bne_iff_ne, ne_eq]; omega
  have e400 : ((Y : Int) % 400 == 0) = (Y % 400 == 0) := by
    rw [Bool.eq_iff_iff]; simp only [beq_iff_eq]; omega
  rw [e4, e100, e400]

theorem daysIn_cast (Y m : Nat) (h0 : 1 ≤ m) (h1 : m ≤ 12) :
    daysIn (m : Int) (Y : Int) = daysInMonth Y m := by
  unfold daysIn
  rw [isLeap_cast]
  interval_cases m <;> cases hl : leapYear Y <;> simp [daysBefore, daysInMonth, hl]

/-- The fields of a valid date and time, as the calendar lemmas need them. -/
theorem valid_fields {Y m d h mi : Nat} (hv : ValidDate Y m d) (ht : ValidTime h mi) :
    (0 : Int) ≤ Y ∧ (Y : Int) ≤ 9999 ∧ (1 : Int) ≤ m ∧ (m : Int) ≤ 12 ∧ (1 : Int) ≤ d
      ∧ (d : Int) ≤ daysIn m Y ∧ (d : Int) ≤ 31 ∧ (0 : Int) ≤ h ∧ (h : Int) < 24 ∧ (0 : Int) ≤ mi
      ∧ (mi : Int) < 60 := by
  obtain ⟨hY, hm0, hm1, hd0, hd1⟩ := hv
  obtain ⟨hh, hmi⟩ := ht
  have e := daysIn_cast Y m hm0 hm1
  have h31 : daysInMonth Y m ≤ 31 := by
    unfold daysInMonth; split <;> (try split) <;> omega
  refine ⟨by omega, by omega, by omega, by omega, by omega, ?_, by omega, by omega, by omega,
    by omega, by omega⟩
  rw [e]; exact_mod_cast hd1

/-- The result of `parse` from the fields that the loop has read. -/
theorem parse_of_loop (layout value : Str) (Y m d h mi : Nat) (zo : Int)
    (hv : ValidDate Y m d)
    (hl : parseLoop (layout.length + 1) layout value {}
      = some { year := Y, month := m, day := d, hour := h, min := mi, zoneOffset := zo }) :
    parse layout value =
      if zo ≠ -1 then some { addSec (date Y m d h mi) (-zo) with offset := zo }
      else some (date Y m d h mi) := by
  obtain ⟨hY, hm0, hm1, hd0, hd1⟩ := hv
  have e := daysIn_cast Y m hm0 hm1
  have h1 : ¬ ((m : Int) < 0) := by omega
  have h2 : ¬ ((d : Int) < 0) := by omega
  have h3 : ¬ ((d : Int) < 1 ∨ (d : Int) > daysIn m Y) := by
    rw [e]; omega
  simp only [parse, hl, h1, h2, if_false, h3]

theorem offsetSeconds_ne (neg : Bool) (oh om : Nat) : offsetSeconds neg oh om ≠ -1 := by
  unfold offsetSeconds
  split <;> omega

theorem signChar_ne_Z (neg : Bool) : signChar neg ≠ 'Z' := by
  cases neg <;> decide

/-- `D(...Z)` against the layout `D(2006-01-02T15:04Z)`. -/
theorem parse_dateZ (Y m d h mi : Nat) (hv : ValidDate Y m d) (ht : ValidTime h mi) :
    parse "D(2006-01-02T15:04Z)".toList ("D(".toList ++ stamp Y m d h mi "Z)".toList)
      = some (date Y m d h mi) := by
  have hl := (parseLoop_stamp 16 "D(".toList "Z)".toList "D(2006-01-02T15:04Z)".toList
    "-01-02T15:04Z)".toList "-02T15:04Z)".toList "T15:04Z)".toList ":04Z)".toList Y m d h mi
    "Z)".toList (by decide) (by decide) (by decide) (by decide) (by decide) (by decide)
    (by have := hv.1; omega) hv.2.1 hv.2.2.1
    (by have := hv.2.2.2.2
        have h31 : daysInMonth Y m ≤ 31 := by unfold daysInMonth; split <;> (try split) <;> omega
        omega) ht.1 ht.2).trans
    (parseLoop_last 15 "Z)".toList "Z)".toList _ "Z)".toList [] (by decide)
      (skip_literal "Z)".toList [] (by decide)))
  rw [parse_of_loop "D(2006-01-02T15:04Z)".toList ("D(".toList ++ stamp Y m d h mi "Z)".toList)
    Y m d h mi (-1) hv hl]
  simp

/-- `D(...+HH:MM)` against the layout `D(2006-01-02T15:04Z)`: the literal `Z`
of the layout is missing. -/
theorem parse_dateZ_offset (Y m d h mi : Nat) (hv : ValidDate Y m d) (ht : ValidTime h mi)
    (neg : Bool) (oh om : Nat) :
    parse "D(2006-01-02T15:04Z)".toList
        ("D(".toList ++ stamp Y m d h mi (offsetText neg oh om ++ ")".toList)) = none := by
  have hl := (parseLoop_stamp 16 "D(".toList "Z)".toList "D(2006-01-02T15:04Z)".toList
    "-01-02T15:04Z)".toList "-02T15:04Z)".toList "T15:04Z)".toList ":04Z)".toList Y m d h mi
    (offsetText neg oh om ++ ")".toList) (by decide) (by decide) (by decide) (by decide)
    (by decide) (by decide)
    (by have := hv.1; omega) hv.2.1 hv.2.2.1
    (by have := hv.2.2.2.2
        have h31 : daysInMonth Y m ≤ 31 := by unfold daysInMonth; split <;> (try split) <;> omega
        omega) ht.1 ht.2).trans
    (parseLoop_bad 15 "Z)".toList (offsetText neg oh om ++ ")".toList) _ "Z)".toList none []
      (by decide) (skip_mismatch (signChar neg) 'Z' _ _ (by decide) (signChar_ne_Z neg)))
  have hl2 : parseLoop ("D(2006-01-02T15:04Z)".toList.length + 1) "D(2006-01-02T15:04Z)".toList
      ("D(".toList ++ stamp Y m d h mi (offsetText neg oh om ++ ")".toList)) {} = none := hl
  simp only [parse, hl2]

/-- `D(...+HH:MM)` against the layout `D(2006-01-02T15:04-07:00)`. -/
theorem parse_dateOffset (Y m d h mi : Nat) (hv : ValidDate Y m d) (ht : ValidTime h mi)
    (neg : Bool) (oh om : Nat) (ho1 : oh ≤ 24) (ho2 : om ≤ 60) :
    parse "D(2006-01-02T15:04-07:00)".toList
        ("D(".toList ++ stamp Y m d h mi (offsetText neg oh om ++ ")".toList))
      = some { addSec (date Y m d h mi) (-offsetSeconds neg oh om) with
          offset := offsetSeconds neg oh om } := by
  have hl := (parseLoop_stamp 21 "D(".toList "-07:00)".toList "D(2006-01-02T15:04-07:00)".toList
    "-01-02T15:04-07:00)".toList "-02T15:04-07:00)".toList "T15:04-07:00)".toList
    ":04-07:00)".toList Y m d h mi
    (offsetText neg oh om ++ ")".toList) (by decide) (by decide) (by decide) (by decide)
    (by decide) (by decide)
    (by have := hv.1; omega) hv.2.1 hv.2.2.1
    (by have := hv.2.2.2.2
        have h31 : daysInMonth Y m ≤ 31 := by unfold daysInMonth; split <;> (try split) <;> omega
        omega) ht.1 ht.2).trans
    ((parseLoop_step 20 "-07:00)".toList (offsetText neg oh om ++ ")".toList) _ []
      .stdNumColonTZ ")".toList _ _ _ (by decide) rfl
      (parseStd_offset neg oh om ho1 ho2 _ _)).trans
    (parseLoop_last 19 ")".toList ")".toList _ ")".toList [] (by decide)
      (skip_literal ")".toList [] (by decide))))
  rw [parse_of_loop "D(2006-01-02T15:04-07:00)".toList
      ("D(".toList ++ stamp Y m d h mi (offsetText neg oh om ++ ")".toList))
      Y m d h mi (offsetSeconds neg oh om) hv hl,
    if_pos (offsetSeconds_ne neg oh om)]

/-- `...Z` against the layout `2006-01-02T15:04Z`. -/
theorem parse_timeZ (Y m d h mi : Nat) (hv : ValidDate Y m d) (ht : ValidTime h mi) :
    parse "2006-01-02T15:04Z".toList (stamp Y m d h mi "Z".toList) = some (date Y m d h mi) := by
  have hl := (parseLoop_stamp 13 [] "Z".toList "2006-01-02T15:04Z".toList
    "-01-02T15:04Z".toList "-02T15:04Z".toList "T15:04Z".toList ":04Z".toList Y m d h mi
    "Z".toList (by decide) (by decide) (by decide) (by decide) (by decide) (by decide)
    (by have := hv.1; omega) hv.2.1 hv.2.2.1
    (by have := hv.2.2.2.2
        have h31 : daysInMonth Y m ≤ 31 := by unfold daysInMonth; split <;> (try split) <;> omega
        omega) ht.1 ht.2).trans
    (parseLoop_last 12 "Z".toList "Z".toList _ "Z".toList [] (by decide)
      (skip_literal "Z".toList [] (by decide)))
  rw [parse_of_loop "2006-01-02T15:04Z".toList (stamp Y m d h mi "Z".toList)
    Y m d h mi (-1) hv hl]
  simp

/-- `...+HH:MM` against the layout `2006-01-02T15:04-07:00`. -/
theorem parse_timeOffset (Y m d h mi : Nat) (hv : ValidDate Y m d) (ht : ValidTime h mi)
    (neg : Bool) (oh om : Nat) (ho1 : oh ≤ 24) (ho2 : om ≤ 60) :
    parse "2006-01-02T15:04-07:00".toList (stamp Y m d h mi (offsetText neg oh om))
      = some { addSec (date Y m d h mi) (-offsetSeconds neg oh om) with
          offset := offsetSeconds neg oh om } := by
  have hl := (parseLoop_stamp 18 [] "-07:00".toList "2006-01-02T15:04-07:00".toList
    "-01-02T15:04-07:00".toList "-02T15:04-07:00".toList "T15:04-07:00".toList
    ":04-07:00".toList Y m d h mi
    (offsetText neg oh om ++ []) (by decide) (by decide) (by decide) (by decide)
    (by decide) (by decide)
    (by have := hv.1; omega) hv.2.1 hv.2.2.1
    (by have := hv.2.2.2.2
        have h31 : daysInMonth Y m ≤ 31 := by unfold daysInMonth; split <;> (try split) <;> omega
        omega) ht.1 ht.2).trans
    ((parseLoop_step 17 "-07:00".toList (offsetText neg oh om ++ []) _ []
      .stdNumColonTZ [] _ _ _ (by decide) rfl
      (parseStd_offset neg oh om ho1 ho2 _ _)).trans
    (parseLoop_last 16 [] [] _ [] [] (by decide) rfl))
  rw [List.append_nil] at hl
  rw [parse_of_loop "2006-01-02T15:04-07:00".toList (stamp Y m d h mi (offsetText neg oh om))
      Y m d h mi (offsetSeconds neg oh om) hv hl,
    if_pos (offsetSeconds_ne neg oh om)]

/-! ## Formatting a time -/

theorem appendInt_two (n : Nat) (hn : n < 100) : appendInt (n : Int) 2 = dec2 n := by
  have h0 : ¬ ((n : Int) < 0) := by omega
  simp [appendInt, h0, hn, dec2]

theorem appendInt_four (n : Nat) (hn : n < 10000) : appendInt (n : Int) 4 = dec4 n := by
  have h0 : ¬ ((n : Int) < 0) := by omega
  simp [appendInt, h0, hn, dec4, dec2]

theorem formatLoop_step (t : Time) (fuel : Nat) (layout pre : Str) (std : Std) (suffix : Str)
    (hc : nextStdChunk layout = (pre, some std, suffix)) :
    formatLoop t (fuel + 1) layout = pre ++ formatStd t std ++ formatLoop t fuel suffix := by
  simp only [formatLoop, hc]

theorem formatLoop_last (t : Time) (fuel : Nat) (layout pre suffix : Str)
    (hc : nextStdChunk layout = (pre, none, suffix)) :
    formatLoop t (fuel + 1) layout = pre := by
  simp only [formatLoop, hc]

theorem monthName (m : Nat) (h0 : 1 ≤ m) (h1 : m ≤ 12) :
    (longMonthNames (m : Int)).take 3 = monthAbbr m := by
  interval_cases m <;> rfl

/-- What the layout elements write for a time whose wall clock shows the
given date and time of day. -/
theorem formatStd_fields (t : Time) (Y m d h mi : Nat) (hv : ValidDate Y m d) (ht : ValidTime h mi)
    (habs : t.abs = absOf Y m d h mi) :
    formatStd t .stdLongYear = dec4 Y ∧ formatStd t .stdMonth = monthAbbr m ∧
      formatStd t .stdZeroDay = dec2 d ∧ formatStd t .stdHour = dec2 h ∧
      formatStd t .stdZeroHour12 = dec2 (hour12 h) ∧ formatStd t .stdZeroMinute = dec2 mi ∧
      formatStd t .stdPM = (if h < 12 then "AM".toList else "PM".toList) := by
  obtain ⟨f1, f2, f3, f4, f5, f6, f7, f8, f9, f10, f11⟩ := valid_fields hv ht
  have hD := absDate_absOf Y m d h mi f1 f2 f3 f4 f5 f6 f8 f9 f10 f11
  have hC := absClock_absOf Y m d h mi f8 f9 f10 f11
  have hd100 : d < 100 := by omega
  have hh : h < 24 := ht.1
  have hmi : mi < 60 := ht.2
  have hY : Y < 10000 := by omega
  have e12 : (if (h : Int) % 12 = 0 then (12 : Int) else (h : Int) % 12) = ((hour12 h : Nat) : Int) := by
    unfold hour12
    split <;> split <;> omega
  have h12 : hour12 h < 100 := by
    unfold hour12; split <;> omega
  have key : ∀ std, formatStd t std = formatField Y m d h mi t.offset std := by
    intro std
    unfold formatStd
    rw [habs, hD, hC]
  refine ⟨?_, ?_, ?_, ?_, ?_, ?_, ?_⟩
  · rw [key, formatField, appendInt_four Y hY]
  · rw [key, formatField, monthName m hv.2.1 hv.2.2.1]
  · rw [key, formatField, appendInt_two d hd100]
  · rw [key, formatField, appendInt_two h (by omega)]
  · rw [key]
    simp only [formatField]
    rw [e12, appendInt_two _ h12]
  · rw [key, formatField, appendInt_two mi (by omega)]
  · rw [key, formatField]
    by_cases h12' : h < 12
    · have : ¬ ((h : Int) ≥ 12) := by omega
      rw [if_neg this, if_pos h12']
    · have : (h : Int) ≥ 12 := by omega
      rw [if_pos this, if_neg h12']

/-- The wall clock of the value that `Date` builds. -/
theorem abs_date (Y m d h mi : Nat) (hv : ValidDate Y m d) (ht : ValidTime h mi) :
    (date Y m d h mi).abs = absOf Y m d h mi := by
  obtain ⟨f1, f2, f3, f4, f5, f6, f7, f8, f9, f10, f11⟩ := valid_fields hv ht
  obtain ⟨b1, b2⟩ := absOf_bounds Y m d h mi f1 f2 f5 f7 f8 f9 f10 f11
  rw [date_unix Y m d h mi f1 f2 f3 f4 f5 f7 f8 f9 f10 f11, unix_of_abs _ b1 b2,
    abs_utc _ b1 b2]

/-- The wall clock of the value that `Parse` builds from a date, a time of day
and an offset: it shows the date and the time as written. -/
theorem abs_date_offset (Y m d h mi : Nat) (hv : ValidDate Y m d) (ht : ValidTime h mi)
    (neg : Bool) (oh om : Nat) (ho1 : oh ≤ 24) (ho2 : om ≤ 60) :
    Time.abs { addSec (date Y m d h mi) (-offsetSeconds neg oh om) with
        offset := offsetSeconds neg oh om } = absOf Y m d h mi := by
  obtain ⟨f1, f2, f3, f4, f5, f6, f7, f8, f9, f10, f11⟩ := valid_fields hv ht
  obtain ⟨b1, b2⟩ := absOf_bounds Y m d h mi f1 f2 f5 f7 f8 f9 f10 f11
  have hz : -90000 ≤ offsetSeconds neg oh om ∧ offsetSeconds neg oh om ≤ 90000 := by
    unfold offsetSeconds; split <;> omega
  rw [date_unix Y m d h mi f1 f2 f3 f4 f5 f7 f8 f9 f10 f11, unix_of_abs _ b1 b2]
  exact abs_addSec _ _ b1 b2 hz.1 hz.2

theorem format_date (t : Time) (Y m d h mi : Nat) (hv : ValidDate Y m d) (ht : ValidTime h mi)
    (habs : t.abs = absOf Y m d h mi) : t.format "02 Jan 2006".toList = dateText Y m d := by
  obtain ⟨e1, e2, e3, -, -, -, -⟩ := formatStd_fields t Y m d h mi hv ht habs
  have := (formatLoop_step t 11 "02 Jan 2006".toList [] .stdZeroDay " Jan 2006".toList
      (by decide)).trans (congrArg (fun x => [] ++ formatStd t .stdZeroDay ++ x)
    ((formatLoop_step t 10 " Jan 2006".toList " ".toList .stdMonth " 2006".toList
      (by decide)).trans (congrArg (fun x => " ".toList ++ formatStd t .stdMonth ++ x)
    ((formatLoop_step t 9 " 2006".toList " ".toList .stdLongYear [] (by decide)).trans
      (congrArg (fun x => " ".toList ++ formatStd t .stdLongYear ++ x)
    (formatLoop_last t 8 [] [] [] (by decide)))))))
  rw [e1, e2, e3] at this
  simpa [Time.format, dateText] using this

theorem format_clock24 (t : Time) (Y m d h mi : Nat) (hv : ValidDate Y m d) (ht : ValidTime h mi)
    (habs : t.abs = absOf Y m d h mi) : t.format "15:04".toList = clock24 h mi := by
  obtain ⟨-, -, -, e4, -, e6, -⟩ := formatStd_fields t Y m d h mi hv ht habs
  have := (formatLoop_step t 5 "15:04".toList [] .stdHour ":04".toList
      (by decide)).trans (congrArg (fun x => [] ++ formatStd t .stdHour ++ x)
    ((formatLoop_step t 4 ":04".toList ":".toList .stdZeroMinute [] (by decide)).trans
      (congrArg (fun x => ":".toList ++ formatStd t .stdZeroMinute ++ x)
    (formatLoop_last t 3 [] [] [] (by decide)))))
  rw [e4, e6] at this
  simpa [Time.format, clock24] using this

theorem format_clock12 (t : Time) (Y m d h mi : Nat) (hv : ValidDate Y m d) (ht : ValidTime h mi)
    (habs : t.abs = absOf Y m d h mi) : t.format "03:04PM".toList = clock12 h mi := by
  obtain ⟨-, -, -, -, e5, e6, e7⟩ := formatStd_fields t Y m d h mi hv ht habs
  have := (formatLoop_step t 7 "03:04PM".toList [] .stdZeroHour12 ":04PM".toList
      (by decide)).trans (congrArg (fun x => [] ++ formatStd t .stdZeroHour12 ++ x)
    ((formatLoop_step t 6 ":04PM".toList ":".toList .stdZeroMinute "PM".toList (by decide)).trans
      (congrArg (fun x => ":".toList ++ formatStd t .stdZeroMinute ++ x)
    ((formatLoop_step t 5 "PM".toList [] .stdPM [] (by decide)).trans
      (congrArg (fun x => [] ++ formatStd t .stdPM ++ x)
    (formatLoop_last t 4 [] [] [] (by decide)))))))
  rw [e5, e6, e7] at this
  simpa [Time.format, clock12] using this

/-- The offset as `Format` writes it: the sign is `-` only for an offset west
of UTC, and minutes of 60 are carried into the hours. -/
theorem format_offset (t : Time) (neg : Bool) (oh om : Nat) (ho1 : oh ≤ 24) (ho2 : om ≤ 59)
    (hoff : t.offset = offsetSeconds neg oh om) :
    t.format "(-07:00)".toList
      = '(' :: (offsetText (neg && !(oh == 0 && om == 0)) oh om ++ ")".toList) := by
  have hf : formatStd t .stdNumColonTZ = offsetText (neg && !(oh == 0 && om == 0)) oh om := by
    unfold formatStd
    simp only [formatField, hoff]
    have hz : Int.tdiv (offsetSeconds neg oh om) 60
        = if neg then -((oh : Int) * 60 + om) else (oh : Int) * 60 + om := by
      unfold offsetSeconds
      cases neg
      · simp only [Bool.false_eq_true, if_false]
        exact Int.mul_tdiv_cancel _ (by decide)
      · simp only [if_true]
        rw [← Int.neg_mul, Int.mul_tdiv_cancel _ (by decide)]
    rw [hz]
    cases neg
    · have h1 : ¬ ((oh : Int) * 60 + om < 0) := by omega
      have h2 : ((oh : Int) * 60 + om) / 60 = (oh : Nat) := by omega
      have h3 : ((oh : Int) * 60 + om) % 60 = (om : Nat) := by omega
      simp only [Bool.false_eq_true, if_false, h1, h2, h3, appendInt_two oh (by omega),
        appendInt_two om (by omega), Bool.false_and, offsetText, signChar]
    · by_cases hzero : oh = 0 ∧ om = 0
      · obtain ⟨rfl, rfl⟩ := hzero
        simp [appendInt, offsetText, signChar, dec2]
      · have h1 : -((oh : Int) * 60 + om) < 0 := by omega
        have h2 : ((oh : Int) * 60 + om) / 60 = (oh : Nat) := by omega
        have h3 : ((oh : Int) * 60 + om) % 60 = (om : Nat) := by omega
        have hb : (oh == 0 && om == 0) = false := by
          simp only [Bool.and_eq_false_imp, beq_iff_eq, beq_eq_false_iff_ne]
          intro h; omega
        simp only [if_true, h1, neg_neg, h2, h3, appendInt_two oh (by omega),
          appendInt_two om (by omega), hb, Bool.not_false, Bool.and_true, offsetText, signChar]
  have := (formatLoop_step t 8 "(-07:00)".toList "(".toList .stdNumColonTZ ")".toList
      (by decide)).trans (congrArg (fun x => "(".toList ++ formatStd t .stdNumColonTZ ++ x)
    (formatLoop_last t 7 ")".toList ")".toList [] (by decide)))
  rw [hf] at this
  simpa [Time.format] using this

/-! ## Date and time tokens -/

theorem stamp_append (Y m d h mi : Nat) (tail x : Str) :
    stamp Y m d h mi tail ++ x = stamp Y m d h mi (tail ++ x) := by
  simp [stamp]

/-- A timestamp holds none of the characters outside the digits that its
tail does not hold, apart from `-`, `T` and `:`. -/
theorem stamp_free (c0 : Char) (h0 : c0 < '0' ∨ '9' < c0) (h1 : c0 ≠ '-') (h2 : c0 ≠ 'T')
    (h3 : c0 ≠ ':') (Y m d h mi : Nat) (tail : Str) (hY : Y < 10000) (hm : m < 100)
    (hd : d < 100) (hh : h < 100) (hmi : mi < 100) (ht : c0 ∉ tail) :
    c0 ∉ stamp Y m d h mi tail := by
  intro hc
  simp only [stamp, dec4, dec2, List.cons_append, List.nil_append, List.mem_cons] at hc
  rcases hc with h | h | h | h | h | h | h | h | h | h | h | h | h | h | h | h | h
  all_goals first
    | exact ht h
    | exact h1 h
    | exact h2 h
    | exact h3 h
    | exact dc_ne _ (by omega) c0 h0 h.symm

theorem offsetText_free (c0 : Char) (h0 : c0 < '0' ∨ '9' < c0) (h1 : c0 ≠ '-') (h2 : c0 ≠ '+')
    (h3 : c0 ≠ ':') (neg : Bool) (oh om : Nat) (ho : oh < 100) (hm : om < 100) :
    c0 ∉ offsetText neg oh om := by
  intro hc
  simp only [offsetText, dec2, List.cons_append, List.nil_append, List.mem_cons,
    List.not_mem_nil, or_false] at hc
  have hs : c0 ≠ signChar neg := by cases neg <;> simpa [signChar]
  rcases hc with h | h | h | h | h | h
  all_goals first
    | exact hs h
    | exact h3 h
    | exact dc_ne _ (by omega) c0 h0 h.symm

theorem takeWhile_stop (p : Char → Bool) (x : Str) (y : Char) (r : Str) (hx : ∀ c ∈ x, p c = true)
    (hy : p y = false) :
    (x ++ y :: r).takeWhile p = x ∧ (x ++ y :: r).dropWhile p = y :: r := by
  induction x with
  | nil => simp [hy]
  | cons a x ih =>
    have ha : p a = true := hx a (by simp)
    have := ih fun c hc => hx c (by simp [hc])
    simp [ha, this]

theorem parenTok_token (tag x rest : Str) (hx : x ≠ []) (hp : ∀ c ∈ x, c ≠ ')') :
    parenTok tag (tag ++ (x ++ ')' :: rest)) = true ∧
      (((tag ++ (x ++ ')' :: rest)).drop tag.length).dropWhile notParen).drop 1 = rest := by
  have hd : (tag ++ (x ++ ')' :: rest)).drop tag.length = x ++ ')' :: rest := List.drop_left' rfl
  obtain ⟨h1, h2⟩ := takeWhile_stop notParen x ')' rest
    (fun c hc => by simpa [notParen] using hp c hc) (by decide)
  have hpre : tag.isPrefixOf (tag ++ (x ++ ')' :: rest)) = true := by
    rw [List.isPrefixOf_iff_prefix]; exact List.prefix_append _ _
  constructor
  · simp only [parenTok, hpre, hd, h1, h2, Bool.true_and, List.head?_cons, beq_self_eq_true,
      Bool.and_true, Bool.not_eq_true', List.isEmpty_eq_false]
    exact hx
  · rw [hd, h2]; rfl

theorem codeTok_letter (tag : Str) (n : Nat) (c : Char) (s : Str) (h : tag.head? ≠ some c)
    (ht : tag ≠ []) : codeTok tag n (c :: s) = false := by
  rcases tag with _ | ⟨a, tag⟩
  · exact absurd rfl ht
  · have : ¬ a = c := fun e => h (by simp [e])
    simp [codeTok, List.isPrefixOf, this]

theorem head_date (x rest : Str) (hx : x ≠ []) (hp : ∀ c ∈ x, c ≠ ')') :
    (reWithCities.run ('D' :: '(' :: (x ++ ')' :: rest))).head? = some rest := by
  obtain ⟨h1, h2⟩ := parenTok_token "D(".toList x rest hx hp
  have h1' : parenTok "D(".toList ('D' :: '(' :: (x ++ ')' :: rest)) = true := h1
  have h2' : ((('D' :: '(' :: (x ++ ')' :: rest)).drop 2).dropWhile notParen).drop 1 = rest := h2
  rw [run_reWithCities, codeTok_letter _ _ _ _ (by decide) (by decide),
    codeTok_letter _ _ _ _ (by decide) (by decide), codeTok_letter _ _ _ _ (by decide) (by decide),
    codeTok_letter _ _ _ _ (by decide) (by decide), h1', h2']
  simp

theorem head_t12 (x rest : Str) (hx : x ≠ []) (hp : ∀ c ∈ x, c ≠ ')') :
    (reWithCities.run ('T' :: '1' :: '2' :: '(' :: (x ++ ')' :: rest))).head? = some rest := by
  obtain ⟨h1, h2⟩ := parenTok_token "T12(".toList x rest hx hp
  have h1' : parenTok "T12(".toList ('T' :: '1' :: '2' :: '(' :: (x ++ ')' :: rest)) = true := h1
  have h2' : ((('T' :: '1' :: '2' :: '(' :: (x ++ ')' :: rest)).drop 4).dropWhile notParen).drop 1
      = rest := h2
  have h3 : parenTok "D(".toList ('T' :: '1' :: '2' :: '(' :: (x ++ ')' :: rest)) = false := by
    simp [parenTok, List.isPrefixOf]
  rw [run_reWithCities, codeTok_letter _ _ _ _ (by decide) (by decide),
    codeTok_letter _ _ _ _ (by decide) (by decide), codeTok_letter _ _ _ _ (by decide) (by decide),
    codeTok_letter _ _ _ _ (by decide) (by decide), h3, h1', h2']
  simp

theorem head_t24 (x rest : Str) (hx : x ≠ []) (hp : ∀ c ∈ x, c ≠ ')') :
    (reWithCities.run ('T' :: '2' :: '4' :: '(' :: (x ++ ')' :: rest))).head? = some rest := by
  obtain ⟨h1, h2⟩ := parenTok_token "T24(".toList x rest hx hp
  have h1' : parenTok "T24(".toList ('T' :: '2' :: '4' :: '(' :: (x ++ ')' :: rest)) = true := h1
  have h2' : ((('T' :: '2' :: '4' :: '(' :: (x ++ ')' :: rest)).drop 4).dropWhile notParen).drop 1
      = rest := h2
  have h3 : parenTok "D(".toList ('T' :: '2' :: '4' :: '(' :: (x ++ ')' :: rest)) = false := by
    simp [parenTok, List.isPrefixOf]
  have h4 : parenTok "T12(".toList ('T' :: '2' :: '4' :: '(' :: (x ++ ')' :: rest)) = false := by
    simp [parenTok, List.isPrefixOf]
  rw [run_reWithCities, codeTok_letter _ _ _ _ (by decide) (by decide),
    codeTok_letter _ _ _ _ (by decide) (by decide), codeTok_letter _ _ _ _ (by decide) (by decide),
    codeTok_letter _ _ _ _ (by decide) (by decide), h3, h4, h1', h2']
  simp

/-- In `taskWObon/main.go`, a line that is one token is replaced by what the
callback returns for it. -/
theorem processLine_whole (T : Table) (c : Char) (m : Str)
    (hm : (reWithCities.run (c :: m)).head? = some []) :
    TaskWObon.processLine T (c :: m) = TaskWObon.replacer T (c :: m) := by
  unfold TaskWObon.processLine replaceAllStringFunc
  have h := replaceAux_match reWithCities (TaskWObon.replacer T) c m [] (by simpa using hm)
  simp only [List.append_nil] at h
  rw [h, replaceAux_nil]
  cases TaskWObon.replacer T (c :: m) <;> simp

theorem slice_payload (tag x : Str) (ht : tag.length = 4) :
    slice (tag ++ (x ++ [')'])) 4 (((tag ++ (x ++ [')'])).length : Int) - 1) = some x := by
  have hl : ((tag ++ (x ++ [')'])).length : Int) - 1 = ((4 + x.length : Nat) : Int) := by
    simp [ht]; omega
  rw [hl]
  have hc : (0 : Int) ≤ 4 ∧ (4 : Int) ≤ ((4 + x.length : Nat) : Int)
      ∧ ((4 + x.length : Nat) : Int) ≤ ((tag ++ (x ++ [')'])).length : Nat) := by
    simp [ht]
  have e1 : List.take (4 + x.length) (tag ++ (x ++ [')'])) = tag ++ x := by
    rw [← List.append_assoc]
    exact List.take_left' (by simp [ht])
  simp only [slice, hc, and_self, if_true, Int.toNat_ofNat, e1]
  exact congrArg some (List.drop_left' ht)

/-- A `D(...)`, `T12(...)` or `T24(...)` token with a payload that is not
empty and has no `)` goes to `formatISODate` or `formatISOTime`. -/
theorem processLine_paren (T : Table) (x : Str) (hx : x ≠ []) (hp : ∀ c ∈ x, c ≠ ')') :
    TaskWObon.processLine T ("D(".toList ++ (x ++ ")".toList))
        = some (TaskWObon.formatISODate ("D(".toList ++ (x ++ ")".toList))) ∧
      TaskWObon.processLine T ("T12(".toList ++ (x ++ ")".toList))
        = some (TaskWObon.formatISOTime x true) ∧
      TaskWObon.processLine T ("T24(".toList ++ (x ++ ")".toList))
        = some (TaskWObon.formatISOTime x false) := by
  refine ⟨?_, ?_, ?_⟩
  · have h := processLine_whole T 'D' ('(' :: (x ++ ")".toList)) (head_date x [] hx hp)
    have hr : TaskWObon.replacer T ('D' :: '(' :: (x ++ ")".toList))
        = some (TaskWObon.formatISODate ('D' :: '(' :: (x ++ ")".toList))) := by
      simp [TaskWObon.replacer, hasPrefix, List.isPrefixOf]
    exact h.trans hr
  · have h := processLine_whole T 'T' ('1' :: '2' :: '(' :: (x ++ ")".toList)) (head_t12 x [] hx hp)
    have hs := slice_payload "T12(".toList x rfl
    have hr : TaskWObon.replacer T ('T' :: '1' :: '2' :: '(' :: (x ++ ")".toList))
        = some (TaskWObon.formatISOTime x true) := by
      have h1 : hasPrefix ('T' :: '1' :: '2' :: '(' :: (x ++ ")".toList)) "#".toList = false := by
        simp [hasPrefix, List.isPrefixOf]
      have h2 : hasPrefix ('T' :: '1' :: '2' :: '(' :: (x ++ ")".toList)) "##".toList = false := by
        simp [hasPrefix, List.isPrefixOf]
      have h3 : hasPrefix ('T' :: '1' :: '2' :: '(' :: (x ++ ")".toList)) "*#".toList = false := by
        simp [hasPrefix, List.isPrefixOf]
      have h4 : hasPrefix ('T' :: '1' :: '2' :: '(' :: (x ++ ")".toList)) "*##".toList = false := by
        simp [hasPrefix, List.isPrefixOf]
      have h5 : hasPrefix ('T' :: '1' :: '2' :: '(' :: (x ++ ")".toList)) "D(".toList = false := by
        simp [hasPrefix, List.isPrefixOf]
      have h6 : hasPrefix ('T' :: '1' :: '2' :: '(' :: (x ++ ")".toList)) "T12(".toList = true := by
        simp [hasPrefix, List.isPrefixOf]
      have hs' : slice ('T' :: '1' :: '2' :: '(' :: (x ++ ")".toList)) 4
          ((('T' :: '1' :: '2' :: '(' :: (x ++ ")".toList)).length : Int) - 1) = some x := hs
      simp only [TaskWObon.replacer, h1, h2, h3, h4, h5, h6, Bool.or_self, Bool.false_eq_true,
        if_false, if_true, hs', Option.map_some']
    exact h.trans hr
  · have h := processLine_whole T 'T' ('2' :: '4' :: '(' :: (x ++ ")".toList)) (head_t24 x [] hx hp)
    have hs := slice_payload "T24(".toList x rfl
    have hr : TaskWObon.replacer T ('T' :: '2' :: '4' :: '(' :: (x ++ ")".toList))
        = some (TaskWObon.formatISOTime x false) := by
      have h1 : hasPrefix ('T' :: '2' :: '4' :: '(' :: (x ++ ")".toList)) "#".toList = false := by
        simp [hasPrefix, List.isPrefixOf]
      have h2 : hasPrefix ('T' :: '2' :: '4' :: '(' :: (x ++ ")".toList)) "##".toList = false := by
        simp [hasPrefix, List.isPrefixOf]
      have h3 : hasPrefix ('T' :: '2' :: '4' :: '(' :: (x ++ ")".toList)) "*#".toList = false := by
        simp [hasPrefix, List.isPrefixOf]
      have h4 : hasPrefix ('T' :: '2' :: '4' :: '(' :: (x ++ ")".toList)) "*##".toList = false := by
        simp [hasPrefix, List.isPrefixOf]
      have h5 : hasPrefix ('T' :: '2' :: '4' :: '(' :: (x ++ ")".toList)) "D(".toList = false := by
        simp [hasPrefix, List.isPrefixOf]
      have h6 : hasPrefix ('T' :: '2' :: '4' :: '(' :: (x ++ ")".toList)) "T12(".toList = false := by
        simp [hasPrefix, List.isPrefixOf]
      have h7 : hasPrefix ('T' :: '2' :: '4' :: '(' :: (x ++ ")".toList)) "T24(".toList = true := by
        simp [hasPrefix, List.isPrefixOf]
      have hs' : slice ('T' :: '2' :: '4' :: '(' :: (x ++ ")".toList)) 4
          ((('T' :: '2' :: '4' :: '(' :: (x ++ ")".toList)).length : Int) - 1) = some x := hs
      simp only [TaskWObon.replacer, h1, h2, h3, h4, h5, h6, h7, Bool.or_self,
        Bool.false_eq_true, if_false, if_true, hs', Option.map_some']
    exact h.trans hr

theorem split_free (sep : Char) (b : Str) (hb : sep ∉ b) : split sep b = [b] := by
  induction b with
  | nil => rfl
  | cons c b ih =>
    have hc : ¬ c = sep := fun e => hb (by simp [e])
    have := ih fun h => hb (by simp [h])
    simp [split, hc, this]

theorem split_one (sep : Char) (a b : Str) (ha : sep ∉ a) (hb : sep ∉ b) :
    split sep (a ++ sep :: b) = [a, b] := by
  induction a with
  | nil => simp [split, split_free sep b hb]
  | cons c a ih =>
    have hc : ¬ c = sep := fun e => ha (by simp [e])
    have := ih fun h => ha (by simp [h])
    simp [split, hc, this]

/-- The two parts of a timestamp around its `T`. -/
theorem split_stamp (Y m d h mi : Nat) (tail : Str) (hY : Y < 10000) (hm : m < 100)
    (hd : d < 100) (hh : h < 100) (hmi : mi < 100) (ht : 'T' ∉ tail) :
    split 'T' (stamp Y m d h mi tail)
      = [dec4 Y ++ ('-' :: (dec2 m ++ ('-' :: dec2 d))), dec2 h ++ (':' :: (dec2 mi ++ tail))] := by
  have e : stamp Y m d h mi tail
      = (dec4 Y ++ ('-' :: (dec2 m ++ ('-' :: dec2 d)))) ++ 'T' :: (dec2 h ++ (':' :: (dec2 mi ++ tail))) := by
    simp [stamp]
  rw [e]
  apply split_one
  · intro hc
    simp only [dec4, dec2, List.cons_append, List.nil_append, List.mem_cons, List.not_mem_nil,
      or_false] at hc
    rcases hc with h | h | h | h | h | h | h | h | h | h
    all_goals first
      | exact absurd h (by decide)
      | exact dc_ne _ (by omega) 'T' (by decide) h.symm
  · intro hc
    simp only [dec2, List.cons_append, List.nil_append, List.mem_cons] at hc
    rcases hc with h | h | h | h | h | h
    all_goals first
      | exact ht h
      | exact absurd h (by decide)
      | exact dc_ne _ (by omega) 'T' (by decide) h.symm

theorem valid_bounds {Y m d h mi : Nat} (hv : ValidDate Y m d) (ht : ValidTime h mi) :
    Y < 10000 ∧ m < 100 ∧ d < 100 ∧ h < 100 ∧ mi < 100 := by
  obtain ⟨hY, hm0, hm1, hd0, hd1⟩ := hv
  obtain ⟨hh, hmi⟩ := ht
  have h31 : daysInMonth Y m ≤ 31 := by unfold daysInMonth; split <;> (try split) <;> omega
  omega

/-- `formatISODate` of `taskWObon/main.go` on a valid timestamp with `Z`. -/
theorem formatISODate_Z (Y m d h mi : Nat) (hv : ValidDate Y m d) (ht : ValidTime h mi) :
    TaskWObon.formatISODate ("D(".toList ++ (stamp Y m d h mi "Z".toList ++ ")".toList))
      = dateText Y m d := by
  rw [stamp_append]
  unfold TaskWObon.formatISODate
  have hp := parse_dateZ Y m d h mi hv ht
  have hp' : parse "D(2006-01-02T15:04Z)".toList
      ("D(".toList ++ stamp Y m d h mi ("Z".toList ++ ")".toList)) = some (date Y m d h mi) := hp
  rw [hp']
  exact format_date _ Y m d h mi hv ht (abs_date Y m d h mi hv ht)

/-- `formatISODate` of `taskWObon/main.go` on a valid timestamp with an offset
that `Parse` accepts. -/
theorem formatISODate_offset (Y m d h mi : Nat) (hv : ValidDate Y m d) (ht : ValidTime h mi)
    (neg : Bool) (oh om : Nat) (ho1 : oh ≤ 24) (ho2 : om ≤ 60) :
    TaskWObon.formatISODate
        ("D(".toList ++ (stamp Y m d h mi (offsetText neg oh om) ++ ")".toList))
      = dateText Y m d := by
  rw [stamp_append]
  unfold TaskWObon.formatISODate
  rw [parse_dateZ_offset Y m d h mi hv ht neg oh om,
    parse_dateOffset Y m d h mi hv ht neg oh om ho1 ho2]
  exact format_date _ Y m d h mi hv ht (abs_date_offset Y m d h mi hv ht neg oh om ho1 ho2)

/-- `formatISOTime` of `taskWObon/main.go` on a valid timestamp with `Z`. -/
theorem formatISOTime_Z (Y m d h mi : Nat) (hv : ValidDate Y m d) (ht : ValidTime h mi)
    (is12 : Bool) :
    TaskWObon.formatISOTime (stamp Y m d h mi "Z".toList) is12
      = (if is12 then clock12 h mi else clock24 h mi) ++ " (+00:00)".toList := by
  obtain ⟨b1, b2, b3, b4, b5⟩ := valid_bounds hv ht
  have hs := split_stamp Y m d h mi "Z".toList b1 b2 b3 b4 b5 (by decide)
  have hz : hasSuffix (dec2 h ++ (':' :: (dec2 mi ++ "Z".toList))) "Z".toList = true := by
    simp [hasSuffix, List.isSuffixOf, dec2, List.isPrefixOf]
  have habs := abs_date Y m d h mi hv ht
  unfold TaskWObon.formatISOTime
  simp only [hs, List.length_cons, List.length_nil, ne_eq, not_true_eq_false, if_false,
    List.getD_cons_succ, List.getD_cons_zero, hz, if_true, parse_timeZ Y m d h mi hv ht,
    format_clock12 _ Y m d h mi hv ht habs, format_clock24 _ Y m d h mi hv ht habs, sprintf2]
  cases is12 <;> simp

/-- `formatISOTime` of `taskWObon/main.go` on a valid timestamp with an offset
of at most 24 hours and at most 59 minutes. -/
theorem formatISOTime_offset (Y m d h mi : Nat) (hv : ValidDate Y m d) (ht : ValidTime h mi)
    (neg : Bool) (oh om : Nat) (ho1 : oh ≤ 24) (ho2 : om ≤ 59) (is12 : Bool) :
    TaskWObon.formatISOTime (stamp Y m d h mi (offsetText neg oh om)) is12
      = (if is12 then clock12 h mi else clock24 h mi)
        ++ (' ' :: '(' :: (offsetText (neg && !(oh == 0 && om == 0)) oh om ++ ")".toList)) := by
  obtain ⟨b1, b2, b3, b4, b5⟩ := valid_bounds hv ht
  have hs := split_stamp Y m d h mi (offsetText neg oh om) b1 b2 b3 b4 b5
    (offsetText_free 'T' (by decide) (by decide) (by decide) (by decide) neg oh om (by omega)
      (by omega))
  have hz : hasSuffix (dec2 h ++ (':' :: (dec2 mi ++ offsetText neg oh om))) "Z".toList = false := by
    have := dc_ne (om % 10) (by omega) 'Z' (by decide)
    have this2 : ¬ 'Z' = (om % 10).digitChar := fun e => this e.symm
    simp [hasSuffix, List.isSuffixOf, dec2, List.isPrefixOf, offsetText, this2]
  have habs := abs_date_offset Y m d h mi hv ht neg oh om ho1 (by omega)
  have hfo := format_offset
    { addSec (date Y m d h mi) (-offsetSeconds neg oh om) with offset := offsetSeconds neg oh om }
    neg oh om ho1 ho2 rfl
  unfold TaskWObon.formatISOTime
  simp only [hs, List.length_cons, List.length_nil, ne_eq, not_true_eq_false, if_false,
    List.getD_cons_succ, List.getD_cons_zero, hz, Bool.false_eq_true,
    parse_timeOffset Y m d h mi hv ht neg oh om ho1 (by omega),
    format_clock12 _ Y m d h mi hv ht habs, format_clock24 _ Y m d h mi hv ht habs,
    hfo, sprintf2]

/-- C8: for every table, every valid calendar date `Y-m-d` and valid time of
day `h:mi`, `processLine` of `taskWObon/main.go` turns `D(YYYY-MM-DDTHH:MMZ)`
into the two-digit day, a space, the three-letter month abbreviation, a space
and the four-digit year of the date as written, and does the same for
`D(YYYY-MM-DDTHH:MM+HH:MM)` and `D(YYYY-MM-DDTHH:MM-HH:MM)` with a valid offset
(hours below 24, minutes below 60): the offset never shifts the date. -/
theorem C8_date_is_shown_as_written (T : Table) (Y m d h mi : Nat) (hv : ValidDate Y m d)
    (ht : ValidTime h mi) :
    TaskWObon.processLine T ("D(".toList ++ (stamp Y m d h mi "Z".toList ++ ")".toList))
        = some (dateText Y m d) ∧
      ∀ (neg : Bool) (oh om : Nat), ValidOffset oh om →
        TaskWObon.processLine T
            ("D(".toList ++ (stamp Y m d h mi (offsetText neg oh om) ++ ")".toList))
          = some (dateText Y m d) := by
  obtain ⟨b1, b2, b3, b4, b5⟩ := valid_bounds hv ht
  constructor
  · rw [(processLine_paren T (stamp Y m d h mi "Z".toList) (by simp [stamp, dec4, dec2])
      (fun c hc e => stamp_free ')' (by decide) (by decide) (by decide) (by decide)
        Y m d h mi _ b1 b2 b3 b4 b5 (by decide) (e ▸ hc))).1,
      formatISODate_Z Y m d h mi hv ht]
  · intro neg oh om ho
    rw [(processLine_paren T (stamp Y m d h mi (offsetText neg oh om))
      (by simp [stamp, dec4, dec2])
      (fun c hc e => stamp_free ')' (by decide) (by decide) (by decide) (by decide)
        Y m d h mi _ b1 b2 b3 b4 b5
        (offsetText_free ')' (by decide) (by decide) (by decide) (by decide) neg oh om
          (by have := ho.1; omega) (by have := ho.2; omega)) (e ▸ hc))).1,
      formatISODate_offset Y m d h mi hv ht neg oh om (by have := ho.1; omega)
        (by have := ho.2; omega)]

/-- C8, at `D(2022-05-09T08:07Z)` and at `D(2024-02-01T23:00-08:00)`. -/
theorem C8_date_is_shown_as_written_witness :
    TaskWObon.processLine [] "D(2022-05-09T08:07Z)".toList = some "09 May 2022".toList ∧
      TaskWObon.processLine [] "D(2024-02-01T23:00-08:00)".toList = some "01 Feb 2024".toList :=
  ⟨(C8_date_is_shown_as_written [] 2022 5 9 8 7 (by decide) (by decide)).1,
   (C8_date_is_shown_as_written [] 2024 2 1 23 0 (by decide) (by decide)).2 true 8 0
      (by decide)⟩

/-- Outside the valid offsets: `time.Parse` takes an offset of up to 24 hours
and up to 60 minutes and rejects a larger one, so a token with the offset
`+25:00` is left as it is (a `T24` token loses its wrapper), and minutes of 60
are carried into the hours by `Format`. -/
theorem offsets_out_of_range :
    TaskWObon.processLine [] "D(2024-02-01T08:00+25:00)".toList
        = some "D(2024-02-01T08:00+25:00)".toList ∧
      TaskWObon.processLine [] "T24(2024-02-01T16:30+25:00)".toList
        = some "2024-02-01T16:30+25:00".toList ∧
      TaskWObon.processLine [] "T24(2024-02-01T16:30+05:60)".toList
        = some "16:30 (+06:00)".toList := by
  decide

/-- C9: for every table, every valid calendar date `Y-m-d` and valid time of
day `h:mi`, `processLine` of `taskWObon/main.go` turns `T24(YYYY-MM-DDTHH:MMZ)`
into `HH:MM (+00:00)`, and turns `T24(YYYY-MM-DDTHH:MM+HH:MM)` resp.
`T24(YYYY-MM-DDTHH:MM-HH:MM)`, for a valid offset (hours below 24, minutes
below 60) other than `-00:00`, into the `HH:MM` of the payload, a space and the
offset in parentheses with its sign. -/
theorem C9_clock24_and_offset_as_written (T : Table) (Y m d h mi : Nat) (hv : ValidDate Y m d)
    (ht : ValidTime h mi) :
    TaskWObon.processLine T ("T24(".toList ++ (stamp Y m d h mi "Z".toList ++ ")".toList))
        = some (clock24 h mi ++ " (+00:00)".toList) ∧
      ∀ (neg : Bool) (oh om : Nat), ValidOffset oh om → ¬ (neg = true ∧ oh = 0 ∧ om = 0) →
        TaskWObon.processLine T
            ("T24(".toList ++ (stamp Y m d h mi (offsetText neg oh om) ++ ")".toList))
          = some (clock24 h mi ++ (' ' :: '(' :: (offsetText neg oh om ++ ")".toList))) := by
  obtain ⟨b1, b2, b3, b4, b5⟩ := valid_bounds hv ht
  constructor
  · rw [(processLine_paren T (stamp Y m d h mi "Z".toList) (by simp [stamp, dec4, dec2])
      (fun c hc e => stamp_free ')' (by decide) (by decide) (by decide) (by decide)
        Y m d h mi _ b1 b2 b3 b4 b5 (by decide) (e ▸ hc))).2.2,
      formatISOTime_Z Y m d h mi hv ht false]
    rfl
  · intro neg oh om ho hne
    have hb : (neg && !(oh == 0 && om == 0)) = neg := by
      cases neg
      · rfl
      · have : (oh == 0 && om == 0) = false := by
          simp only [Bool.and_eq_false_imp, beq_iff_eq, beq_eq_false_iff_ne]
          intro h0 h1; exact hne ⟨rfl, h0, h1⟩
        simp [this]
    rw [(processLine_paren T (stamp Y m d h mi (offsetText neg oh om))
      (by simp [stamp, dec4, dec2])
      (fun c hc e => stamp_free ')' (by decide) (by decide) (by decide) (by decide)
        Y m d h mi _ b1 b2 b3 b4 b5
        (offsetText_free ')' (by decide) (by decide) (by decide) (by decide) neg oh om
          (by have := ho.1; omega) (by have := ho.2; omega)) (e ▸ hc))).2.2,
      formatISOTime_offset Y m d h mi hv ht neg oh om (by have := ho.1; omega)
        (by have := ho.2; omega) false, hb]
    rfl

/-- C9, at `T24(2084-04-13T17:54Z)` and at `T24(2024-02-01T16:30-05:00)`. -/
theorem C9_clock24_and_offset_as_written_witness :
    TaskWObon.processLine [] "T24(2084-04-13T17:54Z)".toList = some "17:54 (+00:00)".toList ∧
      TaskWObon.processLine [] "T24(2024-02-01T16:30-05:00)".toList
        = some "16:30 (-05:00)".toList :=
  ⟨(C9_clock24_and_offset_as_written [] 2084 4 13 17 54 (by decide) (by decide)).1,
   (C9_clock24_and_offset_as_written [] 2024 2 1 16 30 (by decide) (by decide)).2 true 5 0
      (by decide) (by decide)⟩

/-- C10: for every table, every valid calendar date `Y-m-d` and valid time of
day `h:mi`, `processLine` of `taskWObon/main.go` turns `T12(YYYY-MM-DDTHH:MMZ)`
into the two-digit hour of the 12-hour clock (`h mod 12`, with 0 shown as 12),
`:`, the two-digit minute, `AM` if `h < 12` and `PM` otherwise, and
` (+00:00)`; with a valid offset (hours below 24, minutes below 60) other than
`-00:00` in place of `Z`, the same clock text is followed by a space and the
offset in parentheses with its sign. -/
theorem C10_clock12_and_offset_as_written (T : Table) (Y m d h mi : Nat) (hv : ValidDate Y m d)
    (ht : ValidTime h mi) :
    TaskWObon.processLine T ("T12(".toList ++ (stamp Y m d h mi "Z".toList ++ ")".toList))
        = some (clock12 h mi ++ " (+00:00)".toList) ∧
      ∀ (neg : Bool) (oh om : Nat), ValidOffset oh om → ¬ (neg = true ∧ oh = 0 ∧ om = 0) →
        TaskWObon.processLine T
            ("T12(".toList ++ (stamp Y m d h mi (offsetText neg oh om) ++ ")".toList))
          = some (clock12 h mi ++ (' ' :: '(' :: (offsetText neg oh om ++ ")".toList))) := by
  obtain ⟨b1, b2, b3, b4, b5⟩ := valid_bounds hv ht
  constructor
  · rw [(processLine_paren T (stamp Y m d h mi "Z".toList) (by simp [stamp, dec4, dec2])
      (fun c hc e => stamp_free ')' (by decide) (by decide) (by decide) (by decide)
        Y m d h mi _ b1 b2 b3 b4 b5 (by decide) (e ▸ hc))).2.1,
      formatISOTime_Z Y m d h mi hv ht true]
    rfl
  · intro neg oh om ho hne
    have hb : (neg && !(oh == 0 && om == 0)) = neg := by
      cases neg
      · rfl
      · have : (oh == 0 && om == 0) = false := by
          simp only [Bool.and_eq_false_imp, beq_iff_eq, beq_eq_false_iff_ne]
          intro h0 h1; exact hne ⟨rfl, h0, h1⟩
        simp [this]
    rw [(processLine_paren T (stamp Y m d h mi (offsetText neg oh om))
      (by simp [stamp, dec4, dec2])
      (fun c hc e => stamp_free ')' (by decide) (by decide) (by decide) (by decide)
        Y m d h mi _ b1 b2 b3 b4 b5
        (offsetText_free ')' (by decide) (by decide) (by decide) (by decide) neg oh om
          (by have := ho.1; omega) (by have := ho.2; omega)) (e ▸ hc))).2.1,
      formatISOTime_offset Y m d h mi hv ht neg oh om (by have := ho.1; omega)
        (by have := ho.2; omega) true, hb]
    rfl

/-- C10, at `T12(2024-02-01T00:30Z)`, `T12(2024-03-02T12:00+03:00)` and
`T12(2024-02-01T16:30-05:00)`. -/
theorem C10_clock12_and_offset_as_written_witness :
    TaskWObon.processLine [] "T12(2024-02-01T00:30Z)".toList = some "12:30AM (+00:00)".toList ∧
      TaskWObon.processLine [] "T12(2024-03-02T12:00+03:00)".toList
        = some "12:00PM (+03:00)".toList ∧
      TaskWObon.processLine [] "T12(2024-02-01T16:30-05:00)".toList
        = some "04:30PM (-05:00)".toList :=
  ⟨(C10_clock12_and_offset_as_written [] 2024 2 1 0 30 (by decide) (by decide)).1,
   (C10_clock12_and_offset_as_written [] 2024 3 2 12 0 (by decide) (by decide)).2 false 3 0
      (by decide) (by decide),
   (C10_clock12_and_offset_as_written [] 2024 2 1 16 30 (by decide) (by decide)).2 true 5 0
      (by decide) (by decide)⟩

/-! ## What the parser takes -/

theorem digit_bounds (c : Char) (h : digit c = true) : 48 ≤ c.toNat ∧ c.toNat ≤ 57 := by
  simp only [digit, decide_eq_true_eq, Char.le_def] at h
  exact h

theorem isDigit_cons (c : Char) (t : Str) : isDigit (c :: t) = digit c := rfl

theorem digitVal_val (c : Char) (h : digit c = true) : digitVal c = (val c : Int) := by
  have := digit_bounds c h
  unfold digitVal val
  omega

theorem val_le (c : Char) (h : digit c = true) : val c ≤ 9 := by
  have := digit_bounds c h
  unfold val
  omega

theorem digit_range (c : Char) : (c < '0' ∨ c > '9') ↔ digit c = false := by
  simp only [digit, decide_eq_false_iff_not, not_and_or, not_le, gt_iff_lt]

/-- A number of two digits, read by `getnum` with `fixed`. -/
theorem getnum_fixed_inv (s r : Str) (n : Int) (h : getnum s true = some (n, r)) :
    ∃ a b, s = a :: b :: r ∧ digit a = true ∧ digit b = true ∧ n = ((val a * 10 + val b : Nat) : Int) := by
  match s, h with
  | [], h => simp [getnum, isDigit] at h
  | [a], h => simp [getnum, isDigit] at h
  | a :: b :: t, h =>
    simp only [getnum, isDigit_cons, List.drop_succ_cons, List.drop_zero, List.headD_cons] at h
    cases ha : digit a <;> cases hb : digit b <;> simp [ha, hb] at h
    obtain ⟨h1, h2⟩ := h
    refine ⟨a, b, by rw [h2], ha, hb, ?_⟩
    rw [← h1, digitVal_val a ha, digitVal_val b hb]
    push_cast; ring

/-- A number of one or two digits, read by `getnum` without `fixed`. -/
theorem getnum_free_inv (s r : Str) (n : Int) (h : getnum s false = some (n, r)) :
    (∃ a, s = a :: r ∧ digit a = true ∧ isDigit r = false ∧ n = ((val a : Nat) : Int)) ∨
    (∃ a b, s = a :: b :: r ∧ digit a = true ∧ digit b = true
      ∧ n = ((val a * 10 + val b : Nat) : Int)) := by
  match s, h with
  | [], h => simp [getnum, isDigit] at h
  | [a], h =>
    simp only [getnum, isDigit_cons, List.drop_succ_cons, List.drop_zero, List.headD_cons] at h
    cases ha : digit a <;> simp [ha, isDigit] at h
    obtain ⟨h1, h2⟩ := h
    left
    exact ⟨a, by rw [h2], ha, by rw [h2]; rfl, by rw [← h1, digitVal_val a ha]⟩
  | a :: b :: t, h =>
    simp only [getnum, isDigit_cons, List.drop_succ_cons, List.drop_zero, List.headD_cons] at h
    cases ha : digit a <;> cases hb : digit b <;> simp [ha, hb] at h
    · obtain ⟨h1, h2⟩ := h
      left
      exact ⟨a, by rw [← h2], ha, by rw [← h2]; exact hb, by rw [← h1, digitVal_val a ha]⟩
    · obtain ⟨h1, h2⟩ := h
      right
      refine ⟨a, b, by rw [h2], ha, hb, ?_⟩
      rw [← h1, digitVal_val a ha, digitVal_val b hb]
      push_cast; ring


theorem skipAux_inv (pre value v : Str) (b : Bool) (hp : ' ' ∉ pre)
    (h : skipAux b value pre = some v) : value = pre ++ v := by
  induction pre generalizing b value with
  | nil =>
    cases b <;> simp [skipAux] at h <;> simp [h]
  | cons a pre ih =>
    have ha : ¬ a = ' ' := fun e => hp (by simp [e])
    have hp2 : ' ' ∉ pre := fun e => hp (by simp [e])
    cases value with
    | nil => simp [skipAux, ha] at h
    | cons c value =>
      simp only [skipAux, ha, if_false] at h
      by_cases hc : c = a
      · subst hc
        simp only [ne_eq, not_true_eq_false, if_false] at h
        rw [List.cons_append, ← ih value false hp2 h]
      · simp [hc] at h

theorem skip_inv (pre value v : Str) (hp : ' ' ∉ pre) (h : skip value pre = some v) :
    value = pre ++ v :=
  skipAux_inv pre value v false hp h

theorem leadingIntAux_digit (x : Int) (c : Char) (t : Str) (hc : digit c = true) (hx0 : 0 ≤ x)
    (hx1 : x ≤ 999) : leadingIntAux x (c :: t) = leadingIntAux (x * 10 + (val c : Int)) t := by
  have hr : ¬ (c < '0' ∨ c > '9') := by rw [digit_range, hc]; simp
  have hv := val_le c hc
  have h1 : ¬ x > 9223372036854775808 / 10 := by omega
  have h2 : ¬ x * 10 + (val c : Int) > 9223372036854775808 := by omega
  simp only [leadingIntAux, hr, if_false, h1, digitVal_val c hc, h2]

theorem leadingIntAux_other (x : Int) (c : Char) (t : Str) (hc : digit c = false) :
    leadingIntAux x (c :: t) = some (x, c :: t) := by
  have hr : c < '0' ∨ c > '9' := (digit_range c).2 hc
  simp only [leadingIntAux, hr, if_true]

/-- A year of four digits, read by the layout element `2006`. -/
theorem parseStd_longYear_inv (value v : Str) (st st2 : ParseState)
    (h : parseStd .stdLongYear value st = some (v, st2)) :
    ∃ a b c d, value = a :: b :: c :: d :: v ∧ digit a = true ∧ digit b = true ∧ digit c = true
      ∧ digit d = true
      ∧ st2 = { st with year := ((val a * 1000 + val b * 100 + val c * 10 + val d : Nat) : Int) } := by
  match value, h with
  | [], h => simp [parseStd] at h
  | [_], h => simp [parseStd] at h
  | [_, _], h => simp [parseStd] at h
  | [_, _, _], h => simp [parseStd] at h
  | a :: b :: c :: d :: t, h =>
    simp only [parseStd, List.length_cons, isDigit_cons, List.take_succ_cons, List.take_zero,
      List.drop_succ_cons, List.drop_zero] at h
    cases ha : digit a
    · simp [ha] at h
    have hl : ¬ (t.length + 1 + 1 + 1 + 1 < 4) := by omega
    simp only [ha, hl, Bool.not_true, Bool.false_eq_true, or_self, if_false] at h
    have hr : ¬ (a < '0' ∨ a > '9') := by rw [digit_range, ha]; simp
    have hm : ¬ a = '-' := fun e => hr (by rw [e]; decide)
    have hp : ¬ a = '+' := fun e => hr (by rw [e]; decide)
    have hva := val_le a ha
    simp only [atoi, List.head?_cons, Option.some.injEq, hm, hp, or_self, if_false, leadingInt,
      leadingIntAux_digit 0 a _ ha (le_refl _) (by omega)] at h
    cases hb : digit b
    · simp [leadingIntAux_other _ b _ hb] at h
    have hvb := val_le b hb
    rw [leadingIntAux_digit _ b _ hb (by omega) (by omega)] at h
    cases hc : digit c
    · simp [leadingIntAux_other _ c _ hc] at h
    have hvc := val_le c hc
    rw [leadingIntAux_digit _ c _ hc (by omega) (by omega)] at h
    cases hd : digit d
    · simp [leadingIntAux_other _ d _ hd] at h
    have hvd := val_le d hd
    rw [leadingIntAux_digit _ d _ hd (by omega) (by omega)] at h
    simp only [leadingIntAux, decide_False, Bool.false_eq_true, if_false, Option.some.injEq,
      Prod.mk.injEq] at h
    obtain ⟨h1, h2⟩ := h
    refine ⟨a, b, c, d, by rw [h1], ha, hb, hc, hd, ?_⟩
    rw [← h2]
    congr 1
    push_cast
    ring

/-- A month of two digits, read by the layout element `01`. -/
theorem parseStd_zeroMonth_inv (value v : Str) (st st2 : ParseState)
    (h : parseStd .stdZeroMonth value st = some (v, st2)) :
    ∃ a b, value = a :: b :: v ∧ digit a = true ∧ digit b = true ∧ 1 ≤ val a * 10 + val b
      ∧ val a * 10 + val b ≤ 12 ∧ st2 = { st with month := ((val a * 10 + val b : Nat) : Int) } := by
  simp only [parseStd] at h
  cases hg : getnum value true with
  | none => simp [hg] at h
  | some p =>
    obtain ⟨n, r⟩ := p
    obtain ⟨a, b, e, ha, hb, hn⟩ := getnum_fixed_inv value r n hg
    simp only [hg] at h
    by_cases hc : n ≤ 0 ∨ 12 < n
    · simp [hc] at h
    · simp only [hc, if_false, Option.some.injEq, Prod.mk.injEq] at h
      obtain ⟨h1, h2⟩ := h
      refine ⟨a, b, by rw [← h1]; exact e, ha, hb, by omega, by omega, by rw [← h2, hn]⟩

/-- A day of two digits, read by the layout element `02`. -/
theorem parseStd_zeroDay_inv (value v : Str) (st st2 : ParseState)
    (h : parseStd .stdZeroDay value st = some (v, st2)) :
    ∃ a b, value = a :: b :: v ∧ digit a = true ∧ digit b = true
      ∧ st2 = { st with day := ((val a * 10 + val b : Nat) : Int) } := by
  simp only [parseStd] at h
  cases hg : getnum value true with
  | none => simp [hg] at h
  | some p =>
    obtain ⟨n, r⟩ := p
    obtain ⟨a, b, e, ha, hb, hn⟩ := getnum_fixed_inv value r n hg
    simp only [hg, Option.some.injEq, Prod.mk.injEq] at h
    obtain ⟨h1, h2⟩ := h
    exact ⟨a, b, by rw [← h1]; exact e, ha, hb, by rw [← h2, hn]⟩

/-- Minutes of two digits, read by the layout element `04`. -/
theorem parseStd_zeroMinute_inv (value v : Str) (st st2 : ParseState)
    (h : parseStd .stdZeroMinute value st = some (v, st2)) :
    ∃ a b, value = a :: b :: v ∧ digit a = true ∧ digit b = true ∧ val a * 10 + val b < 60
      ∧ st2 = { st with min := ((val a * 10 + val b : Nat) : Int) } := by
  simp only [parseStd] at h
  cases hg : getnum value true with
  | none => simp [hg] at h
  | some p =>
    obtain ⟨n, r⟩ := p
    obtain ⟨a, b, e, ha, hb, hn⟩ := getnum_fixed_inv value r n hg
    simp only [hg] at h
    by_cases hc : n < 0 ∨ 60 ≤ n
    · simp [hc] at h
    · simp only [hc, if_false, Option.some.injEq, Prod.mk.injEq] at h
      obtain ⟨h1, h2⟩ := h
      refine ⟨a, b, by rw [← h1]; exact e, ha, hb, by omega, by rw [← h2, hn]⟩

/-- An hour of one or two digits, read by the layout element `15`. -/
theorem parseStd_hour_inv (value v : Str) (st st2 : ParseState)
    (h : parseStd .stdHour value st = some (v, st2)) :
    (∃ a, value = a :: v ∧ digit a = true ∧ isDigit v = false
      ∧ st2 = { st with hour := ((val a : Nat) : Int) }) ∨
    (∃ a b, value = a :: b :: v ∧ digit a = true ∧ digit b = true ∧ val a * 10 + val b < 24
      ∧ st2 = { st with hour := ((val a * 10 + val b : Nat) : Int) }) := by
  simp only [parseStd] at h
  cases hg : getnum value false with
  | none => simp [hg] at h
  | some p =>
    obtain ⟨n, r⟩ := p
    simp only [hg] at h
    by_cases hc : n < 0 ∨ 24 ≤ n
    · simp [hc] at h
    · simp only [hc, if_false, Option.some.injEq, Prod.mk.injEq] at h
      obtain ⟨h1, h2⟩ := h
      rcases getnum_free_inv value r n hg with ⟨a, e, ha, hr, hn⟩ | ⟨a, b, e, ha, hb, hn⟩
      · left
        exact ⟨a, by rw [← h1]; exact e, ha, by rw [← h1]; exact hr, by rw [← h2, hn]⟩
      · right
        exact ⟨a, b, by rw [← h1]; exact e, ha, hb, by omega, by rw [← h2, hn]⟩

/-- An offset read by the layout element `-07:00`. -/
theorem parseStd_numColonTZ_inv (value v : Str) (st st2 : ParseState)
    (h : parseStd .stdNumColonTZ value st = some (v, st2)) :
    ∃ s a b e f zo, value = s :: a :: b :: ':' :: e :: f :: v ∧ acceptedZone [s, a, b, ':', e, f] = true
      ∧ st2 = { st with zoneOffset := zo } := by
  match value, h with
  | [], h => simp [parseStd] at h
  | [_], h => simp [parseStd] at h
  | [_, _], h => simp [parseStd] at h
  | [_, _, _], h => simp [parseStd] at h
  | [_, _, _, _], h => simp [parseStd] at h
  | [_, _, _, _, _], h => simp [parseStd] at h
  | s :: a :: b :: c :: e :: f :: t, h =>
    simp only [parseStd, List.length_cons, List.take_succ_cons, List.take_zero,
      List.drop_succ_cons, List.drop_zero, List.head?_cons] at h
    have hl : ¬ (t.length + 1 + 1 + 1 + 1 + 1 + 1 < 6) := by omega
    simp only [hl, if_false, ne_eq, Option.some.injEq] at h
    by_cases hc : c = ':'
    swap
    · simp [hc] at h
    subst hc
    simp only [not_true_eq_false, if_false] at h
    cases hg1 : getnum [a, b] true with
    | none => simp [hg1] at h
    | some p1 =>
      cases hg2 : getnum [e, f] true with
      | none => simp [hg1, hg2] at h
      | some p2 =>
        obtain ⟨hr, r1⟩ := p1
        obtain ⟨mm, r2⟩ := p2
        obtain ⟨a1, b1, e1, ha, hb, hn1⟩ := getnum_fixed_inv _ _ _ hg1
        obtain ⟨a2, b2, e2, he, hf, hn2⟩ := getnum_fixed_inv _ _ _ hg2
        simp only [List.cons.injEq] at e1 e2
        obtain ⟨rfl, rfl, -⟩ := e1
        obtain ⟨rfl, rfl, -⟩ := e2
        simp only [hg1, hg2] at h
        by_cases hc : hr > 24 ∨ mm > 60
        · simp [hc] at h
        simp only [hc, if_false] at h
        have hz1 : val a * 10 + val b ≤ 24 := by omega
        have hz2 : val e * 10 + val f ≤ 60 := by omega
        by_cases hs1 : s = '+'
        · simp only [hs1, if_true, Option.some.injEq, Prod.mk.injEq] at h
          refine ⟨s, a, b, e, f, _, by rw [← h.1], ?_, h.2.symm⟩
          simp [acceptedZone, hs1, ha, hb, he, hf, hz1, hz2]
        · by_cases hs2 : s = '-'
          · simp only [hs1, hs2, if_true, if_false, Option.some.injEq, Prod.mk.injEq] at h
            have h' := h
            simp only [show ¬ ('-' = '+') by decide, if_false, Option.some.injEq,
              Prod.mk.injEq] at h'
            refine ⟨s, a, b, e, f, _, by rw [← h'.1], ?_, h'.2.symm⟩
            simp [acceptedZone, hs2, ha, hb, he, hf, hz1, hz2]
          · simp [hs1, hs2] at h

theorem parseLoop_step_inv (fuel : Nat) (layout value : Str) (st res : ParseState) (pre : Str)
    (std : Std) (suffix : Str) (hc : nextStdChunk layout = (pre, some std, suffix))
    (h : parseLoop (fuel + 1) layout value st = some res) :
    ∃ v1 v2 st2, skip value pre = some v1 ∧ parseStd std v1 st = some (v2, st2)
      ∧ parseLoop fuel suffix v2 st2 = some res := by
  simp only [parseLoop, hc] at h
  cases hs : skip value pre with
  | none => simp [hs] at h
  | some v1 =>
    simp only [hs] at h
    cases hp : parseStd std v1 st with
    | none => simp [hp] at h
    | some p =>
      obtain ⟨v2, st2⟩ := p
      simp only [hp] at h
      exact ⟨v1, v2, st2, rfl, hp, h⟩

theorem parseLoop_last_inv (fuel : Nat) (layout value : Str) (st res : ParseState)
    (pre suffix : Str) (hc : nextStdChunk layout = (pre, none, suffix))
    (h : parseLoop (fuel + 1) layout value st = some res) :
    skip value pre = some [] ∧ res = st := by
  simp only [parseLoop, hc] at h
  cases hs : skip value pre with
  | none => simp [hs] at h
  | some v1 =>
    simp only [hs] at h
    cases v1 with
    | nil => simp at h; exact ⟨rfl, h.symm⟩
    | cons c v1 => simp at h

theorem digit_ne_colon (c : Char) (h : digit c = true) : (c == ':') = false := by
  have := digit_bounds c h
  rw [beq_eq_false_iff_ne]
  intro e
  rw [e] at this
  revert this
  decide

/-- The time of day is accepted when its hour, read by the layout element
`15`, and its minutes are. -/
theorem acceptedClock_one (a n1 n2 : Char) (zone : Str) (ha : digit a = true)
    (h1 : digit n1 = true) (h2 : digit n2 = true) (hn : val n1 * 10 + val n2 < 60)
    (hz : acceptedZone zone = true) : acceptedClock (a :: ':' :: n1 :: n2 :: zone) = true := by
  simp [acceptedClock, acceptedMinute, ha, h1, h2, hn, hz]

theorem acceptedClock_two (a b n1 n2 : Char) (zone : Str) (ha : digit a = true)
    (hb : digit b = true) (hh : val a * 10 + val b < 24)
    (h1 : digit n1 = true) (h2 : digit n2 = true) (hn : val n1 * 10 + val n2 < 60)
    (hz : acceptedZone zone = true) :
    acceptedClock (a :: b :: ':' :: n1 :: n2 :: zone) = true := by
  simp [acceptedClock, acceptedMinute, ha, hb, h1, h2, hn, hz, hh, digit_ne_colon b hb]

/-- What the layout `2006-01-02T15:04` reads between a literal prefix and the
rest of the layout: the value begins with the prefix and a text `x` that makes
an accepted timestamp with every accepted end, once the day is one of the
month. -/
theorem parseLoop_stamp_inv (fuel : Nat) (lp ls l1 l2 l3 l4 l5 value : Str) (res : ParseState)
    (hlp : ' ' ∉ lp)
    (c1 : nextStdChunk l1 = (lp, some .stdLongYear, l2))
    (c2 : nextStdChunk l2 = ("-".toList, some .stdZeroMonth, l3))
    (c3 : nextStdChunk l3 = ("-".toList, some .stdZeroDay, l4))
    (c4 : nextStdChunk l4 = ("T".toList, some .stdHour, l5))
    (c5 : nextStdChunk l5 = (":".toList, some .stdZeroMinute, ls))
    (h : parseLoop (fuel + 5) l1 value {} = some res) :
    ∃ x tail, ∃ Y M D : Nat, ∃ H MI : Int, value = lp ++ (x ++ tail)
      ∧ parseLoop fuel ls tail
          { year := Y, month := M, day := D, hour := H, min := MI, zoneOffset := -1 } = some res
      ∧ Y ≤ 9999 ∧ 1 ≤ M ∧ M ≤ 12
      ∧ ∀ zone, acceptedZone zone = true → 1 ≤ D → D ≤ daysInMonth Y M →
          acceptedStamp (x ++ zone) = true := by
  obtain ⟨v1, v2, s2, hs1, hp1, h⟩ := parseLoop_step_inv (fuel + 4) l1 value _ res lp _ l2 c1 h
  obtain ⟨v3, v4, s4, hs2, hp2, h⟩ := parseLoop_step_inv (fuel + 3) l2 v2 _ res _ _ l3 c2 h
  obtain ⟨v5, v6, s6, hs3, hp3, h⟩ := parseLoop_step_inv (fuel + 2) l3 v4 _ res _ _ l4 c3 h
  obtain ⟨v7, v8, s8, hs4, hp4, h⟩ := parseLoop_step_inv (fuel + 1) l4 v6 _ res _ _ l5 c4 h
  obtain ⟨v9, v10, s10, hs5, hp5, h⟩ := parseLoop_step_inv fuel l5 v8 _ res _ _ ls c5 h
  have e1 := skip_inv _ _ _ hlp hs1
  have e2 := skip_inv _ _ _ (by decide) hs2
  have e3 := skip_inv _ _ _ (by decide) hs3
  have e4 := skip_inv _ _ _ (by decide) hs4
  have e5 := skip_inv _ _ _ (by decide) hs5
  obtain ⟨y1, y2, y3, y4, f1, hy1, hy2, hy3, hy4, g1⟩ := parseStd_longYear_inv _ _ _ _ hp1
  obtain ⟨m1, m2, f2, hm1, hm2, hM0, hM1, g2⟩ := parseStd_zeroMonth_inv _ _ _ _ hp2
  obtain ⟨d1, d2, f3, hd1, hd2, g3⟩ := parseStd_zeroDay_inv _ _ _ _ hp3
  obtain ⟨n1, n2, f5, hn1, hn2, hN, g5⟩ := parseStd_zeroMinute_inv _ _ _ _ hp5
  have b1 := val_le y1 hy1
  have b2 := val_le y2 hy2
  have b3 := val_le y3 hy3
  have b4 := val_le y4 hy4
  have hY : val y1 * 1000 + val y2 * 100 + val y3 * 10 + val y4 ≤ 9999 := by omega
  have key : ∀ clock, acceptedClock clock = true → 1 ≤ val d1 * 10 + val d2 →
      val d1 * 10 + val d2 ≤ daysInMonth (val y1 * 1000 + val y2 * 100 + val y3 * 10 + val y4)
        (val m1 * 10 + val m2) →
      acceptedStamp (y1 :: y2 :: y3 :: y4 :: '-' :: m1 :: m2 :: '-' :: d1 :: d2 :: 'T' :: clock)
        = true := by
    intro clock hc hD0 hD1
    have hv : ValidDate (val y1 * 1000 + val y2 * 100 + val y3 * 10 + val y4)
        (val m1 * 10 + val m2) (val d1 * 10 + val d2) := ⟨hY, hM0, hM1, hD0, hD1⟩
    simp [acceptedStamp, hy1, hy2, hy3, hy4, hm1, hm2, hd1, hd2, hv, hc]
  rcases parseStd_hour_inv _ _ _ _ hp4 with ⟨a, f4, ha, -, g4⟩ | ⟨a, b, f4, ha, hb, hH, g4⟩
  · refine ⟨[y1, y2, y3, y4, '-', m1, m2, '-', d1, d2, 'T', a, ':', n1, n2], v10,
      val y1 * 1000 + val y2 * 100 + val y3 * 10 + val y4, val m1 * 10 + val m2,
      val d1 * 10 + val d2, ((val a : Nat) : Int), ((val n1 * 10 + val n2 : Nat) : Int),
      ?_, ?_, hY, hM0, hM1, ?_⟩
    · rw [e1, f1, e2, f2, e3, f3, e4, f4, e5, f5]; rfl
    · rw [← h, g5, g4, g3, g2, g1]
    · intro zone hz hD0 hD1
      exact key _ (acceptedClock_one a n1 n2 zone ha hn1 hn2 hN hz) hD0 hD1
  · refine ⟨[y1, y2, y3, y4, '-', m1, m2, '-', d1, d2, 'T', a, b, ':', n1, n2], v10,
      val y1 * 1000 + val y2 * 100 + val y3 * 10 + val y4, val m1 * 10 + val m2,
      val d1 * 10 + val d2, ((val a * 10 + val b : Nat) : Int),
      ((val n1 * 10 + val n2 : Nat) : Int), ?_, ?_, hY, hM0, hM1, ?_⟩
    · rw [e1, f1, e2, f2, e3, f3, e4, f4, e5, f5]; rfl
    · rw [← h, g5, g4, g3, g2, g1]
    · intro zone hz hD0 hD1
      exact key _ (acceptedClock_two a b n1 n2 zone ha hb hH hn1 hn2 hN hz) hD0 hD1

/-- The day of the month that `parse` validates after the loop. -/
theorem parse_valid_day (layout value : Str) (t : Time) (k : Nat) (Y M D : Nat) (H MI zo : Int)
    (hk : layout.length + 1 = k) (hM0 : 1 ≤ M) (hM1 : M ≤ 12)
    (hl : parseLoop k layout value {}
      = some { year := Y, month := M, day := D, hour := H, min := MI, zoneOffset := zo })
    (h : parse layout value = some t) : 1 ≤ D ∧ D ≤ daysInMonth Y M := by
  simp only [parse, hk, hl] at h
  have e := daysIn_cast Y M hM0 hM1
  have h1 : ¬ ((M : Int) < 0) := by omega
  have h2 : ¬ ((D : Int) < 0) := by omega
  simp only [h1, h2, if_false, e] at h
  by_cases hc : (D : Int) < 1 ∨ (D : Int) > (daysInMonth Y M : Int)
  · rw [if_pos hc] at h
    exact absurd h (by simp)
  · constructor <;> omega

/-- A value that the layout `2006-01-02T15:04Z` takes, between a literal
prefix and a literal end, is an accepted timestamp between them. -/
theorem parse_Z_inv (fuel : Nat) (lp cl ls l1 l2 l3 l4 l5 value : Str) (t : Time)
    (hk : l1.length + 1 = fuel + 1 + 5) (hlp : ' ' ∉ lp) (hcl : ' ' ∉ cl)
    (c1 : nextStdChunk l1 = (lp, some .stdLongYear, l2))
    (c2 : nextStdChunk l2 = ("-".toList, some .stdZeroMonth, l3))
    (c3 : nextStdChunk l3 = ("-".toList, some .stdZeroDay, l4))
    (c4 : nextStdChunk l4 = ("T".toList, some .stdHour, l5))
    (c5 : nextStdChunk l5 = (":".toList, some .stdZeroMinute, ls))
    (c6 : nextStdChunk ls = ('Z' :: cl, none, []))
    (h : parse l1 value = some t) :
    ∃ x, value = lp ++ (x ++ cl) ∧ acceptedStamp x = true := by
  cases hl : parseLoop (fuel + 1 + 5) l1 value {} with
  | none => simp [parse, hk, hl] at h
  | some res =>
    obtain ⟨x, tail, Y, M, D, H, MI, e, hl2, hY, hM0, hM1, hacc⟩ :=
      parseLoop_stamp_inv (fuel + 1) lp ls l1 l2 l3 l4 l5 value res hlp c1 c2 c3 c4 c5 hl
    obtain ⟨hs, hres⟩ := parseLoop_last_inv fuel ls tail _ res _ _ c6 hl2
    have ht := skip_inv _ _ _ (by simpa using hcl) hs
    rw [hres] at hl
    obtain ⟨hD0, hD1⟩ := parse_valid_day l1 value t _ Y M D H MI (-1) hk hM0 hM1 hl h
    refine ⟨x ++ ['Z'], ?_, hacc ['Z'] rfl hD0 hD1⟩
    rw [e, ht]
    simp

/-- A value that the layout `2006-01-02T15:04-07:00` takes, between a literal
prefix and a literal end, is an accepted timestamp between them. -/
theorem parse_offset_inv (fuel : Nat) (lp cl ls ls2 l1 l2 l3 l4 l5 value : Str) (t : Time)
    (hk : l1.length + 1 = fuel + 1 + 1 + 5) (hlp : ' ' ∉ lp) (hcl : ' ' ∉ cl)
    (c1 : nextStdChunk l1 = (lp, some .stdLongYear, l2))
    (c2 : nextStdChunk l2 = ("-".toList, some .stdZeroMonth, l3))
    (c3 : nextStdChunk l3 = ("-".toList, some .stdZeroDay, l4))
    (c4 : nextStdChunk l4 = ("T".toList, some .stdHour, l5))
    (c5 : nextStdChunk l5 = (":".toList, some .stdZeroMinute, ls))
    (c6 : nextStdChunk ls = ([], some .stdNumColonTZ, ls2))
    (c7 : nextStdChunk ls2 = (cl, none, []))
    (h : parse l1 value = some t) :
    ∃ x, value = lp ++ (x ++ cl) ∧ acceptedStamp x = true := by
  cases hl : parseLoop (fuel + 1 + 1 + 5) l1 value {} with
  | none => simp [parse, hk, hl] at h
  | some res =>
    obtain ⟨x, tail, Y, M, D, H, MI, e, hl2, hY, hM0, hM1, hacc⟩ :=
      parseLoop_stamp_inv (fuel + 1 + 1) lp ls l1 l2 l3 l4 l5 value res hlp c1 c2 c3 c4 c5 hl
    obtain ⟨v1, v2, st2, hs1, hp, hl3⟩ := parseLoop_step_inv (fuel + 1) ls tail _ res _ _ ls2 c6 hl2
    have e1 := skip_inv _ _ _ (by simp) hs1
    obtain ⟨s, a, b, e', f, zo, e2, hz, hst⟩ := parseStd_numColonTZ_inv _ _ _ _ hp
    obtain ⟨hs, hres⟩ := parseLoop_last_inv fuel ls2 v2 _ res _ _ c7 hl3
    have ht := skip_inv _ _ _ hcl hs
    rw [hres, hst] at hl
    obtain ⟨hD0, hD1⟩ := parse_valid_day l1 value t _ Y M D H MI zo hk hM0 hM1 hl h
    refine ⟨x ++ [s, a, b, ':', e', f], ?_, hacc _ hz hD0 hD1⟩
    rw [e, e1, List.nil_append, e2, ht]
    simp

/-- The four layouts of the program take accepted timestamps only. -/
theorem parse_accepted (x : Str) (t : Time) :
    (parse "D(2006-01-02T15:04Z)".toList ("D(".toList ++ (x ++ ")".toList)) = some t →
      acceptedStamp x = true) ∧
    (parse "D(2006-01-02T15:04-07:00)".toList ("D(".toList ++ (x ++ ")".toList)) = some t →
      acceptedStamp x = true) ∧
    (parse "2006-01-02T15:04Z".toList x = some t → acceptedStamp x = true) ∧
    (parse "2006-01-02T15:04-07:00".toList x = some t → acceptedStamp x = true) := by
  refine ⟨fun h => ?_, fun h => ?_, fun h => ?_, fun h => ?_⟩
  · obtain ⟨y, e, hy⟩ := parse_Z_inv 15 "D(".toList ")".toList "Z)".toList
      "D(2006-01-02T15:04Z)".toList "-01-02T15:04Z)".toList "-02T15:04Z)".toList
      "T15:04Z)".toList ":04Z)".toList _ t (by decide) (by decide) (by decide) (by decide)
      (by decide) (by decide) (by decide) (by decide) (by decide) h
    rw [List.append_cancel_right (List.append_cancel_left e)]
    exact hy
  · obtain ⟨y, e, hy⟩ := parse_offset_inv 19 "D(".toList ")".toList "-07:00)".toList ")".toList
      "D(2006-01-02T15:04-07:00)".toList "-01-02T15:04-07:00)".toList "-02T15:04-07:00)".toList
      "T15:04-07:00)".toList ":04-07:00)".toList _ t (by decide) (by decide) (by decide)
      (by decide) (by decide) (by decide) (by decide) (by decide) (by decide) (by decide) h
    rw [List.append_cancel_right (List.append_cancel_left e)]
    exact hy
  · obtain ⟨y, e, hy⟩ := parse_Z_inv 12 [] [] "Z".toList
      "2006-01-02T15:04Z".toList "-01-02T15:04Z".toList "-02T15:04Z".toList
      "T15:04Z".toList ":04Z".toList _ t (by decide) (by decide) (by decide) (by decide)
      (by decide) (by decide) (by decide) (by decide) (by decide) h
    rw [e]
    simpa using hy
  · obtain ⟨y, e, hy⟩ := parse_offset_inv 16 [] [] "-07:00".toList []
      "2006-01-02T15:04-07:00".toList "-01-02T15:04-07:00".toList "-02T15:04-07:00".toList
      "T15:04-07:00".toList ":04-07:00".toList _ t (by decide) (by decide) (by decide)
      (by decide) (by decide) (by decide) (by decide) (by decide) (by decide) (by decide) h
    rw [e]
    simpa using hy

theorem parse_rejected (x : Str) (h : acceptedStamp x = false) :
    parse "D(2006-01-02T15:04Z)".toList ("D(".toList ++ (x ++ ")".toList)) = none ∧
    parse "D(2006-01-02T15:04-07:00)".toList ("D(".toList ++ (x ++ ")".toList)) = none ∧
    parse "2006-01-02T15:04Z".toList x = none ∧
    parse "2006-01-02T15:04-07:00".toList x = none := by
  have key : ∀ o : Option Time, (∀ t, o = some t → acceptedStamp x = true) → o = none := by
    intro o ho
    cases o with
    | none => rfl
    | some t => rw [ho t rfl] at h; exact absurd h (by simp)
  exact ⟨key _ fun t => (parse_accepted x t).1, key _ fun t => (parse_accepted x t).2.1,
    key _ fun t => (parse_accepted x t).2.2.1, key _ fun t => (parse_accepted x t).2.2.2⟩

/-- A date token whose payload is no accepted timestamp comes back whole from
`formatISODate`. -/
theorem formatISODate_rejected (x : Str) (h : acceptedStamp x = false) :
    TaskWObon.formatISODate ("D(".toList ++ (x ++ ")".toList))
      = "D(".toList ++ (x ++ ")".toList) := by
  obtain ⟨h1, h2, -, -⟩ := parse_rejected x h
  simp only [TaskWObon.formatISODate, h1, h2]

/-- A payload that is no accepted timestamp comes back from `formatISOTime` as
it is, without the wrapper of the token. -/
theorem formatISOTime_rejected (x : Str) (b : Bool) (h : acceptedStamp x = false) :
    TaskWObon.formatISOTime x b = x := by
  obtain ⟨-, -, h3, h4⟩ := parse_rejected x h
  unfold TaskWObon.formatISOTime
  simp only [h3, h4, ite_self]

/-- An accepted timestamp has the shape of the specification, with an hour of
two digits or of one. -/
theorem acceptedStamp_shape (x : Str) (h : acceptedStamp x = true) :
    stampShape false x = true ∨ stampShape true x = true := by
  unfold acceptedStamp at h
  split at h
  swap
  · exact absurd h (by simp)
  rename_i y1 y2 y3 y4 s1 m1 m2 s2 d1 d2 t clock
  simp only [Bool.and_eq_true, beq_iff_eq, decide_eq_true_eq] at h
  obtain ⟨⟨⟨⟨⟨⟨⟨⟨⟨⟨⟨⟨hy1, hy2⟩, hy3⟩, hy4⟩, rfl⟩, hm1⟩, hm2⟩, rfl⟩, hd1⟩, hd2⟩, rfl⟩, -⟩, hc⟩ := h
  unfold acceptedClock at hc
  split at hc
  swap
  · exact absurd hc (by simp)
  rename_i h1 c rest
  have zone_cases : ∀ zone, acceptedZone zone = true →
      zone = ['Z'] ∨ ∃ s a b e f, zone = [s, a, b, ':', e, f] ∧ (s = '+' ∨ s = '-')
        ∧ digit a = true ∧ digit b = true ∧ digit e = true ∧ digit f = true := by
    intro zone hz
    unfold acceptedZone at hz
    split at hz
    · left; simp only [beq_iff_eq] at hz; rw [hz]
    · right
      simp only [Bool.and_eq_true, Bool.or_eq_true, beq_iff_eq, decide_eq_true_eq] at hz
      obtain ⟨⟨⟨⟨⟨⟨⟨hs, ha⟩, hb⟩, rfl⟩, he⟩, hf⟩, -⟩, -⟩ := hz
      exact ⟨_, _, _, _, _, rfl, hs, ha, hb, he, hf⟩
    · exact absurd hz (by simp)
  have minute_cases : ∀ r, acceptedMinute r = true →
      ∃ n1 n2 zone, r = n1 :: n2 :: zone ∧ digit n1 = true ∧ digit n2 = true
        ∧ acceptedZone zone = true := by
    intro r hr
    unfold acceptedMinute at hr
    split at hr
    · simp only [Bool.and_eq_true, decide_eq_true_eq] at hr
      obtain ⟨⟨⟨h1, h2⟩, -⟩, hz⟩ := hr
      exact ⟨_, _, _, rfl, h1, h2, hz⟩
    · exact absurd hr (by simp)
  split at hc
  · rename_i hcol
    simp only [beq_iff_eq] at hcol
    subst hcol
    simp only [Bool.and_eq_true] at hc
    obtain ⟨hh1, hmin⟩ := hc
    obtain ⟨n1, n2, zone, rfl, hn1, hn2, hz⟩ := minute_cases _ hmin
    right
    rcases zone_cases zone hz with rfl | ⟨s, a, b, e, f, rfl, hs, ha, hb, he, hf⟩
    · simp [stampShape, hy1, hy2, hy3, hy4, hm1, hm2, hd1, hd2, hh1, hn1, hn2]
    · rcases hs with rfl | rfl <;>
        simp [stampShape, hy1, hy2, hy3, hy4, hm1, hm2, hd1, hd2, hh1, hn1, hn2, ha, hb, he, hf]
  · split at hc
    swap
    · exact absurd hc (by simp)
    rename_i c2 rest2
    simp only [Bool.and_eq_true, beq_iff_eq, decide_eq_true_eq] at hc
    obtain ⟨⟨⟨⟨hh1, hh2⟩, rfl⟩, -⟩, hmin⟩ := hc
    obtain ⟨n1, n2, zone, rfl, hn1, hn2, hz⟩ := minute_cases _ hmin
    left
    rcases zone_cases zone hz with rfl | ⟨s, a, b, e, f, rfl, hs, ha, hb, he, hf⟩
    · simp [stampShape, hy1, hy2, hy3, hy4, hm1, hm2, hd1, hd2, hh1, hh2, hn1, hn2]
    · rcases hs with rfl | rfl <;>
        simp [stampShape, hy1, hy2, hy3, hy4, hm1, hm2, hd1, hd2, hh1, hh2, hn1, hn2, ha, hb, he,
          hf]

/-! ## Tokens that are not rendered -/

/-- C11 fails as stated: the payload `2024-02-01T8:00Z` has a one-digit hour,
so it is a timestamp of neither accepted form (`YYYY-MM-DDTHH:MMZ`,
`YYYY-MM-DDTHH:MM±HH:MM`), it is not empty and holds no `)`, and yet
`processLine` of `taskWObon/main.go` does not leave `D(2024-02-01T8:00Z)`
unchanged: the token becomes `01 Feb 2024`. -/
theorem C11_counterexample :
    stampShape false "2024-02-01T8:00Z".toList = false ∧
      "2024-02-01T8:00Z".toList ≠ [] ∧ (∀ c ∈ "2024-02-01T8:00Z".toList, c ≠ ')') ∧
      TaskWObon.processLine [] "D(2024-02-01T8:00Z)".toList = some "01 Feb 2024".toList ∧
      TaskWObon.processLine [] "D(2024-02-01T8:00Z)".toList
        ≠ some "D(2024-02-01T8:00Z)".toList := by
  decide

/-- C11, amended: for every table and every non-empty text `x` without `)`
that `time.Parse` takes under neither layout of the program (`x` is no
timestamp with a valid date, an hour below 24 of one or two digits, minutes
below 60 and then `Z` or a signed offset of at most 24 hours and 60 minutes),
`processLine` of `taskWObon/main.go` returns the token `D(x)` whole, with its
`D(` and its `)`, also when `x` holds a code that the table knows. -/
theorem C11_rejected_date_token_is_left_whole (T : Table) (x : Str) (hx : x ≠ [])
    (hp : ∀ c ∈ x, c ≠ ')') (ha : acceptedStamp x = false) :
    TaskWObon.processLine T ("D(".toList ++ (x ++ ")".toList))
      = some ("D(".toList ++ (x ++ ")".toList)) := by
  rw [(processLine_paren T x hx hp).1, formatISODate_rejected x ha]

/-- C11, amended, at `D(#HIR)` with a table that knows `#HIR`. -/
theorem C11_rejected_date_token_is_left_whole_witness :
    basicTable.get "#HIR".toList = some "Honiara International Airport".toList ∧
      TaskWObon.processLine basicTable "D(#HIR)".toList = some "D(#HIR)".toList :=
  ⟨by decide,
   C11_rejected_date_token_is_left_whole basicTable "#HIR".toList (by decide) (by decide)
    (by decide)⟩

/-- C12, as the code has it: for every table and every non-empty text `x`
without `)` that is no accepted timestamp, `processLine` of `taskWObon/main.go`
returns for `T12(x)` and for `T24(x)` the payload `x` alone; the prefix and the
closing parenthesis of the token are lost. -/
theorem C12_rejected_time_token_loses_its_wrapper (T : Table) (x : Str) (hx : x ≠ [])
    (hp : ∀ c ∈ x, c ≠ ')') (ha : acceptedStamp x = false) :
    TaskWObon.processLine T ("T12(".toList ++ (x ++ ")".toList)) = some x ∧
      TaskWObon.processLine T ("T24(".toList ++ (x ++ ")".toList)) = some x := by
  obtain ⟨-, h12, h24⟩ := processLine_paren T x hx hp
  rw [h12, h24, formatISOTime_rejected x true ha, formatISOTime_rejected x false ha]
  exact ⟨rfl, rfl⟩

/-- C12, at `T12(abc)` and `T24(abc)`: the output is `abc`. -/
theorem C12_rejected_time_token_loses_its_wrapper_witness :
    TaskWObon.processLine [] "T12(abc)".toList = some "abc".toList ∧
      TaskWObon.processLine [] "T24(abc)".toList = some "abc".toList :=
  C12_rejected_time_token_loses_its_wrapper [] "abc".toList (by decide) (by decide) (by decide)

/-- C13 fails as stated: the payload `2024-02-01T8:00Z` has a one-digit hour,
so it has not the shape with a two-digit hour, and yet `processLine` of
`taskWObon/main.go` renders the three tokens that carry it. -/
theorem C13_counterexample :
    stampShape false "2024-02-01T8:00Z".toList = false ∧
      TaskWObon.processLine [] "D(2024-02-01T8:00Z)".toList = some "01 Feb 2024".toList ∧
      TaskWObon.processLine [] "T12(2024-02-01T8:00Z)".toList
        = some "08:00AM (+00:00)".toList ∧
      TaskWObon.processLine [] "T24(2024-02-01T8:00Z)".toList
        = some "08:00 (+00:00)".toList := by
  decide

/-- A rendered time ends with the closing parenthesis of its offset. -/
theorem clockShape_paren (twelve : Bool) (out : Str) (h : clockShape twelve out = true) :
    ')' ∈ out := by
  unfold clockShape at h
  dsimp only at h
  simp only [Bool.and_eq_true] at h
  have h8 := eq_of_beq h.2
  by_cases hk : 8 < ((out.drop 5).drop (if twelve then 2 else 0)).length
  · rw [List.getD_eq_getElem _ _ hk] at h8
    have hm : ')' ∈ (out.drop 5).drop (if twelve then 2 else 0) := by
      rw [← h8]; exact List.getElem_mem _
    exact List.mem_of_mem_drop (List.mem_of_mem_drop hm)
  · rw [List.getD_eq_default _ _ (by omega)] at h8
    exact absurd h8 (by decide)

/-- C13, amended: for every table and every non-empty payload `x` without `)`,
`processLine` of `taskWObon/main.go` renders the token only if the payload is
a timestamp that `time.Parse` takes, which has the shape four digits, `-`, two
digits, `-`, two digits, `T`, one or two digits, `:`, two digits and then `Z`
or a sign, two digits, `:`, two digits.  A token `D(x)` is rendered when the
output is not the token; a token `T12(x)` or `T24(x)` is rendered when the
output is a clock time followed by its offset in parentheses. -/
theorem C13_rendered_payload_has_the_shape (T : Table) (x : Str) (hx : x ≠ [])
    (hp : ∀ c ∈ x, c ≠ ')') :
    (TaskWObon.processLine T ("D(".toList ++ (x ++ ")".toList))
        ≠ some ("D(".toList ++ (x ++ ")".toList)) →
      acceptedStamp x = true ∧ (stampShape false x = true ∨ stampShape true x = true)) ∧
    (∀ out, TaskWObon.processLine T ("T12(".toList ++ (x ++ ")".toList)) = some out →
      clockShape true out = true →
      acceptedStamp x = true ∧ (stampShape false x = true ∨ stampShape true x = true)) ∧
    (∀ out, TaskWObon.processLine T ("T24(".toList ++ (x ++ ")".toList)) = some out →
      clockShape false out = true →
      acceptedStamp x = true ∧ (stampShape false x = true ∨ stampShape true x = true)) := by
  obtain ⟨hD, h12, h24⟩ := processLine_paren T x hx hp
  cases ha : acceptedStamp x with
  | true =>
    exact ⟨fun _ => ⟨rfl, acceptedStamp_shape x ha⟩, fun _ _ _ => ⟨rfl, acceptedStamp_shape x ha⟩,
      fun _ _ _ => ⟨rfl, acceptedStamp_shape x ha⟩⟩
  | false =>
    refine ⟨fun h => absurd ?_ h, fun out h hs => ?_, fun out h hs => ?_⟩
    · rw [hD, formatISODate_rejected x ha]
    · have e : TaskWObon.processLine T ("T12(".toList ++ (x ++ ")".toList)) = some x := by
        rw [h12, formatISOTime_rejected x true ha]
      rw [e] at h
      injection h with h
      subst h
      exact absurd rfl (hp _ (clockShape_paren _ _ hs))
    · have e : TaskWObon.processLine T ("T24(".toList ++ (x ++ ")".toList)) = some x := by
        rw [h24, formatISOTime_rejected x false ha]
      rw [e] at h
      injection h with h
      subst h
      exact absurd rfl (hp _ (clockShape_paren _ _ hs))

/-- C13, amended, at the payload `2024-02-01T8:00Z` of a token `T12`, which is
rendered as `08:00AM (+00:00)`. -/
theorem C13_rendered_payload_has_the_shape_witness :
    TaskWObon.processLine [] "T12(2024-02-01T8:00Z)".toList = some "08:00AM (+00:00)".toList ∧
      clockShape true "08:00AM (+00:00)".toList = true ∧
      acceptedStamp "2024-02-01T8:00Z".toList = true ∧
      (stampShape false "2024-02-01T8:00Z".toList = true ∨
        stampShape true "2024-02-01T8:00Z".toList = true) :=
  ⟨by decide, by decide,
    (C13_rendered_payload_has_the_shape [] "2024-02-01T8:00Z".toList (by decide)
      (by decide)).2.1 "08:00AM (+00:00)".toList (by decide) (by decide)⟩

/-! ## Totality of the scan -/

/-- The scan returns when the callback returns on every match. -/
theorem replaceAux_total (re : Regex) (repl : Str → Option Str)
    (h : ∀ s k, matchLen re s = some k → ∃ r, repl (s.take k) = some r) (k : Nat) (s : Str) :
    ∃ r, replaceAux re repl k s = some r := by
  induction s generalizing k with
  | nil => exact ⟨[], replaceAux_nil re repl k⟩
  | cons c t ih =>
    cases k with
    | succ k => exact ih k
    | zero =>
      rw [replaceAux]
      cases hm : matchLen re (c :: t) with
      | none =>
        obtain ⟨r, hr⟩ := ih 0
        exact ⟨c :: r, by simp only [hr]⟩
      | some n =>
        cases n with
        | zero =>
          obtain ⟨r, hr⟩ := ih 0
          exact ⟨c :: r, by simp only [hr]⟩
        | succ n =>
          obtain ⟨r1, h1⟩ := h (c :: t) (n + 1) hm
          obtain ⟨r2, h2⟩ := ih n
          exact ⟨r1 ++ r2, by simp only [h1, h2]⟩

/-- A token in parentheses is at least two characters longer than its tag. -/
theorem parenTok_length (tag s : Str) (h : parenTok tag s = true) :
    (((s.drop tag.length).dropWhile notParen).drop 1).length + tag.length + 2 ≤ s.length := by
  simp only [parenTok, Bool.and_eq_true, Bool.not_eq_true', List.isEmpty_eq_false,
    beq_iff_eq] at h
  obtain ⟨h1, h2, h3⟩ := h
  rw [List.isPrefixOf_iff_prefix] at h1
  obtain ⟨u, rfl⟩ := h1
  rw [List.drop_left] at h2 h3 ⊢
  have e : (u.takeWhile notParen).length + (u.dropWhile notParen).length = u.length := by
    rw [← List.length_append, List.takeWhile_append_dropWhile]
  have a1 : 0 < (u.takeWhile notParen).length := List.length_pos.2 h2
  have a2 : 0 < (u.dropWhile notParen).length := by
    cases hd : u.dropWhile notParen with
    | nil => rw [hd] at h3; simp at h3
    | cons x l => simp
  rw [List.length_drop, List.length_append]
  omega

theorem head_isPrefixOf (tag s : Str) (c x : Char) (t : Str) (ht : tag = c :: t)
    (hs : s.head? = some x) (hx : x ≠ c) : tag.isPrefixOf s = false := by
  subst ht
  cases s with
  | nil => rfl
  | cons y s =>
    simp only [List.head?_cons, Option.some.injEq] at hs
    subst hs
    simp [List.isPrefixOf, hx.symm]

/-- A match that begins with `T` has at least six characters, in either
pattern. -/
theorem match_T_length (s : Str) (k : Nat) (hT : s.head? = some 'T')
    (hm : matchLen reWithCities s = some k ∨ matchLen reStandard s = some k) :
    6 ≤ k ∧ k ≤ s.length := by
  have c1 := codeTok_false "*#".toList 3 s "*#".toList [] rfl
    (head_isPrefixOf _ s '*' 'T' _ rfl hT (by decide))
  have c2 := codeTok_false "*##".toList 4 s "*##".toList [] rfl
    (head_isPrefixOf _ s '*' 'T' _ rfl hT (by decide))
  have c3 := codeTok_false "#".toList 3 s "#".toList [] rfl
    (head_isPrefixOf _ s '#' 'T' _ rfl hT (by decide))
  have c4 := codeTok_false "##".toList 4 s "##".toList [] rfl
    (head_isPrefixOf _ s '#' 'T' _ rfl hT (by decide))
  have c5 := parenTok_false "D(".toList s "D(".toList [] rfl
    (head_isPrefixOf _ s 'D' 'T' _ rfl hT (by decide))
  have key : ∀ r, r ∈ (if parenTok "T12(".toList s then [((s.drop 4).dropWhile notParen).drop 1]
        else []) ++ (if parenTok "T24(".toList s then [((s.drop 4).dropWhile notParen).drop 1]
        else []) → r.length + 6 ≤ s.length := by
    intro r hr
    rw [List.mem_append] at hr
    rcases hr with hr | hr <;> split at hr <;>
      simp only [List.mem_singleton, List.not_mem_nil] at hr
    all_goals rename_i hc; subst hr
    · exact parenTok_length "T12(".toList s hc
    · exact parenTok_length "T24(".toList s hc
  have fin : ∀ l : List Str, (∀ r ∈ l, r.length + 6 ≤ s.length) →
      (l.head?.map fun rest => s.length - rest.length) = some k → 6 ≤ k ∧ k ≤ s.length := by
    intro l hl hk
    cases hh : l.head? with
    | none => rw [hh] at hk; simp at hk
    | some r =>
      rw [hh] at hk
      have := hl r (List.mem_of_mem_head? hh)
      simp only [Option.map_some', Option.some.injEq] at hk
      omega
  rcases hm with hm | hm
  · unfold matchLen at hm
    rw [run_reWithCities, c1, c2, c3, c4, c5] at hm
    exact fin _ key hm
  · unfold matchLen at hm
    rw [run_reStandard, c3, c4, c5] at hm
    exact fin _ key hm

theorem slice_some (m : Str) (h : 5 ≤ m.length) :
    ∃ x, slice m 4 ((m.length : Int) - 1) = some x := by
  have hc : (0 : Int) ≤ 4 ∧ (4 : Int) ≤ (m.length : Int) - 1
      ∧ (m.length : Int) - 1 ≤ (m.length : Int) := by omega
  exact ⟨_, by rw [slice, if_pos hc]⟩

/-- The callbacks return on every text that, when it begins with `T12(` or
`T24(`, has five characters or more. -/
theorem replacer_some (T : Table) (m : Str)
    (h : hasPrefix m "T12(".toList = true ∨ hasPrefix m "T24(".toList = true → 5 ≤ m.length) :
    (∃ r, TaskWObon.replacer T m = some r) ∧ (∃ r, WithBonuses.replacer T m = some r) := by
  constructor
  · unfold TaskWObon.replacer
    split
    · split <;> exact ⟨_, rfl⟩
    · split
      · split <;> exact ⟨_, rfl⟩
      · split
        · exact ⟨_, rfl⟩
        · split
          · rename_i h12
            obtain ⟨x, hx⟩ := slice_some m (h (Or.inl h12))
            exact ⟨_, by rw [hx]; rfl⟩
          · split
            · rename_i h24
              obtain ⟨x, hx⟩ := slice_some m (h (Or.inr h24))
              exact ⟨_, by rw [hx]; rfl⟩
            · exact ⟨_, rfl⟩
  · unfold WithBonuses.replacer
    split
    · split <;> exact ⟨_, rfl⟩
    · split
      · split <;> exact ⟨_, rfl⟩
      · split
        · exact ⟨_, rfl⟩
        · split
          · rename_i h12
            obtain ⟨x, hx⟩ := slice_some m (h (Or.inl h12))
            exact ⟨_, by rw [hx]; rfl⟩
          · split
            · rename_i h24
              obtain ⟨x, hx⟩ := slice_some m (h (Or.inr h24))
              exact ⟨_, by rw [hx]; rfl⟩
            · exact ⟨_, rfl⟩

theorem head_of_take (s : Str) (k : Nat) (tag : Str) (c : Char) (t : Str) (ht : tag = c :: t)
    (h : hasPrefix (s.take k) tag = true) : s.head? = some c := by
  subst ht
  unfold hasPrefix at h
  cases s with
  | nil => simp [List.isPrefixOf] at h
  | cons x s =>
    cases k with
    | zero => simp [List.isPrefixOf] at h
    | succ k =>
      simp only [List.take_succ_cons, List.isPrefixOf, Bool.and_eq_true, beq_iff_eq] at h
      rw [List.head?_cons, h.1]

/-- The callbacks return on every match of either pattern: a match that begins
with `T12(` or `T24(` has at least six characters, so that the slice
`match[4 : len(match)-1]` is within bounds. -/
theorem replacer_match (T : Table) (s : Str) (k : Nat)
    (hm : matchLen reWithCities s = some k ∨ matchLen reStandard s = some k) :
    (∃ r, TaskWObon.replacer T (s.take k) = some r) ∧
      (∃ r, WithBonuses.replacer T (s.take k) = some r) := by
  apply replacer_some
  intro h
  have hT : s.head? = some 'T' := by
    rcases h with h | h
    · exact head_of_take s k _ 'T' _ rfl h
    · exact head_of_take s k _ 'T' _ rfl h
  obtain ⟨h1, h2⟩ := match_T_length s k hT hm
  rw [List.length_take]
  omega

/-- C14: `processLine` is total in both variants and both modes: for every
lookup table (the empty one included, which stands for an unset map as well)
and every line it returns a string; the slice of a `T12`/`T24` match is never
out of bounds and no other step can fail. -/
theorem C14_processLine_is_total (T : Table) (line : Str) :
    (∃ r, TaskWObon.processLine T line = some r) ∧
      (∃ r, WithBonuses.processLine true T line = some r) ∧
      (∃ r, WithBonuses.processLine false T line = some r) :=
  ⟨replaceAux_total reWithCities _ (fun s k h => (replacer_match T s k (Or.inl h)).1) 0 line,
   replaceAux_total reWithCities _ (fun s k h => (replacer_match T s k (Or.inl h)).2) 0 line,
   replaceAux_total reStandard _ (fun s k h => (replacer_match T s k (Or.inr h)).2) 0 line⟩

/-! ## Lines without a token -/

theorem isPrefixOf_mem (tag q : Str) (c : Char) (hc : c ∈ tag) (hq : c ∉ q) :
    tag.isPrefixOf q = false := by
  cases h : tag.isPrefixOf q
  · rfl
  · rw [List.isPrefixOf_iff_prefix] at h
    exact absurd (h.subset hc) hq

theorem isPrefixOf_within (tag q p : Str) (hq : q <:+ p) (hp : ¬ tag <:+: p) :
    tag.isPrefixOf q = false := by
  cases h : tag.isPrefixOf q
  · rfl
  · rw [List.isPrefixOf_iff_prefix] at h
    exact absurd (h.isInfix.trans hq.isInfix) hp

/-- No pattern matches at a place of a text without `#` and without `D(`,
`T12(` and `T24(`. -/
theorem run_nil_of_no_hash (p q : Str) (hq : q <:+ p) (h1 : '#' ∉ p) (h2 : ¬ "D(".toList <:+: p)
    (h3 : ¬ "T12(".toList <:+: p) (h4 : ¬ "T24(".toList <:+: p) :
    reWithCities.run q = [] ∧ reStandard.run q = [] := by
  have hh : '#' ∉ q := fun h => h1 (hq.subset h)
  have c1 := codeTok_false "*#".toList 3 q "*#".toList [] rfl
    (isPrefixOf_mem _ q '#' (by decide) hh)
  have c2 := codeTok_false "*##".toList 4 q "*##".toList [] rfl
    (isPrefixOf_mem _ q '#' (by decide) hh)
  have c3 := codeTok_false "#".toList 3 q "#".toList [] rfl
    (isPrefixOf_mem _ q '#' (by decide) hh)
  have c4 := codeTok_false "##".toList 4 q "##".toList [] rfl
    (isPrefixOf_mem _ q '#' (by decide) hh)
  have c5 := parenTok_false "D(".toList q "D(".toList [] rfl (isPrefixOf_within _ q p hq h2)
  have c6 := parenTok_false "T12(".toList q "T12(".toList [] rfl (isPrefixOf_within _ q p hq h3)
  have c7 := parenTok_false "T24(".toList q "T24(".toList [] rfl (isPrefixOf_within _ q p hq h4)
  constructor
  · rw [run_reWithCities, c1, c2, c3, c4, c5, c6, c7]; rfl
  · rw [run_reStandard, c3, c4, c5, c6, c7]; rfl

/-- C15: for every lookup table and every line that contains no `#` and none
of the substrings `D(`, `T12(`, `T24(`, `processLine` returns the line
unchanged, in `taskWObon/main.go` and in both modes of
`itineraryWithBonuses.go`. -/
theorem C15_line_without_token_is_unchanged (T : Table) (line : Str) (h1 : '#' ∉ line)
    (h2 : ¬ "D(".toList <:+: line) (h3 : ¬ "T12(".toList <:+: line)
    (h4 : ¬ "T24(".toList <:+: line) :
    TaskWObon.processLine T line = some line ∧
      WithBonuses.processLine true T line = some line ∧
      WithBonuses.processLine false T line = some line := by
  have key : ∀ (re : Regex) (repl : Str → Option Str),
      (∀ q, q <:+ line → re.run q = []) → replaceAux re repl 0 line = some line := by
    intro re repl hre
    have := replaceAux_prefix re repl line [] fun q _ hs => by
      rw [List.append_nil]; exact hre q hs
    simpa [replaceAux_nil] using this
  exact ⟨key _ _ fun q hq => (run_nil_of_no_hash line q hq h1 h2 h3 h4).1,
    key _ _ fun q hq => (run_nil_of_no_hash line q hq h1 h2 h3 h4).1,
    key _ _ fun q hq => (run_nil_of_no_hash line q hq h1 h2 h3 h4).2⟩

/-- C15, at a line of bare codes that the table knows with a hash. -/
theorem C15_line_without_token_is_unchanged_witness :
    basicTable.get "#HIR".toList = some "Honiara International Airport".toList ∧
      basicTable.get "*##AGGH".toList = some "Honiara".toList ∧
      TaskWObon.processLine basicTable "HIR, AGGH, *HIR or *AGGH".toList
        = some "HIR, AGGH, *HIR or *AGGH".toList :=
  ⟨by decide, by decide,
   (C15_line_without_token_is_unchanged basicTable "HIR, AGGH, *HIR or *AGGH".toList
      (by decide) (by decide) (by decide) (by decide)).1⟩

/-! ## Loading the lookup -/

theorem index_nat (parts : List Str) (i : Nat) : index parts (i : Int) = parts.get? i := by
  unfold index
  by_cases h : i < parts.length
  · have : (0 : Int) ≤ (i : Int) ∧ (i : Int) < (parts.length : Int) := by omega
    rw [if_pos this, Int.toNat_ofNat]
  · have : ¬ ((0 : Int) ≤ (i : Int) ∧ (i : Int) < (parts.length : Int)) := by omega
    rw [if_neg this, List.get?_eq_none.2 (by omega)]

theorem firstFields_succ (msg : Str) (parts : List Str) (n i : Nat) :
    firstFields msg parts (n + 1) (i : Int) =
      match parts.get? i with
      | none => .panic
      | some p => if p = [] then .error msg else firstFields msg parts n ((i + 1 : Nat) : Int) := by
  rw [firstFields, index_nat]
  rfl

/-- The loop over the first fields runs to its end when the fields are there
and none is empty. -/
theorem firstFields_ok (msg : Str) (parts : List Str) (n i : Nat) (hl : i + n ≤ parts.length)
    (hne : ∀ p ∈ (parts.drop i).take n, p ≠ []) : firstFields msg parts n (i : Int) = .ok () := by
  induction n generalizing i with
  | zero => rfl
  | succ n ih =>
    have hi : i < parts.length := by omega
    have hd : parts.drop i = parts.get ⟨i, hi⟩ :: parts.drop (i + 1) := by
      rw [List.drop_eq_getElem_cons hi]; rfl
    rw [firstFields_succ, List.get?_eq_get hi]
    have h1 : parts.get ⟨i, hi⟩ ≠ [] :=
      hne _ (by rw [hd, List.take_succ_cons]; exact List.mem_cons_self _ _)
    simp only [h1, if_false]
    exact ih (i + 1) (by omega) fun p hp =>
      hne p (by rw [hd, List.take_succ_cons]; exact List.mem_cons_of_mem _ hp)

/-- The loop over the first fields ends with the error at an empty field that
the row has. -/
theorem firstFields_empty (msg : Str) (parts : List Str) (n i : Nat)
    (hl : i + n ≤ parts.length) (he : [] ∈ (parts.drop i).take n) :
    firstFields msg parts n (i : Int) = .error msg := by
  induction n generalizing i with
  | zero => simp at he
  | succ n ih =>
    have hi : i < parts.length := by omega
    have hd : parts.drop i = parts.get ⟨i, hi⟩ :: parts.drop (i + 1) := by
      rw [List.drop_eq_getElem_cons hi]; rfl
    rw [firstFields_succ, List.get?_eq_get hi]
    by_cases h1 : parts.get ⟨i, hi⟩ = []
    · simp only [h1, if_true]
    · simp only [h1, if_false]
      apply ih (i + 1) (by omega)
      rw [hd, List.take_succ_cons, List.mem_cons] at he
      rcases he with he | he
      · exact absurd he.symm h1
      · exact he

/-- The loop over the first fields panics when no field is empty and the row
ends before the loop does. -/
theorem firstFields_panic (msg : Str) (parts : List Str) (n i : Nat)
    (hl : parts.length < i + n) (hil : i ≤ parts.length) (hne : ∀ p ∈ parts.drop i, p ≠ []) :
    firstFields msg parts n (i : Int) = .panic := by
  induction n generalizing i with
  | zero => omega
  | succ n ih =>
    rw [firstFields_succ]
    by_cases hi : i < parts.length
    · have hd : parts.drop i = parts.get ⟨i, hi⟩ :: parts.drop (i + 1) := by
        rw [List.drop_eq_getElem_cons hi]; rfl
      rw [List.get?_eq_get hi]
      have h1 : parts.get ⟨i, hi⟩ ≠ [] := hne _ (by rw [hd]; exact List.mem_cons_self _ _)
      simp only [h1, if_false]
      exact ih (i + 1) (by omega) (by omega) fun p hp =>
        hne p (by rw [hd]; exact List.mem_cons_of_mem _ hp)
    · rw [List.get?_eq_none.2 (by omega)]

theorem validRow_iff (n : Nat) (line : Str) :
    validRow n line = true ↔
      n ≤ (split ',' line).length ∧ ∀ p ∈ (split ',' line).take 5, p ≠ [] := by
  simp only [validRow, Bool.and_eq_true, decide_eq_true_eq, List.all_eq_true, Bool.not_eq_true',
    List.isEmpty_eq_false]

theorem index_field (line : Str) (k : Nat) (h : k < (split ',' line).length) :
    index (split ',' line) (k : Int) = some (field line k) := by
  rw [index_nat, List.get?_eq_get h, field, List.getD_eq_getElem _ _ h]
  rfl

theorem field_ne_nil (line : Str) (k : Nat) (hk : k < 5) (hl : 5 ≤ (split ',' line).length)
    (hne : ∀ p ∈ (split ',' line).take 5, p ≠ []) : field line k ≠ [] := by
  have h : k < (split ',' line).length := by omega
  rw [field, List.getD_eq_getElem _ _ h]
  apply hne
  rw [List.mem_take_iff_getElem]
  exact ⟨k, by omega, rfl⟩

/-- One valid row in `taskWObon/main.go`: the four writes for the fields 0, 2,
4 and 3. -/
theorem loadRow_valid (T : Table) (line : Str) (hv : validRow 5 line = true) :
    TaskWObon.loadRow T line
      = .ok (TaskWObon.insertRow T (field line 0) (field line 2) (field line 4) (field line 3)) := by
  obtain ⟨hl, hne⟩ := (validRow_iff 5 line).1 hv
  have h1 := firstFields_ok "Malformed airport lookup data".toList (split ',' line) 5 0
    (by omega) (by simpa using hne)
  have h2 : ¬ (split ',' line).length < 5 := by omega
  have i0 := index_field line 0 (by omega)
  have i2 := index_field line 2 (by omega)
  have i3 := index_field line 3 (by omega)
  have i4 := index_field line 4 (by omega)
  simp only [Nat.cast_ofNat, Nat.cast_zero] at i0 i2 i3 i4 h1
  simp only [TaskWObon.loadRow, h1, h2, if_false, i0, i2, i3, i4]

theorem index_some (parts : List Str) (i : Int) (h0 : 0 ≤ i) (h1 : i < 6)
    (hl : 6 ≤ parts.length) : ∃ p, index parts i = some p := by
  have hk : i.toNat < parts.length := by omega
  have : (0 : Int) ≤ i ∧ i < (parts.length : Int) := by omega
  exact ⟨_, by rw [index, if_pos this, List.get?_eq_get hk]⟩

/-- One valid row of six fields or more in `itineraryWithBonuses.go`. -/
theorem bonus_loadRow_valid (cols : WithBonuses.Columns) (hc : cols.inRange) (T : Table)
    (line : Str) (hv : validRow 6 line = true) : ∃ T2, WithBonuses.loadRow cols T line = .ok T2 := by
  obtain ⟨hl, hne⟩ := (validRow_iff 6 line).1 hv
  have h1 := firstFields_ok "\x1b[31mMalformed airport lookup data\x1b[0m".toList (split ',' line)
    5 0 (by omega) (by simpa using hne)
  have h2 : ¬ (split ',' line).length ≤ 5 := by omega
  obtain ⟨⟨a0, a1⟩, ⟨b0, b1⟩, ⟨c0, c1⟩, ⟨d0, d1⟩⟩ := hc
  obtain ⟨p0, i0⟩ := index_some (split ',' line) cols.chuits a0 a1 hl
  obtain ⟨p1, i1⟩ := index_some (split ',' line) cols.chuits1 b0 b1 hl
  obtain ⟨p2, i2⟩ := index_some (split ',' line) cols.chuits2 c0 c1 hl
  obtain ⟨p3, i3⟩ := index_some (split ',' line) cols.chuits3 d0 d1 hl
  simp only [Nat.cast_zero] at h1
  exact ⟨WithBonuses.insertRow T p0 p1 p2 p3,
    by simp only [WithBonuses.loadRow, h1, h2, if_false, i0, i1, i2, i3]⟩

/-- A row with fewer than five fields, none of them empty: the index panic of
both variants. -/
theorem loadRow_short (cols : WithBonuses.Columns) (T : Table) (line : Str)
    (hl : (split ',' line).length < 5) (hne : ∀ p ∈ split ',' line, p ≠ []) :
    TaskWObon.loadRow T line = .panic ∧ WithBonuses.loadRow cols T line = .panic := by
  have h1 := fun msg => firstFields_panic msg (split ',' line) 5 0 (by omega) (by omega)
    (by simpa using hne)
  simp only [Nat.cast_zero] at h1
  constructor
  · simp only [TaskWObon.loadRow, h1]
  · simp only [WithBonuses.loadRow, h1]

/-- A row with five fields or more, one of the first five empty: the error of
both variants. -/
theorem loadRow_empty (cols : WithBonuses.Columns) (T : Table) (line : Str)
    (hl : 5 ≤ (split ',' line).length) (he : [] ∈ (split ',' line).take 5) :
    TaskWObon.loadRow T line = .error "Malformed airport lookup data".toList ∧
      WithBonuses.loadRow cols T line
        = .error "\x1b[31mMalformed airport lookup data\x1b[0m".toList := by
  have h1 := fun msg => firstFields_empty msg (split ',' line) 5 0 (by omega)
    (by simpa using he)
  simp only [Nat.cast_zero] at h1
  constructor
  · simp only [TaskWObon.loadRow, h1]
  · simp only [WithBonuses.loadRow, h1]

/-- A row with exactly five fields, none empty: accepted by
`taskWObon/main.go`, an error in `itineraryWithBonuses.go`. -/
theorem bonus_loadRow_five (cols : WithBonuses.Columns) (T : Table) (line : Str)
    (hl : (split ',' line).length = 5) (hne : ∀ p ∈ split ',' line, p ≠ []) :
    WithBonuses.loadRow cols T line
      = .error "\x1b[31mMalformed airport lookup! data\x1b[0m".toList := by
  have h1 := firstFields_ok "\x1b[31mMalformed airport lookup data\x1b[0m".toList (split ',' line)
    5 0 (by omega) (by intro p hp; exact hne p (List.mem_of_mem_take (by simpa using hp)))
  have h2 : (split ',' line).length ≤ 5 := by omega
  simp only [Nat.cast_zero] at h1
  simp only [WithBonuses.loadRow, h1, h2, if_true]

/-- A row with five fields or more does not panic, whatever it holds. -/
theorem loadRow_five_fields (cols : WithBonuses.Columns) (hc : cols.inRange) (T : Table)
    (line : Str) (hl : 5 ≤ (split ',' line).length) :
    ((∃ T2, TaskWObon.loadRow T line = .ok T2) ∨
      TaskWObon.loadRow T line = .error "Malformed airport lookup data".toList) ∧
    ((∃ T2, WithBonuses.loadRow cols T line = .ok T2) ∨
      WithBonuses.loadRow cols T line
        = .error "\x1b[31mMalformed airport lookup data\x1b[0m".toList ∨
      WithBonuses.loadRow cols T line
        = .error "\x1b[31mMalformed airport lookup! data\x1b[0m".toList) := by
  by_cases he : [] ∈ (split ',' line).take 5
  · obtain ⟨h1, h2⟩ := loadRow_empty cols T line hl he
    exact ⟨Or.inr h1, Or.inr (Or.inl h2)⟩
  · have hne : ∀ p ∈ (split ',' line).take 5, p ≠ [] := fun p hp e => he (e ▸ hp)
    constructor
    · exact Or.inl ⟨_, loadRow_valid T line ((validRow_iff 5 line).2 ⟨hl, hne⟩)⟩
    · by_cases h6 : 6 ≤ (split ',' line).length
      · exact Or.inl (bonus_loadRow_valid cols hc T line ((validRow_iff 6 line).2 ⟨h6, hne⟩))
      · have h5 : (split ',' line).length = 5 := by omega
        refine Or.inr (Or.inr (bonus_loadRow_five cols T line h5 fun p hp => hne p ?_))
        rw [List.take_of_length_le (by omega)]
        exact hp

/-- The loop of `taskWObon/main.go` over valid rows: each adds its four
entries. -/
theorem loadRows_valid (T : Table) (pre rest : List Str)
    (h : ∀ r ∈ pre, validRow 5 r = true) :
    TaskWObon.loadRows T (pre ++ rest) = TaskWObon.loadRows (pre.foldl addRow T) rest := by
  induction pre generalizing T with
  | nil => rfl
  | cons r pre ih =>
    rw [List.cons_append, TaskWObon.loadRows, loadRow_valid T r (h r (List.mem_cons_self _ _))]
    exact ih _ fun x hx => h x (List.mem_cons_of_mem _ hx)

/-- The loop of `itineraryWithBonuses.go` over valid rows of six fields or
more. -/
theorem bonus_loadRows_valid (cols : WithBonuses.Columns) (hc : cols.inRange) (T : Table)
    (pre rest : List Str) (h : ∀ r ∈ pre, validRow 6 r = true) :
    ∃ T2, WithBonuses.loadRows cols T (pre ++ rest) = WithBonuses.loadRows cols T2 rest := by
  induction pre generalizing T with
  | nil => exact ⟨T, rfl⟩
  | cons r pre ih =>
    obtain ⟨T1, h1⟩ := bonus_loadRow_valid cols hc T r (h r (List.mem_cons_self _ _))
    obtain ⟨T2, h2⟩ := ih T1 fun x hx => h x (List.mem_cons_of_mem _ hx)
    exact ⟨T2, by rw [List.cons_append, WithBonuses.loadRows, h1]; exact h2⟩

theorem validRow_mono (line : Str) (h : validRow 6 line = true) : validRow 5 line = true := by
  rw [validRow_iff] at h ⊢
  exact ⟨by omega, h.2⟩

theorem get_set (T : Table) (k v key : Str) :
    (T.set k v).get key = if key = k then some v else T.get key := by
  unfold Table.set Table.get
  rw [List.lookup_cons]
  by_cases h : key = k
  · simp [h]
  · have : (key == k) = false := by simpa using h
    simp [h, this]

/-- The entry of a key after the four writes of a valid row. -/
theorem get_addRow (T : Table) (line : Str) (hv : validRow 5 line = true) (key : Str) :
    (addRow T line).get key =
      if key = '#' :: '#' :: field line 3 then some (field line 0)
      else if key = '#' :: field line 4 then some (field line 0)
      else if key = '*' :: '#' :: '#' :: field line 3 then some (field line 2)
      else if key = '*' :: '#' :: field line 4 then some (field line 2)
      else T.get key := by
  obtain ⟨hl, hne⟩ := (validRow_iff 5 line).1 hv
  have h3 := field_ne_nil line 3 (by omega) hl hne
  have h4 := field_ne_nil line 4 (by omega) hl hne
  simp only [addRow, TaskWObon.insertRow, ne_eq, h3, h4, not_false_eq_true, if_true, get_set]
  rfl

/-- Rows that write none of the four keys of a code leave its entries as they
are. -/
theorem get_foldl_addRow (post : List Str) (T : Table) (key : Str)
    (hv : ∀ r ∈ post, validRow 5 r = true)
    (h : ∀ r ∈ post, key ≠ '#' :: '#' :: field r 3 ∧ key ≠ '#' :: field r 4
      ∧ key ≠ '*' :: '#' :: '#' :: field r 3 ∧ key ≠ '*' :: '#' :: field r 4) :
    (post.foldl addRow T).get key = T.get key := by
  induction post generalizing T with
  | nil => rfl
  | cons r post ih =>
    rw [List.foldl_cons, ih _ (fun x hx => hv x (List.mem_cons_of_mem _ hx))
      (fun x hx => h x (List.mem_cons_of_mem _ hx)),
      get_addRow T r (hv r (List.mem_cons_self _ _))]
    obtain ⟨a, b, c, d⟩ := h r (List.mem_cons_self _ _)
    simp only [a, b, c, d, if_false]

theorem cons_hash_ne (a b : Str) (h : a.head? ≠ some '#') : (a : Str) ≠ '#' :: b := by
  intro e
  rw [e] at h
  exact h rfl

/-- The entries of the last row that carries an IATA code, when no IATA code
begins with `#`. -/
theorem get_last_iata (T : Table) (row : Str) (post : List Str) (hr : validRow 5 row = true)
    (hv : ∀ r ∈ post, validRow 5 r = true) (hh : (field row 4).head? ≠ some '#')
    (hlast : ∀ r ∈ post, field r 4 ≠ field row 4) :
    (post.foldl addRow (addRow T row)).get ('#' :: field row 4) = some (field row 0) ∧
      (post.foldl addRow (addRow T row)).get ('*' :: '#' :: field row 4) = some (field row 2) := by
  have n1 := cons_hash_ne (field row 4) (field row 3) hh
  constructor
  · rw [get_foldl_addRow post _ _ hv, get_addRow T row hr]
    · simp only [List.cons.injEq, true_and, n1, if_false, if_true]
    · intro r hr2
      have := hlast r hr2
      refine ⟨?_, ?_, ?_, ?_⟩
      · simp only [ne_eq, List.cons.injEq, true_and]
        exact cons_hash_ne _ _ hh
      · simp only [ne_eq, List.cons.injEq, true_and]
        exact fun e => this e.symm
      · simp
      · simp
  · rw [get_foldl_addRow post _ _ hv, get_addRow T row hr]
    · simp only [List.cons.injEq, true_and, n1, if_false, if_true,
        show ¬ ('*' = '#') by decide, false_and]
    · intro r hr2
      have := hlast r hr2
      refine ⟨?_, ?_, ?_, ?_⟩
      · simp
      · simp
      · simp only [ne_eq, List.cons.injEq, true_and]
        exact cons_hash_ne _ _ hh
      · simp only [ne_eq, List.cons.injEq, true_and]
        exact fun e => this e.symm

/-- The entries of the last row that carries an ICAO code, when no IATA code
begins with `#`. -/
theorem get_last_icao (T : Table) (row : Str) (post : List Str) (hr : validRow 5 row = true)
    (hv : ∀ r ∈ post, validRow 5 r = true) (hh : ∀ r ∈ post, (field r 4).head? ≠ some '#')
    (hlast : ∀ r ∈ post, field r 3 ≠ field row 3) :
    (post.foldl addRow (addRow T row)).get ('#' :: '#' :: field row 3) = some (field row 0) ∧
      (post.foldl addRow (addRow T row)).get ('*' :: '#' :: '#' :: field row 3)
        = some (field row 2) := by
  constructor
  · rw [get_foldl_addRow post _ _ hv, get_addRow T row hr]
    · simp only [if_true]
    · intro r hr2
      have := hlast r hr2
      refine ⟨?_, ?_, ?_, ?_⟩
      · simp only [ne_eq, List.cons.injEq, true_and]
        exact fun e => this e.symm
      · simp only [ne_eq, List.cons.injEq, true_and]
        exact fun e => cons_hash_ne _ _ (hh r hr2) e.symm
      · simp
      · simp
  · rw [get_foldl_addRow post _ _ hv, get_addRow T row hr]
    · simp only [List.cons.injEq, true_and, if_true, show ¬ ('*' = '#') by decide, false_and,
        if_false]
    · intro r hr2
      have := hlast r hr2
      refine ⟨?_, ?_, ?_, ?_⟩
      · simp
      · simp
      · simp only [ne_eq, List.cons.injEq, true_and]
        exact fun e => this e.symm
      · simp only [ne_eq, List.cons.injEq, true_and]
        exact fun e => cons_hash_ne _ _ (hh r hr2) e.symm

/-! ## The loop of the loader and the error of the scanner -/

theorem load_of_panic (text : Str) (h : TaskWObon.loadRows [] (scanLines text) = .panic) :
    TaskWObon.loadAirportLookup (some text) = .panic := by
  simp only [TaskWObon.loadAirportLookup, h]

theorem load_of_error (text e : Str) (h : TaskWObon.loadRows [] (scanLines text) = .error e) :
    TaskWObon.loadAirportLookup (some text) = .error e := by
  simp only [TaskWObon.loadAirportLookup, h]

theorem load_of_ok (text : Str) (T : Table) (h : TaskWObon.loadRows [] (scanLines text) = .ok T)
    (hfit : scanErr text = none) : TaskWObon.loadAirportLookup (some text) = .ok T := by
  simp only [TaskWObon.loadAirportLookup, h, hfit]

theorem load_ok_rows (text : Str) (T : Table)
    (h : TaskWObon.loadAirportLookup (some text) = .ok T) :
    TaskWObon.loadRows [] (scanLines text) = .ok T ∧ scanErr text = none := by
  simp only [TaskWObon.loadAirportLookup] at h
  cases hr : TaskWObon.loadRows [] (scanLines text) with
  | panic => simp only [hr] at h; exact Outcome.noConfusion h
  | error e => simp only [hr] at h; exact Outcome.noConfusion h
  | ok T1 =>
    cases he : scanErr text with
    | some err => simp only [hr, he] at h; exact Outcome.noConfusion h
    | none =>
      simp only [hr, he, Outcome.ok.injEq] at h
      exact ⟨congrArg Outcome.ok h, rfl⟩

theorem bonus_load_of_panic (bonusFlag : Bool) (entered : WithBonuses.Columns) (text : Str)
    (h : WithBonuses.loadRows (if bonusFlag then entered else {}) [] (scanLines text) = .panic) :
    WithBonuses.loadAirportLookup bonusFlag entered (some text) = .panic := by
  simp only [WithBonuses.loadAirportLookup, h]

theorem bonus_load_of_error (bonusFlag : Bool) (entered : WithBonuses.Columns) (text e : Str)
    (h : WithBonuses.loadRows (if bonusFlag then entered else {}) [] (scanLines text)
      = .error e) :
    WithBonuses.loadAirportLookup bonusFlag entered (some text) = .error e := by
  simp only [WithBonuses.loadAirportLookup, h]

theorem bonus_load_of_ok (bonusFlag : Bool) (entered : WithBonuses.Columns) (text : Str)
    (T : Table)
    (h : WithBonuses.loadRows (if bonusFlag then entered else {}) [] (scanLines text) = .ok T)
    (hfit : scanErr text = none) :
    WithBonuses.loadAirportLookup bonusFlag entered (some text) = .ok T := by
  simp only [WithBonuses.loadAirportLookup, h, hfit]

/-- C16 fails as stated: every line of the lookup has five non-empty fields and
the first row is the last one that carries its IATA code `#ABCD`, yet the
table of `taskWObon/main.go` maps `#` + `#ABCD` to the name `B` of the second
row, whose ICAO code `ABCD` gives the same key `##ABCD`, and not to the name `A`
of the first row. -/
theorem C16_counterexample :
    (∀ line ∈ scanLines "A,x,CityA,Q,#ABCD\nB,y,CityB,ABCD,R".toList, validRow 5 line = true) ∧
      scanLines "A,x,CityA,Q,#ABCD\nB,y,CityB,ABCD,R".toList
        = ["A,x,CityA,Q,#ABCD".toList, "B,y,CityB,ABCD,R".toList] ∧
      field "A,x,CityA,Q,#ABCD".toList 4 = "#ABCD".toList ∧
      field "A,x,CityA,Q,#ABCD".toList 0 = "A".toList ∧
      field "B,y,CityB,ABCD,R".toList 4 = "R".toList ∧
      ((TaskWObon.loadAirportLookup (some "A,x,CityA,Q,#ABCD\nB,y,CityB,ABCD,R".toList)).table?.bind
        fun T => T.get ("#".toList ++ "#ABCD".toList)) = some "B".toList := by
  decide

/-- C16, amended: in `loadAirportLookup` of `taskWObon/main.go`, for every
lookup text in which every line fits the buffer of the scanner (it has fewer
than 65536 bytes) and splits on `,` into at least 5 fields with the first five
non-empty and with no IATA code (field 4) that begins with `#`, the build
succeeds, and for every row that is the last one carrying its IATA code
the table maps `#` + iata to the name (field 0) and `*#` + iata to the
municipality (field 2) of the row, and for every row that is the last one
carrying its ICAO code (field 3) the table maps `##` + icao to the name and
`*##` + icao to the municipality of the row. -/
theorem C16_table_of_a_valid_lookup (text : Str)
    (hfit : scanErr text = none)
    (hv : ∀ line ∈ scanLines text, validRow 5 line = true)
    (hh : ∀ line ∈ scanLines text, (field line 4).head? ≠ some '#') :
    ∃ T, TaskWObon.loadAirportLookup (some text) = .ok T ∧
      ∀ pre row post, scanLines text = pre ++ row :: post →
        ((∀ r ∈ post, field r 4 ≠ field row 4) →
          T.get ("#".toList ++ field row 4) = some (field row 0) ∧
          T.get ("*#".toList ++ field row 4) = some (field row 2)) ∧
        ((∀ r ∈ post, field r 3 ≠ field row 3) →
          T.get ("##".toList ++ field row 3) = some (field row 0) ∧
          T.get ("*##".toList ++ field row 3) = some (field row 2)) := by
  refine ⟨(scanLines text).foldl addRow [], ?_, ?_⟩
  · have := loadRows_valid [] (scanLines text) [] hv
    rw [List.append_nil] at this
    exact load_of_ok text _ this hfit
  · intro pre row post e
    rw [e] at hv hh ⊢
    have hr : validRow 5 row = true := hv row (by simp)
    have hp : ∀ r ∈ post, validRow 5 r = true := fun r h => hv r (by simp [h])
    rw [List.foldl_append, List.foldl_cons]
    exact ⟨get_last_iata _ row post hr hp (hh row (by simp)),
      get_last_icao _ row post hr hp fun r h => hh r (by simp [h])⟩

/-- C16, amended, at the first lines of the lookup of the test suite: the
entries of the row of Honiara. -/
theorem C16_table_of_a_valid_lookup_witness :
    ∃ T, TaskWObon.loadAirportLookup (some
        ("name,iso_country,municipality,icao_code,iata_code,coordinates\n".toList
          ++ "Honiara International Airport,SB,Honiara,AGGH,HIR,\"160.05499267578, -9.4280004501343\"\n".toList
          ++ "Hongyuan Airport,CN,Aba,ZUHY,AHJ,\"102.35224, 32.53154\"".toList)) = .ok T ∧
      T.get "#HIR".toList = some "Honiara International Airport".toList ∧
      T.get "*#HIR".toList = some "Honiara".toList ∧
      T.get "##AGGH".toList = some "Honiara International Airport".toList ∧
      T.get "*##AGGH".toList = some "Honiara".toList :=
  (C16_table_of_a_valid_lookup
    ("name,iso_country,municipality,icao_code,iata_code,coordinates\n".toList
      ++ "Honiara International Airport,SB,Honiara,AGGH,HIR,\"160.05499267578, -9.4280004501343\"\n".toList
      ++ "Hongyuan Airport,CN,Aba,ZUHY,AHJ,\"102.35224, 32.53154\"".toList)
    (by decide) (by decide) (by decide)).imp fun T h =>
    ⟨h.1,
     ((h.2 ["name,iso_country,municipality,icao_code,iata_code,coordinates".toList]
        "Honiara International Airport,SB,Honiara,AGGH,HIR,\"160.05499267578, -9.4280004501343\"".toList
        ["Hongyuan Airport,CN,Aba,ZUHY,AHJ,\"102.35224, 32.53154\"".toList] (by decide)).1
        (by decide)).1,
     ((h.2 ["name,iso_country,municipality,icao_code,iata_code,coordinates".toList]
        "Honiara International Airport,SB,Honiara,AGGH,HIR,\"160.05499267578, -9.4280004501343\"".toList
        ["Hongyuan Airport,CN,Aba,ZUHY,AHJ,\"102.35224, 32.53154\"".toList] (by decide)).1
        (by decide)).2,
     ((h.2 ["name,iso_country,municipality,icao_code,iata_code,coordinates".toList]
        "Honiara International Airport,SB,Honiara,AGGH,HIR,\"160.05499267578, -9.4280004501343\"".toList
        ["Hongyuan Airport,CN,Aba,ZUHY,AHJ,\"102.35224, 32.53154\"".toList] (by decide)).2
        (by decide)).1,
     ((h.2 ["name,iso_country,municipality,icao_code,iata_code,coordinates".toList]
        "Honiara International Airport,SB,Honiara,AGGH,HIR,\"160.05499267578, -9.4280004501343\"".toList
        ["Hongyuan Airport,CN,Aba,ZUHY,AHJ,\"102.35224, 32.53154\"".toList] (by decide)).2
        (by decide)).2⟩

theorem default_inRange : ({} : WithBonuses.Columns).inRange := by decide

theorem cols_inRange (bonusFlag : Bool) (cols : WithBonuses.Columns)
    (hc : bonusFlag = true → cols.inRange) :
    (if bonusFlag then cols else ({} : WithBonuses.Columns)).inRange := by
  cases bonusFlag
  · exact default_inRange
  · exact hc rfl

/-- C17, as the code has it: for every lookup text with a row of fewer than 5
fields, none of them empty, after valid rows, `loadAirportLookup` panics in
both variants (`parts[i]` is read for `i` up to 4 before the length of the row
is looked at): it returns neither an error nor a table.  A valid row has six
fields or more, the first five non-empty; in the bonus mode the column numbers
entered are taken to be from 0 to 5. -/
theorem C17_short_row_panics (text : Str) (pre : List Str) (row : Str) (post : List Str)
    (bonusFlag : Bool) (entered : WithBonuses.Columns)
    (hs : scanLines text = pre ++ row :: post) (hpre : ∀ r ∈ pre, validRow 6 r = true)
    (hc : bonusFlag = true → entered.inRange)
    (hl : (split ',' row).length < 5) (hne : ∀ p ∈ split ',' row, p ≠ []) :
    TaskWObon.loadAirportLookup (some text) = .panic ∧
      WithBonuses.loadAirportLookup bonusFlag entered (some text) = .panic := by
  constructor
  · apply load_of_panic
    rw [hs, loadRows_valid [] pre _ fun r h => validRow_mono r (hpre r h), TaskWObon.loadRows,
      (loadRow_short {} _ row hl hne).1]
  · apply bonus_load_of_panic
    rw [hs]
    obtain ⟨T2, h2⟩ := bonus_loadRows_valid _ (cols_inRange bonusFlag entered hc) [] pre
      (row :: post) hpre
    rw [h2, WithBonuses.loadRows, (loadRow_short _ T2 row hl hne).2]

/-- C17 at the lookup `a,b,c,d`, alone and after the header and a row of the
lookup of the test suite. -/
theorem C17_short_row_panics_witness :
    (TaskWObon.loadAirportLookup (some "a,b,c,d".toList) = .panic ∧
      WithBonuses.loadAirportLookup false {} (some "a,b,c,d".toList) = .panic) ∧
    (TaskWObon.loadAirportLookup (some
        ("name,iso_country,municipality,icao_code,iata_code,coordinates\n".toList
          ++ "Hongyuan Airport,CN,Aba,ZUHY,AHJ,\"102.35224, 32.53154\"\na,b,c,d".toList))
        = .panic ∧
      WithBonuses.loadAirportLookup false {} (some
        ("name,iso_country,municipality,icao_code,iata_code,coordinates\n".toList
          ++ "Hongyuan Airport,CN,Aba,ZUHY,AHJ,\"102.35224, 32.53154\"\na,b,c,d".toList))
        = .panic) :=
  ⟨C17_short_row_panics "a,b,c,d".toList [] "a,b,c,d".toList [] false {} (by decide)
      (by decide) (by decide) (by decide) (by decide),
   C17_short_row_panics _
      ["name,iso_country,municipality,icao_code,iata_code,coordinates".toList,
        "Hongyuan Airport,CN,Aba,ZUHY,AHJ,\"102.35224, 32.53154\"".toList]
      "a,b,c,d".toList [] false {} (by decide) (by decide) (by decide) (by decide) (by decide)⟩

/-- The loop of both variants over rows of five fields or more up to a row
with an empty field among its first five: an error. -/
theorem loadRows_empty (cols : WithBonuses.Columns) (hc : cols.inRange) (pre : List Str)
    (bad : Str) (post : List Str) (T T2 : Table)
    (hpre : ∀ r ∈ pre, 5 ≤ (split ',' r).length) (hl : 5 ≤ (split ',' bad).length)
    (he : [] ∈ (split ',' bad).take 5) :
    TaskWObon.loadRows T (pre ++ bad :: post) = .error "Malformed airport lookup data".toList ∧
    (WithBonuses.loadRows cols T2 (pre ++ bad :: post)
        = .error "\x1b[31mMalformed airport lookup data\x1b[0m".toList ∨
      WithBonuses.loadRows cols T2 (pre ++ bad :: post)
        = .error "\x1b[31mMalformed airport lookup! data\x1b[0m".toList) := by
  induction pre generalizing T T2 with
  | nil =>
    obtain ⟨h1, h2⟩ := loadRow_empty cols T bad hl he
    have h3 := (loadRow_empty cols T2 bad hl he).2
    constructor
    · rw [List.nil_append, TaskWObon.loadRows, h1]
    · left; rw [List.nil_append, WithBonuses.loadRows, h3]
  | cons r pre ih =>
    have hr := hpre r (List.mem_cons_self _ _)
    have hp : ∀ x ∈ pre, 5 ≤ (split ',' x).length := fun x hx => hpre x (List.mem_cons_of_mem _ hx)
    constructor
    · rcases (loadRow_five_fields cols hc T r hr).1 with ⟨T3, h⟩ | h
      · rw [List.cons_append, TaskWObon.loadRows, h]
        exact (ih T3 T2 hp).1
      · rw [List.cons_append, TaskWObon.loadRows, h]
    · rcases (loadRow_five_fields cols hc T2 r hr).2 with ⟨T3, h⟩ | h | h
      · rw [List.cons_append, WithBonuses.loadRows, h]
        exact (ih T T3 hp).2
      · left; rw [List.cons_append, WithBonuses.loadRows, h]
      · right; rw [List.cons_append, WithBonuses.loadRows, h]

/-- C18: for every lookup text with a row of at least 5 fields in which one of
the first five is empty, after any number of rows of at least 5 fields,
`loadAirportLookup` returns an error and no table in both variants: the error
`Malformed airport lookup data` in `taskWObon/main.go`, that error or
`Malformed airport lookup! data` (for an earlier row of exactly five fields)
in `itineraryWithBonuses.go`.  In the bonus mode the column numbers entered
are taken to be from 0 to 5. -/
theorem C18_empty_field_is_an_error (text : Str) (pre : List Str) (bad : Str) (post : List Str)
    (bonusFlag : Bool) (entered : WithBonuses.Columns)
    (hs : scanLines text = pre ++ bad :: post) (hpre : ∀ r ∈ pre, 5 ≤ (split ',' r).length)
    (hc : bonusFlag = true → entered.inRange)
    (hl : 5 ≤ (split ',' bad).length) (he : [] ∈ (split ',' bad).take 5) :
    TaskWObon.loadAirportLookup (some text) = .error "Malformed airport lookup data".toList ∧
    (WithBonuses.loadAirportLookup bonusFlag entered (some text)
        = .error "\x1b[31mMalformed airport lookup data\x1b[0m".toList ∨
      WithBonuses.loadAirportLookup bonusFlag entered (some text)
        = .error "\x1b[31mMalformed airport lookup! data\x1b[0m".toList) := by
  obtain ⟨h1, h2⟩ :=
    loadRows_empty _ (cols_inRange bonusFlag entered hc) pre bad post [] [] hpre hl he
  rw [← hs] at h1 h2
  exact ⟨load_of_error _ _ h1,
    h2.imp (bonus_load_of_error bonusFlag entered text _)
      (bonus_load_of_error bonusFlag entered text _)⟩

/-- C18 at the lookup of the test: the header and a row of the test suite,
followed by the row `,AU,Sydney,AAAA,BBB,...`. -/
theorem C18_empty_field_is_an_error_witness :
    TaskWObon.loadAirportLookup (some
        ("name,iso_country,municipality,icao_code,iata_code,coordinates\n".toList
          ++ "Hongyuan Airport,CN,Aba,ZUHY,AHJ,\"102.35224, 32.53154\"\n".toList
          ++ ",AU,Sydney,AAAA,BBB,\"160.05499267578, -9.4280004501343\"".toList))
        = .error "Malformed airport lookup data".toList ∧
    (WithBonuses.loadAirportLookup false {} (some
        ("name,iso_country,municipality,icao_code,iata_code,coordinates\n".toList
          ++ "Hongyuan Airport,CN,Aba,ZUHY,AHJ,\"102.35224, 32.53154\"\n".toList
          ++ ",AU,Sydney,AAAA,BBB,\"160.05499267578, -9.4280004501343\"".toList))
        = .error "\x1b[31mMalformed airport lookup data\x1b[0m".toList ∨
      WithBonuses.loadAirportLookup false {} (some
        ("name,iso_country,municipality,icao_code,iata_code,coordinates\n".toList
          ++ "Hongyuan Airport,CN,Aba,ZUHY,AHJ,\"102.35224, 32.53154\"\n".toList
          ++ ",AU,Sydney,AAAA,BBB,\"160.05499267578, -9.4280004501343\"".toList))
        = .error "\x1b[31mMalformed airport lookup! data\x1b[0m".toList) :=
  C18_empty_field_is_an_error _
    ["name,iso_country,municipality,icao_code,iata_code,coordinates".toList,
      "Hongyuan Airport,CN,Aba,ZUHY,AHJ,\"102.35224, 32.53154\"".toList]
    ",AU,Sydney,AAAA,BBB,\"160.05499267578, -9.4280004501343\"".toList [] false {}
    (by decide) (by decide) (by decide) (by decide) (by decide)

/-- A lookup that begins with a row of exactly five fields, none empty, before
valid rows: `taskWObon/main.go` returns a table when every line fits the
buffer of the scanner, `itineraryWithBonuses.go` the error of a row without a
sixth field. -/
theorem load_five_first (text row : Str) (post : List Str) (bonusFlag : Bool)
    (entered : WithBonuses.Columns) (hs : scanLines text = row :: post)
    (hfit : scanErr text = none)
    (h5 : (split ',' row).length = 5) (hne : ∀ p ∈ split ',' row, p ≠ [])
    (hpost : ∀ r ∈ post, validRow 5 r = true) :
    (∃ T, TaskWObon.loadAirportLookup (some text) = .ok T) ∧
      WithBonuses.loadAirportLookup bonusFlag entered (some text)
        = .error "\x1b[31mMalformed airport lookup! data\x1b[0m".toList := by
  constructor
  · have hv : ∀ r ∈ row :: post, validRow 5 r = true := by
      intro r hr
      rw [List.mem_cons] at hr
      rcases hr with rfl | hr
      · exact (validRow_iff 5 r).2 ⟨by omega, fun p hp => hne p (List.mem_of_mem_take hp)⟩
      · exact hpost r hr
    have := loadRows_valid [] (row :: post) [] hv
    rw [List.append_nil] at this
    exact ⟨_, load_of_ok text _ (by rw [hs]; exact this) hfit⟩
  · apply bonus_load_of_error
    rw [hs, WithBonuses.loadRows, bonus_loadRow_five _ [] row h5 hne]

/-- C19 fails as stated: the row `a,b,c,d,e` has exactly five fields, none
empty, and `loadAirportLookup` of `itineraryWithBonuses.go` returns the error
`Malformed airport lookup! data` for it. -/
theorem C19_counterexample :
    (split ',' "a,b,c,d,e".toList).length = 5 ∧ (∀ p ∈ split ',' "a,b,c,d,e".toList, p ≠ []) ∧
      WithBonuses.loadAirportLookup false {} (some "a,b,c,d,e".toList)
        = .error "\x1b[31mMalformed airport lookup! data\x1b[0m".toList := by
  decide

/-- C19, amended: for every lookup in which every line fits the buffer of the
scanner (it has fewer than 65536 bytes), whose first row has exactly five
comma-separated fields, all non-empty, and whose other rows have at least five
fields with the first five non-empty, `loadAirportLookup` of
`taskWObon/main.go` accepts the row and returns a table and no error: five
fields are enough there; `loadAirportLookup` of `itineraryWithBonuses.go`, in
either mode, returns the error `Malformed airport lookup! data` and no table:
there a sixth field is required. -/
theorem C19_five_fields_are_enough_in_one_variant (text row : Str) (post : List Str)
    (bonusFlag : Bool) (entered : WithBonuses.Columns) (hs : scanLines text = row :: post)
    (hfit : scanErr text = none)
    (h5 : (split ',' row).length = 5) (hne : ∀ p ∈ split ',' row, p ≠ [])
    (hpost : ∀ r ∈ post, validRow 5 r = true) :
    (∃ T, TaskWObon.loadAirportLookup (some text) = .ok T) ∧
      WithBonuses.loadAirportLookup bonusFlag entered (some text)
        = .error "\x1b[31mMalformed airport lookup! data\x1b[0m".toList :=
  load_five_first text row post bonusFlag entered hs hfit h5 hne hpost

/-- C19, amended, at the lookup `a,b,c,d,e`. -/
theorem C19_five_fields_are_enough_in_one_variant_witness :
    (∃ T, TaskWObon.loadAirportLookup (some "a,b,c,d,e".toList) = .ok T) ∧
      WithBonuses.loadAirportLookup true {} (some "a,b,c,d,e".toList)
        = .error "\x1b[31mMalformed airport lookup! data\x1b[0m".toList :=
  C19_five_fields_are_enough_in_one_variant "a,b,c,d,e".toList "a,b,c,d,e".toList [] true {}
    (by decide) (by decide) (by decide) (by decide) (by decide)

/-- A header that lacks the column `coordinates`, before a valid record of six
columns: `loadAirportLookup` of `taskWObon/main.go` returns a table, in which
the header is a row like any other (its entry `#iata_code` is the text
`name`). -/
theorem header_of_five_names_is_a_row :
    "name,iso_country,municipality,icao_code,iata_code".toList ∈ shortHeaders ∧
      validRow 6 "Hongyuan Airport,CN,Aba,ZUHY,AHJ,\"102.35224, 32.53154\"".toList = true ∧
      ((TaskWObon.loadAirportLookup (some
          ("name,iso_country,municipality,icao_code,iata_code\n".toList
            ++ "Hongyuan Airport,CN,Aba,ZUHY,AHJ,\"102.35224, 32.53154\"".toList))).table?.bind
        fun T => T.get "#iata_code".toList) = some "name".toList := by
  decide

/-- C20: the code of `taskWObon/main.go` does not do what the claim says.  For
every lookup text in which every line fits the buffer of the scanner, whose
header row lacks one of the six canonical columns and whose remaining rows are
valid records of six columns or more, `loadAirportLookup` of
`itineraryWithBonuses.go`, in either mode, reports the lookup as malformed
(the error `Malformed airport lookup! data`, no table), but
`loadAirportLookup` of `taskWObon/main.go` returns a table and no error: its
guard `len(parts) < 5` lets the header of five names pass as a row. -/
theorem C20_short_header_is_malformed_in_one_variant (text header : Str) (rows : List Str)
    (bonusFlag : Bool) (entered : WithBonuses.Columns) (hs : scanLines text = header :: rows)
    (hfit : scanErr text = none)
    (hh : header ∈ shortHeaders) (hrows : ∀ r ∈ rows, validRow 6 r = true) :
    WithBonuses.loadAirportLookup bonusFlag entered (some text)
        = .error "\x1b[31mMalformed airport lookup! data\x1b[0m".toList ∧
      ∃ T, TaskWObon.loadAirportLookup (some text) = .ok T := by
  have key : ∀ h ∈ shortHeaders, (split ',' h).length = 5 ∧ ∀ p ∈ split ',' h, p ≠ [] := by
    decide
  obtain ⟨h5, hne⟩ := key header hh
  obtain ⟨h1, h2⟩ := load_five_first text header rows bonusFlag entered hs hfit h5 hne
    fun r hr => validRow_mono r (hrows r hr)
  exact ⟨h2, h1⟩

/-- C20, at the first lookup of the test
`TestOutputIsNotCreatedOnError/MalformedLookup` (two of its rows). -/
theorem C20_short_header_is_malformed_in_one_variant_witness :
    WithBonuses.loadAirportLookup false {} (some
        ("name,iso_country,municipality,icao_code,iata_code\n".toList
          ++ "Honiara International Airport,SB,Honiara,AGGH,HIR,\"160.05499267578, -9.4280004501343\"\n".toList
          ++ "Hongyuan Airport,CN,Aba,ZUHY,AHJ,\"102.35224, 32.53154\"".toList))
        = .error "\x1b[31mMalformed airport lookup! data\x1b[0m".toList ∧
      ∃ T, TaskWObon.loadAirportLookup (some
        ("name,iso_country,municipality,icao_code,iata_code\n".toList
          ++ "Honiara International Airport,SB,Honiara,AGGH,HIR,\"160.05499267578, -9.4280004501343\"\n".toList
          ++ "Hongyuan Airport,CN,Aba,ZUHY,AHJ,\"102.35224, 32.53154\"".toList)) = .ok T :=
  C20_short_header_is_malformed_in_one_variant _
    "name,iso_country,municipality,icao_code,iata_code".toList
    ["Honiara International Airport,SB,Honiara,AGGH,HIR,\"160.05499267578, -9.4280004501343\"".toList,
      "Hongyuan Airport,CN,Aba,ZUHY,AHJ,\"102.35224, 32.53154\"".toList]
    false {} (by decide) (by decide) (by decide) (by decide)

/-! ## The entries of the table -/

/-- The loop over the first fields ends with the error at the first empty
field, also in a row of fewer than five fields. -/
theorem firstFields_blank (msg : Str) (parts : List Str) (n i : Nat)
    (he : [] ∈ (parts.drop i).take n) : firstFields msg parts n (i : Int) = .error msg := by
  induction n generalizing i with
  | zero => simp at he
  | succ n ih =>
    have hi : i < parts.length := by
      by_contra hc
      rw [List.drop_eq_nil_of_le (by omega)] at he
      simp at he
    have hd : parts.drop i = parts.get ⟨i, hi⟩ :: parts.drop (i + 1) := by
      rw [List.drop_eq_getElem_cons hi]; rfl
    rw [firstFields_succ, List.get?_eq_get hi]
    by_cases h1 : parts.get ⟨i, hi⟩ = []
    · simp only [h1, if_true]
    · simp only [h1, if_false]
      apply ih (i + 1)
      rw [hd, List.take_succ_cons, List.mem_cons] at he
      rcases he with he | he
      · exact absurd he.symm h1
      · exact he

/-- The loop over the first fields does not run to its end in a row that is
shorter than the loop. -/
theorem firstFields_short (msg : Str) (parts : List Str) (n i : Nat)
    (hl : parts.length < i + n) (hil : i ≤ parts.length) :
    firstFields msg parts n (i : Int) ≠ .ok () := by
  induction n generalizing i with
  | zero => omega
  | succ n ih =>
    rw [firstFields_succ]
    by_cases hi : i < parts.length
    · rw [List.get?_eq_get hi]
      by_cases h1 : parts.get ⟨i, hi⟩ = []
      · simp only [h1, if_true]
        exact fun h => Outcome.noConfusion h
      · simp only [h1, if_false]
        exact ih (i + 1) (by omega) (by omega)
    · rw [List.get?_eq_none.2 (by omega)]
      exact fun h => Outcome.noConfusion h

/-- A row that `taskWObon/main.go` accepts is valid: five fields or more, the
first five not empty. -/
theorem loadRow_ok_valid (T T2 : Table) (line : Str) (h : TaskWObon.loadRow T line = .ok T2) :
    validRow 5 line = true := by
  by_contra hv
  rw [validRow_iff, not_and_or] at hv
  have hne : ∀ o : Outcome Table, (o = .panic ∨ ∃ e, o = .error e) → o ≠ .ok T2 := by
    rintro o (rfl | ⟨e, rfl⟩) <;> exact fun h => Outcome.noConfusion h
  apply hne _ _ h
  by_cases hl : 5 ≤ (split ',' line).length
  · have he : [] ∈ (split ',' line).take 5 := by
      rcases hv with hv | hv
      · exact absurd hl hv
      · by_contra hc
        exact hv fun p hp e => hc (e ▸ hp)
    exact Or.inr ⟨_, (loadRow_empty {} T line hl he).1⟩
  · have h1 := firstFields_short "Malformed airport lookup data".toList (split ',' line) 5 0
      (by omega) (by omega)
    simp only [Nat.cast_zero] at h1
    cases hf : firstFields "Malformed airport lookup data".toList (split ',' line) 5 0 with
    | ok u => exact absurd hf h1
    | error e => exact Or.inr ⟨e, by simp only [TaskWObon.loadRow, hf]⟩
    | panic => exact Or.inl (by simp only [TaskWObon.loadRow, hf])

/-- A load of `taskWObon/main.go` that succeeds has read valid rows only, and
its table is the one the rows build in their order. -/
theorem loadRows_ok (T T2 : Table) (rows : List Str) (h : TaskWObon.loadRows T rows = .ok T2) :
    (∀ r ∈ rows, validRow 5 r = true) ∧ T2 = rows.foldl addRow T := by
  induction rows generalizing T with
  | nil =>
    simp only [TaskWObon.loadRows, Outcome.ok.injEq] at h
    exact ⟨fun r hr => absurd hr (List.not_mem_nil r), h.symm⟩
  | cons r rows ih =>
    rw [TaskWObon.loadRows] at h
    cases hr : TaskWObon.loadRow T r with
    | panic => rw [hr] at h; exact Outcome.noConfusion h
    | error e => rw [hr] at h; exact Outcome.noConfusion h
    | ok T1 =>
      have hv := loadRow_ok_valid T T1 r hr
      rw [loadRow_valid T r hv] at hr
      simp only [Outcome.ok.injEq] at hr
      rw [loadRow_valid T r hv] at h
      simp only at h
      obtain ⟨h1, h2⟩ := ih _ h
      refine ⟨?_, h2⟩
      intro x hx
      rw [List.mem_cons] at hx
      rcases hx with rfl | hx
      · exact hv
      · exact h1 x hx

/-- Every key of the table built from valid rows is a tag followed by the
code of a row. -/
theorem get_foldl_keys (rows : List Str) (T : Table) (key : Str)
    (hv : ∀ r ∈ rows, validRow 5 r = true) (h : (rows.foldl addRow T).get key ≠ none) :
    T.get key ≠ none ∨ ∃ row ∈ rows,
      key = '#' :: '#' :: field row 3 ∨ key = '#' :: field row 4
        ∨ key = '*' :: '#' :: '#' :: field row 3 ∨ key = '*' :: '#' :: field row 4 := by
  induction rows generalizing T with
  | nil => exact Or.inl h
  | cons r rows ih =>
    rw [List.foldl_cons] at h
    rcases ih (addRow T r) (fun x hx => hv x (List.mem_cons_of_mem _ hx)) h with h1 | ⟨row, hr, hk⟩
    · rw [get_addRow T r (hv r (List.mem_cons_self _ _))] at h1
      by_cases a : key = '#' :: '#' :: field r 3
      · exact Or.inr ⟨r, List.mem_cons_self _ _, Or.inl a⟩
      by_cases b : key = '#' :: field r 4
      · exact Or.inr ⟨r, List.mem_cons_self _ _, Or.inr (Or.inl b)⟩
      by_cases c : key = '*' :: '#' :: '#' :: field r 3
      · exact Or.inr ⟨r, List.mem_cons_self _ _, Or.inr (Or.inr (Or.inl c))⟩
      by_cases d : key = '*' :: '#' :: field r 4
      · exact Or.inr ⟨r, List.mem_cons_self _ _, Or.inr (Or.inr (Or.inr d))⟩
      simp only [a, b, c, d, if_false] at h1
      exact Or.inl h1
    · exact Or.inr ⟨row, List.mem_cons_of_mem _ hr, hk⟩

theorem load_ok (text : Str) (T : Table) (h : TaskWObon.loadAirportLookup (some text) = .ok T) :
    (∀ r ∈ scanLines text, validRow 5 r = true) ∧ T = (scanLines text).foldl addRow [] :=
  loadRows_ok [] T (scanLines text) (load_ok_rows text T h).1

/-- C21 fails as stated: the lookup is accepted, its first two rows carry the
same IATA code `#ABCD` and no other row does, yet the entry for `#` + `#ABCD`
is the name `C` of the third row, whose ICAO code `ABCD` gives the same key,
and not the name `B` of the later of the two rows. -/
theorem C21_counterexample :
    field "A,x,CityA,Q1,#ABCD".toList 4 = field "B,y,CityB,Q2,#ABCD".toList 4 ∧
      field "C,z,CityC,ABCD,R".toList 4 ≠ field "B,y,CityB,Q2,#ABCD".toList 4 ∧
      field "B,y,CityB,Q2,#ABCD".toList 0 = "B".toList ∧
      scanLines "A,x,CityA,Q1,#ABCD\nB,y,CityB,Q2,#ABCD\nC,z,CityC,ABCD,R".toList
        = ["A,x,CityA,Q1,#ABCD".toList, "B,y,CityB,Q2,#ABCD".toList,
            "C,z,CityC,ABCD,R".toList] ∧
      ((TaskWObon.loadAirportLookup
          (some "A,x,CityA,Q1,#ABCD\nB,y,CityB,Q2,#ABCD\nC,z,CityC,ABCD,R".toList)).table?.bind
        fun T => T.get ("#".toList ++ field "B,y,CityB,Q2,#ABCD".toList 4)) = some "C".toList := by
  decide

/-- C21, amended: for every lookup text that `loadAirportLookup` of
`taskWObon/main.go` accepts and in which no IATA code (field 4) begins with
`#`, when two rows carry the same IATA code and no row after the later one
carries it, the entries `#` + code and `*#` + code hold the name (field 0) and
the municipality (field 2) of the later row; likewise the entries `##` + code
and `*##` + code for two rows with the same ICAO code (field 3).  The last
write wins, and the duplicate is not an error. -/
theorem C21_last_write_wins (text : Str) (T : Table) (pre : List Str) (r1 : Str)
    (mid : List Str) (r2 : Str) (post : List Str)
    (hT : TaskWObon.loadAirportLookup (some text) = .ok T)
    (hs : scanLines text = pre ++ r1 :: (mid ++ r2 :: post))
    (hh : ∀ line ∈ scanLines text, (field line 4).head? ≠ some '#') :
    (field r1 4 = field r2 4 → (∀ r ∈ post, field r 4 ≠ field r2 4) →
      T.get ("#".toList ++ field r1 4) = some (field r2 0) ∧
      T.get ("*#".toList ++ field r1 4) = some (field r2 2)) ∧
    (field r1 3 = field r2 3 → (∀ r ∈ post, field r 3 ≠ field r2 3) →
      T.get ("##".toList ++ field r1 3) = some (field r2 0) ∧
      T.get ("*##".toList ++ field r1 3) = some (field r2 2)) := by
  obtain ⟨hv, rfl⟩ := load_ok text T hT
  have e : scanLines text = (pre ++ r1 :: mid) ++ r2 :: post := by rw [hs]; simp
  rw [e] at hv hh ⊢
  have hr : validRow 5 r2 = true := hv r2 (by simp)
  have hp : ∀ r ∈ post, validRow 5 r = true := fun r h => hv r (by simp [h])
  rw [List.foldl_append, List.foldl_cons]
  constructor
  · intro e4 hlast
    rw [e4]
    exact get_last_iata _ r2 post hr hp (hh r2 (by simp)) hlast
  · intro e3 hlast
    rw [e3]
    exact get_last_icao _ r2 post hr hp (fun r h => hh r (by simp [h])) hlast

/-- C21, amended, at a lookup with two rows for the codes `HIR` and `AGGH`. -/
theorem C21_last_write_wins_witness :
    TaskWObon.loadAirportLookup (some "A1,SB,City1,AGGH,HIR\nA2,SB,City2,AGGH,HIR".toList)
        = .ok ((scanLines "A1,SB,City1,AGGH,HIR\nA2,SB,City2,AGGH,HIR".toList).foldl addRow []) ∧
      ((scanLines "A1,SB,City1,AGGH,HIR\nA2,SB,City2,AGGH,HIR".toList).foldl addRow []).get
          "#HIR".toList = some "A2".toList ∧
      ((scanLines "A1,SB,City1,AGGH,HIR\nA2,SB,City2,AGGH,HIR".toList).foldl addRow []).get
          "*##AGGH".toList = some "City2".toList :=
  ⟨by decide,
   ((C21_last_write_wins "A1,SB,City1,AGGH,HIR\nA2,SB,City2,AGGH,HIR".toList _ []
      "A1,SB,City1,AGGH,HIR".toList [] "A2,SB,City2,AGGH,HIR".toList [] (by decide) (by decide)
      (by decide)).1 (by decide) (by decide)).1,
   ((C21_last_write_wins "A1,SB,City1,AGGH,HIR\nA2,SB,City2,AGGH,HIR".toList _ []
      "A1,SB,City1,AGGH,HIR".toList [] "A2,SB,City2,AGGH,HIR".toList [] (by decide) (by decide)
      (by decide)).2 (by decide) (by decide)).2⟩

/-- C22 fails as stated: the load of the lookup `A,b,C,D,#` succeeds, and the
table has the keys `##` and `*##`, made of the tags `#` and `*#` and the IATA
code `#` of the row. -/
theorem C22_counterexample :
    ((TaskWObon.loadAirportLookup (some "A,b,C,D,#".toList)).table?.bind
        fun T => T.get "##".toList) = some "A".toList ∧
      ((TaskWObon.loadAirportLookup (some "A,b,C,D,#".toList)).table?.bind
        fun T => T.get "*##".toList) = some "C".toList := by
  decide

/-- C22, amended: for every lookup text on which `loadAirportLookup` of
`taskWObon/main.go` succeeds, the table has neither the key `#` nor the key
`*#`; it has the key `##` or `*##` only when a row has the IATA code `#`; and
every key is a tag followed by a non-empty code of a row, `#` or `*#` by its
IATA code (field 4), `##` or `*##` by its ICAO code (field 3): a code with an
empty value is never inserted. -/
theorem C22_keys_of_the_table (text : Str) (T : Table)
    (hT : TaskWObon.loadAirportLookup (some text) = .ok T) :
    T.get "#".toList = none ∧ T.get "*#".toList = none ∧
    (T.get "##".toList ≠ none ∨ T.get "*##".toList ≠ none →
      ∃ row ∈ scanLines text, field row 4 = "#".toList) ∧
    ∀ key, T.get key ≠ none → ∃ row ∈ scanLines text, ∃ code, code ≠ [] ∧
      ((code = field row 4 ∧ (key = "#".toList ++ code ∨ key = "*#".toList ++ code)) ∨
       (code = field row 3 ∧ (key = "##".toList ++ code ∨ key = "*##".toList ++ code))) := by
  obtain ⟨hv, rfl⟩ := load_ok text T hT
  have key : ∀ key, ((scanLines text).foldl addRow []).get key ≠ none →
      ∃ row ∈ scanLines text, field row 3 ≠ [] ∧ field row 4 ≠ [] ∧
        (key = '#' :: '#' :: field row 3 ∨ key = '#' :: field row 4
          ∨ key = '*' :: '#' :: '#' :: field row 3 ∨ key = '*' :: '#' :: field row 4) := by
    intro key hk
    rcases get_foldl_keys (scanLines text) [] key hv hk with h | ⟨row, hr, h⟩
    · exact absurd rfl h
    · obtain ⟨hl, hne⟩ := (validRow_iff 5 row).1 (hv row hr)
      exact ⟨row, hr, field_ne_nil row 3 (by omega) hl hne, field_ne_nil row 4 (by omega) hl hne, h⟩
  refine ⟨?_, ?_, ?_, ?_⟩
  · by_contra hc
    obtain ⟨row, -, h3, h4, h⟩ := key _ hc
    rcases h with h | h | h | h <;> simp at h
    exact h4 h
  · by_contra hc
    obtain ⟨row, -, h3, h4, h⟩ := key _ hc
    rcases h with h | h | h | h <;> simp at h
    exact h4 h
  · rintro (hc | hc)
    · obtain ⟨row, hr, h3, h4, h⟩ := key _ hc
      rcases h with h | h | h | h <;> simp at h
      · exact absurd h h3
      · exact ⟨row, hr, h.symm⟩
    · obtain ⟨row, hr, h3, h4, h⟩ := key _ hc
      rcases h with h | h | h | h <;> simp at h
      · exact absurd h h3
      · exact ⟨row, hr, h.symm⟩
  · intro k hk
    obtain ⟨row, hr, h3, h4, h⟩ := key k hk
    rcases h with h | h | h | h
    · exact ⟨row, hr, field row 3, h3, Or.inr ⟨rfl, Or.inl h⟩⟩
    · exact ⟨row, hr, field row 4, h4, Or.inl ⟨rfl, Or.inl h⟩⟩
    · exact ⟨row, hr, field row 3, h3, Or.inr ⟨rfl, Or.inr h⟩⟩
    · exact ⟨row, hr, field row 4, h4, Or.inl ⟨rfl, Or.inr h⟩⟩

/-- C22, amended, at the lookup `A,b,C,D,#`: no key `#`, no key `*#`, and the
row with the IATA code `#` behind the key `##`. -/
theorem C22_keys_of_the_table_witness :
    ((scanLines "A,b,C,D,#".toList).foldl addRow []).get "#".toList = none ∧
      ((scanLines "A,b,C,D,#".toList).foldl addRow []).get "*#".toList = none ∧
      ∃ row ∈ scanLines "A,b,C,D,#".toList, field row 4 = "#".toList :=
  ⟨(C22_keys_of_the_table "A,b,C,D,#".toList _ (by decide)).1,
   (C22_keys_of_the_table "A,b,C,D,#".toList _ (by decide)).2.1,
   (C22_keys_of_the_table "A,b,C,D,#".toList
      ((scanLines "A,b,C,D,#".toList).foldl addRow []) (by decide)).2.2.1 (Or.inl (by decide))⟩

/-- An empty line is a row of one empty field: the error of both variants. -/
theorem loadRow_blank (cols : WithBonuses.Columns) (T : Table) :
    TaskWObon.loadRow T [] = .error "Malformed airport lookup data".toList ∧
      WithBonuses.loadRow cols T []
        = .error "\x1b[31mMalformed airport lookup data\x1b[0m".toList := by
  have h1 := fun msg => firstFields_blank msg (split ',' []) 5 0 (by decide)
  simp only [Nat.cast_zero] at h1
  constructor
  · simp only [TaskWObon.loadRow, h1]
  · simp only [WithBonuses.loadRow, h1]

/-- The loop of both variants over rows of five fields or more up to an empty
line: an error. -/
theorem loadRows_blank (cols : WithBonuses.Columns) (hc : cols.inRange) (pre : List Str)
    (post : List Str) (T T2 : Table) (hpre : ∀ r ∈ pre, 5 ≤ (split ',' r).length) :
    TaskWObon.loadRows T (pre ++ [] :: post) = .error "Malformed airport lookup data".toList ∧
    (WithBonuses.loadRows cols T2 (pre ++ [] :: post)
        = .error "\x1b[31mMalformed airport lookup data\x1b[0m".toList ∨
      WithBonuses.loadRows cols T2 (pre ++ [] :: post)
        = .error "\x1b[31mMalformed airport lookup! data\x1b[0m".toList) := by
  induction pre generalizing T T2 with
  | nil =>
    have h1 := (loadRow_blank cols T).1
    have h3 := (loadRow_blank cols T2).2
    constructor
    · rw [List.nil_append, TaskWObon.loadRows, h1]
    · left; rw [List.nil_append, WithBonuses.loadRows, h3]
  | cons r pre ih =>
    have hr := hpre r (List.mem_cons_self _ _)
    have hp : ∀ x ∈ pre, 5 ≤ (split ',' x).length := fun x hx => hpre x (List.mem_cons_of_mem _ hx)
    constructor
    · rcases (loadRow_five_fields cols hc T r hr).1 with ⟨T3, h⟩ | h
      · rw [List.cons_append, TaskWObon.loadRows, h]
        exact (ih T3 T2 hp).1
      · rw [List.cons_append, TaskWObon.loadRows, h]
    · rcases (loadRow_five_fields cols hc T2 r hr).2 with ⟨T3, h⟩ | h | h
      · rw [List.cons_append, WithBonuses.loadRows, h]
        exact (ih T T3 hp).2
      · left; rw [List.cons_append, WithBonuses.loadRows, h]
      · right; rw [List.cons_append, WithBonuses.loadRows, h]

/-- C23 fails as stated: the lookup of two rows is accepted by both variants,
and with an empty line between the rows both return the error
`Malformed airport lookup data`. -/
theorem C23_counterexample :
    (TaskWObon.loadAirportLookup (some "a,b,c,d,e,f\ng,h,i,j,k,l".toList)).table?.isSome = true ∧
      (WithBonuses.loadAirportLookup false {}
        (some "a,b,c,d,e,f\ng,h,i,j,k,l".toList)).table?.isSome = true ∧
      scanLines "a,b,c,d,e,f\n\ng,h,i,j,k,l".toList
        = ["a,b,c,d,e,f".toList, [], "g,h,i,j,k,l".toList] ∧
      TaskWObon.loadAirportLookup (some "a,b,c,d,e,f\n\ng,h,i,j,k,l".toList)
        = .error "Malformed airport lookup data".toList ∧
      WithBonuses.loadAirportLookup false {} (some "a,b,c,d,e,f\n\ng,h,i,j,k,l".toList)
        = .error "\x1b[31mMalformed airport lookup data\x1b[0m".toList := by
  decide

/-- C23, amended: `loadAirportLookup` validates every line, the empty ones
too: for every lookup text with an empty line after rows of at least five
fields, the load returns an error and no table in both variants, the error
`Malformed airport lookup data` in `taskWObon/main.go` (an empty line is a row
whose first field is empty).  In the bonus mode the column numbers entered are
taken to be from 0 to 5. -/
theorem C23_empty_line_is_malformed (text : Str) (pre post : List Str) (bonusFlag : Bool)
    (entered : WithBonuses.Columns) (hs : scanLines text = pre ++ [] :: post)
    (hpre : ∀ r ∈ pre, 5 ≤ (split ',' r).length) (hc : bonusFlag = true → entered.inRange) :
    TaskWObon.loadAirportLookup (some text) = .error "Malformed airport lookup data".toList ∧
    (WithBonuses.loadAirportLookup bonusFlag entered (some text)
        = .error "\x1b[31mMalformed airport lookup data\x1b[0m".toList ∨
      WithBonuses.loadAirportLookup bonusFlag entered (some text)
        = .error "\x1b[31mMalformed airport lookup! data\x1b[0m".toList) := by
  obtain ⟨h1, h2⟩ := loadRows_blank _ (cols_inRange bonusFlag entered hc) pre post [] [] hpre
  rw [← hs] at h1 h2
  exact ⟨load_of_error _ _ h1,
    h2.imp (bonus_load_of_error bonusFlag entered text _)
      (bonus_load_of_error bonusFlag entered text _)⟩

/-- C23, amended, at two rows of the lookup of the test suite with an empty
line between them. -/
theorem C23_empty_line_is_malformed_witness :
    TaskWObon.loadAirportLookup (some
        ("Honiara International Airport,SB,Honiara,AGGH,HIR,\"160.05499267578, -9.4280004501343\"\n\n".toList
          ++ "Hongyuan Airport,CN,Aba,ZUHY,AHJ,\"102.35224, 32.53154\"".toList))
        = .error "Malformed airport lookup data".toList ∧
    (WithBonuses.loadAirportLookup false {} (some
        ("Honiara International Airport,SB,Honiara,AGGH,HIR,\"160.05499267578, -9.4280004501343\"\n\n".toList
          ++ "Hongyuan Airport,CN,Aba,ZUHY,AHJ,\"102.35224, 32.53154\"".toList))
        = .error "\x1b[31mMalformed airport lookup data\x1b[0m".toList ∨
      WithBonuses.loadAirportLookup false {} (some
        ("Honiara International Airport,SB,Honiara,AGGH,HIR,\"160.05499267578, -9.4280004501343\"\n\n".toList
          ++ "Hongyuan Airport,CN,Aba,ZUHY,AHJ,\"102.35224, 32.53154\"".toList))
        = .error "\x1b[31mMalformed airport lookup! data\x1b[0m".toList) :=
  C23_empty_line_is_malformed _
    ["Honiara International Airport,SB,Honiara,AGGH,HIR,\"160.05499267578, -9.4280004501343\"".toList]
    ["Hongyuan Airport,CN,Aba,ZUHY,AHJ,\"102.35224, 32.53154\"".toList] false {}
    (by decide) (by decide) (by decide)

/-! ## The normalisation of the text -/

theorem replaceAll_char (a b : Char) (s : Str) :
    replaceAll s [a] [b] = s.map fun c => if c = a then b else c := by
  unfold replaceAll
  induction s with
  | nil => rfl
  | cons c t ih =>
    by_cases h : c = a
    · subst h
      simp [replaceAllAux, List.isPrefixOf, ih]
    · have h2 : ¬ a = c := fun e => h e.symm
      simp [replaceAllAux, List.isPrefixOf, h, h2, ih]

/-- The three replacements of single characters at the head of `trimLines`. -/
theorem replace_controls (text : Str) :
    replaceAll (replaceAll (replaceAll text "\x0b".toList "\n".toList) "\x0c".toList "\n".toList)
      "\r".toList "\n".toList = text.map toNewline := by
  rw [show "\x0b".toList = ['\x0b'] from rfl, show "\x0c".toList = ['\x0c'] from rfl,
    show "\r".toList = ['\r'] from rfl, show "\n".toList = ['\n'] from rfl,
    replaceAll_char, replaceAll_char, replaceAll_char, List.map_map, List.map_map]
  apply List.map_congr_left
  intro c _
  simp only [Function.comp, toNewline]
  by_cases h1 : c = '\x0b'
  · subst h1; decide
  by_cases h2 : c = '\x0c'
  · subst h2; decide
  by_cases h3 : c = '\r'
  · subst h3; decide
  simp [h1, h2, h3]

theorem plusRun_head (p : Char → Bool) (s : Str) :
    (plusRun p s).head? = if s.takeWhile p = [] then none else some (s.dropWhile p) := by
  induction s with
  | nil => rfl
  | cons c t ih =>
    by_cases h : p c = true
    · simp only [plusRun, h, if_true, List.takeWhile_cons, List.dropWhile_cons]
      rw [List.head?_append, ih]
      by_cases ht : t.takeWhile p = []
      · have hd : t.dropWhile p = t := by
          have := List.takeWhile_append_dropWhile p t
          rw [ht, List.nil_append] at this
          exact this
        simp [ht, hd]
      · simp [ht]
    · simp [plusRun, h]

/-- The match of a pattern made of one character and a greedy class: the
character, and the longest run of the class behind it, which is not empty. -/
theorem matchLen_lit_plus (a : Char) (p : Char → Bool) (c : Char) (t : Str) :
    matchLen (.seq (.lit a) (.plus p)) (c :: t) =
      if c = a ∧ t.takeWhile p ≠ [] then some ((t.takeWhile p).length + 1) else none := by
  have hl : (t.dropWhile p).length + (t.takeWhile p).length = t.length := by
    rw [Nat.add_comm, ← List.length_append, List.takeWhile_append_dropWhile]
  by_cases h : c = a
  · subst h
    simp only [matchLen, Regex.run, if_true, List.flatMap_cons, List.flatMap_nil,
      List.append_nil, plusRun_head, true_and]
    by_cases ht : t.takeWhile p = []
    · simp [ht]
    · simp only [ht, if_false, Option.map_some', List.length_cons, ne_eq, not_false_eq_true,
        if_true, Option.some.injEq]
      omega
  · simp [matchLen, Regex.run, h]

theorem replaceTextAux_nil (re : Regex) (repl : Str) (k : Nat) :
    replaceTextAux re repl k [] = [] := by
  cases k <;> rfl

theorem replaceTextAux_skip (re : Regex) (repl : Str) (k : Nat) (s : Str) :
    replaceTextAux re repl k s = replaceTextAux re repl 0 (s.drop k) := by
  induction k generalizing s with
  | zero => rfl
  | succ k ih =>
    cases s with
    | nil => rfl
    | cons c t => rw [replaceTextAux, List.drop_succ_cons, ih]

/-- One step of the scan for a pattern made of one character and a greedy
class. -/
theorem replaceText_step (a : Char) (p : Char → Bool) (repl : Str) (c : Char) (t : Str) :
    replaceTextAux (.seq (.lit a) (.plus p)) repl 0 (c :: t) =
      if c = a ∧ t.takeWhile p ≠ [] then
        repl ++ replaceTextAux (.seq (.lit a) (.plus p)) repl 0 (t.dropWhile p)
      else c :: replaceTextAux (.seq (.lit a) (.plus p)) repl 0 t := by
  rw [replaceTextAux, matchLen_lit_plus]
  by_cases h : c = a ∧ t.takeWhile p ≠ []
  · simp only [h, and_self, ne_eq, not_false_eq_true, if_true]
    rw [replaceTextAux_skip]
    have e := List.drop_left (t.takeWhile p) (t.dropWhile p)
    rw [List.takeWhile_append_dropWhile] at e
    rw [e]
  · simp only [h, if_false]

theorem newline_iff (c : Char) : newline c = true ↔ c = '\n' := by
  simp [newline]

theorem head_dropWhile (p : Char → Bool) (s : Str) (c : Char)
    (h : (s.dropWhile p).head? = some c) : p c = false := by
  induction s with
  | nil => simp at h
  | cons x t ih =>
    rw [List.dropWhile_cons] at h
    by_cases hx : p x = true
    · rw [if_pos hx] at h; exact ih h
    · rw [if_neg hx] at h
      simp only [List.head?_cons, Option.some.injEq] at h
      rw [← h]; simpa using hx

theorem takeWhile_nil_head (p : Char → Bool) (s : Str) (h : s.takeWhile p = []) (c : Char)
    (hc : s.head? = some c) : p c = false := by
  cases s with
  | nil => simp at hc
  | cons x t =>
    simp only [List.head?_cons, Option.some.injEq] at hc
    subst hc
    rw [List.takeWhile_cons] at h
    by_cases hx : p x = true
    · rw [if_pos hx] at h; exact absurd h (List.cons_ne_nil _ _)
    · simpa using hx

theorem length_dropWhile_le (p : Char → Bool) (s : Str) : (s.dropWhile p).length ≤ s.length :=
  (List.dropWhile_suffix p).length_le

/-- After a character that is no line feed the count of the run starts
again. -/
theorem collapse_head (n : Nat) (v : Str) (h : ∀ c, v.head? = some c → newline c = false) :
    collapseAux n v = collapseAux 0 v := by
  cases v with
  | nil => rfl
  | cons c t =>
    have hc : ¬ c = '\n' := by
      have := h c rfl
      rw [← newline_iff]; simp [this]
    simp only [collapseAux, hc, if_false]

theorem collapse_two_drop (u : Str) : collapseAux 2 u = collapseAux 2 (u.dropWhile newline) := by
  induction u with
  | nil => rfl
  | cons c t ih =>
    by_cases hc : c = '\n'
    · subst hc
      rw [List.dropWhile_cons, if_pos (by decide), ← ih]
      simp [collapseAux]
    · have : newline c = false := by
        cases h : newline c
        · rfl
        · exact absurd ((newline_iff c).1 h) hc
      rw [List.dropWhile_cons, this]
      rfl

/-- The pattern `\n\n+` replaced by two line feeds keeps the first two line
feeds of every run. -/
theorem blankLines_eq (s : Str) : replaceAllString reBlankLines s "\n\n".toList = collapseAux 0 s := by
  unfold replaceAllString reBlankLines
  generalize hn : s.length = n
  induction n using Nat.strong_induction_on generalizing s with
  | _ n ih =>
    cases s with
    | nil => rfl
    | cons c t =>
      rw [replaceText_step]
      by_cases h : c = '\n' ∧ t.takeWhile newline ≠ []
      · obtain ⟨rfl, ht⟩ := h
        rw [if_pos ⟨rfl, ht⟩]
        cases t with
        | nil => simp at ht
        | cons d t2 =>
          have hd : newline d = true := by
            by_contra hc
            rw [List.takeWhile_cons, if_neg hc] at ht
            exact ht rfl
          have hd2 : d = '\n' := (newline_iff d).1 hd
          subst hd2
          rw [List.dropWhile_cons, if_pos hd,
            ih _ (by rw [← hn]; have := length_dropWhile_le newline t2; simp; omega) _ rfl]
          have e : collapseAux 0 ('\n' :: '\n' :: t2) = '\n' :: '\n' :: collapseAux 2 t2 := by
            simp [collapseAux]
          rw [e, collapse_two_drop t2,
            collapse_head 2 _ fun c hc => head_dropWhile newline t2 c hc]
          rfl
      · rw [if_neg h, ih _ (by rw [← hn]; simp) t rfl]
        by_cases hc : c = '\n'
        · subst hc
          have ht : t.takeWhile newline = [] := by
            by_contra hc; exact h ⟨rfl, hc⟩
          have e : collapseAux 0 ('\n' :: t) = '\n' :: collapseAux 1 t := by
            simp [collapseAux]
          rw [e, collapse_head 1 t fun c hc => takeWhile_nil_head newline t ht c hc]
        · simp only [collapseAux, hc, if_false]

/-- After a character that is no whitespace the space rule starts again. -/
theorem squeeze_head (b : Bool) (v : Str) (h : ∀ c, v.head? = some c → whitespace c = false) :
    squeeze b v = squeeze false v := by
  cases v with
  | nil => rfl
  | cons c t =>
    have hc := h c rfl
    simp only [squeeze, hc, Bool.and_false, Bool.false_eq_true, if_false]

theorem squeeze_true_drop (u : Str) : squeeze true u = squeeze true (u.dropWhile whitespace) := by
  induction u with
  | nil => rfl
  | cons c t ih =>
    by_cases hc : whitespace c = true
    · rw [List.dropWhile_cons, if_pos hc, ← ih]
      simp [squeeze, hc]
    · rw [List.dropWhile_cons, if_neg hc]

/-- The pattern ` \s+` replaced by a space drops the whitespace behind a
space. -/
theorem spaces_eq (s : Str) : replaceAllString reSpaces s " ".toList = squeeze false s := by
  unfold replaceAllString reSpaces
  generalize hn : s.length = n
  induction n using Nat.strong_induction_on generalizing s with
  | _ n ih =>
    cases s with
    | nil => rfl
    | cons c t =>
      rw [replaceText_step]
      by_cases h : c = ' ' ∧ t.takeWhile whitespace ≠ []
      · obtain ⟨rfl, ht⟩ := h
        rw [if_pos ⟨rfl, ht⟩,
          ih _ (by rw [← hn]; have := length_dropWhile_le whitespace t; simp; omega) _ rfl]
        have e : squeeze false (' ' :: t) = ' ' :: squeeze true t := by
          simp [squeeze]
        rw [e, squeeze_true_drop t,
          squeeze_head true _ fun c hc => head_dropWhile whitespace t c hc]
        rfl
      · rw [if_neg h, ih _ (by rw [← hn]; simp) t rfl]
        by_cases hc : c = ' '
        · subst hc
          have ht : t.takeWhile whitespace = [] := by
            by_contra hc; exact h ⟨rfl, hc⟩
          have e : squeeze false (' ' :: t) = ' ' :: squeeze true t := by
            simp [squeeze]
          rw [e, squeeze_head true t fun c hc => takeWhile_nil_head whitespace t ht c hc]
        · have : (c == ' ') = false := by simpa using hc
          simp only [squeeze, Bool.false_and, Bool.false_eq_true, if_false, this]

/-- The function `trimLines` of `taskWObon/main.go` is the reference
normalisation. -/
theorem trimLines_eq (text : Str) : TaskWObon.trimLines text = normalizeRef text := by
  unfold TaskWObon.trimLines normalizeRef
  simp only [replace_controls, blankLines_eq]

/-- The function `trimLines` of `itineraryWithBonuses.go` by its steps. -/
theorem bonus_trimLines_eq (text : Str) :
    WithBonuses.trimLines text =
      collapseAux 0 (squeeze false (replaceAll (text.map toNewline) " \n".toList "\n".toList)) := by
  unfold WithBonuses.trimLines
  simp only [replace_controls, blankLines_eq, spaces_eq]

theorem collapse_nl_lt (n : Nat) (t : Str) (h : n < 2) :
    collapseAux n ('\n' :: t) = '\n' :: collapseAux (n + 1) t := by
  simp [collapseAux, h]

theorem collapse_nl_ge (n : Nat) (t : Str) (h : ¬ n < 2) :
    collapseAux n ('\n' :: t) = collapseAux n t := by
  simp [collapseAux, h]

theorem collapse_other (n : Nat) (c : Char) (t : Str) (h : c ≠ '\n') :
    collapseAux n (c :: t) = c :: collapseAux 0 t := by
  simp [collapseAux, h]

theorem collapse_append_sep (n : Nat) (u : Str) (x : Char) (w : Str) (hx : x ≠ '\n') :
    collapseAux n (u ++ x :: w) = collapseAux n (u ++ [x]) ++ collapseAux 0 w := by
  induction u generalizing n with
  | nil =>
    rw [List.nil_append, List.nil_append, collapse_other n x w hx, collapse_other n x [] hx]
    rfl
  | cons c t ih =>
    by_cases hc : c = '\n'
    · subst hc
      by_cases hn : n < 2
      · rw [List.cons_append, List.cons_append, collapse_nl_lt n _ hn, collapse_nl_lt n _ hn, ih]
        rfl
      · rw [List.cons_append, List.cons_append, collapse_nl_ge n _ hn, collapse_nl_ge n _ hn, ih]
    · rw [List.cons_append, List.cons_append, collapse_other n c _ hc, collapse_other n c _ hc, ih]
      rfl

theorem collapse_replicate (n k : Nat) (y : Char) (v : Str) (hy : y ≠ '\n') :
    collapseAux n (List.replicate k '\n' ++ y :: v)
      = List.replicate (min k (2 - n)) '\n' ++ collapseAux 0 (y :: v) := by
  induction k generalizing n with
  | zero =>
    rw [List.replicate_zero, List.nil_append, Nat.zero_min, List.replicate_zero, List.nil_append,
      collapse_other n y v hy, collapse_other 0 y v hy]
  | succ k ih =>
    by_cases hn : n < 2
    · rw [List.replicate_succ, List.cons_append, collapse_nl_lt n _ hn, ih]
      have e : min (k + 1) (2 - n) = min k (2 - (n + 1)) + 1 := by omega
      rw [e, List.replicate_succ, List.cons_append]
    · rw [List.replicate_succ, List.cons_append, collapse_nl_ge n _ hn, ih]
      have e1 : min k (2 - n) = 0 := by omega
      have e2 : min (k + 1) (2 - n) = 0 := by omega
      rw [e1, e2]

theorem map_toNewline_run (run : Str)
    (h : ∀ c ∈ run, c = '\n' ∨ c = '\x0b' ∨ c = '\x0c' ∨ c = '\r') :
    run.map toNewline = List.replicate run.length '\n' := by
  induction run with
  | nil => rfl
  | cons c t ih =>
    have hc : toNewline c = '\n' := by
      rcases h c (List.mem_cons_self _ _) with e | e | e | e <;> subst e <;> decide
    rw [List.map_cons, hc, ih fun x hx => h x (List.mem_cons_of_mem _ hx)]
    rfl

theorem toNewline_other (x : Char) (h1 : x ≠ '\n') (h2 : x ≠ '\x0b') (h3 : x ≠ '\x0c')
    (h4 : x ≠ '\r') : toNewline x = x ∧ toNewline x ≠ '\n' := by
  have : toNewline x = x := by simp [toNewline, h2, h3, h4]
  exact ⟨this, by rw [this]; exact h1⟩

/-- C24: for every text, `trimLines` of `taskWObon/main.go` is the reference
normalisation (every vertical tab, form feed and carriage return becomes a
line feed, then of every run of line feeds the first two are kept); hence a
run of `k ≥ 1` characters from line feed, vertical tab, form feed and carriage
return between two other characters `x` and `y` becomes `min k 2` line
feeds, whatever stands before `x` and after `y`. -/
theorem C24_trimLines_is_the_reference (text : Str) :
    TaskWObon.trimLines text = normalizeRef text ∧
    ∀ (a b run : Str) (x y : Char),
      (∀ c ∈ [x, y], c ≠ '\n' ∧ c ≠ '\x0b' ∧ c ≠ '\x0c' ∧ c ≠ '\r') →
      (∀ c ∈ run, c = '\n' ∨ c = '\x0b' ∨ c = '\x0c' ∨ c = '\r') →
      TaskWObon.trimLines (a ++ x :: (run ++ y :: b))
        = TaskWObon.trimLines (a ++ [x])
          ++ (List.replicate (min run.length 2) '\n' ++ TaskWObon.trimLines (y :: b)) := by
  refine ⟨trimLines_eq text, ?_⟩
  intro a b run x y hxy hrun
  obtain ⟨x1, x2, x3, x4⟩ := hxy x (by simp)
  obtain ⟨y1, y2, y3, y4⟩ := hxy y (by simp)
  obtain ⟨ex, hx⟩ := toNewline_other x x1 x2 x3 x4
  obtain ⟨ey, hy⟩ := toNewline_other y y1 y2 y3 y4
  simp only [trimLines_eq, normalizeRef, List.map_append, List.map_cons, List.map_nil,
    map_toNewline_run run hrun]
  rw [collapse_append_sep 0 _ _ _ hx, collapse_replicate 0 _ _ _ hy]

theorem mem_collapse (c : Char) (n : Nat) (u : Str) (h : c ∈ collapseAux n u) : c ∈ u := by
  induction u generalizing n with
  | nil => simp [collapseAux] at h
  | cons x t ih =>
    by_cases hx : x = '\n'
    · by_cases hn : n < 2
      · simp only [collapseAux, hx, if_true, hn, List.mem_cons] at h
        rcases h with h | h
        · rw [h, hx]; exact List.mem_cons_self _ _
        · exact List.mem_cons_of_mem _ (ih _ h)
      · simp only [collapseAux, hx, if_true, hn, if_false] at h
        exact List.mem_cons_of_mem _ (ih _ h)
    · simp only [collapseAux, hx, if_false, List.mem_cons] at h
      rcases h with h | h
      · rw [h]; exact List.mem_cons_self _ _
      · exact List.mem_cons_of_mem _ (ih _ h)

theorem squeeze_skip (b : Bool) (c : Char) (t : Str) (h : (b && whitespace c) = true) :
    squeeze b (c :: t) = squeeze true t := by
  rw [squeeze, if_pos h]

theorem squeeze_keep (b : Bool) (c : Char) (t : Str) (h : ¬ (b && whitespace c) = true) :
    squeeze b (c :: t) = c :: squeeze (c == ' ') t := by
  rw [squeeze, if_neg h]

theorem mem_squeeze (c : Char) (b : Bool) (u : Str) (h : c ∈ squeeze b u) : c ∈ u := by
  induction u generalizing b with
  | nil => simp [squeeze] at h
  | cons x t ih =>
    by_cases hx : (b && whitespace x) = true
    · rw [squeeze_skip b x t hx] at h
      exact List.mem_cons_of_mem _ (ih _ h)
    · rw [squeeze_keep b x t hx] at h
      rcases List.mem_cons.1 h with h | h
      · rw [h]; exact List.mem_cons_self _ _
      · exact List.mem_cons_of_mem _ (ih _ h)

theorem mem_replaceAllAux (c : Char) (old new : Str) (hnew : ∀ x ∈ new, x ∈ old) (k : Nat)
    (u : Str) (h : c ∈ replaceAllAux old new k u) : c ∈ u := by
  induction u generalizing k with
  | nil => cases k <;> simp [replaceAllAux] at h
  | cons x t ih =>
    cases k with
    | succ k =>
      rw [replaceAllAux] at h
      exact List.mem_cons_of_mem _ (ih _ h)
    | zero =>
      rw [replaceAllAux] at h
      by_cases hp : old.isPrefixOf (x :: t) = true
      · rw [if_pos hp, List.mem_append] at h
        rcases h with h | h
        · rw [List.isPrefixOf_iff_prefix] at hp
          exact hp.subset (hnew c h)
        · exact List.mem_cons_of_mem _ (ih _ h)
      · rw [if_neg hp, List.mem_cons] at h
        rcases h with h | h
        · rw [h]; exact List.mem_cons_self _ _
        · exact List.mem_cons_of_mem _ (ih _ h)

theorem mem_map_toNewline (c : Char) (u : Str) (h : c ∈ u.map toNewline) :
    c ≠ '\x0b' ∧ c ≠ '\x0c' ∧ c ≠ '\r' := by
  rw [List.mem_map] at h
  obtain ⟨x, -, rfl⟩ := h
  unfold toNewline
  split
  · decide
  · rename_i hx
    rw [not_or, not_or] at hx
    exact hx

/-- The characters of the result of `trimLines`, in both variants, are
characters of the text after its vertical tabs, form feeds and carriage
returns are replaced. -/
theorem mem_trimLines (c : Char) (text : Str) :
    (c ∈ TaskWObon.trimLines text → c ∈ text.map toNewline) ∧
      (c ∈ WithBonuses.trimLines text → c ∈ text.map toNewline) := by
  constructor
  · intro h
    rw [trimLines_eq] at h
    exact mem_collapse c 0 _ h
  · intro h
    rw [bonus_trimLines_eq] at h
    exact mem_replaceAllAux c _ _ (by decide) 0 _ (mem_squeeze c false _ (mem_collapse c 0 _ h))

/-- The text with the first two line feeds of every run has no three line
feeds in a row. -/
theorem collapse_no_triple (n : Nat) (u : Str) (hn : n ≤ 2) :
    ¬ List.replicate (3 - n) '\n' <+: collapseAux n u ∧
      ¬ "\n\n\n".toList <:+: collapseAux n u := by
  induction u generalizing n with
  | nil =>
    constructor
    · intro h
      have := h.length_le
      simp [collapseAux] at this
      omega
    · intro h
      have := h.length_le
      simp [collapseAux] at this
  | cons c t ih =>
    by_cases hc : c = '\n'
    · by_cases h2 : n < 2
      · have e : collapseAux n (c :: t) = '\n' :: collapseAux (n + 1) t := by
          rw [hc]; exact collapse_nl_lt n t h2
        obtain ⟨i1, i2⟩ := ih (n + 1) (by omega)
        have e3 : 3 - n = (3 - (n + 1)) + 1 := by omega
        have p1 : ¬ List.replicate (3 - n) '\n' <+: '\n' :: collapseAux (n + 1) t := by
          rw [e3, List.replicate_succ, List.cons_prefix_cons]
          exact fun h => i1 h.2
        rw [e]
        refine ⟨p1, ?_⟩
        rw [List.infix_cons_iff]
        rintro (h | h)
        · have hp : List.replicate (3 - n) '\n' <+: '\n' :: collapseAux (n + 1) t := by
            refine List.IsPrefix.trans ?_ h
            exact ⟨List.replicate n '\n', by
              rw [← List.replicate_add]
              have : 3 - n + n = 3 := by omega
              rw [this]; rfl⟩
          exact p1 hp
        · exact i2 h
      · have e : collapseAux n (c :: t) = collapseAux n t := by
          rw [hc]; exact collapse_nl_ge n t h2
        rw [e]
        exact ih n hn
    · have e : collapseAux n (c :: t) = c :: collapseAux 0 t := collapse_other n c t hc
      obtain ⟨-, i2⟩ := ih 0 (by omega)
      have e3 : 3 - n = (2 - n) + 1 := by omega
      have p1 : ∀ k, ¬ List.replicate (k + 1) '\n' <+: c :: collapseAux 0 t := by
        intro k
        rw [List.replicate_succ, List.cons_prefix_cons]
        exact fun h => hc h.1.symm
      rw [e]
      refine ⟨by rw [e3]; exact p1 _, ?_⟩
      rw [List.infix_cons_iff]
      rintro (h | h)
      · exact p1 2 h
      · exact i2 h

/-- C25: for every text, the result of `trimLines`, in both variants, has no
vertical tab, no form feed, no carriage return and no three line feeds in a
row. -/
theorem C25_no_control_character_and_no_three_newlines (text : Str) :
    ('\x0b' ∉ TaskWObon.trimLines text ∧ '\x0c' ∉ TaskWObon.trimLines text
      ∧ '\r' ∉ TaskWObon.trimLines text ∧ ¬ "\n\n\n".toList <:+: TaskWObon.trimLines text) ∧
    ('\x0b' ∉ WithBonuses.trimLines text ∧ '\x0c' ∉ WithBonuses.trimLines text
      ∧ '\r' ∉ WithBonuses.trimLines text
      ∧ ¬ "\n\n\n".toList <:+: WithBonuses.trimLines text) := by
  have m1 := fun c h => mem_map_toNewline c text ((mem_trimLines c text).1 h)
  have m2 := fun c h => mem_map_toNewline c text ((mem_trimLines c text).2 h)
  refine ⟨⟨fun h => (m1 _ h).1 rfl, fun h => (m1 _ h).2.1 rfl, fun h => (m1 _ h).2.2 rfl, ?_⟩,
    ⟨fun h => (m2 _ h).1 rfl, fun h => (m2 _ h).2.1 rfl, fun h => (m2 _ h).2.2 rfl, ?_⟩⟩
  · rw [trimLines_eq]
    exact (collapse_no_triple 0 _ (by omega)).2
  · rw [bonus_trimLines_eq]
    exact (collapse_no_triple 0 _ (by omega)).2

theorem prefix_one (w : Char) (l : Str) : [w] <+: l ↔ l.head? = some w := by
  cases l with
  | nil => simp
  | cons x t =>
    rw [List.cons_prefix_cons]
    simp [eq_comm]

theorem pair_infix_cons (a w c : Char) (l : Str) :
    [a, w] <:+: c :: l ↔ (a = c ∧ l.head? = some w) ∨ [a, w] <:+: l := by
  rw [List.infix_cons_iff, List.cons_prefix_cons, prefix_one]

/-- Behind a space that the space rule keeps comes no whitespace. -/
theorem squeeze_true_head (u : Str) (c : Char) (h : (squeeze true u).head? = some c) :
    whitespace c = false := by
  induction u with
  | nil => simp [squeeze] at h
  | cons x t ih =>
    by_cases hx : (true && whitespace x) = true
    · rw [squeeze_skip true x t hx] at h
      exact ih h
    · rw [squeeze_keep true x t hx, List.head?_cons, Option.some.injEq] at h
      rw [← h]
      simpa using hx

theorem squeeze_noSW (b : Bool) (u : Str) (w : Char) (hw : whitespace w = true) :
    ¬ [' ', w] <:+: squeeze b u := by
  induction u generalizing b with
  | nil => simp [squeeze]
  | cons x t ih =>
    by_cases hx : (b && whitespace x) = true
    · rw [squeeze_skip b x t hx]
      exact ih true
    · rw [squeeze_keep b x t hx, pair_infix_cons]
      rintro (⟨e, h⟩ | h)
      · subst e
        have := squeeze_true_head t w h
        rw [hw] at this
        exact absurd this (by decide)
      · exact ih _ h

/-- A whitespace character at the head of the collapsed text stands for one
at the head of the text. -/
theorem collapse_head_ws (n : Nat) (r : Str) (w : Char) (h : (collapseAux n r).head? = some w)
    (hw : whitespace w = true) : ∃ v, r.head? = some v ∧ whitespace v = true := by
  cases r with
  | nil => simp [collapseAux] at h
  | cons c t =>
    by_cases hc : c = '\n'
    · exact ⟨c, rfl, by rw [hc]; decide⟩
    · rw [collapse_other n c t hc, List.head?_cons, Option.some.injEq] at h
      exact ⟨c, rfl, by rw [h]; exact hw⟩

theorem collapse_noSW (n : Nat) (r : Str)
    (h : ∀ w, whitespace w = true → ¬ [' ', w] <:+: r) (w : Char) (hw : whitespace w = true) :
    ¬ [' ', w] <:+: collapseAux n r := by
  induction r generalizing n with
  | nil => simp [collapseAux]
  | cons c t ih =>
    have ht : ∀ w, whitespace w = true → ¬ [' ', w] <:+: t := fun w hw hi =>
      h w hw ((pair_infix_cons ' ' w c t).2 (Or.inr hi))
    by_cases hc : c = '\n'
    · subst hc
      by_cases h2 : n < 2
      · rw [collapse_nl_lt n t h2, pair_infix_cons]
        rintro (⟨e, -⟩ | hi)
        · exact absurd e (by decide)
        · exact ih _ ht hi
      · rw [collapse_nl_ge n t h2]
        exact ih n ht
    · rw [collapse_other n c t hc, pair_infix_cons]
      rintro (⟨e, hh⟩ | hi)
      · obtain ⟨v, hv1, hv2⟩ := collapse_head_ws 0 t w hh hw
        exact h v hv2 ((pair_infix_cons ' ' v c t).2 (Or.inl ⟨e, hv1⟩))
      · exact ih _ ht hi

/-- In the result of `trimLines` of `itineraryWithBonuses.go` no space stands
before a whitespace character. -/
theorem bonus_trimLines_noSW (text : Str) (w : Char) (hw : whitespace w = true) :
    ¬ [' ', w] <:+: WithBonuses.trimLines text := by
  rw [bonus_trimLines_eq]
  exact collapse_noSW 0 _ (fun w hw => squeeze_noSW false _ w hw) w hw

/-- C29: for every text, the result of `trimLines` of
`itineraryWithBonuses.go` contains no space that is immediately followed by a
space, a tab or a line feed. -/
theorem C29_no_space_before_whitespace (text : Str) :
    ¬ "  ".toList <:+: WithBonuses.trimLines text ∧
      ¬ " \t".toList <:+: WithBonuses.trimLines text ∧
      ¬ " \n".toList <:+: WithBonuses.trimLines text :=
  ⟨bonus_trimLines_noSW text ' ' (by decide), bonus_trimLines_noSW text '\t' (by decide),
    bonus_trimLines_noSW text '\n' (by decide)⟩

theorem collapse_idem (n : Nat) (y : Str) :
    collapseAux n (collapseAux n y) = collapseAux n y := by
  induction y generalizing n with
  | nil => rfl
  | cons c t ih =>
    by_cases hc : c = '\n'
    · subst hc
      by_cases h2 : n < 2
      · rw [collapse_nl_lt n t h2, collapse_nl_lt n _ h2, ih]
      · rw [collapse_nl_ge n t h2, ih]
    · rw [collapse_other n c t hc, collapse_other n c _ hc, ih]

theorem toNewline_fixed (c : Char) (h : c ≠ '\x0b' ∧ c ≠ '\x0c' ∧ c ≠ '\r') : toNewline c = c := by
  simp [toNewline, h.1, h.2.1, h.2.2]

theorem map_toNewline_fixed (r : Str) (h : ∀ c ∈ r, c ≠ '\x0b' ∧ c ≠ '\x0c' ∧ c ≠ '\r') :
    r.map toNewline = r := by
  induction r with
  | nil => rfl
  | cons c t ih =>
    rw [List.map_cons, toNewline_fixed c (h c (List.mem_cons_self _ _)),
      ih fun x hx => h x (List.mem_cons_of_mem _ hx)]

/-- A text without `old` is left as it is by `strings.ReplaceAll`. -/
theorem replaceAll_free (old new s : Str) (h : ∀ q, q <:+ s → old.isPrefixOf q = false ∨ q = []) :
    replaceAll s old new = s := by
  unfold replaceAll
  induction s with
  | nil => rfl
  | cons c t ih =>
    have h1 : old.isPrefixOf (c :: t) = false := by
      rcases h (c :: t) (List.suffix_refl _) with h | h
      · exact h
      · exact absurd h (List.cons_ne_nil _ _)
    rw [replaceAllAux, h1, if_neg (by simp), ih fun q hq => h q (hq.trans (List.suffix_cons c t))]

/-- A text in which no space stands before whitespace is left as it is by the
space rule. -/
theorem squeeze_fixed (b : Bool) (r : Str) (hb : b = true → ∀ c, r.head? = some c → whitespace c = false)
    (h : ∀ w, whitespace w = true → ¬ [' ', w] <:+: r) : squeeze b r = r := by
  induction r generalizing b with
  | nil => rfl
  | cons c t ih =>
    have hx : ¬ (b && whitespace c) = true := by
      cases b
      · simp
      · simp [hb rfl c rfl]
    rw [squeeze_keep b c t hx, ih]
    · intro hc w hw
      have e : c = ' ' := by simpa using hc
      cases hws : whitespace w
      · rfl
      · exact absurd ((pair_infix_cons ' ' w c t).2 (Or.inl ⟨e.symm, hw⟩)) (h w hws)
    · exact fun w hw hi => h w hw ((pair_infix_cons ' ' w c t).2 (Or.inr hi))

/-- C26: the normalisation is idempotent: for every text `x`,
`trimLines (trimLines x) = trimLines x`, in `taskWObon/main.go` and in
`itineraryWithBonuses.go`. -/
theorem C26_trimLines_is_idempotent (x : Str) :
    TaskWObon.trimLines (TaskWObon.trimLines x) = TaskWObon.trimLines x ∧
      WithBonuses.trimLines (WithBonuses.trimLines x) = WithBonuses.trimLines x := by
  constructor
  · have hm : (TaskWObon.trimLines x).map toNewline = TaskWObon.trimLines x :=
      map_toNewline_fixed _ fun c hc => mem_map_toNewline c x ((mem_trimLines c x).1 hc)
    rw [trimLines_eq (TaskWObon.trimLines x), normalizeRef, hm, trimLines_eq, normalizeRef,
      collapse_idem]
  · have hm : (WithBonuses.trimLines x).map toNewline = WithBonuses.trimLines x :=
      map_toNewline_fixed _ fun c hc => mem_map_toNewline c x ((mem_trimLines c x).2 hc)
    have hn := bonus_trimLines_noSW x
    have hr : replaceAll (WithBonuses.trimLines x) " \n".toList "\n".toList
        = WithBonuses.trimLines x := by
      apply replaceAll_free
      intro q hq
      cases hp : (" \n".toList).isPrefixOf q
      · exact Or.inl rfl
      · rw [List.isPrefixOf_iff_prefix] at hp
        exact absurd (hp.isInfix.trans hq.isInfix) (hn '\n' (by decide))
    have hs : squeeze false (WithBonuses.trimLines x) = WithBonuses.trimLines x :=
      squeeze_fixed false _ (fun h => absurd h (by decide)) hn
    rw [bonus_trimLines_eq (WithBonuses.trimLines x), hm, hr, hs, bonus_trimLines_eq,
      collapse_idem]

/-- C27, as the code has it: `trimLines` of `itineraryWithBonuses.go` has no
test of `bonusFlag`, so the space rules are applied in standard mode too: the
text `elit. ` + line feed + `Proin` has no vertical tab, form feed or carriage
return and no two line feeds in a row, and it loses the space before the line
feed, in `trimLines` and in what `processItinerary` writes with `bonusFlag`
false. -/
theorem C27_standard_mode_removes_spaces :
    WithBonuses.trimLines "elit. \nProin".toList = "elit.\nProin".toList ∧
      ((WithBonuses.processItinerary false []
          { files := [("in".toList, "elit. \nProin".toList)], denied := [] }
          "in".toList "out".toList).1.read "out".toList) = some "elit.\nProin\n".toList := by
  decide

/-- C28, as the code has it: on the text of the test `TestExcessiveSpace`,
`trimLines` of `itineraryWithBonuses.go` keeps a space at the head of the
second line and joins the third line to it, where the test expects the lines
`A B C D E F G`, `H I` and `J K`. -/
theorem C28_space_rule_joins_lines :
    WithBonuses.trimLines "A B  C   D    E      F               G\n    H   I    \nJ K".toList
        = "A B C D E F G\n H I J K".toList ∧
      WithBonuses.trimLines "H   I    \nJ K".toList = "H I J K".toList := by
  decide

/-! ## The text that is written -/

theorem read_write (fs : FS) (path content : Str) :
    (fs.write path content).read path = some content := by
  simp [FS.read, FS.write, List.lookup]

theorem read_write_other (fs : FS) (path content other : Str) (h : other ≠ path) :
    (fs.write path content).read other = fs.read other := by
  have : (other == path) = false := by simpa using h
  simp [FS.read, FS.write, List.lookup, this]

/-- The callback of `processLine` never panics, so `processLine` returns, in
both variants and both modes. -/
theorem processLine_some (T : Table) (line : Str) :
    (∃ r, TaskWObon.processLine T line = some r) ∧
      ∀ bonusFlag, ∃ r, WithBonuses.processLine bonusFlag T line = some r := by
  refine ⟨replaceAux_total reWithCities _ (fun s k h => (replacer_match T s k (Or.inl h)).1) 0
    line, fun bonusFlag => ?_⟩
  cases bonusFlag
  · exact replaceAux_total reStandard _ (fun s k h => (replacer_match T s k (Or.inr h)).2) 0 line
  · exact replaceAux_total reWithCities _ (fun s k h => (replacer_match T s k (Or.inl h)).2) 0
      line

/-- The text gathered from the lines: it ends with a line feed when there is
a line. -/
theorem outputLoop_some (T : Table) (lines : List Str) :
    (∃ out, TaskWObon.outputLoop T lines = some out ∧ (lines ≠ [] → out.getLast? = some '\n')) ∧
      ∀ bonusFlag, ∃ out, WithBonuses.outputLoop bonusFlag T lines = some out
        ∧ (lines ≠ [] → out.getLast? = some '\n') := by
  have key : ∀ (p o : Str) (rest : List Str), (rest ≠ [] → o.getLast? = some '\n') →
      (rest = [] → o = []) → (p ++ "\n".toList ++ o).getLast? = some '\n' := by
    intro p o rest h1 h2
    cases rest with
    | nil => rw [h2 rfl]; simp
    | cons r rest =>
      have := h1 (List.cons_ne_nil _ _)
      cases o with
      | nil => simp at this
      | cons x o =>
        rw [List.getLast?_append_of_ne_nil _ (List.cons_ne_nil _ _)]
        exact this
  induction lines with
  | nil =>
    exact ⟨⟨[], rfl, fun h => absurd rfl h⟩, fun b => ⟨[], rfl, fun h => absurd rfl h⟩⟩
  | cons l rest ih =>
    obtain ⟨⟨o1, h1, g1⟩, ih2⟩ := ih
    have z1 : rest = [] → o1 = [] := by
      intro e; subst e
      simp only [TaskWObon.outputLoop, Option.some.injEq] at h1
      exact h1.symm
    obtain ⟨⟨p1, hp1⟩, hp2⟩ := processLine_some T l
    refine ⟨⟨p1 ++ "\n".toList ++ o1, by simp only [TaskWObon.outputLoop, hp1, h1],
      fun _ => key p1 o1 rest g1 z1⟩, fun b => ?_⟩
    obtain ⟨o2, h2, g2⟩ := ih2 b
    obtain ⟨p2, hp2⟩ := hp2 b
    have z2 : rest = [] → o2 = [] := by
      intro e; subst e
      simp only [WithBonuses.outputLoop, Option.some.injEq] at h2
      exact h2.symm
    exact ⟨p2 ++ "\n".toList ++ o2, by simp only [WithBonuses.outputLoop, hp2, h2],
      fun _ => key p2 o2 rest g2 z2⟩

/-- The collapsed text ends with a line feed when the text does. -/
theorem collapse_last (n : Nat) (u : Str) (hn : n ≤ 2) (h : u.getLast? = some '\n') :
    (List.replicate n '\n' ++ collapseAux n u).getLast? = some '\n' := by
  induction u generalizing n with
  | nil => simp at h
  | cons c t ih =>
    have step : t ≠ [] → t.getLast? = some '\n' := by
      intro ht
      cases t with
      | nil => exact absurd rfl ht
      | cons x t2 =>
        rw [List.getLast?_cons_cons] at h
        exact h
    have rep : ∀ k, (List.replicate (k + 1) '\n').getLast? = some '\n' := by
      intro k
      rw [List.getLast?_eq_getLast _ (by simp), List.getLast_replicate]
    by_cases hc : c = '\n'
    · subst hc
      by_cases h2 : n < 2
      · rw [collapse_nl_lt n t h2]
        by_cases ht : t = []
        · subst ht
          have : List.replicate n '\n' ++ '\n' :: collapseAux (n + 1) [] = List.replicate (n + 1) '\n' := by
            rw [List.replicate_succ']; rfl
          rw [this]; exact rep n
        · have := ih (n + 1) (by omega) (step ht)
          rw [List.replicate_succ', List.append_assoc] at this
          exact this
      · rw [collapse_nl_ge n t h2]
        by_cases ht : t = []
        · subst ht
          have e : n = 1 + 1 := by omega
          subst e
          exact rep 1
        · exact ih n hn (step ht)
    · have ht : t ≠ [] := by
        rintro rfl
        simp only [List.getLast?_singleton, Option.some.injEq] at h
        exact hc h
      rw [collapse_other n c t hc]
      have := ih 0 (by omega) (step ht)
      rw [List.replicate_zero, List.nil_append] at this
      have hne : collapseAux 0 t ≠ [] := by
        intro e; rw [e] at this; simp at this
      rw [show List.replicate n '\n' ++ c :: collapseAux 0 t
          = (List.replicate n '\n' ++ [c]) ++ collapseAux 0 t by simp,
        List.getLast?_append_of_ne_nil _ hne]
      exact this

theorem ws_map (s : Str) (h : ∃ c ∈ s, whitespace c = true) :
    ∃ c ∈ s.map toNewline, whitespace c = true := by
  obtain ⟨c, hc, hw⟩ := h
  refine ⟨toNewline c, List.mem_map_of_mem _ hc, ?_⟩
  unfold toNewline
  split
  · decide
  · exact hw

theorem ws_replaceAll (s : Str) (h : ∃ c ∈ s, whitespace c = true) :
    ∃ c ∈ replaceAll s " \n".toList "\n".toList, whitespace c = true := by
  unfold replaceAll
  induction s with
  | nil => obtain ⟨c, hc, -⟩ := h; simp at hc
  | cons x t ih =>
    rw [replaceAllAux]
    by_cases hp : (" \n".toList).isPrefixOf (x :: t) = true
    · rw [if_pos hp]
      exact ⟨'\n', by simp, by decide⟩
    · rw [if_neg hp]
      obtain ⟨c, hc, hw⟩ := h
      rcases List.mem_cons.1 hc with e | hc
      · exact ⟨x, List.mem_cons_self _ _, e ▸ hw⟩
      · obtain ⟨d, hd, hdw⟩ := ih ⟨c, hc, hw⟩
        exact ⟨d, List.mem_cons_of_mem _ hd, hdw⟩

theorem ws_squeeze (s : Str) (h : ∃ c ∈ s, whitespace c = true) :
    ∃ c ∈ squeeze false s, whitespace c = true := by
  induction s with
  | nil => obtain ⟨c, hc, -⟩ := h; simp at hc
  | cons x t ih =>
    rw [squeeze_keep false x t (by simp)]
    cases hx : whitespace x
    · obtain ⟨c, hc, hw⟩ := h
      rcases List.mem_cons.1 hc with e | hc
      · rw [e, hx] at hw; exact absurd hw (by decide)
      · have hs : (x == ' ') = false := by
          cases hb : x == ' '
          · rfl
          · rw [beq_iff_eq] at hb
            rw [hb] at hx
            exact absurd hx (by decide)
        rw [hs]
        obtain ⟨d, hd, hdw⟩ := ih ⟨c, hc, hw⟩
        exact ⟨d, List.mem_cons_of_mem _ hd, hdw⟩
    · exact ⟨x, List.mem_cons_self _ _, hx⟩

theorem ws_collapse (s : Str) (h : ∃ c ∈ s, whitespace c = true) :
    ∃ c ∈ collapseAux 0 s, whitespace c = true := by
  induction s with
  | nil => obtain ⟨c, hc, -⟩ := h; simp at hc
  | cons x t ih =>
    by_cases hx : x = '\n'
    · subst hx
      rw [collapse_nl_lt 0 t (by omega)]
      exact ⟨'\n', List.mem_cons_self _ _, by decide⟩
    · rw [collapse_other 0 x t hx]
      obtain ⟨c, hc, hw⟩ := h
      rcases List.mem_cons.1 hc with e | hc
      · exact ⟨x, List.mem_cons_self _ _, e ▸ hw⟩
      · obtain ⟨d, hd, hdw⟩ := ih ⟨c, hc, hw⟩
        exact ⟨d, List.mem_cons_of_mem _ hd, hdw⟩

/-- Dropping a text without whitespace leaves the whitespace of the text. -/
theorem ws_removeAll (e : Char) (old : Str) (hold : ∀ c ∈ e :: old, whitespace c = false)
    (s : Str) (h : ∃ c ∈ s, whitespace c = true) :
    ∃ c ∈ removeAll (e :: old) s, whitespace c = true := by
  unfold removeAll
  generalize hn : s.length = n
  induction n using Nat.strong_induction_on generalizing s with
  | _ n ih =>
    cases s with
    | nil => obtain ⟨c, hc, -⟩ := h; simp at hc
    | cons x t =>
      by_cases hp : (e :: old).isPrefixOf (x :: t) = true
      · rw [List.isPrefixOf_iff_prefix] at hp
        obtain ⟨b, hb⟩ := hp
        rw [← hb, removeAll_drop]
        apply ih b.length _ b _ rfl
        · rw [← hn, ← hb]; simp; omega
        · obtain ⟨c, hc, hw⟩ := h
          rw [← hb, List.mem_append] at hc
          rcases hc with hc | hc
          · rw [hold c hc] at hw; exact absurd hw (by decide)
          · exact ⟨c, hc, hw⟩
      · rw [removeAllAux, if_neg hp]
        obtain ⟨c, hc, hw⟩ := h
        rcases List.mem_cons.1 hc with e1 | hc
        · exact ⟨x, List.mem_cons_self _ _, e1 ▸ hw⟩
        · obtain ⟨d, hd, hdw⟩ := ih t.length (by rw [← hn]; simp) t ⟨c, hc, hw⟩ rfl
          exact ⟨d, List.mem_cons_of_mem _ hd, hdw⟩

/-- The function `trimColor` leaves the whitespace of the text. -/
theorem ws_trimColor (s : Str) (h : ∃ c ∈ s, whitespace c = true) :
    ∃ c ∈ WithBonuses.trimColor s, whitespace c = true := by
  have k : ∀ (old s : Str), (∀ c ∈ '\x1b' :: old, whitespace c = false) →
      (∃ c ∈ s, whitespace c = true) → ∃ c ∈ removeAll ('\x1b' :: old) s, whitespace c = true :=
    fun old s ho hs => ws_removeAll '\x1b' old ho s hs
  unfold WithBonuses.trimColor
  exact k "[22m".toList _ (by decide) <| k "[1m".toList _ (by decide) <|
    k "[47m".toList _ (by decide) <| k "[46m".toList _ (by decide) <|
    k "[45m".toList _ (by decide) <| k "[44m".toList _ (by decide) <|
    k "[43m".toList _ (by decide) <| k "[42m".toList _ (by decide) <|
    k "[41m".toList _ (by decide) <| k "[40m".toList _ (by decide) <|
    k "[33m".toList _ (by decide) <| k "[32m".toList _ (by decide) <|
    k "[31m".toList _ (by decide) <| k "[37m".toList _ (by decide) <|
    k "[36m".toList _ (by decide) <| k "[35m".toList _ (by decide) <|
    k "[34m".toList _ (by decide) <| k "[30m".toList _ (by decide) <|
    k "[0m".toList _ (by decide) h

/-- The normalised text of `itineraryWithBonuses.go`, without its colour
codes, is not empty when the text gathered from the lines ends with a line
feed. -/
theorem bonus_result_ne_nil (out : Str) (h : out.getLast? = some '\n') :
    WithBonuses.trimColor (WithBonuses.trimLines out) ≠ [] := by
  have h0 : ∃ c ∈ out, whitespace c = true :=
    ⟨'\n', List.mem_of_mem_getLast? h, by decide⟩
  have h1 : ∃ c ∈ WithBonuses.trimLines out, whitespace c = true := by
    rw [bonus_trimLines_eq]
    exact ws_collapse _ (ws_squeeze _ (ws_replaceAll _ (ws_map _ h0)))
  obtain ⟨c, hc, -⟩ := ws_trimColor _ h1
  exact List.ne_nil_of_mem hc

theorem getLast_split (l : Str) (a : Char) (h : l.getLast? = some a) : ∃ w, l = w ++ [a] := by
  have hne : l ≠ [] := by rintro rfl; simp at h
  refine ⟨l.dropLast, ?_⟩
  have := List.dropLast_append_getLast hne
  rw [List.getLast?_eq_getLast l hne, Option.some.injEq] at h
  rw [h] at this
  exact this.symm

/-- The run of `processItinerary` in `taskWObon/main.go` when the input can
be opened and the output made. -/
theorem processItinerary_run (T : Table) (fs : FS) (inputPath outputPath doc out : Str)
    (hin : fs.read inputPath = some doc) (hne : inputPath ≠ outputPath)
    (hout : outputPath ∉ fs.denied)
    (ho : TaskWObon.outputLoop T (scanLines doc) = some out) :
    TaskWObon.processItinerary T fs inputPath outputPath
      = ((fs.write outputPath []).write outputPath (TaskWObon.trimLines out ++ "\n".toList),
          .ok ()) := by
  unfold TaskWObon.processItinerary
  simp only [hin, hout, if_false, read_write_other fs outputPath [] inputPath hne,
    Option.getD_some, ho]

/-- The run of `processItinerary` in `itineraryWithBonuses.go` when the input
can be opened, the output made and the last character of the normalised text
cut off. -/
theorem bonus_processItinerary_run (bonusFlag : Bool) (T : Table) (fs : FS)
    (inputPath outputPath doc out text : Str)
    (hin : fs.read inputPath = some doc) (hne : inputPath ≠ outputPath)
    (hout : outputPath ∉ fs.denied)
    (ho : WithBonuses.outputLoop bonusFlag T (scanLines doc) = some out)
    (hs : slice (WithBonuses.trimColor (WithBonuses.trimLines out)) 0
      (((WithBonuses.trimColor (WithBonuses.trimLines out)).length : Int) - 1) = some text) :
    WithBonuses.processItinerary bonusFlag T fs inputPath outputPath
      = ((fs.write outputPath []).write outputPath (text ++ "\n".toList), .ok ()) := by
  unfold WithBonuses.processItinerary
  rw [hin]
  dsimp only
  rw [if_neg hout, read_write_other fs outputPath [] inputPath hne, hin, Option.getD_some, ho]
  dsimp only
  rw [hs]

theorem slice_dropLast (r : Str) (h : r ≠ []) :
    slice r 0 ((r.length : Int) - 1) = some r.dropLast := by
  have hl : 0 < r.length := List.length_pos.2 h
  have hc : (0 : Int) ≤ 0 ∧ (0 : Int) ≤ (r.length : Int) - 1
      ∧ (r.length : Int) - 1 ≤ (r.length : Int) := by omega
  rw [slice, if_pos hc]
  have e : ((r.length : Int) - 1).toNat = r.length - 1 := by omega
  rw [e, List.dropLast_eq_take]
  rfl

/-- The runs of `processItinerary` on a document from which the scanner
yields no line (the empty document, or one whose first line does not fit the
buffer): `taskWObon/main.go` writes one line feed, and
`itineraryWithBonuses.go` ends in a run-time panic at the slice
`result[:len(result)-1]`. -/
theorem nothing_scanned (T : Table) (fs : FS) (inputPath outputPath doc : Str)
    (bonusFlag : Bool) (hin : fs.read inputPath = some doc) (hne : inputPath ≠ outputPath)
    (hout : outputPath ∉ fs.denied) (hs : scanLines doc = []) :
    TaskWObon.processItinerary T fs inputPath outputPath
        = ((fs.write outputPath []).write outputPath "\n".toList, .ok ()) ∧
      WithBonuses.processItinerary bonusFlag T fs inputPath outputPath
        = (fs.write outputPath [], .panic) := by
  constructor
  · exact processItinerary_run T fs inputPath outputPath doc [] hin hne hout (by rw [hs]; rfl)
  · have ho : WithBonuses.outputLoop bonusFlag T (scanLines doc) = some [] := by rw [hs]; rfl
    have hsl : slice (WithBonuses.trimColor (WithBonuses.trimLines []))
        (0 : Int) (((WithBonuses.trimColor (WithBonuses.trimLines [])).length : Int) - 1)
          = none := by decide
    unfold WithBonuses.processItinerary
    rw [hin]
    dsimp only
    rw [if_neg hout, read_write_other fs outputPath [] inputPath hne, hin, Option.getD_some, ho]
    dsimp only
    rw [hsl]

/-- C30 fails as stated: for the input document `a` the text written to the
output is `a` and two line feeds in `taskWObon/main.go` and `a` and one line
feed in `itineraryWithBonuses.go`; both end with whitespace. -/
theorem C30_counterexample :
    (TaskWObon.processItinerary [] { files := [("in".toList, "a".toList)], denied := [] }
        "in".toList "out".toList).1.read "out".toList = some "a\n\n".toList ∧
      (WithBonuses.processItinerary false []
        { files := [("in".toList, "a".toList)], denied := [] }
        "in".toList "out".toList).1.read "out".toList = some "a\n".toList := by
  decide

/-- C30, amended: for every lookup table and every input document from which
the scanner yields at least one line (the document is not empty and its first
line has fewer than 65536 bytes), at a path other than that of the output,
`processItinerary` returns no error and the text it writes to the output ends
with a line feed: `taskWObon/main.go` writes the normalised text, which ends
with a line feed, and the line feed that `Fprintln` adds, so its text ends
with two line feeds; `itineraryWithBonuses.go`, in either mode, writes the
normalised text without its last character and the line feed of `Fprintln`.
The text written is not trimmed of trailing whitespace. -/
theorem C30_written_text_ends_with_a_newline (T : Table) (fs : FS)
    (inputPath outputPath doc : Str) (bonusFlag : Bool)
    (hin : fs.read inputPath = some doc) (hne : inputPath ≠ outputPath)
    (hout : outputPath ∉ fs.denied) (hdoc : scanLines doc ≠ []) :
    ((TaskWObon.processItinerary T fs inputPath outputPath).2 = .ok () ∧
      ∃ w, (TaskWObon.processItinerary T fs inputPath outputPath).1.read outputPath
        = some (w ++ "\n\n".toList)) ∧
    ((WithBonuses.processItinerary bonusFlag T fs inputPath outputPath).2 = .ok () ∧
      ∃ w, (WithBonuses.processItinerary bonusFlag T fs inputPath outputPath).1.read outputPath
        = some (w ++ "\n".toList)) := by
  obtain ⟨⟨o1, h1, g1⟩, h2⟩ := outputLoop_some T (scanLines doc)
  obtain ⟨o2, h2, g2⟩ := h2 bonusFlag
  constructor
  · rw [processItinerary_run T fs inputPath outputPath doc o1 hin hne hout h1]
    refine ⟨rfl, ?_⟩
    have hl : (o1.map toNewline).getLast? = some '\n' := by
      rw [List.getLast?_map, g1 hdoc]; rfl
    have := collapse_last 0 _ (by omega) hl
    rw [List.replicate_zero, List.nil_append] at this
    obtain ⟨w, hw⟩ := getLast_split _ _ this
    refine ⟨w, ?_⟩
    rw [read_write, trimLines_eq, normalizeRef, hw]
    simp
  · rw [bonus_processItinerary_run bonusFlag T fs inputPath outputPath doc o2 _ hin hne hout h2
      (slice_dropLast _ (bonus_result_ne_nil o2 (g2 hdoc)))]
    exact ⟨rfl, _, read_write _ _ _⟩

/-- C30, amended, at the input document `a #HIR`. -/
theorem C30_written_text_ends_with_a_newline_witness :
    ((TaskWObon.processItinerary basicTable
        { files := [("in".toList, "a #HIR".toList)], denied := [] }
        "in".toList "out".toList).2 = .ok () ∧
      ∃ w, (TaskWObon.processItinerary basicTable
        { files := [("in".toList, "a #HIR".toList)], denied := [] }
        "in".toList "out".toList).1.read "out".toList = some (w ++ "\n\n".toList)) ∧
    ((WithBonuses.processItinerary false basicTable
        { files := [("in".toList, "a #HIR".toList)], denied := [] }
        "in".toList "out".toList).2 = .ok () ∧
      ∃ w, (WithBonuses.processItinerary false basicTable
        { files := [("in".toList, "a #HIR".toList)], denied := [] }
        "in".toList "out".toList).1.read "out".toList = some (w ++ "\n".toList)) :=
  C30_written_text_ends_with_a_newline basicTable
    { files := [("in".toList, "a #HIR".toList)], denied := [] } "in".toList "out".toList
    "a #HIR".toList false (by decide) (by decide) (by decide) (by decide)

/-! ## Two hashes before three letters -/

theorem run_withCities_hash3 (x y z : Char) (hx : upper x = true) :
    reWithCities.run ['#', '#', x, y, z] = [] := by
  have hx2 : x ≠ '(' := by rintro rfl; exact absurd hx (by decide)
  simp [run_reWithCities, codeTok, parenTok, List.isPrefixOf, upper_hash]

theorem run_standard_hash3 (x y z : Char) (hx : upper x = true) :
    reStandard.run ['#', '#', x, y, z] = [] := by
  simp [run_reStandard, codeTok, parenTok, List.isPrefixOf, upper_hash]

/-- C35: for every table with an entry `n` for `#c`, where `c` is 3 uppercase
letters, `processLine("##" + c) = "#" + n`, in `taskWObon/main.go` and in both
modes of `itineraryWithBonuses.go`: the first hash is copied and the second
one with the code is substituted as an IATA token. -/
theorem C35_two_hashes_before_three_letters (T : Table) (c n : Str) (hc : IsCode 3 c)
    (hn : T.get ("#".toList ++ c) = some n) :
    TaskWObon.processLine T ("##".toList ++ c) = some ('#' :: n) ∧
      ∀ bonusFlag : Bool,
        WithBonuses.processLine bonusFlag T ("##".toList ++ c) = some ('#' :: n) := by
  have hn2 : T.get ('#' :: c) = some n := hn
  have hi := head_iata c [] hc
  have hs := head_iata_std c [] hc
  obtain ⟨x, y, z, rfl, hx, hy, hz⟩ := isCode3 hc
  have e : "##".toList ++ [x, y, z] = '#' :: ('#' :: [x, y, z] ++ []) := rfl
  constructor
  · unfold TaskWObon.processLine replaceAllStringFunc
    rw [e, replaceAux_copy _ _ _ _ (by simpa using run_withCities_hash3 x y z hx),
      replaceAux_match _ _ _ _ _ hi, replacer_name, hn2]
    simp [replaceAux_nil]
  · intro b
    unfold WithBonuses.processLine replaceAllStringFunc
    cases b
    · simp only [Bool.false_eq_true, if_false]
      rw [e, replaceAux_copy _ _ _ _ (by simpa using run_standard_hash3 x y z hx),
        replaceAux_match _ _ _ _ _ hs, bonus_replacer_name, hn2]
      simp [replaceAux_nil]
    · simp only [if_true]
      rw [e, replaceAux_copy _ _ _ _ (by simpa using run_withCities_hash3 x y z hx),
        replaceAux_match _ _ _ _ _ hi, bonus_replacer_name, hn2]
      simp [replaceAux_nil]

/-- C35, at `##HIR` with the table of the test suite. -/
theorem C35_two_hashes_before_three_letters_witness :
    TaskWObon.processLine basicTable "##HIR".toList
        = some "#Honiara International Airport".toList ∧
      ∀ bonusFlag : Bool, WithBonuses.processLine bonusFlag basicTable "##HIR".toList
        = some "#Honiara International Airport".toList :=
  C35_two_hashes_before_three_letters basicTable "HIR".toList
    "Honiara International Airport".toList (by decide) (by decide)

/-! ## Dates that are not in the calendar -/

theorem digit_dc (k : Nat) (hk : k < 10) : digit (Nat.digitChar k) = true := by
  interval_cases k <;> decide

theorem val_dc (k : Nat) (hk : k < 10) : val (Nat.digitChar k) = k := by
  interval_cases k <;> decide

theorem dc_colon (k : Nat) (hk : k < 10) : (Nat.digitChar k == ':') = false := by
  interval_cases k <;> decide

/-- Whether a timestamp with two digits in each field is taken is a matter of
the ranges of the fields and of what follows the minutes. -/
theorem acceptedStamp_stamp (Y m d h mi : Nat) (tail : Str) (hY : Y < 10000) (hm : m < 100)
    (hd : d < 100) (hh : h < 100) (hmi : mi < 100) :
    acceptedStamp (stamp Y m d h mi tail)
      = (decide (ValidDate Y m d) && (decide (h < 24) && (decide (mi < 60) &&
          acceptedZone tail))) := by
  have y1 : Y / 100 / 10 < 10 := by omega
  have y2 : Y / 100 % 10 < 10 := by omega
  have y3 : Y % 100 / 10 < 10 := by omega
  have y4 : Y % 100 % 10 < 10 := by omega
  have m1 : m / 10 < 10 := by omega
  have m2 : m % 10 < 10 := by omega
  have d1 : d / 10 < 10 := by omega
  have d2 : d % 10 < 10 := by omega
  have h1 : h / 10 < 10 := by omega
  have h2 : h % 10 < 10 := by omega
  have n1 : mi / 10 < 10 := by omega
  have n2 : mi % 10 < 10 := by omega
  have eY : Y / 100 / 10 * 1000 + Y / 100 % 10 * 100 + Y % 100 / 10 * 10 + Y % 100 % 10 = Y := by
    omega
  have em : m / 10 * 10 + m % 10 = m := by omega
  have ed : d / 10 * 10 + d % 10 = d := by omega
  have eh : h / 10 * 10 + h % 10 = h := by omega
  have emi : mi / 10 * 10 + mi % 10 = mi := by omega
  simp only [stamp, dec4, dec2, List.cons_append, List.nil_append, acceptedStamp, acceptedClock,
    acceptedMinute, digit_dc _ y1, digit_dc _ y2, digit_dc _ y3, digit_dc _ y4, digit_dc _ m1,
    digit_dc _ m2, digit_dc _ d1, digit_dc _ d2, digit_dc _ h1, digit_dc _ h2, digit_dc _ n1,
    digit_dc _ n2, val_dc _ y1, val_dc _ y2, val_dc _ y3, val_dc _ y4, val_dc _ m1,
    val_dc _ m2, val_dc _ d1, val_dc _ d2, val_dc _ h1, val_dc _ h2, val_dc _ n1,
    val_dc _ n2, dc_colon _ h2, eY, em, ed, eh, emi, Bool.true_and, beq_self_eq_true,
    Bool.false_eq_true, if_false]

/-- C36: for every table and every payload `YYYY-MM-DDTHH:MM` followed by `Z`,
by an offset or by any other text without `)`, in which the month, the day,
the hour or the minute is out of range (no valid date `Y-m-d`, or no valid time
of day `h:mi`), `processLine` of `taskWObon/main.go` returns the token
`D(payload)` unchanged. -/
theorem C36_date_out_of_range_is_left_unchanged (T : Table) (Y m d h mi : Nat) (tail : Str)
    (hY : Y < 10000) (hm : m < 100) (hd : d < 100) (hh : h < 100) (hmi : mi < 100)
    (htail : ')' ∉ tail) (hbad : ¬ (ValidDate Y m d ∧ ValidTime h mi)) :
    TaskWObon.processLine T ("D(".toList ++ (stamp Y m d h mi tail ++ ")".toList))
      = some ("D(".toList ++ (stamp Y m d h mi tail ++ ")".toList)) := by
  have ha : acceptedStamp (stamp Y m d h mi tail) = false := by
    rw [acceptedStamp_stamp Y m d h mi tail hY hm hd hh hmi]
    by_cases hv : ValidDate Y m d
    · have ht : ¬ (h < 24 ∧ mi < 60) := fun ht => hbad ⟨hv, ht⟩
      by_cases h24 : h < 24
      · have : ¬ mi < 60 := fun h60 => ht ⟨h24, h60⟩
        simp [this]
      · simp [h24]
    · simp [hv]
  rw [(processLine_paren T (stamp Y m d h mi tail) (by simp [stamp, dec4, dec2])
      (fun c hc e => stamp_free ')' (by decide) (by decide) (by decide) (by decide)
        Y m d h mi _ hY hm hd hh hmi htail (e ▸ hc))).1,
    formatISODate_rejected _ ha]

/-- C36, at `D(2023-02-29T08:00Z)`, `D(2024-02-30T08:00+02:00)`,
`D(2024-13-01T08:00Z)`, `D(2024-01-01T24:00Z)` and `D(2024-01-01T08:60Z)`. -/
theorem C36_date_out_of_range_is_left_unchanged_witness :
    TaskWObon.processLine [] "D(2023-02-29T08:00Z)".toList = some "D(2023-02-29T08:00Z)".toList ∧
    TaskWObon.processLine [] "D(2024-02-30T08:00+02:00)".toList
      = some "D(2024-02-30T08:00+02:00)".toList ∧
    TaskWObon.processLine [] "D(2024-13-01T08:00Z)".toList = some "D(2024-13-01T08:00Z)".toList ∧
    TaskWObon.processLine [] "D(2024-01-01T24:00Z)".toList = some "D(2024-01-01T24:00Z)".toList ∧
    TaskWObon.processLine [] "D(2024-01-01T08:60Z)".toList = some "D(2024-01-01T08:60Z)".toList :=
  ⟨C36_date_out_of_range_is_left_unchanged [] 2023 2 29 8 0 "Z".toList (by decide) (by decide)
      (by decide) (by decide) (by decide) (by decide) (by decide),
   C36_date_out_of_range_is_left_unchanged [] 2024 2 30 8 0 "+02:00".toList (by decide)
      (by decide) (by decide) (by decide) (by decide) (by decide) (by decide),
   C36_date_out_of_range_is_left_unchanged [] 2024 13 1 8 0 "Z".toList (by decide) (by decide)
      (by decide) (by decide) (by decide) (by decide) (by decide),
   C36_date_out_of_range_is_left_unchanged [] 2024 1 1 24 0 "Z".toList (by decide) (by decide)
      (by decide) (by decide) (by decide) (by decide) (by decide),
   C36_date_out_of_range_is_left_unchanged [] 2024 1 1 8 60 "Z".toList (by decide) (by decide)
      (by decide) (by decide) (by decide) (by decide) (by decide)⟩

/-! ## The offset `-00:00` -/

/-- C37: for every table, every valid date `Y-m-d` and valid time of day
`h:mi`, `processLine` of `taskWObon/main.go` renders the payload with the
offset `-00:00` with a plus sign: `T24(YYYY-MM-DDTHH:MM-00:00)` becomes
`HH:MM (+00:00)` and `T12(YYYY-MM-DDTHH:MM-00:00)` becomes the 12-hour clock
text followed by ` (+00:00)`. -/
theorem C37_minus_zero_offset_is_shown_with_plus (T : Table) (Y m d h mi : Nat)
    (hv : ValidDate Y m d) (ht : ValidTime h mi) :
    TaskWObon.processLine T
        ("T24(".toList ++ (stamp Y m d h mi "-00:00".toList ++ ")".toList))
      = some (clock24 h mi ++ " (+00:00)".toList) ∧
    TaskWObon.processLine T
        ("T12(".toList ++ (stamp Y m d h mi "-00:00".toList ++ ")".toList))
      = some (clock12 h mi ++ " (+00:00)".toList) := by
  obtain ⟨b1, b2, b3, b4, b5⟩ := valid_bounds hv ht
  have e : "-00:00".toList = offsetText true 0 0 := by decide
  have hp := processLine_paren T (stamp Y m d h mi "-00:00".toList)
    (by simp [stamp, dec4, dec2])
    (fun c hc e => stamp_free ')' (by decide) (by decide) (by decide) (by decide)
      Y m d h mi _ b1 b2 b3 b4 b5 (by decide) (e ▸ hc))
  have f24 := formatISOTime_offset Y m d h mi hv ht true 0 0 (by omega) (by omega) false
  have f12 := formatISOTime_offset Y m d h mi hv ht true 0 0 (by omega) (by omega) true
  rw [← e] at f24 f12
  rw [hp.2.2, hp.2.1, f24, f12]
  exact ⟨rfl, rfl⟩

/-- C37, at `T24(2024-02-01T16:30-00:00)` and `T12(2024-02-01T16:30-00:00)`. -/
theorem C37_minus_zero_offset_is_shown_with_plus_witness :
    TaskWObon.processLine [] "T24(2024-02-01T16:30-00:00)".toList
      = some "16:30 (+00:00)".toList ∧
    TaskWObon.processLine [] "T12(2024-02-01T16:30-00:00)".toList
      = some "04:30PM (+00:00)".toList :=
  C37_minus_zero_offset_is_shown_with_plus [] 2024 2 1 16 30 (by decide) (by decide)

/-! ## The empty document -/

/-- C31: the code does not do what the claim says.  For the empty input
document, at a path other than that of the output, `processItinerary` of
`taskWObon/main.go` returns no error and writes one line feed, but
`processItinerary` of `itineraryWithBonuses.go`, in either mode, ends in a
run-time panic: the normalised text is empty and the slice
`result[:len(result)-1]` is out of range.  The output file is left created and
empty. -/
theorem C31_empty_document_panics_in_one_variant (T : Table) (fs : FS)
    (inputPath outputPath : Str) (bonusFlag : Bool)
    (hin : fs.read inputPath = some []) (hne : inputPath ≠ outputPath)
    (hout : outputPath ∉ fs.denied) :
    TaskWObon.processItinerary T fs inputPath outputPath
        = ((fs.write outputPath []).write outputPath "\n".toList, .ok ()) ∧
      WithBonuses.processItinerary bonusFlag T fs inputPath outputPath
        = (fs.write outputPath [], .panic) := by
  constructor
  · exact processItinerary_run T fs inputPath outputPath [] [] hin hne hout rfl
  · have ho : WithBonuses.outputLoop bonusFlag T (scanLines []) = some [] := rfl
    have hs : slice (WithBonuses.trimColor (WithBonuses.trimLines []))
        (0 : Int) (((WithBonuses.trimColor (WithBonuses.trimLines [])).length : Int) - 1)
          = none := by decide
    unfold WithBonuses.processItinerary
    rw [hin]
    dsimp only
    rw [if_neg hout, read_write_other fs outputPath [] inputPath hne, hin, Option.getD_some, ho]
    dsimp only
    rw [hs]

/-- C31, with the table of the test suite and the empty input file of
`TestEmptyInput`. -/
theorem C31_empty_document_panics_in_one_variant_witness :
    TaskWObon.processItinerary basicTable { files := [("in".toList, [])], denied := [] }
        "in".toList "out".toList
      = ({ files := [("out".toList, "\n".toList), ("out".toList, []), ("in".toList, [])],
           denied := [] }, .ok ()) ∧
    WithBonuses.processItinerary false basicTableColour
        { files := [("in".toList, [])], denied := [] } "in".toList "out".toList
      = ({ files := [("out".toList, []), ("in".toList, [])], denied := [] }, .panic) :=
  C31_empty_document_panics_in_one_variant basicTable
    { files := [("in".toList, [])], denied := [] } "in".toList "out".toList false
    (by decide) (by decide) (by decide)

/-! ## Carriage returns at the ends of lines -/

theorem split_line (sep : Char) (l rest : Str) (hl : sep ∉ l) :
    split sep (l ++ sep :: rest) = l :: split sep rest := by
  induction l with
  | nil => simp [split]
  | cons c l ih =>
    have hc : ¬ c = sep := fun e => hl (by simp [e])
    have := ih fun h => hl (by simp [h])
    simp [split, hc, this]

theorem split_document (sep : Char) (ls : List Str) (tail : Str) (h : ∀ l ∈ ls, sep ∉ l) :
    split sep (document [sep] ls ++ tail) = ls ++ split sep tail := by
  induction ls with
  | nil => rfl
  | cons l ls ih =>
    have e : document [sep] (l :: ls) ++ tail = l ++ sep :: (document [sep] ls ++ tail) := by
      simp [document]
    rw [e, split_line sep l _ (h l (List.mem_cons_self _ _)),
      ih fun x hx => h x (List.mem_cons_of_mem _ hx)]
    rfl

theorem document_crlf (ls : List Str) :
    document "\r\n".toList ls = document ['\n'] (ls.map fun l => l ++ ['\r']) := by
  induction ls with
  | nil => rfl
  | cons l ls ih =>
    have e1 : document "\r\n".toList (l :: ls) = l ++ "\r\n".toList ++ document "\r\n".toList ls := by
      simp [document]
    have e2 : document ['\n'] ((l :: ls).map fun l => l ++ ['\r'])
        = (l ++ ['\r']) ++ ['\n'] ++ document ['\n'] (ls.map fun l => l ++ ['\r']) := by
      simp [document]
    rw [e1, e2, ih]
    simp

theorem dropCR_line (l : Str) (h : l.getLast? ≠ some '\r') : dropCR l = l := by
  unfold dropCR
  rw [if_neg h]

theorem dropCR_cr (l : Str) : dropCR (l ++ ['\r']) = l := by
  unfold dropCR
  simp

theorem getLast_snoc_nil (ls : List Str) : (ls ++ [[]]).getLast? = some ([] : Str) := by
  simp

theorem byteLen_append (a b : Str) : byteLen (a ++ b) = byteLen a + byteLen b := by
  induction a with
  | nil => simp [byteLen]
  | cons c a ih =>
    show utf8Len c + byteLen (a ++ b) = utf8Len c + byteLen a + byteLen b
    rw [ih]; omega

theorem byteLen_cr (l : Str) : byteLen (l ++ ['\r']) = byteLen l + 1 := by
  rw [byteLen_append]
  rfl

theorem byteLen_replicate (n : Nat) : byteLen (List.replicate n 'a') = n := by
  induction n with
  | zero => rfl
  | succ n ih =>
    rw [List.replicate_succ, byteLen, ih]
    have : utf8Len 'a' = 1 := by decide
    omega

theorem fits_iff (seg : Str) : fits seg = true ↔ byteLen seg < maxScanTokenSize := by
  simp [fits]

/-- The parts of a document in which every line is followed by a line feed. -/
theorem segments_document (ls : List Str) (h : ∀ l ∈ ls, '\n' ∉ l) :
    segments (document ['\n'] ls) = ls := by
  have hs := split_document '\n' ls [] h
  rw [List.append_nil] at hs
  have hs2 : split '\n' (document ['\n'] ls) = ls ++ [[]] := hs
  unfold segments
  simp only [hs2, getLast_snoc_nil, if_true, List.dropLast_concat]

/-- The parts of a document whose last line has no line feed. -/
theorem segments_last (ls : List Str) (last : Str) (h : ∀ l ∈ ls, '\n' ∉ l) (hl : '\n' ∉ last)
    (hne : last ≠ []) : segments (document ['\n'] ls ++ last) = ls ++ [last] := by
  have hs := split_document '\n' ls last h
  rw [split_free _ _ hl] at hs
  unfold segments
  have g : (ls ++ [last]).getLast? ≠ some ([] : Str) := by
    simpa using hne
  simp only [hs, if_neg g]

theorem scanLines_of_fit (text : Str) (h : ∀ seg ∈ segments text, fits seg = true) :
    scanLines text = (segments text).map dropCR := by
  unfold scanLines
  rw [List.takeWhile_eq_self_iff.2 h]

/-- The lines that the scanner yields for a document with line feeds. -/
theorem scanLines_lf (ls : List Str) (h : ∀ l ∈ ls, IsLine l)
    (hb : ∀ l ∈ ls, byteLen l < maxScanTokenSize) :
    scanLines (document "\n".toList ls) = ls := by
  have hseg : segments (document "\n".toList ls) = ls :=
    segments_document ls fun l hl => (h l hl).1
  rw [scanLines_of_fit _ (by rw [hseg]; exact fun l hl => (fits_iff l).2 (hb l hl)), hseg]
  exact (List.map_congr_left fun l hl => dropCR_line l (h l hl).2).trans (List.map_id _)

/-- The lines that the scanner yields for a document with carriage returns and
line feeds. -/
theorem scanLines_crlf (ls : List Str) (h : ∀ l ∈ ls, IsLine l)
    (hb : ∀ l ∈ ls, byteLen l + 1 < maxScanTokenSize) :
    scanLines (document "\r\n".toList ls) = ls := by
  have hn : ∀ l ∈ ls.map (fun l => l ++ ['\r']), '\n' ∉ l := by
    intro l hl
    obtain ⟨x, hx, rfl⟩ := List.mem_map.1 hl
    have := (h x hx).1
    simp [this]
  have hseg : segments (document "\r\n".toList ls) = ls.map fun l => l ++ ['\r'] := by
    rw [document_crlf]
    exact segments_document _ hn
  have hfit : ∀ seg ∈ segments (document "\r\n".toList ls), fits seg = true := by
    rw [hseg]
    intro seg hseg2
    obtain ⟨x, hx, rfl⟩ := List.mem_map.1 hseg2
    rw [fits_iff, byteLen_cr]
    exact hb x hx
  rw [scanLines_of_fit _ hfit, hseg, List.map_map]
  exact (List.map_congr_left fun l _ => dropCR_cr l).trans (List.map_id _)

/-- The lines that the scanner yields when the last line has no line feed:
with a carriage return at the very end of the document, and without. -/
theorem scanLines_last (ls : List Str) (last : Str) (h : ∀ l ∈ ls, IsLine l) (hl : IsLine last)
    (hne : last ≠ []) (hb : ∀ l ∈ ls, byteLen l + 1 < maxScanTokenSize)
    (hbl : byteLen last + 1 < maxScanTokenSize) :
    scanLines (document "\r\n".toList ls ++ (last ++ "\r".toList)) = ls ++ [last] ∧
      scanLines (document "\n".toList ls ++ last) = ls ++ [last] := by
  have hn : ∀ l ∈ ls.map (fun l => l ++ ['\r']), '\n' ∉ l := by
    intro l hl
    obtain ⟨x, hx, rfl⟩ := List.mem_map.1 hl
    have := (h x hx).1
    simp [this]
  have hl1 : '\n' ∉ last ++ ['\r'] := by
    have := hl.1
    simp [this]
  have m1 : (ls.map fun l => l ++ ['\r']).map dropCR = ls := by
    rw [List.map_map]
    exact (List.map_congr_left fun l _ => dropCR_cr l).trans (List.map_id _)
  have m2 : ls.map dropCR = ls :=
    (List.map_congr_left fun l hl => dropCR_line l (h l hl).2).trans (List.map_id _)
  constructor
  · have hseg : segments (document "\r\n".toList ls ++ (last ++ "\r".toList))
        = (ls.map fun l => l ++ ['\r']) ++ [last ++ ['\r']] := by
      rw [document_crlf]
      exact segments_last _ _ hn hl1 (by simp)
    have hfit : ∀ seg ∈ segments (document "\r\n".toList ls ++ (last ++ "\r".toList)),
        fits seg = true := by
      rw [hseg]
      intro seg hseg2
      rcases List.mem_append.1 hseg2 with e | e
      · obtain ⟨x, hx, rfl⟩ := List.mem_map.1 e
        rw [fits_iff, byteLen_cr]
        exact hb x hx
      · rw [List.mem_singleton] at e
        rw [e, fits_iff, byteLen_cr]
        exact hbl
    rw [scanLines_of_fit _ hfit, hseg, List.map_append, m1, List.map_cons, List.map_nil,
      dropCR_cr]
  · have hseg : segments (document "\n".toList ls ++ last) = ls ++ [last] :=
      segments_last ls last (fun l hl => (h l hl).1) hl.1 hne
    have hfit : ∀ seg ∈ segments (document "\n".toList ls ++ last), fits seg = true := by
      rw [hseg]
      intro seg hseg2
      rcases List.mem_append.1 hseg2 with e | e
      · rw [fits_iff]
        have := hb seg e
        omega
      · rw [List.mem_singleton] at e
        rw [e, fits_iff]
        omega
    rw [scanLines_of_fit _ hfit, hseg, List.map_append, m2, List.map_cons, List.map_nil,
      dropCR_line last hl.2]

/-- What `processItinerary` of `taskWObon/main.go` leaves at the output path
and returns is a matter of the lines of the input document alone. -/
theorem processItinerary_lines (T : Table) (fs : FS) (inputPath outputPath doc1 doc2 : Str)
    (hne : inputPath ≠ outputPath) (hout : outputPath ∉ fs.denied)
    (hs : scanLines doc1 = scanLines doc2) :
    (TaskWObon.processItinerary T (fs.write inputPath doc1) inputPath outputPath).1.read
        outputPath
      = (TaskWObon.processItinerary T (fs.write inputPath doc2) inputPath outputPath).1.read
        outputPath ∧
    (TaskWObon.processItinerary T (fs.write inputPath doc1) inputPath outputPath).2
      = (TaskWObon.processItinerary T (fs.write inputPath doc2) inputPath outputPath).2 := by
  obtain ⟨⟨o, ho, -⟩, -⟩ := outputLoop_some T (scanLines doc2)
  have ho1 : TaskWObon.outputLoop T (scanLines doc1) = some o := by rw [hs]; exact ho
  rw [processItinerary_run T (fs.write inputPath doc1) inputPath outputPath doc1 o
      (read_write _ _ _) hne hout ho1,
    processItinerary_run T (fs.write inputPath doc2) inputPath outputPath doc2 o
      (read_write _ _ _) hne hout ho]
  exact ⟨by rw [read_write, read_write], rfl⟩

/-- The text that `processItinerary` of `taskWObon/main.go` writes when the
scanner yields a line: it ends with two line feeds. -/
theorem processItinerary_written (T : Table) (fs : FS) (inputPath outputPath doc : Str)
    (hin : fs.read inputPath = some doc) (hne : inputPath ≠ outputPath)
    (hout : outputPath ∉ fs.denied) (hdoc : scanLines doc ≠ []) :
    ∃ w, (TaskWObon.processItinerary T fs inputPath outputPath).1.read outputPath
      = some (w ++ "\n\n".toList) := by
  obtain ⟨⟨o1, h1, g1⟩, -⟩ := outputLoop_some T (scanLines doc)
  rw [processItinerary_run T fs inputPath outputPath doc o1 hin hne hout h1]
  have hl : (o1.map toNewline).getLast? = some '\n' := by
    rw [List.getLast?_map, g1 hdoc]; rfl
  have := collapse_last 0 _ (by omega) hl
  rw [List.replicate_zero, List.nil_append] at this
  obtain ⟨w, hw⟩ := getLast_split _ _ this
  refine ⟨w, ?_⟩
  rw [read_write, trimLines_eq, normalizeRef, hw]
  simp

theorem isLine_replicate (n : Nat) : IsLine (List.replicate n 'a') := by
  constructor
  · intro h
    exact absurd (List.eq_of_mem_replicate h) (by decide)
  · intro h
    exact absurd (List.eq_of_mem_replicate (List.mem_of_getLast?_eq_some h)) (by decide)

/-- A line of one byte less than the buffer of the scanner: followed by
carriage return and line feed it is not yielded, and `processItinerary` of
`taskWObon/main.go` writes one line feed; followed by a line feed alone it is
yielded, and another text is written. -/
theorem overflow_written (T : Table) (fs : FS) (inputPath outputPath w : Str)
    (hne : inputPath ≠ outputPath) (hout : outputPath ∉ fs.denied) (hw : IsLine w)
    (hb : byteLen w + 1 = maxScanTokenSize) :
    (TaskWObon.processItinerary T (fs.write inputPath (document "\r\n".toList [w]))
        inputPath outputPath).1.read outputPath = some "\n".toList ∧
    (TaskWObon.processItinerary T (fs.write inputPath (document "\n".toList [w]))
        inputPath outputPath).1.read outputPath ≠ some "\n".toList := by
  have hlines : ∀ l ∈ [w], IsLine l := by
    intro l hl
    rw [List.mem_singleton] at hl
    rw [hl]; exact hw
  constructor
  · have hn : ∀ l ∈ [w].map (fun l => l ++ ['\r']), '\n' ∉ l := by
      intro l hl
      obtain ⟨x, hx, rfl⟩ := List.mem_map.1 hl
      have := (hlines x hx).1
      simp [this]
    have hseg : segments (document "\r\n".toList [w]) = [w ++ ['\r']] := by
      rw [document_crlf]
      exact segments_document _ hn
    have hfit : fits (w ++ ['\r']) = false := by
      unfold fits
      rw [byteLen_cr, hb]
      exact decide_eq_false (Nat.lt_irrefl _)
    have hscan : scanLines (document "\r\n".toList [w]) = [] := by
      unfold scanLines
      rw [hseg, List.takeWhile_cons, hfit]
      rfl
    have ho : TaskWObon.outputLoop T (scanLines (document "\r\n".toList [w])) = some [] := by
      rw [hscan]; rfl
    rw [processItinerary_run T _ inputPath outputPath _ [] (read_write _ _ _) hne hout ho,
      read_write]
    rfl
  · have hscan : scanLines (document "\n".toList [w]) = [w] :=
      scanLines_lf _ hlines (by
        intro l hl
        rw [List.mem_singleton] at hl
        rw [hl]
        omega)
    obtain ⟨v, hv⟩ := processItinerary_written T (fs.write inputPath (document "\n".toList [w]))
      inputPath outputPath _ (read_write _ _ _) hne hout
      (by rw [hscan]; exact List.cons_ne_nil _ _)
    rw [hv]
    intro e
    have := congrArg (fun o : Option Str => (o.getD []).length) e
    simp at this

/-- C38 fails as stated: the line of 65535 letters `a` holds no line feed and
does not end in a carriage return; followed by carriage return and line feed
it does not fit the buffer of the scanner (65536 bytes before the line feed),
the scanner yields nothing and `processItinerary` of `taskWObon/main.go`
writes one line feed; followed by a line feed alone it is yielded and
written, so the text written is another one. -/
theorem C38_counterexample :
    IsLine (List.replicate 65535 'a') ∧
    (TaskWObon.processItinerary []
        (FS.write { files := [], denied := [] } "in".toList
          (document "\r\n".toList [List.replicate 65535 'a']))
        "in".toList "out".toList).1.read "out".toList = some "\n".toList ∧
    (TaskWObon.processItinerary []
        (FS.write { files := [], denied := [] } "in".toList
          (document "\n".toList [List.replicate 65535 'a']))
        "in".toList "out".toList).1.read "out".toList ≠ some "\n".toList :=
  ⟨isLine_replicate 65535,
    overflow_written [] { files := [], denied := [] } "in".toList "out".toList
      (List.replicate 65535 'a') (by decide) (List.not_mem_nil _) (isLine_replicate 65535)
      (by rw [byteLen_replicate]; rfl)⟩

/-- C38, amended: for every table and every list of lines that hold no line
feed, do not end in a carriage return and have fewer than 65535 bytes,
`processItinerary` of `taskWObon/main.go` leaves the same text at the output
path, and returns the same, for the document in which every line is followed
by carriage return and line feed as for the document in which every line is
followed by a line feed; the same holds when a last line that is not empty is
followed by a carriage return alone at the very end of the document, against
that line followed by nothing. -/
theorem C38_crlf_document_is_written_like_lf (T : Table) (fs : FS)
    (inputPath outputPath : Str) (lines : List Str) (hne : inputPath ≠ outputPath)
    (hout : outputPath ∉ fs.denied) (hl : ∀ l ∈ lines, IsLine l)
    (hb : ∀ l ∈ lines, byteLen l + 1 < maxScanTokenSize) :
    ((TaskWObon.processItinerary T (fs.write inputPath (document "\r\n".toList lines))
          inputPath outputPath).1.read outputPath
        = (TaskWObon.processItinerary T (fs.write inputPath (document "\n".toList lines))
          inputPath outputPath).1.read outputPath ∧
      (TaskWObon.processItinerary T (fs.write inputPath (document "\r\n".toList lines))
          inputPath outputPath).2
        = (TaskWObon.processItinerary T (fs.write inputPath (document "\n".toList lines))
          inputPath outputPath).2) ∧
    ∀ last : Str, IsLine last → last ≠ [] → byteLen last + 1 < maxScanTokenSize →
      (TaskWObon.processItinerary T
          (fs.write inputPath (document "\r\n".toList lines ++ (last ++ "\r".toList)))
          inputPath outputPath).1.read outputPath
        = (TaskWObon.processItinerary T
          (fs.write inputPath (document "\n".toList lines ++ last))
          inputPath outputPath).1.read outputPath ∧
      (TaskWObon.processItinerary T
          (fs.write inputPath (document "\r\n".toList lines ++ (last ++ "\r".toList)))
          inputPath outputPath).2
        = (TaskWObon.processItinerary T
          (fs.write inputPath (document "\n".toList lines ++ last))
          inputPath outputPath).2 := by
  refine ⟨processItinerary_lines T fs inputPath outputPath _ _ hne hout
    ((scanLines_crlf lines hl hb).trans
      (scanLines_lf lines hl fun l h => by have := hb l h; omega).symm),
    fun last h1 h2 h3 => ?_⟩
  obtain ⟨e1, e2⟩ := scanLines_last lines last hl h1 h2 hb h3
  exact processItinerary_lines T fs inputPath outputPath _ _ hne hout (e1.trans e2.symm)

/-- C38, amended, at the lines `a #HIR` and `b` with the table of the test
suite. -/
theorem C38_crlf_document_is_written_like_lf_witness :
    ((TaskWObon.processItinerary basicTable
          (FS.write { files := [], denied := [] } "in".toList "a #HIR\r\nb\r\n".toList)
          "in".toList "out".toList).1.read "out".toList
        = (TaskWObon.processItinerary basicTable
          (FS.write { files := [], denied := [] } "in".toList "a #HIR\nb\n".toList)
          "in".toList "out".toList).1.read "out".toList ∧
      (TaskWObon.processItinerary basicTable
          (FS.write { files := [], denied := [] } "in".toList "a #HIR\r\nb\r\n".toList)
          "in".toList "out".toList).2
        = (TaskWObon.processItinerary basicTable
          (FS.write { files := [], denied := [] } "in".toList "a #HIR\nb\n".toList)
          "in".toList "out".toList).2) :=
  (C38_crlf_document_is_written_like_lf basicTable { files := [], denied := [] } "in".toList
    "out".toList ["a #HIR".toList, "b".toList] (by decide) (by decide) (by decide)
    (by decide)).1

/-! ## The output when the run fails early -/

theorem processItinerary_no_input (T : Table) (fs : FS) (inputPath outputPath : Str)
    (h : fs.read inputPath = none) :
    TaskWObon.processItinerary T fs inputPath outputPath
      = (fs, .error "Input not found".toList) := by
  unfold TaskWObon.processItinerary
  rw [h]

theorem bonus_processItinerary_no_input (b : Bool) (T : Table) (fs : FS)
    (inputPath outputPath : Str) (h : fs.read inputPath = none) :
    WithBonuses.processItinerary b T fs inputPath outputPath
      = (fs, .error "\x1b[31mInput not found\x1b[0m".toList) := by
  unfold WithBonuses.processItinerary
  rw [h]

/-- C32: when the loader does not return a table (the lookup file cannot be
opened, or a row makes it return an error or panic) or the input document
cannot be opened, the run of `main` ends with the files exactly as they were
before the run, the output path included, and not with the message of success:
in `taskWObon/main.go` for every `os.Args`, and in `itineraryWithBonuses.go`
for every result of `flag.Parse()` and every choice of columns. -/
theorem C32_early_failure_leaves_the_files_untouched (fs : FS) :
    (∀ osArgs : List Str,
      (∀ T, TaskWObon.loadAirportLookup (fs.read (osArgs.getD 3 [])) ≠ .ok T)
        ∨ fs.read (osArgs.getD 1 []) = none →
      (TaskWObon.main osArgs fs).1 = fs ∧ (TaskWObon.main osArgs fs).2 ≠ .success) ∧
    (∀ (nArgs : Nat) (helpFlag bonusFlag : Bool) (args : List Str)
        (entered : WithBonuses.Columns),
      (∀ T, WithBonuses.loadAirportLookup bonusFlag entered (fs.read (args.getD 2 [])) ≠ .ok T)
        ∨ fs.read (args.getD 0 []) = none →
      (WithBonuses.main nArgs helpFlag bonusFlag args entered fs).1 = fs
        ∧ (WithBonuses.main nArgs helpFlag bonusFlag args entered fs).2 ≠ .success) := by
  constructor
  · intro osArgs h
    unfold TaskWObon.main
    split
    · exact ⟨rfl, by simp⟩
    · dsimp only
      cases hl : TaskWObon.loadAirportLookup (fs.read (osArgs.getD 3 [])) with
      | error e => exact ⟨rfl, by simp⟩
      | panic => exact ⟨rfl, by simp⟩
      | ok T =>
        rcases h with h | h
        · exact absurd hl (h T)
        · dsimp only
          rw [processItinerary_no_input T fs _ _ h]
          exact ⟨rfl, by simp⟩
  · intro nArgs helpFlag bonusFlag args entered h
    unfold WithBonuses.main
    split
    · exact ⟨rfl, by simp⟩
    split
    · exact ⟨rfl, by simp⟩
    split
    · exact ⟨rfl, by simp⟩
    split
    · exact ⟨rfl, by simp⟩
    cases args with
    | nil => exact ⟨rfl, by simp [index]⟩
    | cons a args =>
      cases args with
      | nil => exact ⟨rfl, by simp [index]⟩
      | cons b args =>
        cases args with
        | nil => exact ⟨rfl, by simp [index]⟩
        | cons c args =>
          have i0 : index (a :: b :: c :: args) 0 = some a := by
            have : (0 : Int) ≤ 0 ∧ (0 : Int) < ((a :: b :: c :: args).length : Int) := by
              simp only [List.length_cons]; omega
            rw [index, if_pos this]; rfl
          have i1 : index (a :: b :: c :: args) 1 = some b := by
            have : (0 : Int) ≤ 1 ∧ (1 : Int) < ((a :: b :: c :: args).length : Int) := by
              simp only [List.length_cons]; omega
            rw [index, if_pos this]; rfl
          have i2 : index (a :: b :: c :: args) 2 = some c := by
            have : (0 : Int) ≤ 2 ∧ (2 : Int) < ((a :: b :: c :: args).length : Int) := by
              simp only [List.length_cons]; omega
            rw [index, if_pos this]; rfl
          rw [i0, i1, i2]
          dsimp only
          have h' : (∀ T, WithBonuses.loadAirportLookup bonusFlag entered (fs.read c) ≠ .ok T)
              ∨ fs.read a = none := h
          cases hl : WithBonuses.loadAirportLookup bonusFlag entered (fs.read c) with
          | error e => exact ⟨rfl, by simp⟩
          | panic => exact ⟨rfl, by simp⟩
          | ok T =>
            rcases h' with h | h
            · exact absurd hl (h T)
            · dsimp only
              rw [bonus_processItinerary_no_input bonusFlag T fs _ _ h]
              exact ⟨rfl, by simp⟩

/-- C32, at the three cases of `TestOutputIsNotCreatedOnError`, with an
output file that exists before the run: a lookup file that does not exist, a
lookup with an empty field, and an input file that does not exist. -/
theorem C32_early_failure_leaves_the_files_untouched_witness :
    TaskWObon.main ["itinerary".toList, "in".toList, "out".toList, "lookup".toList]
        { files := [("in".toList, "#HIR".toList), ("out".toList, "old".toList)], denied := [] }
      = ({ files := [("in".toList, "#HIR".toList), ("out".toList, "old".toList)], denied := [] },
          .loadError "Lookup not found".toList) ∧
    ((TaskWObon.main ["itinerary".toList, "in".toList, "out".toList, "lookup".toList]
        { files := [("in".toList, "#HIR".toList), ("out".toList, "old".toList),
            ("lookup".toList, "a,b,,d,e,f".toList)], denied := [] }).1
      = { files := [("in".toList, "#HIR".toList), ("out".toList, "old".toList),
            ("lookup".toList, "a,b,,d,e,f".toList)], denied := [] } ∧
      (TaskWObon.main ["itinerary".toList, "in".toList, "out".toList, "lookup".toList]
        { files := [("in".toList, "#HIR".toList), ("out".toList, "old".toList),
            ("lookup".toList, "a,b,,d,e,f".toList)], denied := [] }).2 ≠ .success) ∧
    ((WithBonuses.main 4 false false ["in".toList, "out".toList, "lookup".toList] {}
        { files := [("out".toList, "old".toList),
            ("lookup".toList, "a,b,c,d,e,f".toList)], denied := [] }).1
      = { files := [("out".toList, "old".toList),
            ("lookup".toList, "a,b,c,d,e,f".toList)], denied := [] } ∧
      (WithBonuses.main 4 false false ["in".toList, "out".toList, "lookup".toList] {}
        { files := [("out".toList, "old".toList),
            ("lookup".toList, "a,b,c,d,e,f".toList)], denied := [] }).2 ≠ .success) :=
  ⟨by decide,
   (C32_early_failure_leaves_the_files_untouched
      { files := [("in".toList, "#HIR".toList), ("out".toList, "old".toList),
          ("lookup".toList, "a,b,,d,e,f".toList)], denied := [] }).1
      ["itinerary".toList, "in".toList, "out".toList, "lookup".toList]
      (Or.inl fun T h => Outcome.noConfusion
        ((by decide : TaskWObon.loadAirportLookup (some "a,b,,d,e,f".toList)
          = .error "Malformed airport lookup data".toList).symm.trans h)),
   (C32_early_failure_leaves_the_files_untouched
      { files := [("out".toList, "old".toList),
          ("lookup".toList, "a,b,c,d,e,f".toList)], denied := [] }).2
      4 false false ["in".toList, "out".toList, "lookup".toList] {}
      (Or.inr (by decide))⟩

/-! ## The normalisation changes whitespace only -/

theorem dw_blank (c : Char) (t : Str) (h : blank c = true) :
    deleteWhitespace (c :: t) = deleteWhitespace t := by
  simp [deleteWhitespace, List.filter, h]

theorem dw_other (c : Char) (t : Str) (h : blank c = false) :
    deleteWhitespace (c :: t) = c :: deleteWhitespace t := by
  simp [deleteWhitespace, List.filter, h]

theorem dw_append (a b : Str) :
    deleteWhitespace (a ++ b) = deleteWhitespace a ++ deleteWhitespace b := by
  simp [deleteWhitespace]

theorem dw_all_blank (a : Str) (h : ∀ c ∈ a, blank c = true) : deleteWhitespace a = [] := by
  induction a with
  | nil => rfl
  | cons c a ih =>
    rw [dw_blank c a (h c (List.mem_cons_self _ _)), ih fun x hx => h x (List.mem_cons_of_mem _ hx)]

theorem blank_of_whitespace (c : Char) (h : whitespace c = true) : blank c = true := by
  simp only [whitespace, Bool.or_eq_true, beq_iff_eq] at h
  rcases h with (((h | h) | h) | h) | h <;> subst h <;> decide

theorem blank_toNewline (c : Char) : blank (toNewline c) = blank c := by
  unfold toNewline
  split
  · rename_i h
    rcases h with h | h | h <;> subst h <;> decide
  · rfl

theorem toNewline_of_not_blank (c : Char) (h : blank c = false) : toNewline c = c := by
  unfold toNewline
  split
  · rename_i h2
    rcases h2 with h2 | h2 | h2 <;> subst h2 <;> exact absurd h (by decide)
  · rfl

theorem dw_map_toNewline (s : Str) : deleteWhitespace (s.map toNewline) = deleteWhitespace s := by
  induction s with
  | nil => rfl
  | cons c t ih =>
    rw [List.map_cons]
    cases hb : blank c
    · rw [toNewline_of_not_blank c hb, dw_other c _ hb, dw_other c _ hb, ih]
    · rw [dw_blank _ _ ((blank_toNewline c).trans hb), dw_blank c _ hb, ih]

theorem dw_collapse (n : Nat) (s : Str) : deleteWhitespace (collapseAux n s) = deleteWhitespace s := by
  induction s generalizing n with
  | nil => rfl
  | cons c t ih =>
    by_cases hc : c = '\n'
    · subst hc
      by_cases hn : n < 2
      · rw [collapse_nl_lt n t hn, dw_blank _ _ (by decide), dw_blank _ _ (by decide), ih]
      · rw [collapse_nl_ge n t hn, dw_blank _ _ (by decide), ih]
    · rw [collapse_other n c t hc]
      cases hb : blank c
      · rw [dw_other c _ hb, dw_other c _ hb, ih]
      · rw [dw_blank c _ hb, dw_blank c _ hb, ih]

theorem dw_squeeze (b : Bool) (s : Str) : deleteWhitespace (squeeze b s) = deleteWhitespace s := by
  induction s generalizing b with
  | nil => rfl
  | cons c t ih =>
    by_cases hx : (b && whitespace c) = true
    · rw [squeeze_skip b c t hx]
      have hw : whitespace c = true := by
        simp only [Bool.and_eq_true] at hx
        exact hx.2
      rw [dw_blank c t (blank_of_whitespace c hw), ih]
    · rw [squeeze_keep b c t hx]
      cases hb : blank c
      · rw [dw_other c _ hb, dw_other c _ hb, ih]
      · rw [dw_blank c _ hb, dw_blank c _ hb, ih]

theorem dw_replaceAllAux (old new : Str) (ho : ∀ c ∈ old, blank c = true)
    (hn : ∀ c ∈ new, blank c = true) (hne : old ≠ []) (k : Nat) (u : Str)
    (hk : ∀ c ∈ u.take k, blank c = true) :
    deleteWhitespace (replaceAllAux old new k u) = deleteWhitespace u := by
  induction u generalizing k with
  | nil => cases k <;> rfl
  | cons x t ih =>
    cases k with
    | succ k =>
      rw [replaceAllAux, dw_blank x t (hk x (by simp))]
      exact ih k fun c hc => hk c (by simp [hc])
    | zero =>
      rw [replaceAllAux]
      by_cases hp : old.isPrefixOf (x :: t) = true
      · rw [if_pos hp, dw_append, dw_all_blank new hn, List.nil_append]
        rw [List.isPrefixOf_iff_prefix] at hp
        cases old with
        | nil => exact absurd rfl hne
        | cons o old' =>
          obtain ⟨r, hr⟩ := hp
          rw [List.cons_append, List.cons.injEq] at hr
          obtain ⟨rfl, rfl⟩ := hr
          rw [dw_blank o _ (ho o (List.mem_cons_self _ _))]
          refine ih _ fun c hc => ho c (List.mem_cons_of_mem _ ?_)
          simpa using hc
      · rw [if_neg hp]
        cases hb : blank x
        · rw [dw_other x _ hb, dw_other x _ hb, ih 0 (by simp)]
        · rw [dw_blank x _ hb, dw_blank x _ hb, ih 0 (by simp)]

/-- C34: for every text `x`, deleting every space, tab, line feed, vertical
tab, form feed and carriage return from `trimLines(x)` gives the same text as
deleting them from `x`, for `trimLines` of `taskWObon/main.go` and for
`trimLines` of `itineraryWithBonuses.go`. -/
theorem C34_trimLines_changes_whitespace_only (x : Str) :
    deleteWhitespace (TaskWObon.trimLines x) = deleteWhitespace x ∧
      deleteWhitespace (WithBonuses.trimLines x) = deleteWhitespace x := by
  constructor
  · rw [trimLines_eq, normalizeRef, dw_collapse, dw_map_toNewline]
  · rw [bonus_trimLines_eq, dw_collapse, dw_squeeze]
    unfold replaceAll
    rw [dw_replaceAllAux " \n".toList "\n".toList (by decide) (by decide) (by decide) 0 _
      (by simp), dw_map_toNewline]

/-! ## Coloured texts -/

theorem render_cons (p : Piece) (ps : List Piece) : render (p :: ps) = p.str ++ render ps := by
  simp [render]

theorem plainText_cons (p : Piece) (ps : List Piece) :
    plainText (p :: ps) = p.plain ++ plainText ps := by
  simp [plainText]

theorem render_append (ps qs : List Piece) : render (ps ++ qs) = render ps ++ render qs := by
  simp [render]

theorem plainText_append (ps qs : List Piece) :
    plainText (ps ++ qs) = plainText ps ++ plainText qs := by
  simp [plainText]

/-- Every escape sequence of `trimColor` is the escape character followed by
text without it. -/
theorem code_shape (c : Str) (h : c ∈ colourCodes) :
    ∃ body, c = '\x1b' :: body ∧ '\x1b' ∉ body ∧ 4 ≤ c.length := by
  have key : ∀ c ∈ colourCodes, c.head? = some '\x1b' ∧ '\x1b' ∉ c.tail ∧ 4 ≤ c.length := by
    decide
  obtain ⟨h1, h2, h3⟩ := key c h
  cases c with
  | nil => simp at h1
  | cons x body =>
    simp only [List.head?_cons, Option.some.injEq] at h1
    subst h1
    exact ⟨body, rfl, h2, h3⟩

set_option maxRecDepth 100000 in
theorem code_take (c j : Str) (hc : c ∈ colourCodes) (hj : j ∈ colourCodes) (hne : c ≠ j) :
    c.take 4 ≠ j.take 4 := by
  have key : ∀ c ∈ colourCodes, ∀ j ∈ colourCodes, c ≠ j → c.take 4 ≠ j.take 4 := by
    decide
  exact key c hc j hj hne

/-- No escape sequence of `trimColor` begins a text that begins with another
one. -/
theorem code_not_leading (c j rest : Str) (hc : c ∈ colourCodes) (hj : j ∈ colourCodes)
    (hne : c ≠ j) : c.isPrefixOf (j ++ rest) = false := by
  cases h : c.isPrefixOf (j ++ rest)
  · rfl
  · exfalso
    rw [List.isPrefixOf_iff_prefix] at h
    obtain ⟨r, hr⟩ := h
    obtain ⟨-, -, -, lc⟩ := code_shape c hc
    obtain ⟨-, -, -, lj⟩ := code_shape j hj
    have e := congrArg (List.take 4) hr
    rw [List.take_append_of_le_length lc, List.take_append_of_le_length lj] at e
    exact code_take c j hc hj hne e

/-- One pass of `trimColor` over a coloured text drops the pieces that are
its escape sequence and nothing else. -/
theorem removeAll_render (c : Str) (hc : c ∈ colourCodes) (ps : List Piece)
    (hok : ∀ p ∈ ps, p.ok) :
    removeAll c (render ps) = render (ps.filter fun p => decide (p ≠ .code c)) := by
  obtain ⟨body, rfl, hb, -⟩ := code_shape c hc
  unfold removeAll
  induction ps with
  | nil => rfl
  | cons p ps ih =>
    have ih := ih fun q hq => hok q (List.mem_cons_of_mem _ hq)
    have hp := hok p (List.mem_cons_self _ _)
    cases p with
    | text s =>
      have hs : '\x1b' ∉ s := hp
      have hk : decide (Piece.text s ≠ Piece.code ('\x1b' :: body)) = true := by simp
      rw [List.filter_cons_of_pos (p := fun q => decide (q ≠ Piece.code ('\x1b' :: body))) hk,
        render_cons, render_cons]
      show removeAllAux _ 0 (s ++ render ps) = s ++ _
      rw [removeAll_copy '\x1b' body s _ hs, ih]
    | code j =>
      have hj : j ∈ colourCodes := hp
      by_cases e : j = '\x1b' :: body
      · subst e
        have hk : ¬ decide (Piece.code ('\x1b' :: body) ≠ Piece.code ('\x1b' :: body)) = true := by
          simp
        rw [List.filter_cons_of_neg (p := fun q => decide (q ≠ Piece.code ('\x1b' :: body))) hk,
          render_cons]
        show removeAllAux _ 0 ('\x1b' :: body ++ render ps) = _
        rw [removeAll_drop, ih]
      · obtain ⟨jb, rfl, hjb, -⟩ := code_shape j hj
        have hk : decide (Piece.code ('\x1b' :: jb) ≠ Piece.code ('\x1b' :: body)) = true := by
          simpa using e
        rw [List.filter_cons_of_pos (p := fun q => decide (q ≠ Piece.code ('\x1b' :: body))) hk,
          render_cons, render_cons]
        show removeAllAux _ 0 ('\x1b' :: jb ++ render ps) = ('\x1b' :: jb) ++ _
        rw [removeAll_other '\x1b' body jb _ hjb
          (code_not_leading _ _ _ hc hj (fun x => e x.symm)), ih]

theorem filter_ok (ps : List Piece) (f : Piece → Bool) (hok : ∀ p ∈ ps, p.ok) :
    ∀ p ∈ ps.filter f, p.ok := fun p hp => hok p (List.mem_of_mem_filter hp)

/-- The passes for a list of escape sequences drop the pieces that are one of
them. -/
theorem passes_render (cs : List Str) (hcs : ∀ c ∈ cs, c ∈ colourCodes) (ps : List Piece)
    (hok : ∀ p ∈ ps, p.ok) :
    cs.foldl (fun text c => removeAll c text) (render ps)
      = render (ps.filter fun p => decide (∀ c ∈ cs, p ≠ .code c)) := by
  induction cs generalizing ps with
  | nil => simp
  | cons c cs ih =>
    rw [List.foldl_cons, removeAll_render c (hcs c (List.mem_cons_self _ _)) ps hok,
      ih (fun x hx => hcs x (List.mem_cons_of_mem _ hx)) _ (filter_ok ps _ hok),
      List.filter_filter]
    congr 1
    apply List.filter_congr
    intro p _
    simp only [List.mem_cons, forall_eq_or_imp, Bool.decide_and, Bool.and_comm]

theorem trimColor_passes (text : Str) :
    WithBonuses.trimColor text = colourCodes.foldl (fun text c => removeAll c text) text := by
  simp only [WithBonuses.trimColor, colourCodes, List.foldl_cons, List.foldl_nil]

/-- The function `trimColor` on a coloured text: the plain text is left. -/
theorem trimColor_render (ps : List Piece) (hok : ∀ p ∈ ps, p.ok) :
    WithBonuses.trimColor (render ps) = plainText ps := by
  rw [trimColor_passes, passes_render colourCodes (fun _ h => h) ps hok]
  -- the pieces that are left are the plain texts
  have key : ∀ qs : List Piece, (∀ p ∈ qs, p.ok) →
      render (qs.filter fun p => decide (∀ c ∈ colourCodes, p ≠ .code c)) = plainText qs := by
    intro qs
    induction qs with
    | nil => intro _; rfl
    | cons p qs ih =>
      intro h
      have ih := ih fun q hq => h q (List.mem_cons_of_mem _ hq)
      have hp := h p (List.mem_cons_self _ _)
      cases p with
      | text s =>
        have hk : decide (∀ c ∈ colourCodes, Piece.text s ≠ Piece.code c) = true := by simp
        rw [List.filter_cons_of_pos (p := fun q => decide (∀ c ∈ colourCodes, q ≠ Piece.code c)) hk,
          render_cons, plainText_cons, ih]
        rfl
      | code j =>
        have hj : j ∈ colourCodes := hp
        have hk : ¬ decide (∀ c ∈ colourCodes, Piece.code j ≠ Piece.code c) = true := by
          simp only [decide_eq_true_eq, not_forall]
          exact ⟨j, hj, fun h => h rfl⟩
        rw [List.filter_cons_of_neg (p := fun q => decide (∀ c ∈ colourCodes, q ≠ Piece.code c)) hk,
          plainText_cons, ih]
        rfl
  exact key ps hok

theorem plainText_free (ps : List Piece) (hok : ∀ p ∈ ps, p.ok) :
    WithBonuses.esc ∉ plainText ps := by
  induction ps with
  | nil => simp [plainText]
  | cons p ps ih =>
    have ih := ih fun q hq => hok q (List.mem_cons_of_mem _ hq)
    have hp := hok p (List.mem_cons_self _ _)
    rw [plainText_cons, List.mem_append]
    rintro (h | h)
    · cases p with
      | text s => exact hp h
      | code j => simp [Piece.plain] at h
    · exact ih h

/-! ## The colour codes that are stripped -/

/-- C39 fails as stated: in the text `ESC[` `ESC[1m` `0m` the pass of
`trimColor` for `ESC[0m` finds nothing, the later pass for `ESC[1m` drops the
inner sequence, and the result is `ESC[0m`, one of the sequences that are
stripped; a second `trimColor` gives the empty text, so `trimColor` is not
idempotent. -/
theorem C39_counterexample :
    WithBonuses.trimColor "\x1b[\x1b[1m0m".toList = "\x1b[0m".toList ∧
      "\x1b[0m".toList ∈ colourCodes ∧
      WithBonuses.trimColor (WithBonuses.trimColor "\x1b[\x1b[1m0m".toList) = [] := by
  decide

/-- C39, amended: for every text made of pieces that are either text without
the escape character or one of the escape sequences that `trimColor` strips,
in any order, `trimColor` returns the text without the escape sequences: the
result holds no escape character, so none of the sequences, and
`trimColor(trimColor(x)) = trimColor(x)`. -/
theorem C39_trimColor_strips_a_coloured_text (ps : List Piece) (hok : ∀ p ∈ ps, p.ok) :
    WithBonuses.trimColor (render ps) = plainText ps ∧
      WithBonuses.esc ∉ WithBonuses.trimColor (render ps) ∧
      (∀ c ∈ colourCodes, ¬ c <:+: WithBonuses.trimColor (render ps)) ∧
      WithBonuses.trimColor (WithBonuses.trimColor (render ps))
        = WithBonuses.trimColor (render ps) := by
  have h1 := trimColor_render ps hok
  have h2 := plainText_free ps hok
  rw [h1]
  refine ⟨rfl, h2, fun c hc hin => ?_, trimColor_free _ h2⟩
  obtain ⟨body, rfl, -, -⟩ := code_shape c hc
  exact h2 (hin.subset (List.mem_cons_self _ _))

/-- C39, amended, at the text that `processLine` of `itineraryWithBonuses.go`
makes of `to #HIR on D(2024-02-01T16:30Z)`. -/
theorem C39_trimColor_strips_a_coloured_text_witness :
    WithBonuses.trimColor
        "to \x1b[36mHoniara International Airport\x1b[0m on \x1b[42m\x1b[1m\x1b[37m01 Feb 2024\x1b[0m\x1b[22m".toList
      = "to Honiara International Airport on 01 Feb 2024".toList :=
  (C39_trimColor_strips_a_coloured_text
    [.text "to ".toList, .code "\x1b[36m".toList, .text "Honiara International Airport".toList,
     .code "\x1b[0m".toList, .text " on ".toList, .code "\x1b[42m".toList,
     .code "\x1b[1m".toList, .code "\x1b[37m".toList, .text "01 Feb 2024".toList,
     .code "\x1b[0m".toList, .code "\x1b[22m".toList] (by decide)).1

/-! ## What `Format` writes holds no escape character -/

theorem dc_esc (k : Nat) : Nat.digitChar (k % 10) ≠ '\x1b' :=
  dc_ne (k % 10) (Nat.mod_lt _ (by decide)) '\x1b' (Or.inl (by decide))

theorem dc_esc_lt (k : Nat) (h : k < 10) : Nat.digitChar k ≠ '\x1b' :=
  dc_ne k h '\x1b' (Or.inl (by decide))

theorem toDigitsCore_free (fuel n : Nat) (ds : List Char) (h : '\x1b' ∉ ds) :
    '\x1b' ∉ Nat.toDigitsCore 10 fuel n ds := by
  induction fuel generalizing n ds with
  | zero => simpa [Nat.toDigitsCore] using h
  | succ fuel ih =>
    have hd : '\x1b' ∉ Nat.digitChar (n % 10) :: ds := by
      intro hc
      rcases List.mem_cons.1 hc with e | e
      · exact dc_esc n e.symm
      · exact h e
    simp only [Nat.toDigitsCore]
    split
    · exact hd
    · exact ih _ _ hd

theorem appendInt_free (x : Int) (width : Nat) : '\x1b' ∉ appendInt x width := by
  have hs : '\x1b' ∉ (if x < 0 then ['-'] else ([] : Str)) := by
    split <;> decide
  unfold appendInt
  dsimp only
  split
  · rename_i h
    intro hc
    rcases List.mem_append.1 hc with e | e
    · exact hs e
    · simp only [List.mem_cons, List.mem_singleton, List.not_mem_nil, or_false] at e
      rcases e with e | e
      · exact dc_esc_lt _ (by omega) e.symm
      · exact dc_esc _ e.symm
  · split
    · rename_i h
      intro hc
      rcases List.mem_append.1 hc with e | e
      · exact hs e
      · simp only [List.mem_cons, List.mem_singleton, List.not_mem_nil, or_false] at e
        rcases e with e | e | e | e
        · exact dc_esc_lt _ (by omega) e.symm
        · exact dc_esc _ e.symm
        · exact dc_esc_lt _ (by omega) e.symm
        · exact dc_esc _ e.symm
    · intro hc
      rcases List.mem_append.1 hc with e | e
      · rcases List.mem_append.1 e with e | e
        · exact hs e
        · have := List.eq_of_mem_replicate e
          exact absurd this (by decide)
      · exact toDigitsCore_free _ _ [] (by simp) e

theorem monthName_free (m : Int) : '\x1b' ∉ (longMonthNames m).take 3 := by
  unfold longMonthNames
  split <;> decide

theorem formatStd_free (t : Time) (std : Std) : '\x1b' ∉ formatStd t std := by
  unfold formatStd
  dsimp only
  cases std <;> simp only [formatField, List.not_mem_nil, not_false_eq_true]
  · exact monthName_free _
  · exact appendInt_free _ _
  · exact appendInt_free _ _
  · exact appendInt_free _ _
  · exact appendInt_free _ _
  · exact appendInt_free _ _
  · split <;> decide
  · intro hc
    rcases List.mem_cons.1 hc with e | e
    · revert e
      split <;> decide
    · rcases List.mem_append.1 e with e | e
      · exact appendInt_free _ _ e
      · rcases List.mem_cons.1 e with e | e
        · exact absurd e (by decide)
        · exact appendInt_free _ _ e

/-- The texts that the program formats hold no escape character. -/
theorem format_free (t : Time) :
    '\x1b' ∉ t.format "02 Jan 2006".toList ∧ '\x1b' ∉ t.format "15:04".toList ∧
      '\x1b' ∉ t.format "03:04PM".toList ∧ '\x1b' ∉ t.format "(-07:00)".toList := by
  have f := formatStd_free t
  have e1 := (formatLoop_step t 11 "02 Jan 2006".toList [] .stdZeroDay " Jan 2006".toList
      (by decide)).trans (congrArg (fun x => [] ++ formatStd t .stdZeroDay ++ x)
    ((formatLoop_step t 10 " Jan 2006".toList " ".toList .stdMonth " 2006".toList
      (by decide)).trans (congrArg (fun x => " ".toList ++ formatStd t .stdMonth ++ x)
    ((formatLoop_step t 9 " 2006".toList " ".toList .stdLongYear [] (by decide)).trans
      (congrArg (fun x => " ".toList ++ formatStd t .stdLongYear ++ x)
    (formatLoop_last t 8 [] [] [] (by decide)))))))
  have e2 := (formatLoop_step t 5 "15:04".toList [] .stdHour ":04".toList
      (by decide)).trans (congrArg (fun x => [] ++ formatStd t .stdHour ++ x)
    ((formatLoop_step t 4 ":04".toList ":".toList .stdZeroMinute [] (by decide)).trans
      (congrArg (fun x => ":".toList ++ formatStd t .stdZeroMinute ++ x)
    (formatLoop_last t 3 [] [] [] (by decide)))))
  have e3 := (formatLoop_step t 7 "03:04PM".toList [] .stdZeroHour12 ":04PM".toList
      (by decide)).trans (congrArg (fun x => [] ++ formatStd t .stdZeroHour12 ++ x)
    ((formatLoop_step t 6 ":04PM".toList ":".toList .stdZeroMinute "PM".toList (by decide)).trans
      (congrArg (fun x => ":".toList ++ formatStd t .stdZeroMinute ++ x)
    ((formatLoop_step t 5 "PM".toList [] .stdPM [] (by decide)).trans
      (congrArg (fun x => [] ++ formatStd t .stdPM ++ x)
    (formatLoop_last t 4 [] [] [] (by decide)))))))
  have e4 := (formatLoop_step t 8 "(-07:00)".toList "(".toList .stdNumColonTZ ")".toList
      (by decide)).trans (congrArg (fun x => "(".toList ++ formatStd t .stdNumColonTZ ++ x)
    (formatLoop_last t 7 ")".toList ")".toList [] (by decide)))
  have c1 : '\x1b' ∉ " ".toList := by decide
  have c2 : '\x1b' ∉ ":".toList := by decide
  have c3 : '\x1b' ∉ "(".toList := by decide
  have c4 : '\x1b' ∉ ")".toList := by decide
  refine ⟨?_, ?_, ?_, ?_⟩
  · show '\x1b' ∉ formatLoop t 12 "02 Jan 2006".toList
    rw [e1]
    simp only [List.mem_append, List.not_mem_nil, f, c1, or_self, not_false_eq_true]
  · show '\x1b' ∉ formatLoop t 6 "15:04".toList
    rw [e2]
    simp only [List.mem_append, List.not_mem_nil, f, c2, or_self, not_false_eq_true]
  · show '\x1b' ∉ formatLoop t 8 "03:04PM".toList
    rw [e3]
    simp only [List.mem_append, List.not_mem_nil, f, c2, or_self, not_false_eq_true]
  · show '\x1b' ∉ formatLoop t 9 "(-07:00)".toList
    rw [e4]
    simp only [List.mem_append, List.not_mem_nil, f, c3, c4, or_self, not_false_eq_true]

/-! ## The two callbacks side by side -/

theorem ok_cons (p : Piece) (ps : List Piece) (hp : p.ok) (hps : ∀ q ∈ ps, q.ok) :
    ∀ q ∈ p :: ps, q.ok := by
  intro q hq
  rcases List.mem_cons.1 hq with e | e
  · rw [e]; exact hp
  · exact hps q e

theorem ok_nil : ∀ q ∈ ([] : List Piece), q.ok := fun _ h => absurd h (List.not_mem_nil _)

theorem ok_append (ps qs : List Piece) (h1 : ∀ q ∈ ps, q.ok) (h2 : ∀ q ∈ qs, q.ok) :
    ∀ q ∈ ps ++ qs, q.ok := by
  intro q hq
  rcases List.mem_append.1 hq with e | e
  · exact h1 q e
  · exact h2 q e

/-- A text without escape character is one plain piece. -/
theorem text_piece (m : Str) (hm : '\x1b' ∉ m) :
    ∃ ps : List Piece, (∀ p ∈ ps, p.ok) ∧ m = render ps ∧ m = plainText ps :=
  ⟨[.text m], ok_cons _ _ hm ok_nil, by simp [render, Piece.str], by simp [plainText, Piece.plain]⟩

/-- The date of `itineraryWithBonuses.go` is the date of `taskWObon/main.go`
between colour codes. -/
theorem formatISODate_pieces (m : Str) (hm : '\x1b' ∉ m) :
    ∃ ps : List Piece, (∀ p ∈ ps, p.ok) ∧ WithBonuses.formatISODate m = render ps
      ∧ TaskWObon.formatISODate m = plainText ps := by
  have key : ∀ t : Time, ∃ ps : List Piece, (∀ p ∈ ps, p.ok) ∧
      "\x1b[42m\x1b[1m\x1b[37m".toList ++ t.format "02 Jan 2006".toList
        ++ "\x1b[0m\x1b[22m".toList = render ps
      ∧ t.format "02 Jan 2006".toList = plainText ps := by
    intro t
    refine ⟨[.code "\x1b[42m".toList, .code "\x1b[1m".toList, .code "\x1b[37m".toList,
      .text (t.format "02 Jan 2006".toList), .code "\x1b[0m".toList, .code "\x1b[22m".toList],
      ?_, ?_, ?_⟩
    · exact ok_cons _ _ (by decide) <| ok_cons _ _ (by decide) <| ok_cons _ _ (by decide) <|
        ok_cons _ _ (format_free t).1 <| ok_cons _ _ (by decide) <| ok_cons _ _ (by decide) ok_nil
    · simp [render, Piece.str]
    · simp [plainText, Piece.plain]
  unfold WithBonuses.formatISODate TaskWObon.formatISODate
  cases parse "D(2006-01-02T15:04Z)".toList m with
  | some t => exact key t
  | none =>
    cases parse "D(2006-01-02T15:04-07:00)".toList m with
    | some t => exact key t
    | none => exact text_piece m hm

/-- The time of `itineraryWithBonuses.go` is the time of `taskWObon/main.go`
between colour codes. -/
theorem formatISOTime_pieces (x : Str) (b : Bool) (hx : '\x1b' ∉ x) :
    ∃ ps : List Piece, (∀ p ∈ ps, p.ok) ∧ WithBonuses.formatISOTime x b = render ps
      ∧ TaskWObon.formatISOTime x b = plainText ps := by
  have key : ∀ s : Str, '\x1b' ∉ s → ∃ ps : List Piece, (∀ p ∈ ps, p.ok) ∧
      "\x1b[40m\x1b[32m".toList ++ s ++ "\x1b[0m".toList = render ps ∧ s = plainText ps := by
    intro s hs
    refine ⟨[.code "\x1b[40m".toList, .code "\x1b[32m".toList, .text s, .code "\x1b[0m".toList],
      ?_, ?_, ?_⟩
    · exact ok_cons _ _ (by decide) <| ok_cons _ _ (by decide) <| ok_cons _ _ hs <|
        ok_cons _ _ (by decide) ok_nil
    · simp [render, Piece.str]
    · simp [plainText, Piece.plain]
  unfold WithBonuses.formatISOTime TaskWObon.formatISOTime
  dsimp only
  split
  · exact text_piece x hx
  · cases (if hasSuffix ((split 'T' x).getD 1 []) "Z".toList = true then
        parse "2006-01-02T15:04Z".toList x else parse "2006-01-02T15:04-07:00".toList x) with
    | none => exact text_piece x hx
    | some t =>
      dsimp only
      apply key
      obtain ⟨-, f24, f12, fo⟩ := format_free t
      have h1 : '\x1b' ∉ (if b = true then t.format "03:04PM".toList
          else t.format "15:04".toList) := by
        split
        · exact f12
        · exact f24
      have h2 : '\x1b' ∉ (if hasSuffix ((split 'T' x).getD 1 []) "Z".toList = true then
          "(+00:00)".toList else t.format "(-07:00)".toList) := by
        split
        · decide
        · exact fo
      unfold sprintf2
      intro hc
      rcases List.mem_append.1 hc with e | e
      · exact h1 e
      · rcases List.mem_cons.1 e with e | e
        · exact absurd e (by decide)
        · exact h2 e

theorem slice_mem (m x : Str) (lo hi : Int) (h : slice m lo hi = some x) (c : Char)
    (hc : c ∈ x) : c ∈ m := by
  unfold slice at h
  split at h
  · simp only [Option.some.injEq] at h
    subst h
    exact List.mem_of_mem_take (List.mem_of_mem_drop hc)
  · exact absurd h (by simp)

/-- The callback of `itineraryWithBonuses.go` with the coloured table returns
the text of the callback of `taskWObon/main.go` with the plain table, with
colour codes between its parts. -/
theorem replacer_pieces (Tc Tp : Table) (hT : ∀ k, Tc.get k = (Tp.get k).map (tint k))
    (hv : ∀ k v, Tp.get k = some v → '\x1b' ∉ v) (m : Str) (hm : '\x1b' ∉ m)
    (hlen : hasPrefix m "T12(".toList = true ∨ hasPrefix m "T24(".toList = true → 5 ≤ m.length) :
    ∃ ps : List Piece, (∀ p ∈ ps, p.ok) ∧ WithBonuses.replacer Tc m = some (render ps)
      ∧ TaskWObon.replacer Tp m = some (plainText ps) := by
  have some_text : ∃ ps : List Piece, (∀ p ∈ ps, p.ok) ∧ some m = some (render ps)
      ∧ some m = some (plainText ps) := by
    obtain ⟨ps, h1, h2, h3⟩ := text_piece m hm
    exact ⟨ps, h1, congrArg some h2, congrArg some h3⟩
  have wrapped : ∀ (code v : Str), code ∈ colourCodes → '\x1b' ∉ v →
      ∃ ps : List Piece, (∀ p ∈ ps, p.ok) ∧ some (code ++ v ++ "\x1b[0m".toList) = some (render ps)
        ∧ some v = some (plainText ps) := by
    intro code v hcode hv
    refine ⟨[.code code, .text v, .code "\x1b[0m".toList],
      ok_cons _ _ hcode <| ok_cons _ _ hv <| ok_cons _ _ (by decide) ok_nil, ?_, ?_⟩
    · simp [render, Piece.str]
    · simp [plainText, Piece.plain]
  unfold WithBonuses.replacer TaskWObon.replacer
  split
  · rename_i h1
    have hh : m.head? = some '#' := by
      cases m with
      | nil => simp [hasPrefix, List.isPrefixOf] at h1
      | cons a r =>
        simp only [hasPrefix, Bool.or_eq_true] at h1
        rcases h1 with h1 | h1
        · simp only [String.toList, List.isPrefixOf, Bool.and_eq_true, beq_iff_eq] at h1
          simp [← h1.1]
        · simp only [String.toList, List.isPrefixOf] at h1
          cases r with
          | nil => simp [List.isPrefixOf] at h1
          | cons b r =>
            simp only [List.isPrefixOf, Bool.and_eq_true, beq_iff_eq] at h1
            simp [← h1.1]
    rw [hT m]
    cases hg : Tp.get m with
    | none => exact some_text
    | some v =>
      have e : tint m v = "\x1b[36m".toList ++ v ++ "\x1b[0m".toList := by
        unfold tint
        rw [hh, if_neg (by decide)]
      simp only [Option.map_some', e]
      exact wrapped _ v (by decide) (hv m v hg)
  · split
    · rename_i h1 h2
      have hh : m.head? = some '*' := by
        cases m with
        | nil => simp [hasPrefix, List.isPrefixOf] at h2
        | cons a r =>
          simp only [hasPrefix, Bool.or_eq_true] at h2
          rcases h2 with h2 | h2
          · simp only [String.toList, List.isPrefixOf] at h2
            cases r with
            | nil => simp [List.isPrefixOf] at h2
            | cons b r =>
              simp only [List.isPrefixOf, Bool.and_eq_true, beq_iff_eq] at h2
              simp [← h2.1]
          · simp only [String.toList, List.isPrefixOf] at h2
            cases r with
            | nil => simp [List.isPrefixOf] at h2
            | cons b r =>
              cases r with
              | nil => simp [List.isPrefixOf] at h2
              | cons b2 r =>
                simp only [List.isPrefixOf, Bool.and_eq_true, beq_iff_eq] at h2
                simp [← h2.1]
      rw [hT m]
      cases hg : Tp.get m with
      | none => exact some_text
      | some v =>
        have e : tint m v = "\x1b[34m".toList ++ v ++ "\x1b[0m".toList := by
          unfold tint
          rw [hh, if_pos rfl]
        simp only [Option.map_some', e]
        exact wrapped _ v (by decide) (hv m v hg)
    · split
      · obtain ⟨ps, h1, h2, h3⟩ := formatISODate_pieces m hm
        exact ⟨ps, h1, congrArg some h2, congrArg some h3⟩
      · split
        · rename_i h12
          obtain ⟨x, hx⟩ := slice_some m (hlen (Or.inl h12))
          rw [hx]
          obtain ⟨ps, h1, h2, h3⟩ := formatISOTime_pieces x true
            fun hc => hm (slice_mem m x _ _ hx _ hc)
          exact ⟨ps, h1, congrArg some h2, congrArg some h3⟩
        · split
          · rename_i h24
            obtain ⟨x, hx⟩ := slice_some m (hlen (Or.inr h24))
            rw [hx]
            obtain ⟨ps, h1, h2, h3⟩ := formatISOTime_pieces x false
              fun hc => hm (slice_mem m x _ _ hx _ hc)
            exact ⟨ps, h1, congrArg some h2, congrArg some h3⟩
          · exact some_text

/-- Two scans of a text without escape character, with callbacks of which one
returns the text of the other with colour codes between its parts: the same
holds of the results. -/
theorem replaceAux_pieces (re : Regex) (rb rp : Str → Option Str)
    (h : ∀ s k, '\x1b' ∉ s → matchLen re s = some k →
      ∃ ps : List Piece, (∀ p ∈ ps, p.ok) ∧ rb (s.take k) = some (render ps)
        ∧ rp (s.take k) = some (plainText ps))
    (k : Nat) (s : Str) (hs : '\x1b' ∉ s) :
    ∃ ps : List Piece, (∀ p ∈ ps, p.ok) ∧ replaceAux re rb k s = some (render ps)
      ∧ replaceAux re rp k s = some (plainText ps) := by
  induction s generalizing k with
  | nil => exact ⟨[], ok_nil, replaceAux_nil re rb k, replaceAux_nil re rp k⟩
  | cons c t ih =>
    have ht : '\x1b' ∉ t := fun hc => hs (List.mem_cons_of_mem _ hc)
    have hc : '\x1b' ∉ [c] := by
      intro e
      rw [List.mem_singleton] at e
      exact hs (e ▸ List.mem_cons_self _ _)
    have copy : ∃ ps : List Piece, (∀ p ∈ ps, p.ok) ∧
        (match replaceAux re rb 0 t with
          | some rest => some (c :: rest)
          | none => none) = some (render ps) ∧
        (match replaceAux re rp 0 t with
          | some rest => some (c :: rest)
          | none => none) = some (plainText ps) := by
      obtain ⟨ps, h1, h2, h3⟩ := ih 0 ht
      refine ⟨.text [c] :: ps, ok_cons _ _ hc h1, ?_, ?_⟩
      · rw [h2, render_cons]; rfl
      · rw [h3, plainText_cons]; rfl
    cases k with
    | succ k => exact ih k ht
    | zero =>
      rw [replaceAux, replaceAux]
      cases hm : matchLen re (c :: t) with
      | none => exact copy
      | some n =>
        cases n with
        | zero => exact copy
        | succ n =>
          obtain ⟨ps1, a1, a2, a3⟩ := h (c :: t) (n + 1) hs hm
          obtain ⟨ps2, b1, b2, b3⟩ := ih n ht
          refine ⟨ps1 ++ ps2, ok_append _ _ a1 b1, ?_, ?_⟩
          · simp only [a2, b2, render_append]
          · simp only [a3, b3, plainText_append]

/-! ## The two tables side by side -/

/-- One valid row in `itineraryWithBonuses.go` with the default columns: the
four writes for the fields 0, 2, 4 and 3. -/
theorem bonus_loadRow_default (T : Table) (line : Str) (hv : validRow 6 line = true) :
    WithBonuses.loadRow {} T line = .ok (addRowColour T line) := by
  obtain ⟨hl, hne⟩ := (validRow_iff 6 line).1 hv
  have h1 := firstFields_ok "\x1b[31mMalformed airport lookup data\x1b[0m".toList (split ',' line)
    5 0 (by omega) (by simpa using hne)
  have h2 : ¬ (split ',' line).length ≤ 5 := by omega
  have i0 := index_field line 0 (by omega)
  have i2 := index_field line 2 (by omega)
  have i3 := index_field line 3 (by omega)
  have i4 := index_field line 4 (by omega)
  simp only [Nat.cast_ofNat, Nat.cast_zero] at i0 i2 i3 i4 h1
  simp only [WithBonuses.loadRow, h1, h2, if_false, i0, i2, i3, i4, addRowColour]

theorem bonus_loadRows_default (T : Table) (pre rest : List Str)
    (h : ∀ r ∈ pre, validRow 6 r = true) :
    WithBonuses.loadRows {} T (pre ++ rest)
      = WithBonuses.loadRows {} (pre.foldl addRowColour T) rest := by
  induction pre generalizing T with
  | nil => rfl
  | cons r pre ih =>
    rw [List.cons_append, WithBonuses.loadRows,
      bonus_loadRow_default T r (h r (List.mem_cons_self _ _))]
    exact ih _ fun x hx => h x (List.mem_cons_of_mem _ hx)

theorem tint_star (r v : Str) :
    tint ('*' :: r) v = "\x1b[34m".toList ++ v ++ "\x1b[0m".toList := rfl

theorem tint_hash (r v : Str) :
    tint ('#' :: r) v = "\x1b[36m".toList ++ v ++ "\x1b[0m".toList := rfl

/-- The writes of the two variants for a row keep the tables side by side. -/
theorem tint_insertRow (Tc Tp : Table) (hT : ∀ k, Tc.get k = (Tp.get k).map (tint k))
    (n m i c : Str) (k : Str) :
    (WithBonuses.insertRow Tc n m i c).get k
      = ((TaskWObon.insertRow Tp n m i c).get k).map (tint k) := by
  have s1 : ∀ (A B : Table) (key v : Str), (∀ k, A.get k = (B.get k).map (tint k)) →
      ∀ k, (A.set key (tint key v)).get k = ((B.set key v).get k).map (tint k) := by
    intro A B key v h k
    rw [get_set, get_set]
    split
    · rename_i e
      rw [e]; rfl
    · exact h k
  unfold WithBonuses.insertRow TaskWObon.insertRow
  dsimp only
  by_cases hi : i = [] <;> by_cases hc : c = []
  · simp only [hi, hc, ne_eq, not_true_eq_false, if_false]
    exact hT k
  · simp only [hi, hc, ne_eq, not_true_eq_false, not_false_eq_true, if_false, if_true]
    exact s1 _ _ ('#' :: '#' :: c) n (s1 _ _ ('*' :: '#' :: '#' :: c) m hT) k
  · simp only [hi, hc, ne_eq, not_true_eq_false, not_false_eq_true, if_false, if_true]
    exact s1 _ _ ('#' :: i) n (s1 _ _ ('*' :: '#' :: i) m hT) k
  · simp only [hi, hc, ne_eq, not_false_eq_true, if_true]
    exact s1 _ _ ('#' :: '#' :: c) n (s1 _ _ ('#' :: i) n
      (s1 _ _ ('*' :: '#' :: '#' :: c) m (s1 _ _ ('*' :: '#' :: i) m hT))) k

theorem tint_foldl (rows : List Str) (Tc Tp : Table)
    (hT : ∀ k, Tc.get k = (Tp.get k).map (tint k)) (k : Str) :
    (rows.foldl addRowColour Tc).get k = ((rows.foldl addRow Tp).get k).map (tint k) := by
  induction rows generalizing Tc Tp with
  | nil => exact hT k
  | cons r rows ih =>
    rw [List.foldl_cons, List.foldl_cons]
    exact ih _ _ fun k => tint_insertRow Tc Tp hT _ _ _ _ k

/-- The values of the table are names and municipalities of the rows. -/
theorem free_insertRow (T : Table) (hv : ∀ k v, T.get k = some v → '\x1b' ∉ v)
    (n m i c : Str) (hn : '\x1b' ∉ n) (hm : '\x1b' ∉ m) (k v : Str)
    (h : (TaskWObon.insertRow T n m i c).get k = some v) : '\x1b' ∉ v := by
  have s1 : ∀ (A : Table) (key w : Str), (∀ k v, A.get k = some v → '\x1b' ∉ v) → '\x1b' ∉ w →
      ∀ k v, (A.set key w).get k = some v → '\x1b' ∉ v := by
    intro A key w hA hw k v h
    rw [get_set] at h
    split at h
    · simp only [Option.some.injEq] at h
      rw [← h]; exact hw
    · exact hA k v h
  unfold TaskWObon.insertRow at h
  dsimp only at h
  by_cases hi : i = [] <;> by_cases hc : c = []
  · simp only [hi, hc, ne_eq, not_true_eq_false, if_false] at h
    exact hv k v h
  · simp only [hi, hc, ne_eq, not_true_eq_false, not_false_eq_true, if_false, if_true] at h
    exact s1 _ _ n (s1 _ _ m hv hm) hn k v h
  · simp only [hi, hc, ne_eq, not_true_eq_false, not_false_eq_true, if_false, if_true] at h
    exact s1 _ _ n (s1 _ _ m hv hm) hn k v h
  · simp only [hi, hc, ne_eq, not_false_eq_true, if_true] at h
    exact s1 _ _ n (s1 _ _ n (s1 _ _ m (s1 _ _ m hv hm) hm) hn) hn k v h

theorem mem_split (sep : Char) (s p : Str) (hp : p ∈ split sep s) (c : Char) (hc : c ∈ p) :
    c ∈ s := by
  induction s generalizing p with
  | nil =>
    simp only [split, List.mem_singleton] at hp
    subst hp
    exact hc
  | cons x t ih =>
    rw [split] at hp
    split at hp
    · rcases List.mem_cons.1 hp with e | e
      · subst e; exact absurd hc (List.not_mem_nil _)
      · exact List.mem_cons_of_mem _ (ih p e hc)
    · split at hp
      · simp only [List.mem_singleton] at hp
        subst hp
        rw [List.mem_singleton] at hc
        rw [hc]; exact List.mem_cons_self _ _
      · rename_i h r hs
        rcases List.mem_cons.1 hp with e | e
        · subst e
          rcases List.mem_cons.1 hc with e2 | e2
          · rw [e2]; exact List.mem_cons_self _ _
          · exact List.mem_cons_of_mem _ (ih h (by rw [hs]; exact List.mem_cons_self _ _) e2)
        · exact List.mem_cons_of_mem _ (ih p (by rw [hs]; exact List.mem_cons_of_mem _ e) hc)

theorem field_free (line : Str) (k : Nat) (c : Char) (h : c ∉ line) : c ∉ field line k := by
  intro hc
  unfold field at hc
  by_cases hk : k < (split ',' line).length
  · rw [List.getD_eq_getElem _ _ hk] at hc
    exact h (mem_split ',' line _ (List.getElem_mem _) c hc)
  · rw [List.getD_eq_default _ _ (by omega)] at hc
    exact absurd hc (List.not_mem_nil _)

theorem scanLines_free (text line : Str) (c : Char) (h : c ∉ text) (hl : line ∈ scanLines text) :
    c ∉ line := by
  intro hc
  unfold scanLines at hl
  obtain ⟨seg, hseg, rfl⟩ := List.mem_map.1 hl
  have h1 : seg ∈ split '\n' text := by
    have hseg := (List.takeWhile_prefix fits).subset hseg
    unfold segments at hseg
    dsimp only at hseg
    split at hseg
    · exact List.mem_of_mem_dropLast hseg
    · exact hseg
  have h2 : c ∈ seg := by
    unfold dropCR at hc
    split at hc
    · exact List.mem_of_mem_dropLast hc
    · exact hc
  exact h (mem_split '\n' text seg h1 c h2)

theorem free_foldl (rows : List Str) (T : Table) (hv : ∀ k v, T.get k = some v → '\x1b' ∉ v)
    (hr : ∀ r ∈ rows, '\x1b' ∉ r) (k v : Str) (h : (rows.foldl addRow T).get k = some v) :
    '\x1b' ∉ v := by
  induction rows generalizing T with
  | nil => exact hv k v h
  | cons r rows ih =>
    rw [List.foldl_cons] at h
    have h0 := hr r (List.mem_cons_self _ _)
    exact ih _ (fun k v => free_insertRow T hv _ _ _ _ (field_free r 0 _ h0)
      (field_free r 2 _ h0) k v) (fun x hx => hr x (List.mem_cons_of_mem _ hx)) h

/-! ## The two variants on a line -/

/-- C33 fails as stated: with the bonus mode the column numbers are read from
the terminal, and with the number 1 entered for the first of them the variant
of `itineraryWithBonuses.go` takes the name of an airport from the second
field.  For the lookup row `N,X,M,ABCD,ABC,z` (six fields, no escape
character) and the line `#ABC`, both loaders return a table, `trimColor` of
the line of `itineraryWithBonuses.go` is `X` and the line of
`taskWObon/main.go` is `N`. -/
theorem C33_counterexample :
    WithBonuses.esc ∉ "N,X,M,ABCD,ABC,z\n".toList ∧
    (∀ r ∈ scanLines "N,X,M,ABCD,ABC,z\n".toList, validRow 6 r = true) ∧
    ∃ Tc Tp r,
      WithBonuses.loadAirportLookup true { chuits := 1 } (some "N,X,M,ABCD,ABC,z\n".toList)
        = .ok Tc ∧
      TaskWObon.loadAirportLookup (some "N,X,M,ABCD,ABC,z\n".toList) = .ok Tp ∧
      WithBonuses.processLine true Tc "#ABC".toList = some r ∧
      WithBonuses.trimColor r = "X".toList ∧
      TaskWObon.processLine Tp "#ABC".toList = some "N".toList ∧
      TaskWObon.processLine Tp "#ABC".toList ≠ some (WithBonuses.trimColor r) := by
  refine ⟨by decide, by decide, _, _, _, rfl, rfl, rfl, ?_, ?_, ?_⟩ <;> decide

/-- C33, amended: for every lookup text without escape character whose lines
all fit the buffer of the scanner (fewer than 65536 bytes) and whose rows all
have six fields or more, the first five not empty, and every line without
escape character: with the default column numbers 0, 2, 4, 3,
`loadAirportLookup` of `itineraryWithBonuses.go` and of `taskWObon/main.go`
both return a table, `processLine` of `itineraryWithBonuses.go` with
`bonusFlag` true and its colour-wrapped table returns a text, and `trimColor`
of that text is what `processLine` of `taskWObon/main.go` returns with its
plain table. -/
theorem C33_variants_agree_on_a_line (text line : Str) (hfit : scanErr text = none)
    (hv : ∀ r ∈ scanLines text, validRow 6 r = true) (ht : WithBonuses.esc ∉ text)
    (hl : WithBonuses.esc ∉ line) :
    ∃ Tc Tp r, WithBonuses.loadAirportLookup true {} (some text) = .ok Tc ∧
      TaskWObon.loadAirportLookup (some text) = .ok Tp ∧
      WithBonuses.processLine true Tc line = some r ∧
      TaskWObon.processLine Tp line = some (WithBonuses.trimColor r) := by
  have hT : ∀ k, ((scanLines text).foldl addRowColour []).get k
      = (((scanLines text).foldl addRow []).get k).map (tint k) :=
    fun k => tint_foldl _ [] [] (fun _ => rfl) k
  have hf : ∀ k v, ((scanLines text).foldl addRow []).get k = some v → '\x1b' ∉ v :=
    fun k v => free_foldl _ [] (fun _ _ h => absurd h (by simp [Table.get]))
      (fun r hr => scanLines_free text r _ ht hr) k v
  obtain ⟨ps, h1, h2, h3⟩ := replaceAux_pieces reWithCities
    (WithBonuses.replacer ((scanLines text).foldl addRowColour []))
    (TaskWObon.replacer ((scanLines text).foldl addRow []))
    (fun s k hs hm => replacer_pieces _ _ hT hf (s.take k)
      (fun hc => hs (List.mem_of_mem_take hc))
      (fun hp => by
        have hh : s.head? = some 'T' := by
          rcases hp with hp | hp
          · exact head_of_take s k _ 'T' _ rfl hp
          · exact head_of_take s k _ 'T' _ rfl hp
        obtain ⟨a1, a2⟩ := match_T_length s k hh (Or.inl hm)
        rw [List.length_take]
        omega))
    0 line hl
  refine ⟨(scanLines text).foldl addRowColour [], (scanLines text).foldl addRow [], render ps,
    ?_, ?_, ?_, ?_⟩
  · have := bonus_loadRows_default [] (scanLines text) [] hv
    rw [List.append_nil] at this
    exact bonus_load_of_ok true {} text _ this hfit
  · have := loadRows_valid [] (scanLines text) [] fun r hr => validRow_mono r (hv r hr)
    rw [List.append_nil] at this
    exact load_of_ok text _ this hfit
  · exact h2
  · rw [trimColor_render ps h1]
    exact h3

/-- C33, amended, at the first rows of the lookup of the test suite and the line
`#HIR to *##AGGH on D(2024-02-01T16:30Z) at T12(2024-02-01T16:30-05:00)`. -/
theorem C33_variants_agree_on_a_line_witness :
    ∃ Tc Tp r,
      WithBonuses.loadAirportLookup true {}
        (some "name,iso_country,municipality,icao_code,iata_code,coordinates\nHoniara International Airport,SB,Honiara,AGGH,HIR,\"160.05, -9.42\"\n".toList)
        = .ok Tc ∧
      TaskWObon.loadAirportLookup
        (some "name,iso_country,municipality,icao_code,iata_code,coordinates\nHoniara International Airport,SB,Honiara,AGGH,HIR,\"160.05, -9.42\"\n".toList)
        = .ok Tp ∧
      WithBonuses.processLine true Tc
        "#HIR to *##AGGH on D(2024-02-01T16:30Z) at T12(2024-02-01T16:30-05:00)".toList
        = some r ∧
      TaskWObon.processLine Tp
        "#HIR to *##AGGH on D(2024-02-01T16:30Z) at T12(2024-02-01T16:30-05:00)".toList
        = some (WithBonuses.trimColor r) :=
  C33_variants_agree_on_a_line _ _ (by decide) (by decide) (by decide) (by decide)

end Itinerary
